import Mathlib

/-!
# Tracer state core (`src/TracerState.h`)

A shallow embedding of the bookkeeping engine of the promise tracer: the thunk
registry with its two-flag ownership protocol, call construction and tear-down,
scope assignment, the side-effect attribution walks over the execution-context
stack, and the evaluation-depth walk.

Conventions of the embedding.

* Host handles (`SEXP`) are natural numbers; `R_NilValue` is `0`.  Host queries
  (`FORMALS`, `ENCLOS`, `type_of_sexp`, ...) are the fields of `Host`.  A host
  pairlist is given as the list of its nodes.
* Objects created with `new DenotedValue(get_next_denoted_value_id_(), ...)` are
  addressed by their id: every allocation site passes a fresh id, so ids and
  addresses correspond one to one.  `TracerState.heap` holds the object stored
  at each address and `TracerState.deleted` counts the `delete` statements
  executed on it.  A read through a pointer whose object has been deleted
  yields the fields as last stored.
* A `Call*` is compared through the call id, which `get_next_call_id_` makes
  unique per call object.  An `Argument*` is represented by the record of the
  fields fixed at construction.
* The execution-context stack is a list whose head is the top of the stack, so
  the iteration `rbegin() .. rend()` is the list order.
* Data tables are the lists of the rows written so far.
-/

namespace Tracer

/-! ## Identifiers, host handles, host interface -/

abbrev SEXP := Nat
abbrev sexptype_t := Nat
abbrev env_id_t := Nat
abbrev var_id_t := Nat
abbrev call_id_t := Nat
abbrev denoted_value_id_t := Nat
abbrev function_id_t := Nat
abbrev timestamp_t := Nat

def R_NilValue : SEXP := 0

def CLOSXP : sexptype_t := 3
def PROMSXP : sexptype_t := 5
def SPECIALSXP : sexptype_t := 7
def BUILTINSXP : sexptype_t := 8
def DOTSXP : sexptype_t := 17

/-- Evaluation depth snapshot `eval_depth_t`. -/
structure eval_depth_t where
  call_depth : Int
  promise_depth : Int
  nested_promise_depth : Int
  forcing_actual_argument_position : Int
  deriving DecidableEq, Repr

/-- Host interface used by the tracer state, together with the constants that
headers outside this file define.  `FORMALS op` lists the `TAG` of each node of
the formals pairlist; `DOTS a` lists `(TAG, CAR)` of each node of a `DOTSXP`
pairlist; `ENCLOS_depth e` is the number of `ENCLOS` steps from `e` to
`R_NilValue`; `environment_variables` lists every recognised environment
variable with the text of its value. -/
structure Host where
  type_of_sexp : SEXP → sexptype_t
  dyntrace_get_promise_environment : SEXP → SEXP
  dyntrace_lookup_environment : SEXP → SEXP → SEXP
  FORMALS : SEXP → List SEXP
  DOTS : SEXP → List (SEXP × SEXP)
  ENCLOS : SEXP → SEXP
  ENCLOS_depth : SEXP → Nat
  is_dots_symbol : SEXP → Bool
  function_id : SEXP → function_id_t
  dyntrace_get_c_function_argument_evaluation : SEXP → Int
  get_name : SEXP → String
  symbol_to_string : SEXP → String
  function_is_internal : SEXP → Bool
  function_is_primitive : SEXP → Bool
  environment_variables : List (String × String)
  GIT_COMMIT_INFO : String
  UNDEFINED_TIMESTAMP : timestamp_t
  UNASSIGNED_FUNCTION_ID : function_id_t
  UNASSIGNEDSXP : sexptype_t
  ESCAPED_PROMISE_EVAL_DEPTH : eval_depth_t

/-! ## Arguments, thunks, calls, functions -/

/-- Argument record: the fields `process_closure_argument_` passes to
`new Argument(...)` and the thunk it is linked to. -/
structure Argument where
  call_id : call_id_t
  formal_parameter_position : Int
  actual_argument_position : Int
  default_argument : Bool
  dot_dot_dot : Bool
  denoted_value : denoted_value_id_t
  deriving DecidableEq, Repr

inductive ScopeKind where
  | self
  | lexical
  | non_lexical
  deriving DecidableEq, Repr

/-- One block of scope counters, split direct / indirect and
self / lexical / non-lexical. -/
structure ScopeCounts where
  direct_self : Nat
  indirect_self : Nat
  direct_lexical : Nat
  indirect_lexical : Nat
  direct_non_lexical : Nat
  indirect_non_lexical : Nat
  deriving DecidableEq, Repr

def ScopeCounts.zero : ScopeCounts := ⟨0, 0, 0, 0, 0, 0⟩

def ScopeCounts.incr (c : ScopeCounts) (kind : ScopeKind) (direct : Bool) : ScopeCounts :=
  match kind, direct with
  | .self, true => { c with direct_self := c.direct_self + 1 }
  | .self, false => { c with indirect_self := c.indirect_self + 1 }
  | .lexical, true => { c with direct_lexical := c.direct_lexical + 1 }
  | .lexical, false => { c with indirect_lexical := c.indirect_lexical + 1 }
  | .non_lexical, true => { c with direct_non_lexical := c.direct_non_lexical + 1 }
  | .non_lexical, false => { c with indirect_non_lexical := c.indirect_non_lexical + 1 }

def ScopeCounts.get (c : ScopeCounts) (kind : ScopeKind) (direct : Bool) : Nat :=
  match kind, direct with
  | .self, true => c.direct_self
  | .self, false => c.indirect_self
  | .lexical, true => c.direct_lexical
  | .lexical, false => c.indirect_lexical
  | .non_lexical, true => c.direct_non_lexical
  | .non_lexical, false => c.indirect_non_lexical

/-- Lifecycle fingerprint `lifecycle_t`. -/
structure lifecycle_t where
  action : String
  count : List Int
  deriving DecidableEq, Repr

/-- Thunk record `DenotedValue` (declared in `DenotedValue.h`): the attributes
the specification lists for it. -/
structure DenotedValue where
  id : denoted_value_id_t
  object : SEXP
  is_local : Bool
  type : sexptype_t
  environment : SEXP
  scope : function_id_t
  active : Bool
  argument_stack : List Argument
  was_argument : Bool
  escaped : Bool
  preforced : Bool
  creation_timestamp : timestamp_t
  force_count : Nat
  before_escape_mutation : ScopeCounts
  after_escape_mutation : ScopeCounts
  before_escape_observation : ScopeCounts
  after_escape_observation : ScopeCounts
  previous_call_id : call_id_t
  previous_function_id : function_id_t
  previous_call_return_value_type : sexptype_t
  previous_formal_parameter_count : Int
  previous_formal_parameter_position : Int
  previous_actual_argument_position : Int
  previous_default_argument : Bool
  lifecycle : lifecycle_t
  evaluation_depth : eval_depth_t
  execution_time : Nat
  deriving DecidableEq, Repr

namespace DenotedValue

/-- Modelled from the spec: the constructor `DenotedValue(id, object, local)` of
`DenotedValue.h`.  The specification fixes the identity fields and that a
thunk records its home environment; it gives no initial value for the other
fields, which start here with no flag set, all counters zero, and scope,
timestamp and previous-call fields at their unassigned constants. -/
def create (h : Host) (id : denoted_value_id_t) (object : SEXP) (is_loc : Bool) :
    DenotedValue :=
  { id := id
    object := object
    is_local := is_loc
    type := h.type_of_sexp object
    environment :=
      if h.type_of_sexp object = PROMSXP then h.dyntrace_get_promise_environment object
      else R_NilValue
    scope := h.UNASSIGNED_FUNCTION_ID
    active := false
    argument_stack := []
    was_argument := false
    escaped := false
    preforced := false
    creation_timestamp := h.UNDEFINED_TIMESTAMP
    force_count := 0
    before_escape_mutation := ScopeCounts.zero
    after_escape_mutation := ScopeCounts.zero
    before_escape_observation := ScopeCounts.zero
    after_escape_observation := ScopeCounts.zero
    previous_call_id := 0
    previous_function_id := h.UNASSIGNED_FUNCTION_ID
    previous_call_return_value_type := h.UNASSIGNEDSXP
    previous_formal_parameter_count := -1
    previous_formal_parameter_position := -1
    previous_actual_argument_position := -1
    previous_default_argument := false
    lifecycle := ⟨"", []⟩
    evaluation_depth := h.ESCAPED_PROMISE_EVAL_DEPTH
    execution_time := 0 }

/-- Modelled from the spec: `is_promise()` of `DenotedValue.h`, true for a lazy
thunk and false for an eagerly materialised argument value. -/
def is_promise (v : DenotedValue) : Bool := v.type == PROMSXP

/-- Modelled from the spec: `set_active()` of `DenotedValue.h`; `active` is set
while the thunk is in the registry. -/
def set_active (v : DenotedValue) : DenotedValue := { v with active := true }

/-- Modelled from the spec: `set_inactive()` of `DenotedValue.h`; clears
`active`. -/
def set_inactive (v : DenotedValue) : DenotedValue := { v with active := false }

/-- Modelled from the spec: `set_creation_timestamp(t)` of `DenotedValue.h`. -/
def set_creation_timestamp (v : DenotedValue) (t : timestamp_t) : DenotedValue :=
  { v with creation_timestamp := t }

/-- Modelled from the spec: `set_scope(function_id)` of `DenotedValue.h`. -/
def set_scope (v : DenotedValue) (f : function_id_t) : DenotedValue := { v with scope := f }

/-- Modelled from the spec: `is_argument()` of `DenotedValue.h`; set exactly
when the thunk is held by at least one argument. -/
def is_argument (v : DenotedValue) : Bool := !v.argument_stack.isEmpty

/-- Modelled from the spec: `get_last_argument()` of `DenotedValue.h`, the most
recently attached argument. -/
def get_last_argument (v : DenotedValue) : Option Argument := v.argument_stack.head?

/-- Modelled from the spec: `add_argument(argument)` of `DenotedValue.h`; the
argument becomes the last owning argument and `was_argument` is set. -/
def add_argument (v : DenotedValue) (a : Argument) : DenotedValue :=
  { v with argument_stack := a :: v.argument_stack, was_argument := true }

/-- Modelled from the spec: `remove_argument(call_id, function_id,
return_value_type, formal_parameter_count, argument)` of `DenotedValue.h`;
detaches the argument from the thunk and records the last-call metadata. -/
def remove_argument (v : DenotedValue) (call_id : call_id_t) (function_id : function_id_t)
    (return_value_type : sexptype_t) (formal_parameter_count : Int) (a : Argument) :
    DenotedValue :=
  { v with
    argument_stack := v.argument_stack.erase a
    previous_call_id := call_id
    previous_function_id := function_id
    previous_call_return_value_type := return_value_type
    previous_formal_parameter_count := formal_parameter_count
    previous_formal_parameter_position := a.formal_parameter_position
    previous_actual_argument_position := a.actual_argument_position
    previous_default_argument := a.default_argument }

/-- Modelled from the spec: the mutation recorders of `DenotedValue.h`
(`set_self_scope_mutation`, `set_lexical_scope_mutation`,
`set_non_lexical_scope_mutation`); the counter written is the before-escape or
the after-escape one according to `escaped`. -/
def set_scope_mutation (v : DenotedValue) (kind : ScopeKind) (direct : Bool) : DenotedValue :=
  if v.escaped then { v with after_escape_mutation := v.after_escape_mutation.incr kind direct }
  else { v with before_escape_mutation := v.before_escape_mutation.incr kind direct }

/-- Modelled from the spec: the observation recorders of `DenotedValue.h`
(`set_self_scope_observation`, `set_lexical_scope_observation`,
`set_non_lexical_scope_observation`). -/
def set_scope_observation (v : DenotedValue) (kind : ScopeKind) (direct : Bool) :
    DenotedValue :=
  if v.escaped then
    { v with after_escape_observation := v.after_escape_observation.incr kind direct }
  else { v with before_escape_observation := v.before_escape_observation.incr kind direct }

/-- Modelled from the spec: `add_execution_time(t)` of `DenotedValue.h`; the
nanoseconds are added to `execution_time`. -/
def add_execution_time (v : DenotedValue) (t : Nat) : DenotedValue :=
  { v with execution_time := v.execution_time + t }

end DenotedValue

/-- Call record `Call` (declared in `Call.h`). -/
structure Call where
  id : call_id_t
  function_id : function_id_t
  function_type : sexptype_t
  function_name : String
  formal_parameter_count : Int
  environment : SEXP
  function : SEXP
  arguments : List Argument
  return_value_type : sexptype_t
  force_order : List Int
  missing_arguments : List Int
  deriving DecidableEq, Repr

/-- Per-invocation signature of a function summary. -/
structure CallSummary where
  force_order : List Int
  missing_arguments : List Int
  return_value_type : sexptype_t
  deriving DecidableEq, Repr

/-- Function record `Function` (declared in `Function.h`), addressed by the host
handle it is interned under. -/
structure Function where
  op : SEXP
  id : function_id_t
  type : sexptype_t
  formal_parameter_count : Int
  summaries : List (CallSummary × Nat)
  wrapper : Bool
  internal : Bool
  primitive : Bool
  deriving DecidableEq, Repr

/-- Modelled from the spec: the constructor `Function(op)` of `Function.h`. -/
def Function.create (h : Host) (op : SEXP) : Function :=
  { op := op
    id := h.function_id op
    type := h.type_of_sexp op
    formal_parameter_count := (h.FORMALS op).length
    summaries := []
    wrapper := false
    internal := h.function_is_internal op
    primitive := h.function_is_primitive op }

/-- Modelled from the spec: `Function::update_wrapper(wrapper)` of `Function.h`;
the function is marked a wrapper iff the argument is set. -/
def Function.update_wrapper (f : Function) (wrapper : Bool) : Function :=
  { f with wrapper := wrapper }

/-- Increment the count of the matching signature, or append a new one. -/
def add_summary_loop (sig : CallSummary) :
    List (CallSummary × Nat) → List (CallSummary × Nat)
  | [] => [(sig, 1)]
  | (s, n) :: rest =>
    if s = sig then (s, n + 1) :: rest else (s, n) :: add_summary_loop sig rest

/-- Modelled from the spec: `Function::add_summary(call)` of `Function.h`. -/
def Function.add_summary (f : Function) (c : Call) : Function :=
  { f with
    summaries :=
      add_summary_loop ⟨c.force_order, c.missing_arguments, c.return_value_type⟩ f.summaries }

/-- Execution context, a tagged variant (declared in `ExecutionContextStack.h`). -/
inductive ExecutionContext where
  | closure (call : Call)
  | builtin (call : Call)
  | special (call : Call)
  | promise (p : denoted_value_id_t)
  deriving DecidableEq, Repr

namespace ExecutionContext

def is_closure : ExecutionContext → Bool
  | closure _ => true
  | _ => false

def is_promise : ExecutionContext → Bool
  | promise _ => true
  | _ => false

/-- Modelled from the spec: `is_call()` of `ExecutionContextStack.h`, true for a
closure, builtin or special context. -/
def is_call : ExecutionContext → Bool
  | promise _ => false
  | _ => true

/-- Modelled from the spec: `get_call()` of `ExecutionContextStack.h`, the call
of a closure, builtin or special context. -/
def get_call : ExecutionContext → Option Call
  | closure c => some c
  | builtin c => some c
  | special c => some c
  | promise _ => none

end ExecutionContext

/-! ## Tracer state -/

/-- Variable record (declared in `Variable.h`). -/
structure Variable where
  id : var_id_t
  name : String
  creation_timestamp : timestamp_t
  modification_timestamp : timestamp_t
  deriving DecidableEq, Repr

/-- Environment record (declared in `Environment.h`). -/
structure Environment where
  rho : SEXP
  id : env_id_t
  vars : List (String × Variable)
  deriving DecidableEq, Repr

/-- Row of the arguments table: the columns `serialize_argument_` takes from
the call, the argument's construction-time fields and the thunk. -/
structure ArgumentRow where
  call_id : call_id_t
  function_id : function_id_t
  value_id : denoted_value_id_t
  formal_parameter_position : Int
  actual_argument_position : Int
  argument_type : sexptype_t
  default_argument : Bool
  dot_dot_dot : Bool
  preforce : Bool
  deriving DecidableEq, Repr

/-- Row of the object_count table. -/
structure ObjectCountRow where
  type : sexptype_t
  count : Nat
  deriving DecidableEq, Repr

/-- Row of the call_summary table: the columns `serialize_function_call_summary_`
takes from the modelled fields of the function record. -/
structure CallSummaryRow where
  function_id : function_id_t
  function_type : sexptype_t
  formal_parameter_count : Int
  wrapper : Bool
  force_order : List Int
  missing_arguments : List Int
  return_value_type : sexptype_t
  call_count : Nat
  deriving DecidableEq, Repr

/-- Row of the function_definition table: its key column. -/
structure FunctionDefinitionRow where
  function_id : function_id_t
  deriving DecidableEq, Repr

/-- Row of the promise_lifecycle table. -/
structure PromiseLifecycleRow where
  action : String
  count : List Int
  promise_count : Int
  deriving DecidableEq, Repr

abbrev Heap := denoted_value_id_t → DenotedValue

/-- Fields of `TracerState`, with the memory of thunk objects made explicit:
`heap` is the object at each address, `deleted` the number of `delete`
statements executed on it.  A row of the promises table and of the
escaped_arguments table is the thunk record it was written from.  `files_`
lists the side files written, each with its path and content, and
`error_log_` the diagnostics sent to the error channel. -/
structure TracerState where
  output_dirpath_ : String
  trace_filepath_ : String
  enable_trace_ : Bool
  truncate_ : Bool
  verbose_ : Bool
  binary_ : Bool
  compression_level_ : Int
  environment_id_ : env_id_t
  variable_id_ : var_id_t
  timestamp_ : timestamp_t
  call_id_counter_ : call_id_t
  denoted_value_id_counter_ : denoted_value_id_t
  environment_mapping_ : List (SEXP × Environment)
  promises_ : List (SEXP × denoted_value_id_t)
  functions_ : List (SEXP × Function)
  serialized_functions_ : List function_id_t
  stack_ : List ExecutionContext
  lifecycle_summary_ : List (lifecycle_t × Int)
  object_count_ : List Nat
  promise_data_table_ : List DenotedValue
  argument_data_table_ : List ArgumentRow
  escaped_argument_data_table_ : List DenotedValue
  object_count_data_table_ : List ObjectCountRow
  call_summary_data_table_ : List CallSummaryRow
  function_definition_data_table_ : List FunctionDefinitionRow
  promise_lifecycle_data_table_ : List PromiseLifecycleRow
  execution_resume_time_ : Nat
  files_ : List (String × String)
  error_log_ : List String
  heap : Heap
  deleted : denoted_value_id_t → Nat

/-! ### Hash map operations (`std::unordered_map`) on association lists -/

/-- Insertion that keeps an existing entry (`insert`). -/
def map_insert {β : Type} (m : List (SEXP × β)) (k : SEXP) (v : β) : List (SEXP × β) :=
  match m.lookup k with
  | some _ => m
  | none => m ++ [(k, v)]

/-- Insertion that replaces an existing entry (`insert_or_assign`). -/
def map_insert_or_assign {β : Type} (m : List (SEXP × β)) (k : SEXP) (v : β) :
    List (SEXP × β) :=
  match m.lookup k with
  | some _ => m.map (fun e => if e.1 = k then (k, v) else e)
  | none => m ++ [(k, v)]

/-- Removal of the entry under a key (`erase`). -/
def map_erase {β : Type} (m : List (SEXP × β)) (k : SEXP) : List (SEXP × β) :=
  m.filter (fun e => e.1 != k)

namespace TracerState

/-- State of a freshly constructed tracer, with empty paths and every option
off. -/
def fresh (h : Host) (object_type_table_count : Nat) : TracerState :=
  { output_dirpath_ := ""
    trace_filepath_ := ""
    enable_trace_ := false
    truncate_ := false
    verbose_ := false
    binary_ := false
    compression_level_ := 0
    environment_id_ := 0
    variable_id_ := 0
    timestamp_ := 0
    call_id_counter_ := 0
    denoted_value_id_counter_ := 0
    environment_mapping_ := []
    promises_ := []
    functions_ := []
    serialized_functions_ := []
    stack_ := []
    lifecycle_summary_ := []
    object_count_ := List.replicate object_type_table_count 0
    promise_data_table_ := []
    argument_data_table_ := []
    escaped_argument_data_table_ := []
    object_count_data_table_ := []
    call_summary_data_table_ := []
    function_definition_data_table_ := []
    promise_lifecycle_data_table_ := []
    execution_resume_time_ := 0
    files_ := []
    error_log_ := []
    heap := fun id => DenotedValue.create h id R_NilValue false
    deleted := fun _ => 0 }

/-- Store an object at an address. -/
def store (s : TracerState) (p : denoted_value_id_t) (v : DenotedValue) : TracerState :=
  { s with heap := Function.update s.heap p v }

/-- Statement `delete p` on a thunk object. -/
def delete_ (s : TracerState) (p : denoted_value_id_t) : TracerState :=
  { s with deleted := Function.update s.deleted p (s.deleted p + 1) }

/-! ### Environment registry -/

def create_next_environment_id_ (s : TracerState) : env_id_t × TracerState :=
  (s.environment_id_, { s with environment_id_ := s.environment_id_ + 1 })

def create_environment (s : TracerState) (rho : SEXP) : Environment × TracerState :=
  match s.environment_mapping_.lookup rho with
  | some e => (e, s)
  | none =>
    let (id, s1) := create_next_environment_id_ s
    let e : Environment := ⟨rho, id, []⟩
    (e, { s1 with environment_mapping_ := map_insert s1.environment_mapping_ rho e })

/-- The parameter `create` is not read by the body. -/
def lookup_environment (s : TracerState) (rho : SEXP) (_create : Bool) :
    Environment × TracerState :=
  match s.environment_mapping_.lookup rho with
  | none => create_environment s rho
  | some e => (e, s)

/-! ### Thunk registry -/

def get_next_denoted_value_id_ (s : TracerState) : denoted_value_id_t × TracerState :=
  (s.denoted_value_id_counter_,
    { s with denoted_value_id_counter_ := s.denoted_value_id_counter_ + 1 })

def get_current_timestamp_ (s : TracerState) : timestamp_t := s.timestamp_

/-- Loop of `set_scope_` over the contexts from the top of the stack. -/
def set_scope_loop : List ExecutionContext → DenotedValue → DenotedValue
  | [], v => v
  | ctxt :: rest, v =>
    let v1 :=
      match ctxt.get_call with
      | some call => if ctxt.is_call then v.set_scope call.function_id else v
      | none => v
    if ctxt.is_closure then v1 else set_scope_loop rest v1

def set_scope_ (s : TracerState) (p : denoted_value_id_t) : TracerState :=
  s.store p (set_scope_loop s.stack_ (s.heap p))

def create_raw_promise_ (h : Host) (s : TracerState) (promise : SEXP) (is_loc : Bool) :
    denoted_value_id_t × TracerState :=
  let rho := h.dyntrace_get_promise_environment promise
  let s1 := (lookup_environment s rho true).2
  let (id, s2) := get_next_denoted_value_id_ s1
  let s3 := s2.store id (DenotedValue.create h id promise is_loc)
  let s4 := set_scope_ s3 id
  let s5 := s4.store id (s4.heap id).set_active
  (id, s5)

def create_promise (h : Host) (s : TracerState) (promise : SEXP) :
    denoted_value_id_t × TracerState :=
  let (p, s1) := create_raw_promise_ h s promise true
  let s2 := { s1 with promises_ := map_insert_or_assign s1.promises_ promise p }
  let s3 := s2.store p ((s2.heap p).set_creation_timestamp (get_current_timestamp_ s2))
  (p, s3)

/-- The null pointer is `none`. -/
def lookup_promise (h : Host) (s : TracerState) (promise : SEXP) (create : Bool)
    (is_loc : Bool) : Option denoted_value_id_t × TracerState :=
  match s.promises_.lookup promise with
  | none =>
    if create then
      let (p, s1) := create_raw_promise_ h s promise is_loc
      (some p, { s1 with promises_ := map_insert s1.promises_ promise p })
    else (none, s)
  | some p => (some p, s)

def serialize_promise_ (s : TracerState) (p : denoted_value_id_t) : TracerState :=
  { s with promise_data_table_ := s.promise_data_table_ ++ [s.heap p] }

def serialize_escaped_promise_ (s : TracerState) (p : denoted_value_id_t) : TracerState :=
  { s with escaped_argument_data_table_ := s.escaped_argument_data_table_ ++ [s.heap p] }

/-- Loop of `summarize_promise_lifecycle_`: increment the matching entry and
return, or append after the scan. -/
def summarize_loop (lifecycle : lifecycle_t) :
    List (lifecycle_t × Int) → List (lifecycle_t × Int)
  | [] => [(lifecycle, 1)]
  | (l, n) :: rest =>
    if l.action = lifecycle.action ∧ l.count = lifecycle.count then (l, n + 1) :: rest
    else (l, n) :: summarize_loop lifecycle rest

def summarize_promise_lifecycle_ (s : TracerState) (lifecycle : lifecycle_t) : TracerState :=
  { s with lifecycle_summary_ := summarize_loop lifecycle s.lifecycle_summary_ }

def destroy_promise (s : TracerState) (promise_state : denoted_value_id_t) : TracerState :=
  let s1 := s.store promise_state (s.heap promise_state).set_inactive
  let s2 := serialize_promise_ s1 promise_state
  let s3 := summarize_promise_lifecycle_ s2 (s2.heap promise_state).lifecycle
  let s4 :=
    if (s3.heap promise_state).escaped then serialize_escaped_promise_ s3 promise_state
    else s3
  if !(s4.heap promise_state).is_argument then s4.delete_ promise_state else s4

def remove_promise (s : TracerState) (promise : SEXP) (promise_state : denoted_value_id_t) :
    TracerState :=
  destroy_promise { s with promises_ := map_erase s.promises_ promise } promise_state

/-! ### Calls -/

def lookup_function (h : Host) (s : TracerState) (op : SEXP) : Function × TracerState :=
  match s.functions_.lookup op with
  | none =>
    let function := Function.create h op
    (function, { s with functions_ := map_insert s.functions_ op function })
  | some function => (function, s)

def get_next_call_id_ (s : TracerState) : call_id_t × TracerState :=
  (s.call_id_counter_ + 1, { s with call_id_counter_ := s.call_id_counter_ + 1 })

/-- Modelled from the spec: the constructor of `Call.h`, given the values
`create_call` passes to it; the call starts without arguments. -/
def new_call (h : Host) (call_id : call_id_t) (function_id : function_id_t)
    (function_type : sexptype_t) (function_name : String) (formal_parameter_count : Int)
    (rho : SEXP) (function : SEXP) : Call :=
  { id := call_id
    function_id := function_id
    function_type := function_type
    function_name := function_name
    formal_parameter_count := formal_parameter_count
    environment := rho
    function := function
    arguments := []
    return_value_type := h.UNASSIGNEDSXP
    force_order := []
    missing_arguments := [] }

/-- Modelled from the spec: `Call::set_force_order(eval)` of `Call.h`; the
host's argument-evaluation bitmap is recorded as the force order. -/
def set_force_order (c : Call) (eval : Int) : Call := { c with force_order := [eval] }

/-- Modelled from the spec: `Call::add_argument(arg)` of `Call.h`; the argument
is appended to the call's arguments. -/
def call_add_argument (c : Call) (arg : Argument) : Call :=
  { c with arguments := c.arguments ++ [arg] }

/-- The branch `lookup_promise(argument, true)` never yields the null pointer;
the embedding leaves call and state as they are in that case. -/
def process_closure_argument_ (h : Host) (s : TracerState) (call : Call)
    (formal_parameter_position : Int) (actual_argument_position : Int) (_name : SEXP)
    (argument : SEXP) (dot_dot_dot : Bool) : Call × TracerState :=
  let r : Option denoted_value_id_t × TracerState :=
    if h.type_of_sexp argument = PROMSXP then lookup_promise h s argument true false
    else
      let (id, s1) := get_next_denoted_value_id_ s
      let s2 := s1.store id (DenotedValue.create h id argument false)
      (some id, set_scope_ s2 id)
  match r with
  | (none, s1) => (call, s1)
  | (some value, s1) =>
    let default_argument :=
      if (s1.heap value).is_promise then
        decide (call.environment = (s1.heap value).environment)
      else true
    let arg : Argument :=
      { call_id := call.id
        formal_parameter_position := formal_parameter_position
        actual_argument_position := actual_argument_position
        default_argument := default_argument
        dot_dot_dot := dot_dot_dot
        denoted_value := value }
    let s2 := s1.store value ((s1.heap value).add_argument arg)
    (call_add_argument call arg, s2)

/-- Inner loop of `process_closure_arguments_` over the nodes of a `...`
aggregate; returns the last actual argument position used. -/
def process_dot_dot_dot_loop (h : Host) (formal_parameter_position : Int) :
    List (SEXP × SEXP) → Int → Call → TracerState → Int × Call × TracerState
  | [], actual_argument_position, call, s => (actual_argument_position, call, s)
  | (name, dot_dot_dot_argument) :: rest, actual_argument_position, call, s =>
    let r := process_closure_argument_ h s call formal_parameter_position
      (actual_argument_position + 1) name dot_dot_dot_argument true
    process_dot_dot_dot_loop h formal_parameter_position rest (actual_argument_position + 1)
      r.1 r.2

/-- Outer loop of `process_closure_arguments_` over the formals. -/
def process_formals_loop (h : Host) (rho : SEXP) :
    List SEXP → Int → Int → Call → TracerState → Call × TracerState
  | [], _, _, call, s => (call, s)
  | name :: rest, formal_parameter_position, actual_argument_position, call, s =>
    let argument := h.dyntrace_lookup_environment rho name
    if h.type_of_sexp argument = DOTSXP then
      let r := process_dot_dot_dot_loop h (formal_parameter_position + 1) (h.DOTS argument)
        actual_argument_position call s
      process_formals_loop h rho rest (formal_parameter_position + 1) r.1 r.2.1 r.2.2
    else
      let r := process_closure_argument_ h s call (formal_parameter_position + 1)
        (actual_argument_position + 1) name argument (h.is_dots_symbol name)
      process_formals_loop h rho rest (formal_parameter_position + 1)
        (actual_argument_position + 1) r.1 r.2

def process_closure_arguments_ (h : Host) (s : TracerState) (call : Call) (op : SEXP) :
    Call × TracerState :=
  process_formals_loop h call.environment (h.FORMALS op) (-1) (-1) call s

def create_call (h : Host) (s : TracerState) (call : SEXP) (op : SEXP) (_args : SEXP)
    (rho : SEXP) : Call × TracerState :=
  let (function, s1) := lookup_function h s op
  let (call_id, s2) := get_next_call_id_ s1
  let function_call :=
    new_call h call_id function.id (h.type_of_sexp op) (h.get_name call)
      function.formal_parameter_count rho op
  if h.type_of_sexp op = CLOSXP then process_closure_arguments_ h s2 function_call op
  else (set_force_order function_call (h.dyntrace_get_c_function_argument_evaluation op), s2)

def serialize_argument_ (s : TracerState) (call : Call) (argument : Argument) : TracerState :=
  let value := s.heap argument.denoted_value
  { s with
    argument_data_table_ := s.argument_data_table_ ++
      [{ call_id := call.id
         function_id := call.function_id
         value_id := value.id
         formal_parameter_position := argument.formal_parameter_position
         actual_argument_position := argument.actual_argument_position
         argument_type := value.type
         default_argument := argument.default_argument
         dot_dot_dot := argument.dot_dot_dot
         preforce := value.preforced }] }

/-- Body of the loop of `destroy_call` for one argument. -/
def destroy_argument (call : Call) (s : TracerState) (argument : Argument) : TracerState :=
  let s1 := serialize_argument_ s call argument
  let value := argument.denoted_value
  if !(s1.heap value).active then s1.delete_ value
  else
    s1.store value
      ((s1.heap value).remove_argument call.id call.function_id call.return_value_type
        call.formal_parameter_count argument)

/-- The summary is added to the function record interned under the call's
function handle. -/
def function_add_summary (s : TracerState) (call : Call) : TracerState :=
  { s with
    functions_ :=
      s.functions_.map (fun e => if e.1 = call.function then (e.1, e.2.add_summary call) else e) }

def destroy_call (s : TracerState) (call : Call) : TracerState :=
  call.arguments.foldl (destroy_argument call) (function_add_summary s call)

/-! ### Attribution engine -/

/-- Loop of `is_parent_environment` from `env_cur`, for at most `fuel` steps. -/
def is_parent_loop (h : Host) (env_a : SEXP) : Nat → SEXP → Bool
  | 0, _ => false
  | fuel + 1, env_cur =>
    if env_cur = R_NilValue then false
    else if env_cur = env_a then true
    else is_parent_loop h env_a fuel (h.ENCLOS env_cur)

/-- Is `env_a` parent of `env_b`?  The walk up the enclosure chain is bounded
by the host's length of the chain of `env_b`. -/
def is_parent_environment (h : Host) (env_a : SEXP) (env_b : SEXP) : Bool :=
  if env_a = env_b then false
  else is_parent_loop h env_a (h.ENCLOS_depth env_b) (h.ENCLOS env_b)

/-- One call of a scope counter recorder on a thunk: the position of the
promise frame counted from the top of the stack, the thunk, the scope class
and the value of the `direct` latch passed. -/
structure ScopeEvent where
  frame : Nat
  promise : denoted_value_id_t
  kind : ScopeKind
  direct : Bool
  deriving DecidableEq, Repr

/-- State of an attribution walk when its loop is left: the thunk memory, the
recorder calls made in execution order, the `direct` latch, and whether the
loop was left through a `return` statement. -/
structure WalkResult where
  heap : Heap
  events : List ScopeEvent
  direct : Bool
  returned : Bool

/-- Prepend a recorder call to the calls of the rest of the walk. -/
def WalkResult.after (e : ScopeEvent) (r : WalkResult) : WalkResult :=
  { r with events := e :: r.events }

/-- Loop of `identify_side_effect_creators` over the contexts from the top of
the stack; `i` is the position of the first context of the list. -/
def creators_loop (h : Host) (var : Variable) (env : SEXP) :
    Nat → List ExecutionContext → Bool → Heap → WalkResult
  | _, [], direct, heap => ⟨heap, [], direct, false⟩
  | i, .closure call :: rest, direct, heap =>
    if call.environment = env then ⟨heap, [], direct, true⟩
    else creators_loop h var env (i + 1) rest direct heap
  | i, .promise promise :: rest, direct, heap =>
    let prom_env := (heap promise).environment
    if prom_env = env then
      let var_timestamp := var.modification_timestamp
      if (heap promise).creation_timestamp > var_timestamp then
        ⟨Function.update heap promise ((heap promise).set_scope_mutation .self direct),
          [⟨i, promise, .self, direct⟩], false, true⟩
      else creators_loop h var env (i + 1) rest direct heap
    else if is_parent_environment h env prom_env then
      (creators_loop h var env (i + 1) rest false
        (Function.update heap promise ((heap promise).set_scope_mutation .lexical direct))).after
        ⟨i, promise, .lexical, direct⟩
    else
      (creators_loop h var env (i + 1) rest false
        (Function.update heap promise
          ((heap promise).set_scope_mutation .non_lexical direct))).after
        ⟨i, promise, .non_lexical, direct⟩
  | i, _ :: rest, direct, heap => creators_loop h var env (i + 1) rest direct heap

/-- Walk of `identify_side_effect_creators(var, env)` with its loop state. -/
def creators_walk (h : Host) (s : TracerState) (var : Variable) (env : SEXP) : WalkResult :=
  creators_loop h var env 0 s.stack_ true s.heap

def identify_side_effect_creators (h : Host) (s : TracerState) (var : Variable) (env : SEXP) :
    TracerState :=
  { s with heap := (creators_walk h s var env).heap }

/-- Modelled from the spec: `timestamp_is_undefined` of a header outside this
file. -/
def timestamp_is_undefined (h : Host) (t : timestamp_t) : Bool := t == h.UNDEFINED_TIMESTAMP

/-- Loop of `identify_side_effect_observers` over the contexts from the top of
the stack; `i` is the position of the first context of the list. -/
def observers_loop (h : Host) (var : Variable) (env : SEXP) :
    Nat → List ExecutionContext → Bool → Heap → WalkResult
  | _, [], direct, heap => ⟨heap, [], direct, false⟩
  | i, .closure call :: rest, direct, heap =>
    if call.environment = env then ⟨heap, [], direct, true⟩
    else observers_loop h var env (i + 1) rest direct heap
  | i, .promise promise :: rest, direct, heap =>
    let prom_env := (heap promise).environment
    if prom_env = env then
      let var_timestamp := var.modification_timestamp
      if (heap promise).creation_timestamp < var_timestamp then
        ⟨Function.update heap promise ((heap promise).set_scope_observation .self direct),
          [⟨i, promise, .self, direct⟩], false, true⟩
      else observers_loop h var env (i + 1) rest direct heap
    else if is_parent_environment h env prom_env then
      (observers_loop h var env (i + 1) rest false
        (Function.update heap promise
          ((heap promise).set_scope_observation .lexical direct))).after
        ⟨i, promise, .lexical, direct⟩
    else
      (observers_loop h var env (i + 1) rest false
        (Function.update heap promise
          ((heap promise).set_scope_observation .non_lexical direct))).after
        ⟨i, promise, .non_lexical, direct⟩
  | i, _ :: rest, direct, heap => observers_loop h var env (i + 1) rest direct heap

/-- Walk of `identify_side_effect_observers(var, env)` with its loop state. -/
def observers_walk (h : Host) (s : TracerState) (var : Variable) (env : SEXP) : WalkResult :=
  if timestamp_is_undefined h var.modification_timestamp then ⟨s.heap, [], true, true⟩
  else observers_loop h var env 0 s.stack_ true s.heap

def identify_side_effect_observers (h : Host) (s : TracerState) (var : Variable) (env : SEXP) :
    TracerState :=
  { s with heap := (observers_walk h s var env).heap }

/-! ### Evaluation depth -/

/-- Loop of `get_evaluation_depth`; `none` when the iterator reaches `rend()`,
otherwise the depth at the `break`. -/
def get_evaluation_depth_loop (heap : Heap) (call : Call) :
    List ExecutionContext → eval_depth_t → Bool → Option eval_depth_t
  | [], _, _ => none
  | .closure c :: rest, eval_depth, _ =>
    if c.id = call.id then some eval_depth
    else
      get_evaluation_depth_loop heap call rest
        { eval_depth with call_depth := eval_depth.call_depth + 1 } false
  | .promise promise :: rest, eval_depth, nesting =>
    let d1 := { eval_depth with promise_depth := eval_depth.promise_depth + 1 }
    let d2 := if nesting then { d1 with nested_promise_depth := d1.nested_promise_depth + 1 }
      else d1
    let d3 :=
      match (heap promise).get_last_argument with
      | some last =>
        if d2.forcing_actual_argument_position = -1 ∧ (heap promise).is_argument = true ∧
            last.call_id = call.id then
          { d2 with forcing_actual_argument_position := last.actual_argument_position }
        else d2
      | none => d2
    get_evaluation_depth_loop heap call rest d3 nesting
  | _ :: rest, eval_depth, nesting => get_evaluation_depth_loop heap call rest eval_depth nesting

def get_evaluation_depth (h : Host) (s : TracerState) (call : Call) : eval_depth_t :=
  match get_evaluation_depth_loop s.heap call s.stack_ ⟨0, 0, 0, -1⟩ true with
  | none => h.ESCAPED_PROMISE_EVAL_DEPTH
  | some eval_depth => eval_depth

/-! ### Variables -/

/-- Modelled from the spec: the constructor of `Variable.h`; the creation
timestamp is given and the modification timestamp is undefined. -/
def new_variable (h : Host) (name : String) (id : var_id_t) (t : timestamp_t) : Variable :=
  { id := id, name := name, creation_timestamp := t,
    modification_timestamp := h.UNDEFINED_TIMESTAMP }

/-- Modelled from the spec: `Variable::set_modification_timestamp(t)`. -/
def variable_set_modification_timestamp (v : Variable) (t : timestamp_t) : Variable :=
  { v with modification_timestamp := t }

/-- Modelled from the spec: `Environment::exists(symbol)` of `Environment.h`. -/
def environment_exists (e : Environment) (symbol : String) : Bool :=
  (e.vars.lookup symbol).isSome

/-- Modelled from the spec: `Environment::lookup(symbol)` of `Environment.h`;
`none` stands for the reference to a variable that is not there. -/
def environment_lookup (e : Environment) (symbol : String) : Option Variable :=
  e.vars.lookup symbol

/-- Modelled from the spec: `Environment::define(symbol, var_id, timestamp)` of
`Environment.h`; a new variable record takes the place of any record under the
name. -/
def environment_define (h : Host) (e : Environment) (symbol : String) (id : var_id_t)
    (t : timestamp_t) : Variable × Environment :=
  (new_variable h symbol id t,
    { e with
      vars := e.vars.filter (fun x => x.1 != symbol) ++ [(symbol, new_variable h symbol id t)] })

/-- Modelled from the spec: `Environment::remove(symbol)` of `Environment.h`;
detaches and returns the prior record, `none` when there is none. -/
def environment_remove (e : Environment) (symbol : String) : Option Variable × Environment :=
  (e.vars.lookup symbol, { e with vars := e.vars.filter (fun x => x.1 != symbol) })

/-- Write through the reference to the environment record registered under
`rho`. -/
def set_environment (s : TracerState) (rho : SEXP) (e : Environment) : TracerState :=
  { s with environment_mapping_ := map_insert_or_assign s.environment_mapping_ rho e }

def remove_environment (s : TracerState) (rho : SEXP) : TracerState :=
  { s with environment_mapping_ := map_erase s.environment_mapping_ rho }

def create_next_variable_id_ (s : TracerState) : var_id_t × TracerState :=
  (s.variable_id_, { s with variable_id_ := s.variable_id_ + 1 })

/-- Overload of `lookup_variable` on the name of the symbol. -/
def lookup_variable (h : Host) (s : TracerState) (rho : SEXP) (symbol : String)
    (create_environment : Bool) (create_variable : Bool) : Option Variable × TracerState :=
  let r := lookup_environment s rho create_environment
  let var_exists := environment_exists r.1 symbol
  if create_variable && !var_exists then
    let i := create_next_variable_id_ r.2
    let d := environment_define h r.1 symbol i.1 (get_current_timestamp_ i.2)
    (some d.1, set_environment i.2 rho d.2)
  else (environment_lookup r.1 symbol, r.2)

/-- Overload of `lookup_variable` on the symbol. -/
def lookup_variable_symbol (h : Host) (s : TracerState) (rho : SEXP) (symbol : SEXP)
    (create_environment : Bool) (create_variable : Bool) : Option Variable × TracerState :=
  lookup_variable h s rho (h.symbol_to_string symbol) create_environment create_variable

/-- The parameter `create_environment` is not read by the body. -/
def define_variable (h : Host) (s : TracerState) (rho : SEXP) (symbol : SEXP)
    (_create_environment : Bool) : Variable × TracerState :=
  let r := lookup_environment s rho true
  let i := create_next_variable_id_ r.2
  let d := environment_define h r.1 (h.symbol_to_string symbol) i.1 (get_current_timestamp_ i.2)
  (d.1, set_environment i.2 rho d.2)

/-- The parameters `create_environment` and `create_variable` are not read by
the body, which calls `lookup_variable` with its default arguments.  The
modification timestamp is written through the reference into the environment
record. -/
def update_variable (h : Host) (s : TracerState) (rho : SEXP) (symbol : SEXP)
    (_create_environment : Bool) (_create_variable : Bool) : Option Variable × TracerState :=
  match lookup_variable_symbol h s rho symbol true true with
  | (none, s1) => (none, s1)
  | (some var, s1) =>
    let var1 := variable_set_modification_timestamp var (get_current_timestamp_ s1)
    match s1.environment_mapping_.lookup rho with
    | none => (some var1, s1)
    | some e =>
      (some var1,
        set_environment s1 rho
          { e with
            vars :=
              e.vars.map (fun x => if x.1 = h.symbol_to_string symbol then (x.1, var1) else x) })

def remove_variable (h : Host) (s : TracerState) (rho : SEXP) (symbol : SEXP)
    (create_environment : Bool) : Option Variable × TracerState :=
  let r := lookup_environment s rho create_environment
  let d := environment_remove r.1 (h.symbol_to_string symbol)
  (d.1, set_environment r.2 rho d.2)

/-! ### Execution timer and probes -/

/-- The clock reading `now` stands for `high_resolution_clock::now()`. -/
def resume_execution_timer (s : TracerState) (now : Nat) : TracerState :=
  { s with execution_resume_time_ := now }

/-- Loop of `pause_execution_timer` over the elements of the stack. -/
def pause_loop (execution_time : Nat) : List ExecutionContext → Heap → Heap
  | [], heap => heap
  | .promise p :: rest, heap =>
    pause_loop execution_time rest
      (Function.update heap p ((heap p).add_execution_time execution_time))
  | _ :: rest, heap => pause_loop execution_time rest heap

/-- The clock reading `now` stands for `high_resolution_clock::now()`; the
stack is iterated from its bottom. -/
def pause_execution_timer (s : TracerState) (now : Nat) : TracerState :=
  { s with heap := pause_loop (now - s.execution_resume_time_) s.stack_.reverse s.heap }

def increment_timestamp_ (s : TracerState) : timestamp_t × TracerState :=
  (s.timestamp_, { s with timestamp_ := s.timestamp_ + 1 })

def exit_probe (s : TracerState) (now : Nat) : TracerState :=
  resume_execution_timer s now

def enter_probe (s : TracerState) (now : Nat) : TracerState :=
  (increment_timestamp_ (pause_execution_timer s now)).2

/-! ### Stack access through `get_stack()` -/

/-- Modelled from the spec: `push` of `ExecutionContextStack.h`. -/
def stack_push (s : TracerState) (ctxt : ExecutionContext) : TracerState :=
  { s with stack_ := ctxt :: s.stack_ }

/-- Modelled from the spec: `pop` of `ExecutionContextStack.h`. -/
def stack_pop (s : TracerState) : TracerState :=
  { s with stack_ := s.stack_.tail }

/-! ### Functions -/

/-- Loop of `serialize_function_call_summary_` over the summaries. -/
def serialize_function_call_summary_ (s : TracerState) (function : Function) : TracerState :=
  { s with
    call_summary_data_table_ := s.call_summary_data_table_ ++
      function.summaries.map (fun e =>
        { function_id := function.id
          function_type := function.type
          formal_parameter_count := function.formal_parameter_count
          wrapper := function.wrapper
          force_order := e.1.force_order
          missing_arguments := e.1.missing_arguments
          return_value_type := e.1.return_value_type
          call_count := e.2 }) }

def serialize_function_definition_ (s : TracerState) (function : Function) : TracerState :=
  if function.id ∈ s.serialized_functions_ then s
  else
    { s with
      serialized_functions_ := s.serialized_functions_ ++ [function.id]
      function_definition_data_table_ :=
        s.function_definition_data_table_ ++ [{ function_id := function.id }] }

def serialize_function_ (s : TracerState) (function : Function) : TracerState :=
  serialize_function_definition_ (serialize_function_call_summary_ s function) function

def destroy_function_ (s : TracerState) (function : Function) : TracerState :=
  serialize_function_ s function

def remove_function (s : TracerState) (op : SEXP) : TracerState :=
  match s.functions_.lookup op with
  | some function =>
    { destroy_function_ s function with
      functions_ := map_erase (destroy_function_ s function).functions_ op }
  | none => s

/-- Modelled from the spec: `peek(1)` of `ExecutionContextStack.h` is the top
of the stack.  The wrapper flag is written to the function record interned
under the caller's function handle. -/
def update_wrapper_state (s : TracerState) (call : Call) : TracerState :=
  match s.stack_ with
  | .closure caller :: _ =>
    match s.functions_.lookup call.function with
    | some called_function =>
      { s with
        functions_ :=
          s.functions_.map (fun e =>
            if e.1 = caller.function then
              (e.1, e.2.update_wrapper (called_function.internal || called_function.primitive))
            else e) }
    | none => s
  | _ => s

/-! ### Set-up and teardown -/

/-- Text of the `CONFIGURATION` file: one `key=value` line per row. -/
def configuration_text (rows : List (String × String)) : String :=
  rows.foldl (fun acc r => acc ++ r.1 ++ "=" ++ r.2 ++ "\n") ""

def serialize_configuration_ (h : Host) (s : TracerState) : TracerState :=
  { s with
    files_ := s.files_ ++
      [(s.output_dirpath_ ++ "/CONFIGURATION",
        configuration_text
          (h.environment_variables ++
            [("GIT_COMMIT_INFO", h.GIT_COMMIT_INFO),
              ("truncate", if s.truncate_ then "1" else "0"),
              ("verbose", if s.verbose_ then "1" else "0"),
              ("binary", if s.binary_ then "1" else "0"),
              ("compression_level", toString s.compression_level_)]))] }

/-- Set-up entry point of the source, `TracerState::initialize`. -/
def initialize_ (h : Host) (s : TracerState) : TracerState :=
  serialize_configuration_ h s

/-- The counter is an `unsigned int`; an index outside the vector leaves the
counts as they are. -/
def increment_object_count (s : TracerState) (type : sexptype_t) : TracerState :=
  { s with object_count_ := s.object_count_.modify (fun c => (c + 1) % 2 ^ 32) type }

/-- Loop of `serialize_object_count_` from index `i`. -/
def serialize_object_count_loop : Nat → List Nat → List ObjectCountRow
  | _, [] => []
  | i, c :: rest =>
    if c ≠ 0 then ⟨i, c⟩ :: serialize_object_count_loop (i + 1) rest
    else serialize_object_count_loop (i + 1) rest

def serialize_object_count_ (s : TracerState) : TracerState :=
  { s with
    object_count_data_table_ :=
      s.object_count_data_table_ ++ serialize_object_count_loop 0 s.object_count_ }

def serialize_promise_lifecycle_summary_ (s : TracerState) : TracerState :=
  { s with
    promise_lifecycle_data_table_ := s.promise_lifecycle_data_table_ ++
      s.lifecycle_summary_.map (fun e =>
        { action := e.1.action, count := e.1.count, promise_count := e.2 }) }

/-- Modelled from the spec: the host's `dyntrace_log_error`; the diagnostic goes
to the error channel and execution continues. -/
def dyntrace_log_error (s : TracerState) (message : String) : TracerState :=
  { s with error_log_ := s.error_log_ ++ [message] }

/-- A file is opened, written and closed. -/
def write_file (s : TracerState) (path : String) (content : String) : TracerState :=
  { s with files_ := s.files_ ++ [(path, content)] }

/-- The part of `cleanup` that emits rows and clears the registries: the two
loops with their `clear()`, `serialize_object_count_` and
`serialize_promise_lifecycle_summary_`. -/
def cleanup_tables (s : TracerState) : TracerState :=
  let s1 := s.promises_.foldl (fun st e => destroy_promise st e.2) s
  let s2 := { s1 with promises_ := [] }
  let s3 := s2.functions_.foldl (fun st e => destroy_function_ st e.2) s2
  let s4 := { s3 with functions_ := [] }
  let s5 := serialize_object_count_ s4
  serialize_promise_lifecycle_summary_ s5

/-- The stack check of `cleanup`. -/
def cleanup_stack_check (s : TracerState) : TracerState :=
  if !s.stack_.isEmpty then dyntrace_log_error s "stack not empty on tracer exit." else s

/-- The last statement of `cleanup`: the sentinel file. -/
def cleanup_sentinel (s : TracerState) (error : Int) : TracerState :=
  if error ≠ 0 then write_file s (s.output_dirpath_ ++ "/ERROR") "ERROR"
  else write_file s (s.output_dirpath_ ++ "/NOERROR") "NOERROR"

def cleanup (s : TracerState) (error : Int) : TracerState :=
  cleanup_sentinel (cleanup_stack_check (cleanup_tables s)) error

/-! ### Public operations -/

/-- The state-changing public member functions of `TracerState`, each with its
arguments; `stack_push` and `stack_pop` stand for the use of the reference
returned by `get_stack()`.  The accessors and the functions
`is_parent_environment` and `get_evaluation_depth` change no state. -/
inductive PublicOp where
  | initialize_
  | cleanup (error : Int)
  | increment_object_count (type : sexptype_t)
  | stack_push (ctxt : ExecutionContext)
  | stack_pop
  | create_environment (rho : SEXP)
  | remove_environment (rho : SEXP)
  | lookup_environment (rho : SEXP) (create : Bool)
  | lookup_variable (rho : SEXP) (symbol : String) (create_environment create_variable : Bool)
  | lookup_variable_symbol (rho symbol : SEXP) (create_environment create_variable : Bool)
  | define_variable (rho symbol : SEXP) (create_environment : Bool)
  | update_variable (rho symbol : SEXP) (create_environment create_variable : Bool)
  | remove_variable (rho symbol : SEXP) (create_environment : Bool)
  | resume_execution_timer (now : Nat)
  | pause_execution_timer (now : Nat)
  | create_promise (promise : SEXP)
  | lookup_promise (promise : SEXP) (create is_loc : Bool)
  | remove_promise (promise : SEXP) (promise_state : denoted_value_id_t)
  | destroy_promise (promise_state : denoted_value_id_t)
  | exit_probe (now : Nat)
  | enter_probe (now : Nat)
  | create_call (call op args rho : SEXP)
  | destroy_call (call : Call)
  | lookup_function (op : SEXP)
  | remove_function (op : SEXP)
  | identify_side_effect_creators (var : Variable) (env : SEXP)
  | identify_side_effect_observers (var : Variable) (env : SEXP)
  | update_wrapper_state (call : Call)
  | summarize_promise_lifecycle_ (lifecycle : lifecycle_t)
  | serialize_promise_lifecycle_summary_

/-- State after one public operation. -/
def apply_op (h : Host) (s : TracerState) : PublicOp → TracerState
  | .initialize_ => initialize_ h s
  | .cleanup error => cleanup s error
  | .increment_object_count type => increment_object_count s type
  | .stack_push ctxt => stack_push s ctxt
  | .stack_pop => stack_pop s
  | .create_environment rho => (create_environment s rho).2
  | .remove_environment rho => remove_environment s rho
  | .lookup_environment rho create => (lookup_environment s rho create).2
  | .lookup_variable rho symbol ce cv => (lookup_variable h s rho symbol ce cv).2
  | .lookup_variable_symbol rho symbol ce cv => (lookup_variable_symbol h s rho symbol ce cv).2
  | .define_variable rho symbol ce => (define_variable h s rho symbol ce).2
  | .update_variable rho symbol ce cv => (update_variable h s rho symbol ce cv).2
  | .remove_variable rho symbol ce => (remove_variable h s rho symbol ce).2
  | .resume_execution_timer now => resume_execution_timer s now
  | .pause_execution_timer now => pause_execution_timer s now
  | .create_promise promise => (create_promise h s promise).2
  | .lookup_promise promise create is_loc => (lookup_promise h s promise create is_loc).2
  | .remove_promise promise promise_state => remove_promise s promise promise_state
  | .destroy_promise promise_state => destroy_promise s promise_state
  | .exit_probe now => exit_probe s now
  | .enter_probe now => enter_probe s now
  | .create_call call op args rho => (create_call h s call op args rho).2
  | .destroy_call call => destroy_call s call
  | .lookup_function op => (lookup_function h s op).2
  | .remove_function op => remove_function s op
  | .identify_side_effect_creators var env => identify_side_effect_creators h s var env
  | .identify_side_effect_observers var env => identify_side_effect_observers h s var env
  | .update_wrapper_state call => update_wrapper_state s call
  | .summarize_promise_lifecycle_ lifecycle => summarize_promise_lifecycle_ s lifecycle
  | .serialize_promise_lifecycle_summary_ => serialize_promise_lifecycle_summary_ s

/-- State after a sequence of public operations. -/
def run_ops (h : Host) (s : TracerState) (ops : List PublicOp) : TracerState :=
  ops.foldl (apply_op h) s

/-- Whether a public operation is `enter_probe`. -/
def PublicOp.is_enter_probe : PublicOp → Bool
  | .enter_probe _ => true
  | _ => false

/-! ## Specification-side definitions -/

/-- Attribution walk as the specification describes it: the walk of
`identify_side_effect_creators` with the self-scope predicate `test` (applied
to the thunk's creation timestamp and the variable's modification timestamp)
and the counter recorder `record` taken as parameters. -/
def scope_walk_loop (h : Host) (test : timestamp_t → timestamp_t → Bool)
    (record : DenotedValue → ScopeKind → Bool → DenotedValue) (var : Variable) (env : SEXP) :
    Nat → List ExecutionContext → Bool → Heap → WalkResult
  | _, [], direct, heap => ⟨heap, [], direct, false⟩
  | i, .closure call :: rest, direct, heap =>
    if call.environment = env then ⟨heap, [], direct, true⟩
    else scope_walk_loop h test record var env (i + 1) rest direct heap
  | i, .builtin _ :: rest, direct, heap =>
    scope_walk_loop h test record var env (i + 1) rest direct heap
  | i, .special _ :: rest, direct, heap =>
    scope_walk_loop h test record var env (i + 1) rest direct heap
  | i, .promise p :: rest, direct, heap =>
    if (heap p).environment = env then
      if test (heap p).creation_timestamp var.modification_timestamp then
        ⟨Function.update heap p (record (heap p) .self direct), [⟨i, p, .self, direct⟩],
          false, true⟩
      else scope_walk_loop h test record var env (i + 1) rest direct heap
    else if is_parent_environment h env (heap p).environment then
      (scope_walk_loop h test record var env (i + 1) rest false
        (Function.update heap p (record (heap p) .lexical direct))).after
        ⟨i, p, .lexical, direct⟩
    else
      (scope_walk_loop h test record var env (i + 1) rest false
        (Function.update heap p (record (heap p) .non_lexical direct))).after
        ⟨i, p, .non_lexical, direct⟩

/-- Recorder calls made before the rest of a walk. -/
def WalkResult.prepend (evs : List ScopeEvent) (r : WalkResult) : WalkResult :=
  { r with events := evs ++ r.events }

/-- Effect of one recorder call on the thunk memory. -/
def apply_event (record : DenotedValue → ScopeKind → Bool → DenotedValue) (heap : Heap)
    (e : ScopeEvent) : Heap :=
  Function.update heap e.promise (record (heap e.promise) e.kind e.direct)

/-- Scope class of a promise frame for a write or read in `env`, with the
self-scope predicate `test`: `none` when the thunk's environment is `env` and
the predicate fails. -/
def scope_class (h : Host) (test : timestamp_t → timestamp_t → Bool) (var : Variable)
    (env : SEXP) (v : DenotedValue) : Option ScopeKind :=
  if v.environment = env then
    if test v.creation_timestamp var.modification_timestamp then some .self else none
  else if is_parent_environment h env v.environment then some .lexical
  else some .non_lexical

/-- State of `destroy_call` when the first `i` arguments have been torn down. -/
def destroy_call_upto (s : TracerState) (call : Call) (i : Nat) : TracerState :=
  (call.arguments.take i).foldl (destroy_argument call) (function_add_summary s call)

/-- Number of closure frames in a list of contexts. -/
def count_closures (l : List ExecutionContext) : Nat := l.countP (fun c => c.is_closure)

/-- Number of promise frames in a list of contexts. -/
def count_promises (l : List ExecutionContext) : Nat := l.countP (fun c => c.is_promise)

/-- Frames above the topmost closure frame. -/
def above_topmost_closure (l : List ExecutionContext) : List ExecutionContext :=
  l.takeWhile (fun c => !c.is_closure)

/-- The function id of the topmost closure frame, if any. -/
def topmost_closure_function_id : List ExecutionContext → Option function_id_t
  | [] => none
  | .closure c :: _ => some c.function_id
  | _ :: rest => topmost_closure_function_id rest

/-! ## Concrete inputs -/

/-- Host whose environments `3`, `2`, `1` form one enclosure chain ending in the
nil environment, with promise handle `10`, closure handles `20` and `21`, and
symbol `30` bound to the promise `10` in every environment. -/
def sample_host : Host :=
  { type_of_sexp := fun x => if x = 10 then PROMSXP else if x = 20 ∨ x = 21 then CLOSXP else 14
    dyntrace_get_promise_environment := fun _ => 3
    dyntrace_lookup_environment := fun _ _ => 10
    FORMALS := fun _ => [30]
    DOTS := fun _ => []
    ENCLOS := fun e => if e = 3 then 2 else if e = 2 then 1 else 0
    ENCLOS_depth := fun e => e
    is_dots_symbol := fun _ => false
    function_id := fun op => op + 100
    dyntrace_get_c_function_argument_evaluation := fun _ => 0
    get_name := fun _ => "f"
    symbol_to_string := fun _ => "x"
    function_is_internal := fun _ => false
    function_is_primitive := fun op => decide (op = 22)
    environment_variables := []
    GIT_COMMIT_INFO := ""
    UNDEFINED_TIMESTAMP := 1000000
    UNASSIGNED_FUNCTION_ID := 0
    UNASSIGNEDSXP := 99
    ESCAPED_PROMISE_EVAL_DEPTH := ⟨0, 0, 0, -1⟩ }

/-- Thunk memory with thunk `0` in environment `3` created at time `5`, thunk
`1` in environment `2` created at time `1`, and every other thunk in
environment `9` created at time `0`. -/
def sample_heap : Heap := fun q =>
  if q = 0 then
    { DenotedValue.create sample_host 0 10 false with environment := 3, creation_timestamp := 5 }
  else if q = 1 then
    { DenotedValue.create sample_host 1 10 false with environment := 2, creation_timestamp := 1 }
  else
    { DenotedValue.create sample_host q 10 false with environment := 9, creation_timestamp := 0 }

/-- Call record with a given id and call environment. -/
def sample_call (id : call_id_t) (rho : SEXP) : Call :=
  new_call sample_host id (id + 100) CLOSXP "f" 1 rho 20

/-- State with a given stack over the sample thunk memory. -/
def sample_state (stack : List ExecutionContext) : TracerState :=
  { fresh sample_host 0 with stack_ := stack, heap := sample_heap }

/-- Variable last modified at a given time. -/
def sample_variable (t : timestamp_t) : Variable := ⟨0, "x", 0, t⟩

/-! ### A thunk shared by two live calls -/

/-- The promise `10` is registered in a fresh tracer. -/
def shared_thunk_created : denoted_value_id_t × TracerState :=
  create_promise sample_host (fresh sample_host 0) 10

/-- A first closure call, in environment `40`, takes the promise as argument. -/
def shared_first_call : Call × TracerState :=
  create_call sample_host shared_thunk_created.2 1 20 0 40

/-- A second closure call, in environment `41`, takes the same promise. -/
def shared_second_call : Call × TracerState :=
  create_call sample_host shared_first_call.2 2 21 0 41

/-- The registry side destroys the thunk while both calls are live. -/
def shared_after_destroy_promise : TracerState :=
  destroy_promise shared_second_call.2 shared_thunk_created.1

/-- The second call is destroyed. -/
def shared_after_second_destroy_call : TracerState :=
  destroy_call shared_after_destroy_promise shared_second_call.1

/-- The first call is destroyed. -/
def shared_after_first_destroy_call : TracerState :=
  destroy_call shared_after_second_destroy_call shared_first_call.1

/-! ### Definitions for the evaluation depth, lexical parentage and call arguments -/

/-- Modelled from the spec: the value of the constant
`ESCAPED_PROMISE_EVAL_DEPTH`, which a header outside this file defines. -/
def escaped_promise_eval_depth_value : eval_depth_t := ⟨0, 0, 0, -1⟩

/-- Actual argument position that a promise frame offers to the walk of
`get_evaluation_depth(call)`: that of the last argument of its thunk when the
thunk is currently an argument and that argument belongs to the call. -/
def forcing_candidate (heap : Heap) (call : Call) (p : denoted_value_id_t) : Option Int :=
  match (heap p).get_last_argument with
  | some last =>
    if (heap p).is_argument = true ∧ last.call_id = call.id then
      some last.actual_argument_position
    else none
  | none => none

/-- Actual argument position of the topmost promise frame of a list that offers
one, `-1` when no frame does. -/
def topmost_forcing_position (heap : Heap) (call : Call) : List ExecutionContext → Int
  | [] => -1
  | .promise p :: rest =>
    match forcing_candidate heap call p with
    | some position => position
    | none => topmost_forcing_position heap call rest
  | _ :: rest => topmost_forcing_position heap call rest

/-- Number of arguments a formal gives rise to: the number of elements when its
binding is a `...` aggregate, one otherwise. -/
def formal_argument_count (h : Host) (rho : SEXP) (name : SEXP) : Nat :=
  if h.type_of_sexp (h.dyntrace_lookup_environment rho name) = DOTSXP then
    (h.DOTS (h.dyntrace_lookup_environment rho name)).length
  else 1

/-- Formal parameter position and `dot_dot_dot` flag of the arguments of a
closure call, formal by formal from position `i`: a `...` aggregate gives one
argument per element, flagged, any other binding gives one argument. -/
def expected_formal_positions (h : Host) (rho : SEXP) : List SEXP → Int → List (Int × Bool)
  | [], _ => []
  | name :: rest, i =>
    List.replicate (formal_argument_count h rho name)
        (i, if h.type_of_sexp (h.dyntrace_lookup_environment rho name) = DOTSXP then true
          else h.is_dots_symbol name) ++
      expected_formal_positions h rho rest (i + 1)

/-- Number of `enter_probe` calls in a sequence of public operations. -/
def count_enter_probes (ops : List PublicOp) : Nat := ops.countP (fun o => o.is_enter_probe)

/-- Host of scenario S6: the closure `20` has the single formal `...` (symbol
`31`), bound in every environment to the aggregate `50` of three elements, the
constants `61`, `62`, `63`. -/
def dots_host : Host :=
  { sample_host with
    type_of_sexp := fun x => if x = 50 then DOTSXP else if x = 20 then CLOSXP else 14
    dyntrace_lookup_environment := fun _ _ => 50
    FORMALS := fun _ => [31]
    DOTS := fun _ => [(0, 61), (0, 62), (0, 63)]
    is_dots_symbol := fun x => decide (x = 31) }

/-- Thunk memory in which thunk `0` is the argument at position `2` of call `1`
and thunk `1` the argument at position `0` of call `1`. -/
def forcing_heap : Heap := fun q =>
  if q = 0 then
    (sample_heap 0).add_argument ⟨1, 0, 2, false, false, 0⟩
  else if q = 1 then
    (sample_heap 1).add_argument ⟨1, 0, 0, false, false, 1⟩
  else sample_heap q

/-- State with a given stack over the thunk memory `forcing_heap`. -/
def forcing_state (stack : List ExecutionContext) : TracerState :=
  { fresh sample_host 0 with stack_ := stack, heap := forcing_heap }

/-! ### Definitions for the summaries, the counts and the registries -/

/-- Whether a public operation writes the object counts, the lifecycle summary,
the set of serialized functions, or a table other than the arguments table and
the lifecycle table. -/
def PublicOp.writes_summary_data : PublicOp → Bool
  | .cleanup _ => true
  | .increment_object_count _ => true
  | .remove_promise _ _ => true
  | .destroy_promise _ => true
  | .remove_function _ => true
  | .summarize_promise_lifecycle_ _ => true
  | _ => false

/-- Increment-or-append step of a tally, as the specification words
`add_summary` and `summarize`: the count of the entry under the key is
incremented, or an entry with count one is appended. -/
def tally_step {κ ν : Type} [DecidableEq κ] [Add ν] [One ν] (k : κ) :
    List (κ × ν) → List (κ × ν)
  | [] => [(k, 1)]
  | (a, n) :: rest => if a = k then (a, n + 1) :: rest else (a, n) :: tally_step k rest

/-- Tally of a sequence of keys, from the empty tally. -/
def tally {κ ν : Type} [DecidableEq κ] [Add ν] [One ν] (ks : List κ) : List (κ × ν) :=
  ks.foldl (fun acc k => tally_step k acc) []

/-- What `destroy_promise` summarizes and emits: the lifecycle summary, the
promises table and the escaped_arguments table. -/
def promise_output (s : TracerState) :
    List (lifecycle_t × Int) × List DenotedValue × List DenotedValue :=
  (s.lifecycle_summary_, s.promise_data_table_, s.escaped_argument_data_table_)

/-- Whether a public operation is a call of `summarize_promise_lifecycle_` from
outside `destroy_promise`. -/
def PublicOp.is_direct_summarize : PublicOp → Bool
  | .summarize_promise_lifecycle_ _ => true
  | _ => false

/-- Number of `destroy_promise` invocations a public operation makes on a
state: one for `destroy_promise` and for `remove_promise`, one per registered
thunk for `cleanup`. -/
def destroy_promise_invocations_of (s : TracerState) : PublicOp → Nat
  | .destroy_promise _ => 1
  | .remove_promise _ _ => 1
  | .cleanup _ => s.promises_.length
  | _ => 0

/-- Number of `destroy_promise` invocations made by a sequence of public
operations run from a state. -/
def destroy_promise_invocations (h : Host) : TracerState → List PublicOp → Nat
  | _, [] => 0
  | s, op :: rest =>
    destroy_promise_invocations_of s op + destroy_promise_invocations h (apply_op h s op) rest

/-- A run in which the promise `10` is registered and torn down twice, once by
`destroy_promise` and once by `remove_promise`. -/
def sample_promise_run : List PublicOp :=
  [.create_promise 10, .destroy_promise 0, .create_promise 10, .enter_probe 0,
    .remove_promise 10 1]

/-- The object type a public operation counts, when the operation is
`increment_object_count`. -/
def PublicOp.incremented_type : PublicOp → Option sexptype_t
  | .increment_object_count type => some type
  | _ => none

/-- Number of `increment_object_count(type)` calls in a sequence of public
operations. -/
def count_increments (ops : List PublicOp) (type : sexptype_t) : Nat :=
  ops.countP (fun o => o.incremented_type == some type)

/-- Number of `increment_object_count` calls in a sequence of public
operations. -/
def total_increments (ops : List PublicOp) : Nat :=
  ops.countP (fun o => o.incremented_type.isSome)

/-- Whether every `increment_object_count` of a sequence is given an object
type below `n`, the size of the table of counts. -/
def increments_in_range (n : Nat) (ops : List PublicOp) : Bool :=
  ops.all (fun o =>
    match o.incremented_type with
    | some type => decide (type < n)
    | none => true)

/-- A run that counts two objects of type `1` and one of type `3`, with other
operations in between. -/
def sample_count_run : List PublicOp :=
  [.increment_object_count 1, .create_promise 10, .increment_object_count 3,
    .increment_object_count 1, .enter_probe 0]

/-- The part of a public operation that writes the function registry: the
interning of the function by `create_call` and `lookup_function`, the summary
added by `destroy_call`, and the wrapper flag set by `update_wrapper_state`. -/
def apply_op_functions (h : Host) (s : TracerState) : PublicOp → TracerState
  | .create_call _ op _ _ => (lookup_function h s op).2
  | .destroy_call call => function_add_summary s call
  | .lookup_function op => (lookup_function h s op).2
  | .update_wrapper_state call => update_wrapper_state s call
  | _ => s

/-- Signature of a call: what `add_summary` keys the summaries of a function
by. -/
def call_signature (c : Call) : CallSummary :=
  ⟨c.force_order, c.missing_arguments, c.return_value_type⟩

/-- Signature columns of a row of the call_summary table. -/
def row_signature (r : CallSummaryRow) : CallSummary :=
  ⟨r.force_order, r.missing_arguments, r.return_value_type⟩

/-- The call a public operation destroys, when the operation is `destroy_call`
on a call of the function interned under `op`. -/
def PublicOp.destroyed_call_of (op : SEXP) : PublicOp → Option Call
  | .destroy_call call => if call.function = op then some call else none
  | _ => none

/-- The calls of the function interned under `op` that a sequence of public
operations destroys, in order. -/
def destroyed_calls (op : SEXP) (ops : List PublicOp) : List Call :=
  ops.filterMap (PublicOp.destroyed_call_of op)

/-- Whether a public operation tears down the function record interned under
`op`: `remove_function(op)` and `cleanup`. -/
def PublicOp.tears_down_function (op : SEXP) : PublicOp → Bool
  | .remove_function op2 => decide (op2 = op)
  | .cleanup _ => true
  | _ => false

/-- A run in which two calls of the closure `20` are destroyed. -/
def sample_call_run : List PublicOp :=
  [.destroy_call (sample_call 1 1), .enter_probe 0, .destroy_call (sample_call 2 1),
    .remove_function 21]

/-- Handle and env id of each record of the environment registry, in the order
of registration, together with the value of the env id counter. -/
def env_ids (s : TracerState) : List (SEXP × env_id_t) × env_id_t :=
  (s.environment_mapping_.map (fun e => (e.1, e.2.id)), s.environment_id_)

/-- Registered handles and counter after a reference to the handle `rho`: an
unregistered handle is appended with the value of the counter, which advances. -/
def env_register (v : List (SEXP × env_id_t) × env_id_t) (rho : SEXP) :
    List (SEXP × env_id_t) × env_id_t :=
  match v.1.lookup rho with
  | some _ => v
  | none => (v.1 ++ [(rho, v.2)], v.2 + 1)

/-- The registered handles are pairwise distinct, their env ids increase
strictly in the order of registration, and all are below the counter. -/
def env_ids_ordered (v : List (SEXP × env_id_t) × env_id_t) : Prop :=
  v.1.Pairwise (fun a b => a.1 ≠ b.1 ∧ a.2 < b.2) ∧ ∀ x ∈ v.1, x.2 < v.2

instance (v : List (SEXP × env_id_t) × env_id_t) : Decidable (env_ids_ordered v) := by
  unfold env_ids_ordered
  infer_instance

/-- A run that references the environments `3` (through the promise `10`), `7`
and `5`, removes `7`, and references `7` again. -/
def sample_environment_run : List PublicOp :=
  [.create_promise 10, .lookup_environment 7 true, .define_variable 5 30 true,
    .remove_environment 7, .lookup_variable 7 "x" false true, .lookup_environment 5 false]

/-- The thunk id counter and the variable id counter. -/
def id_counters (s : TracerState) : denoted_value_id_t × var_id_t :=
  (s.denoted_value_id_counter_, s.variable_id_)

/-! ### Definitions for the function definitions, call arguments and scope -/

/-- The call of the bottom-most call frame of a stack, the last one that the
loop of `set_scope_` meets. -/
def bottommost_call (l : List ExecutionContext) : Option Call :=
  (l.filterMap ExecutionContext.get_call).getLast?

/-- Host in which every function handle has the function id `7`. -/
def shared_id_host : Host :=
  { sample_host with function_id := fun _ => 7 }

/-- A run in which the handles `20` and `21`, of one function id, are interned,
`20` is removed and interned again, and the tracer is cleaned up. -/
def sample_function_run : List PublicOp :=
  [.lookup_function 20, .lookup_function 21, .remove_function 20, .lookup_function 20,
    .cleanup 0]

/-- Host in which the closure `20` has the formals `30`, bound to the promise
`10`, and `31`, bound to the `...` aggregate `50` of two elements. -/
def mixed_formals_host : Host :=
  { sample_host with
    type_of_sexp := fun x =>
      if x = 50 then DOTSXP else if x = 10 then PROMSXP else if x = 20 then CLOSXP else 14
    dyntrace_lookup_environment := fun _ name => if name = 31 then 50 else 10
    FORMALS := fun _ => [30, 31]
    DOTS := fun _ => [(0, 61), (0, 62)]
    is_dots_symbol := fun x => decide (x = 31) }

/-! ### Definitions for the order of the outputs of the teardown -/

/-- Kind of an output of the tracer: a row of one of the tables, a diagnostic on
the error channel, or a file. -/
inductive OutputKind where
  | promise
  | escaped_argument
  | argument
  | call_summary
  | function_definition
  | object_count
  | promise_lifecycle
  | diagnostic
  | file
  deriving DecidableEq, Repr

/-- An output of the tracer: a row written to a table, a diagnostic written to
the error channel, or a file written. -/
inductive Output where
  | promise_row (r : DenotedValue)
  | escaped_argument_row (r : DenotedValue)
  | argument_row (r : ArgumentRow)
  | call_summary_row (r : CallSummaryRow)
  | function_definition_row (r : FunctionDefinitionRow)
  | object_count_row (r : ObjectCountRow)
  | promise_lifecycle_row (r : PromiseLifecycleRow)
  | diagnostic (message : String)
  | file (path content : String)
  deriving DecidableEq, Repr

namespace Output

def kind : Output → OutputKind
  | promise_row _ => .promise
  | escaped_argument_row _ => .escaped_argument
  | argument_row _ => .argument
  | call_summary_row _ => .call_summary
  | function_definition_row _ => .function_definition
  | object_count_row _ => .object_count
  | promise_lifecycle_row _ => .promise_lifecycle
  | diagnostic _ => .diagnostic
  | file _ _ => .file

/-- Whether the output is a row of a table. -/
def is_row : Output → Bool
  | diagnostic _ => false
  | file _ _ => false
  | _ => true

def to_promise_row : Output → Option DenotedValue
  | promise_row r => some r
  | _ => none

def to_escaped_argument_row : Output → Option DenotedValue
  | escaped_argument_row r => some r
  | _ => none

def to_call_summary_row : Output → Option CallSummaryRow
  | call_summary_row r => some r
  | _ => none

def to_function_definition_row : Output → Option FunctionDefinitionRow
  | function_definition_row r => some r
  | _ => none

def to_object_count_row : Output → Option ObjectCountRow
  | object_count_row r => some r
  | _ => none

def to_promise_lifecycle_row : Output → Option PromiseLifecycleRow
  | promise_lifecycle_row r => some r
  | _ => none

end Output

/-- Outputs made by one statement, read off the states before and after it:
the rows appended to each table, the diagnostics appended to the error channel
and the files written, table by table in the order in which `destroy_promise`
and `destroy_function_` write to them. -/
def outputs_between (before after : TracerState) : List Output :=
  (after.promise_data_table_.drop before.promise_data_table_.length).map .promise_row ++
    (after.escaped_argument_data_table_.drop
      before.escaped_argument_data_table_.length).map .escaped_argument_row ++
    (after.argument_data_table_.drop before.argument_data_table_.length).map .argument_row ++
    (after.call_summary_data_table_.drop
      before.call_summary_data_table_.length).map .call_summary_row ++
    (after.function_definition_data_table_.drop
      before.function_definition_data_table_.length).map .function_definition_row ++
    (after.object_count_data_table_.drop
      before.object_count_data_table_.length).map .object_count_row ++
    (after.promise_lifecycle_data_table_.drop
      before.promise_lifecycle_data_table_.length).map .promise_lifecycle_row ++
    (after.error_log_.drop before.error_log_.length).map .diagnostic ++
    (after.files_.drop before.files_.length).map (fun f => .file f.1 f.2)

/-- Statements run one after the other: the state reached and the outputs of
the statements, in the order in which the statements made them. -/
def run_statements :
    List (TracerState → TracerState) → TracerState → TracerState × List Output
  | [], s => (s, [])
  | f :: rest, s =>
    ((run_statements rest (f s)).1, outputs_between s (f s) ++ (run_statements rest (f s)).2)

/-- The statements of `cleanup` that write rows and clear the registries, in the
order of the source: one `destroy_promise` per entry of the thunk registry,
`promises_.clear()`, one `destroy_function_` per entry of the function registry,
`functions_.clear()`, `serialize_object_count_` and
`serialize_promise_lifecycle_summary_`.  The registries are hash maps that the
source iterates in an order it does not fix: `ps` and `fs` are the entries in
the order of the iteration. -/
def cleanup_table_statements (ps : List (SEXP × denoted_value_id_t))
    (fs : List (SEXP × Function)) : List (TracerState → TracerState) :=
  ps.map (fun e st => destroy_promise st e.2) ++
    [fun st => { st with promises_ := [] }] ++
    fs.map (fun e st => destroy_function_ st e.2) ++
    [fun st => { st with functions_ := [] }, serialize_object_count_,
      serialize_promise_lifecycle_summary_]

/-- The statements of `cleanup(error)` in the order of the source: those that
write rows, the stack check, and the sentinel file. -/
def cleanup_statements (ps : List (SEXP × denoted_value_id_t)) (fs : List (SEXP × Function))
    (error : Int) : List (TracerState → TracerState) :=
  cleanup_table_statements ps fs ++ [cleanup_stack_check, fun st => cleanup_sentinel st error]

/-- State of a run that counts an object of type `1`, registers the thunks `10`
and `11` and the function `20`, destroys one call of that function, and leaves a
promise frame on the stack. -/
def sample_teardown_state : TracerState :=
  run_ops sample_host (fresh sample_host 3)
    [.increment_object_count 1, .create_promise 10, .create_promise 11, .lookup_function 20,
      .destroy_call (sample_call 1 1), .stack_push (.promise 0)]

/-! ## Thunk ownership: claims -/

/-- C1 (failing input): a thunk registered once and taken as argument by two
calls that are both live when the registry side destroys it.  `destroy_promise`
keeps it, as it is an argument; the `destroy_call` of the second call deletes
it although the first call, still live, holds it; the `destroy_call` of the
first call then reads the deleted object and deletes it a second time. -/
theorem shared_thunk_deleted_while_held :
    shared_thunk_created.1 = 0 ∧
      shared_first_call.1.arguments.map (fun a => a.denoted_value) = [0] ∧
      shared_second_call.1.arguments.map (fun a => a.denoted_value) = [0] ∧
      (shared_second_call.2.heap 0).argument_stack.map (fun a => a.call_id) =
        [shared_second_call.1.id, shared_first_call.1.id] ∧
      shared_after_destroy_promise.deleted 0 = 0 ∧
      (shared_after_destroy_promise.heap 0).active = false ∧
      (shared_after_destroy_promise.heap 0).is_argument = true ∧
      shared_after_second_destroy_call.deleted 0 = 1 ∧
      shared_after_first_destroy_call.deleted 0 = 2 := by
  decide

/-- C2: `destroy_promise(t)` clears the active flag of `t` and changes nothing
else of any thunk, so `is_argument` is as before; it deletes `t` exactly when
`t` is not an argument, and deletes no other thunk. -/
theorem destroy_promise_deletes_iff_not_argument (s : TracerState) (t : denoted_value_id_t) :
    (destroy_promise s t).heap = Function.update s.heap t (s.heap t).set_inactive ∧
      ((destroy_promise s t).heap t).active = false ∧
      ((destroy_promise s t).heap t).is_argument = (s.heap t).is_argument ∧
      (destroy_promise s t).deleted =
        (if (s.heap t).is_argument then s.deleted
          else Function.update s.deleted t (s.deleted t + 1)) ∧
      ((destroy_promise s t).deleted t = s.deleted t + 1 ↔ (s.heap t).is_argument = false) := by
  have hheap : (destroy_promise s t).heap = Function.update s.heap t (s.heap t).set_inactive := by
    simp only [destroy_promise, store, serialize_promise_, summarize_promise_lifecycle_,
      serialize_escaped_promise_, delete_]
    split <;> split <;> rfl
  have hdel : (destroy_promise s t).deleted =
      (if (s.heap t).is_argument then s.deleted
        else Function.update s.deleted t (s.deleted t + 1)) := by
    simp only [destroy_promise, store, serialize_promise_, summarize_promise_lifecycle_,
      serialize_escaped_promise_, delete_, Function.update_same]
    have e : ((s.heap t).set_inactive).is_argument = (s.heap t).is_argument := rfl
    by_cases ha : (s.heap t).is_argument = true
    · split <;> simp [e, ha]
    · split <;> simp [e, ha]
  refine ⟨hheap, ?_, ?_, hdel, ?_⟩
  · rw [hheap]; simp [DenotedValue.set_inactive]
  · rw [hheap]; simp [DenotedValue.set_inactive, DenotedValue.is_argument]
  · rw [hdel]
    by_cases ha : (s.heap t).is_argument = true
    · simp [ha]
    · simp [ha]

/-- The tear-down of `i + 1` arguments is the tear-down of `i` arguments followed
by the loop body on argument `i`. -/
theorem destroy_call_upto_succ (s : TracerState) (call : Call) (i : Nat)
    (hi : i < call.arguments.length) :
    destroy_call_upto s call (i + 1) =
      destroy_argument call (destroy_call_upto s call i) (call.arguments.get ⟨i, hi⟩) := by
  unfold destroy_call_upto
  rw [List.take_succ, List.foldl_append]
  simp [List.getElem?_eq_getElem hi]

/-- Rows written by the loop of `destroy_call`. -/
theorem destroy_argument_foldl_rows (call : Call) (args : List Argument) :
    ∀ s : TracerState, ∃ rows : List ArgumentRow,
      (args.foldl (destroy_argument call) s).argument_data_table_ =
          s.argument_data_table_ ++ rows ∧
        rows.map (fun r => (r.call_id, r.function_id, r.formal_parameter_position,
            r.actual_argument_position, r.default_argument, r.dot_dot_dot)) =
          args.map (fun a => (call.id, call.function_id, a.formal_parameter_position,
            a.actual_argument_position, a.default_argument, a.dot_dot_dot)) := by
  induction args with
  | nil => intro s; exact ⟨[], by simp, rfl⟩
  | cons a tl ih =>
    intro s
    obtain ⟨rows, h1, h2⟩ := ih (destroy_argument call s a)
    have hrow : ∃ r : ArgumentRow,
        (destroy_argument call s a).argument_data_table_ = s.argument_data_table_ ++ [r] ∧
        (r.call_id, r.function_id, r.formal_parameter_position, r.actual_argument_position,
            r.default_argument, r.dot_dot_dot) =
          (call.id, call.function_id, a.formal_parameter_position,
            a.actual_argument_position, a.default_argument, a.dot_dot_dot) := by
      simp only [destroy_argument, serialize_argument_, delete_, store]
      split <;> exact ⟨_, rfl, rfl⟩
    obtain ⟨r, hr1, hr2⟩ := hrow
    refine ⟨r :: rows, ?_, ?_⟩
    · rw [List.foldl_cons, h1, hr1]; simp
    · simp [h2, hr2]

/-- C3: `destroy_call(c)` appends exactly one row per argument of `c` to the
arguments table, in argument order; it is the argument loop run to its end,
and in the step for argument `i`, with `v` the thunk of that argument as it is
at that moment: `v` is deleted exactly when it is not active, and nothing is
stored; otherwise nothing is deleted and `v` is stored back without its link
to that argument and with the call's id, function id, return value type and
formal parameter count as previous-call metadata. -/
theorem destroy_call_tears_down_arguments (s : TracerState) (call : Call) :
    (∃ rows : List ArgumentRow,
        (destroy_call s call).argument_data_table_ = s.argument_data_table_ ++ rows ∧
          rows.length = call.arguments.length ∧
          rows.map (fun r => (r.call_id, r.function_id, r.formal_parameter_position,
              r.actual_argument_position, r.default_argument, r.dot_dot_dot)) =
            call.arguments.map (fun a => (call.id, call.function_id,
              a.formal_parameter_position, a.actual_argument_position, a.default_argument,
              a.dot_dot_dot))) ∧
      destroy_call s call = destroy_call_upto s call call.arguments.length ∧
      (∀ (i : Nat) (hi : i < call.arguments.length),
        (destroy_call_upto s call (i + 1)).deleted =
            (if ((destroy_call_upto s call i).heap
                (call.arguments.get ⟨i, hi⟩).denoted_value).active then
              (destroy_call_upto s call i).deleted
            else
              Function.update (destroy_call_upto s call i).deleted
                (call.arguments.get ⟨i, hi⟩).denoted_value
                ((destroy_call_upto s call i).deleted
                  (call.arguments.get ⟨i, hi⟩).denoted_value + 1)) ∧
          (destroy_call_upto s call (i + 1)).heap =
            (if ((destroy_call_upto s call i).heap
                (call.arguments.get ⟨i, hi⟩).denoted_value).active then
              Function.update (destroy_call_upto s call i).heap
                (call.arguments.get ⟨i, hi⟩).denoted_value
                { (destroy_call_upto s call i).heap
                    (call.arguments.get ⟨i, hi⟩).denoted_value with
                  argument_stack :=
                    ((destroy_call_upto s call i).heap
                      (call.arguments.get ⟨i, hi⟩).denoted_value).argument_stack.erase
                      (call.arguments.get ⟨i, hi⟩)
                  previous_call_id := call.id
                  previous_function_id := call.function_id
                  previous_call_return_value_type := call.return_value_type
                  previous_formal_parameter_count := call.formal_parameter_count
                  previous_formal_parameter_position :=
                    (call.arguments.get ⟨i, hi⟩).formal_parameter_position
                  previous_actual_argument_position :=
                    (call.arguments.get ⟨i, hi⟩).actual_argument_position
                  previous_default_argument := (call.arguments.get ⟨i, hi⟩).default_argument }
            else (destroy_call_upto s call i).heap)) := by
  refine ⟨?_, ?_, ?_⟩
  · obtain ⟨rows, h1, h2⟩ :=
      destroy_argument_foldl_rows call call.arguments (function_add_summary s call)
    refine ⟨rows, h1, ?_, h2⟩
    simpa using congrArg List.length h2
  · simp [destroy_call, destroy_call_upto]
  · intro i hi
    rw [destroy_call_upto_succ s call i hi]
    generalize call.arguments.get ⟨i, hi⟩ = a
    generalize destroy_call_upto s call i = si
    simp only [destroy_argument, serialize_argument_, delete_, store,
      DenotedValue.remove_argument]
    by_cases ha : (si.heap a.denoted_value).active = true
    · simp [ha]
    · simp [ha]

/-! ## Helper lemmas on the attribution walks -/

@[simp] theorem WalkResult.after_events (e : ScopeEvent) (r : WalkResult) :
    (r.after e).events = e :: r.events := rfl
@[simp] theorem WalkResult.after_heap (e : ScopeEvent) (r : WalkResult) :
    (r.after e).heap = r.heap := rfl
@[simp] theorem WalkResult.after_direct (e : ScopeEvent) (r : WalkResult) :
    (r.after e).direct = r.direct := rfl
@[simp] theorem WalkResult.after_returned (e : ScopeEvent) (r : WalkResult) :
    (r.after e).returned = r.returned := rfl
@[simp] theorem WalkResult.prepend_events (evs : List ScopeEvent) (r : WalkResult) :
    (r.prepend evs).events = evs ++ r.events := rfl
@[simp] theorem WalkResult.prepend_heap (evs : List ScopeEvent) (r : WalkResult) :
    (r.prepend evs).heap = r.heap := rfl
@[simp] theorem WalkResult.prepend_direct (evs : List ScopeEvent) (r : WalkResult) :
    (r.prepend evs).direct = r.direct := rfl
@[simp] theorem WalkResult.prepend_returned (evs : List ScopeEvent) (r : WalkResult) :
    (r.prepend evs).returned = r.returned := rfl

theorem WalkResult.prepend_nil (r : WalkResult) : r.prepend [] = r := rfl

theorem WalkResult.after_prepend (e : ScopeEvent) (evs : List ScopeEvent) (r : WalkResult) :
    (r.prepend evs).after e = r.prepend (e :: evs) := rfl

/-- The creators walk is the specification walk with the test `>` and the
mutation recorders. -/
theorem creators_loop_eq_scope_walk (h : Host) (var : Variable) (env : SEXP)
    (l : List ExecutionContext) :
    ∀ (i : Nat) (d : Bool) (heap : Heap),
      creators_loop h var env i l d heap =
        scope_walk_loop h (fun c m => decide (c > m)) DenotedValue.set_scope_mutation var env
          i l d heap := by
  induction l with
  | nil => intro i d heap; simp [creators_loop, scope_walk_loop]
  | cons c rest ih =>
    intro i d heap
    cases c <;> simp [creators_loop, scope_walk_loop, ih]

/-- The observers loop is the specification walk with the test `<` and the
observation recorders. -/
theorem observers_loop_eq_scope_walk (h : Host) (var : Variable) (env : SEXP)
    (l : List ExecutionContext) :
    ∀ (i : Nat) (d : Bool) (heap : Heap),
      observers_loop h var env i l d heap =
        scope_walk_loop h (fun c m => decide (c < m)) DenotedValue.set_scope_observation var
          env i l d heap := by
  induction l with
  | nil => intro i d heap; simp [observers_loop, scope_walk_loop]
  | cons c rest ih =>
    intro i d heap
    cases c <;> simp [observers_loop, scope_walk_loop, ih]

section generic

variable (h : Host) (test : timestamp_t → timestamp_t → Bool)
  (record : DenotedValue → ScopeKind → Bool → DenotedValue) (var : Variable) (env : SEXP)

/-- One step of the walk at a promise frame, by scope class. -/
theorem scope_walk_loop_promise (i : Nat) (p : denoted_value_id_t)
    (rest : List ExecutionContext) (d : Bool) (heap : Heap) :
    scope_walk_loop h test record var env i (.promise p :: rest) d heap =
      match scope_class h test var env (heap p) with
      | none => scope_walk_loop h test record var env (i + 1) rest d heap
      | some .self =>
        ⟨Function.update heap p (record (heap p) .self d), [⟨i, p, .self, d⟩], false, true⟩
      | some k =>
        (scope_walk_loop h test record var env (i + 1) rest false
          (Function.update heap p (record (heap p) k d))).after ⟨i, p, k, d⟩ := by
  by_cases he : (heap p).environment = env
  · by_cases ht : test (heap p).creation_timestamp var.modification_timestamp = true
    · simp [scope_walk_loop, scope_class, he, ht]
    · simp [scope_walk_loop, scope_class, he, ht]
  · by_cases hp : is_parent_environment h env (heap p).environment = true
    · simp [scope_walk_loop, scope_class, he, hp]
    · simp [scope_walk_loop, scope_class, he, hp]

/-- A walk over `above ++ rest` is the walk over `above`, continued over `rest`
unless it returned. -/
theorem scope_walk_loop_append (above rest : List ExecutionContext) :
    ∀ (i : Nat) (d : Bool) (heap : Heap),
      scope_walk_loop h test record var env i (above ++ rest) d heap =
        if (scope_walk_loop h test record var env i above d heap).returned then
          scope_walk_loop h test record var env i above d heap
        else
          (scope_walk_loop h test record var env (i + above.length) rest
            (scope_walk_loop h test record var env i above d heap).direct
            (scope_walk_loop h test record var env i above d heap).heap).prepend
            (scope_walk_loop h test record var env i above d heap).events := by
  induction above with
  | nil => intro i d heap; simp [scope_walk_loop, WalkResult.prepend_nil]
  | cons c tl ih =>
    intro i d heap
    have hlen : i + (tl.length + 1) = i + 1 + tl.length := by omega
    cases c with
    | closure call =>
      by_cases hc : call.environment = env
      · simp [scope_walk_loop, hc]
      · simp [scope_walk_loop, hc, ih, hlen]
    | builtin call => simp [scope_walk_loop, ih, hlen]
    | special call => simp [scope_walk_loop, ih, hlen]
    | promise p =>
      rw [List.cons_append, scope_walk_loop_promise, scope_walk_loop_promise]
      cases hk : scope_class h test var env (heap p) with
      | none => simp [ih, hlen]
      | some k =>
        cases k with
        | self => simp
        | lexical =>
          simp only [ih, List.length_cons, hlen, WalkResult.after_returned,
            WalkResult.after_direct, WalkResult.after_heap, WalkResult.after_events]
          split <;> rfl
        | non_lexical =>
          simp only [ih, List.length_cons, hlen, WalkResult.after_returned,
            WalkResult.after_direct, WalkResult.after_heap, WalkResult.after_events]
          split <;> rfl

/-- Every recorder call of a walk is made at a promise frame of the walked
list, on the thunk of that frame. -/
theorem scope_walk_loop_frames (l : List ExecutionContext) :
    ∀ (i : Nat) (d : Bool) (heap : Heap),
      ∀ e ∈ (scope_walk_loop h test record var env i l d heap).events,
        i ≤ e.frame ∧ l[e.frame - i]? = some (.promise e.promise) := by
  induction l with
  | nil => intro i d heap e he; simp [scope_walk_loop] at he
  | cons c tl ih =>
    intro i d heap e he
    have shift : ∀ e : ScopeEvent, i + 1 ≤ e.frame →
        tl[e.frame - (i + 1)]? = some (.promise e.promise) →
        i ≤ e.frame ∧ (c :: tl)[e.frame - i]? = some (.promise e.promise) := by
      intro e h1 h2
      have : e.frame - i = (e.frame - (i + 1)) + 1 := by omega
      rw [this]
      exact ⟨by omega, by simpa using h2⟩
    cases c with
    | closure call =>
      by_cases hc : call.environment = env
      · simp [scope_walk_loop, hc] at he
      · simp only [scope_walk_loop, hc, if_false] at he
        exact shift e (ih _ _ _ e he).1 (ih _ _ _ e he).2
    | builtin call =>
      simp only [scope_walk_loop] at he
      exact shift e (ih _ _ _ e he).1 (ih _ _ _ e he).2
    | special call =>
      simp only [scope_walk_loop] at he
      exact shift e (ih _ _ _ e he).1 (ih _ _ _ e he).2
    | promise p =>
      rw [scope_walk_loop_promise] at he
      cases hk : scope_class h test var env (heap p) with
      | none =>
        simp only [hk] at he
        exact shift e (ih _ _ _ e he).1 (ih _ _ _ e he).2
      | some k =>
        cases k with
        | self =>
          simp only [hk, List.mem_singleton] at he
          subst he
          simp
        | lexical =>
          simp only [hk, WalkResult.after_events, List.mem_cons] at he
          rcases he with he | he
          · subst he; simp
          · exact shift e (ih _ _ _ e he).1 (ih _ _ _ e he).2
        | non_lexical =>
          simp only [hk, WalkResult.after_events, List.mem_cons] at he
          rcases he with he | he
          · subst he; simp
          · exact shift e (ih _ _ _ e he).1 (ih _ _ _ e he).2

/-- The recorder calls of a walk are made at strictly descending frames. -/
theorem scope_walk_loop_sorted (l : List ExecutionContext) :
    ∀ (i : Nat) (d : Bool) (heap : Heap),
      (scope_walk_loop h test record var env i l d heap).events.Pairwise
        (fun a b => a.frame < b.frame) := by
  induction l with
  | nil => intro i d heap; simp [scope_walk_loop]
  | cons c tl ih =>
    intro i d heap
    cases c with
    | closure call =>
      by_cases hc : call.environment = env
      · simp [scope_walk_loop, hc]
      · simpa [scope_walk_loop, hc] using ih _ _ _
    | builtin call => simpa [scope_walk_loop] using ih _ _ _
    | special call => simpa [scope_walk_loop] using ih _ _ _
    | promise p =>
      rw [scope_walk_loop_promise]
      cases hk : scope_class h test var env (heap p) with
      | none => simpa using ih _ _ _
      | some k =>
        have key : ∀ (k : ScopeKind) (hp : Heap),
            (({ frame := i, promise := p, kind := k, direct := d } : ScopeEvent) ::
              (scope_walk_loop h test record var env (i + 1) tl false hp).events).Pairwise
              (fun a b => a.frame < b.frame) := by
          intro k hp
          refine List.pairwise_cons.mpr ⟨?_, ih _ _ _⟩
          intro b hb
          have := (scope_walk_loop_frames h test record var env tl (i + 1) false hp b hb).1
          show i < b.frame
          omega
        cases k with
        | self => simp
        | lexical => simpa using key .lexical _
        | non_lexical => simpa using key .non_lexical _

/-- The first recorder call of a walk carries the initial latch, every later
one carries `false`. -/
theorem scope_walk_loop_direct (l : List ExecutionContext) :
    ∀ (i : Nat) (d : Bool) (heap : Heap) (k : Nat) (e : ScopeEvent),
      (scope_walk_loop h test record var env i l d heap).events[k]? = some e →
        e.direct = (d && decide (k = 0)) := by
  induction l with
  | nil => intro i d heap k e he; simp [scope_walk_loop] at he
  | cons c tl ih =>
    intro i d heap k e he
    have key : ∀ (p : denoted_value_id_t) (kd : ScopeKind) (hp : Heap),
        (({ frame := i, promise := p, kind := kd, direct := d } : ScopeEvent) ::
          (scope_walk_loop h test record var env (i + 1) tl false hp).events)[k]? = some e →
        e.direct = (d && decide (k = 0)) := by
      intro p kd hp hke
      cases k with
      | zero => simp at hke; subst hke; simp
      | succ n =>
        simp only [List.getElem?_cons_succ] at hke
        simpa using ih _ _ _ _ _ hke
    cases c with
    | closure call =>
      by_cases hc : call.environment = env
      · simp [scope_walk_loop, hc] at he
      · simp only [scope_walk_loop, hc, if_false] at he
        exact ih _ _ _ _ _ he
    | builtin call => simp only [scope_walk_loop] at he; exact ih _ _ _ _ _ he
    | special call => simp only [scope_walk_loop] at he; exact ih _ _ _ _ _ he
    | promise p =>
      rw [scope_walk_loop_promise] at he
      cases hk : scope_class h test var env (heap p) with
      | none => simp only [hk] at he; exact ih _ _ _ _ _ he
      | some kd =>
        cases kd with
        | self =>
          simp only [hk] at he
          cases k with
          | zero => simp at he; subst he; simp
          | succ n => simp at he
        | lexical => simp only [hk, WalkResult.after_events] at he; exact key _ _ _ he
        | non_lexical => simp only [hk, WalkResult.after_events] at he; exact key _ _ _ he

/-- The latch at the end of a walk is still set exactly when it was set at the
start and no recorder call was made. -/
theorem scope_walk_loop_latch (l : List ExecutionContext) :
    ∀ (i : Nat) (d : Bool) (heap : Heap),
      (scope_walk_loop h test record var env i l d heap).direct =
        (d && (scope_walk_loop h test record var env i l d heap).events.isEmpty) := by
  induction l with
  | nil => intro i d heap; simp [scope_walk_loop]
  | cons c tl ih =>
    intro i d heap
    cases c with
    | closure call =>
      by_cases hc : call.environment = env
      · simp [scope_walk_loop, hc]
      · simpa [scope_walk_loop, hc] using ih _ _ _
    | builtin call => simpa [scope_walk_loop] using ih _ _ _
    | special call => simpa [scope_walk_loop] using ih _ _ _
    | promise p =>
      rw [scope_walk_loop_promise]
      cases hk : scope_class h test var env (heap p) with
      | none => simpa using ih _ _ _
      | some k =>
        cases k with
        | self => simp
        | lexical => simpa using ih (i + 1) false _
        | non_lexical => simpa using ih (i + 1) false _

/-- The thunk memory after a walk is the memory before it with the recorder
calls applied in order. -/
theorem scope_walk_loop_heap (l : List ExecutionContext) :
    ∀ (i : Nat) (d : Bool) (heap : Heap),
      (scope_walk_loop h test record var env i l d heap).heap =
        (scope_walk_loop h test record var env i l d heap).events.foldl (apply_event record)
          heap := by
  induction l with
  | nil => intro i d heap; simp [scope_walk_loop]
  | cons c tl ih =>
    intro i d heap
    cases c with
    | closure call =>
      by_cases hc : call.environment = env
      · simp [scope_walk_loop, hc]
      · simpa [scope_walk_loop, hc] using ih _ _ _
    | builtin call => simpa [scope_walk_loop] using ih _ _ _
    | special call => simpa [scope_walk_loop] using ih _ _ _
    | promise p =>
      rw [scope_walk_loop_promise]
      cases hk : scope_class h test var env (heap p) with
      | none => simpa using ih _ _ _
      | some k =>
        cases k with
        | self => simp [apply_event]
        | lexical => simpa [apply_event] using ih (i + 1) false _
        | non_lexical => simpa [apply_event] using ih (i + 1) false _

/-- A list of contexts without promise frames yields no recorder call. -/
theorem scope_walk_loop_no_promise (l : List ExecutionContext) (hl : count_promises l = 0)
    (i : Nat) (d : Bool) (heap : Heap) :
    (scope_walk_loop h test record var env i l d heap).events = [] := by
  rcases hev : (scope_walk_loop h test record var env i l d heap).events with _ | ⟨e, tl⟩
  · rfl
  · have hmem : e ∈ (scope_walk_loop h test record var env i l d heap).events := by
      rw [hev]; exact List.mem_cons_self _ _
    have hf := (scope_walk_loop_frames h test record var env l i d heap e hmem).2
    have hin : ExecutionContext.promise e.promise ∈ l := List.getElem?_mem hf
    have hpos : 0 < count_promises l :=
      List.countP_pos_iff.mpr ⟨_, hin, by simp [ExecutionContext.is_promise]⟩
    omega

/-- Frames, stops and tags of a walk do not depend on the recorder, as long as
recorders leave the environment and the creation timestamp of a thunk alone. -/
theorem scope_walk_loop_congr (record2 : DenotedValue → ScopeKind → Bool → DenotedValue)
    (h1 : ∀ v k d, (record v k d).environment = v.environment ∧
      (record v k d).creation_timestamp = v.creation_timestamp)
    (h2 : ∀ v k d, (record2 v k d).environment = v.environment ∧
      (record2 v k d).creation_timestamp = v.creation_timestamp)
    (l : List ExecutionContext) :
    ∀ (i : Nat) (d : Bool) (heap heap2 : Heap),
      (∀ q, (heap q).environment = (heap2 q).environment ∧
        (heap q).creation_timestamp = (heap2 q).creation_timestamp) →
      (scope_walk_loop h test record var env i l d heap).events =
        (scope_walk_loop h test record2 var env i l d heap2).events ∧
      (scope_walk_loop h test record var env i l d heap).direct =
        (scope_walk_loop h test record2 var env i l d heap2).direct ∧
      (scope_walk_loop h test record var env i l d heap).returned =
        (scope_walk_loop h test record2 var env i l d heap2).returned := by
  induction l with
  | nil => intro i d heap heap2 _; simp [scope_walk_loop]
  | cons c tl ih =>
    intro i d heap heap2 hq
    cases c with
    | closure call =>
      by_cases hc : call.environment = env
      · simp [scope_walk_loop, hc]
      · simpa [scope_walk_loop, hc] using ih _ _ _ _ hq
    | builtin call => simpa [scope_walk_loop] using ih _ _ _ _ hq
    | special call => simpa [scope_walk_loop] using ih _ _ _ _ hq
    | promise p =>
      rw [scope_walk_loop_promise, scope_walk_loop_promise]
      have hsc : scope_class h test var env (heap p) = scope_class h test var env (heap2 p) := by
        simp [scope_class, (hq p).1, (hq p).2]
      have hupd : ∀ k, ∀ q,
          (Function.update heap p (record (heap p) k d) q).environment =
            (Function.update heap2 p (record2 (heap2 p) k d) q).environment ∧
          (Function.update heap p (record (heap p) k d) q).creation_timestamp =
            (Function.update heap2 p (record2 (heap2 p) k d) q).creation_timestamp := by
        intro k q
        by_cases hqp : q = p
        · subst hqp
          simp [h1, h2, hq q]
        · simp [Function.update_noteq hqp, hq q]
      rw [← hsc]
      cases hk : scope_class h test var env (heap p) with
      | none => simpa using ih _ _ _ _ hq
      | some k =>
        cases k with
        | self => simp
        | lexical => simpa using ih (i + 1) false _ _ (hupd .lexical)
        | non_lexical => simpa using ih (i + 1) false _ _ (hupd .non_lexical)

/-- A walk leaves the environment and the creation timestamp of every thunk
alone when the recorder does. -/
theorem scope_walk_loop_preserves
    (h1 : ∀ v k d, (record v k d).environment = v.environment ∧
      (record v k d).creation_timestamp = v.creation_timestamp)
    (l : List ExecutionContext) (i : Nat) (d : Bool) (heap : Heap) (q : denoted_value_id_t) :
    ((scope_walk_loop h test record var env i l d heap).heap q).environment =
        (heap q).environment ∧
      ((scope_walk_loop h test record var env i l d heap).heap q).creation_timestamp =
        (heap q).creation_timestamp := by
  rw [scope_walk_loop_heap]
  generalize (scope_walk_loop h test record var env i l d heap).events = evs
  induction evs generalizing heap with
  | nil => simp
  | cons e tl ih =>
    rw [List.foldl_cons]
    have := ih (apply_event record heap e)
    by_cases hqe : q = e.promise
    · subst hqe
      simpa [apply_event, h1] using this
    · simpa [apply_event, Function.update_noteq hqe] using this

end generic

/-! ## Helper lemmas on the two walks of the source -/

theorem set_scope_mutation_preserves (v : DenotedValue) (k : ScopeKind) (d : Bool) :
    (v.set_scope_mutation k d).environment = v.environment ∧
      (v.set_scope_mutation k d).creation_timestamp = v.creation_timestamp := by
  unfold DenotedValue.set_scope_mutation
  split <;> exact ⟨rfl, rfl⟩

theorem set_scope_observation_preserves (v : DenotedValue) (k : ScopeKind) (d : Bool) :
    (v.set_scope_observation k d).environment = v.environment ∧
      (v.set_scope_observation k d).creation_timestamp = v.creation_timestamp := by
  unfold DenotedValue.set_scope_observation
  split <;> exact ⟨rfl, rfl⟩

/-- Properties of the recorder calls of a specification walk from the top of
the stack with the latch set. -/
theorem scope_walk_events_spec (h : Host) (test : timestamp_t → timestamp_t → Bool)
    (record : DenotedValue → ScopeKind → Bool → DenotedValue) (var : Variable) (env : SEXP)
    (l : List ExecutionContext) (heap : Heap) :
    (∀ e ∈ (scope_walk_loop h test record var env 0 l true heap).events,
        l[e.frame]? = some (.promise e.promise)) ∧
      (scope_walk_loop h test record var env 0 l true heap).events.Pairwise
        (fun a b => a.frame < b.frame) ∧
      (∀ k e, (scope_walk_loop h test record var env 0 l true heap).events[k]? = some e →
        e.direct = decide (k = 0)) := by
  refine ⟨?_, scope_walk_loop_sorted h test record var env l 0 true heap, ?_⟩
  · intro e he
    simpa using (scope_walk_loop_frames h test record var env l 0 true heap e he).2
  · intro k e he
    simpa using scope_walk_loop_direct h test record var env l 0 true heap k e he

/-- The creators walk over a stack that has a promise frame `p` below the
frames `above`, when the walk of `above` does not return. -/
theorem creators_walk_at_promise (h : Host) (s : TracerState) (var : Variable) (env : SEXP)
    (above below : List ExecutionContext) (p : denoted_value_id_t)
    (hs : s.stack_ = above ++ .promise p :: below)
    (hv : (creators_loop h var env 0 above true s.heap).returned = false) :
    creators_walk h s var env =
      match scope_class h (fun c m => decide (c > m)) var env (s.heap p) with
      | none =>
        (creators_loop h var env (above.length + 1) below
          (creators_loop h var env 0 above true s.heap).direct
          (creators_loop h var env 0 above true s.heap).heap).prepend
          (creators_loop h var env 0 above true s.heap).events
      | some .self =>
        ⟨Function.update (creators_loop h var env 0 above true s.heap).heap p
            (((creators_loop h var env 0 above true s.heap).heap p).set_scope_mutation .self
              (creators_loop h var env 0 above true s.heap).direct),
          (creators_loop h var env 0 above true s.heap).events ++
            [⟨above.length, p, .self, (creators_loop h var env 0 above true s.heap).direct⟩],
          false, true⟩
      | some k =>
        (creators_loop h var env (above.length + 1) below false
          (Function.update (creators_loop h var env 0 above true s.heap).heap p
            (((creators_loop h var env 0 above true s.heap).heap p).set_scope_mutation k
              (creators_loop h var env 0 above true s.heap).direct))).prepend
          ((creators_loop h var env 0 above true s.heap).events ++
            [⟨above.length, p, k, (creators_loop h var env 0 above true s.heap).direct⟩]) := by
  have hsc : scope_class h (fun c m => decide (c > m)) var env
      ((creators_loop h var env 0 above true s.heap).heap p) =
      scope_class h (fun c m => decide (c > m)) var env (s.heap p) := by
    have := scope_walk_loop_preserves h (fun c m => decide (c > m))
      DenotedValue.set_scope_mutation var env set_scope_mutation_preserves above 0 true s.heap p
    rw [creators_loop_eq_scope_walk]
    simp only [scope_class, this.1, this.2]
  simp only [creators_loop_eq_scope_walk] at hv hsc ⊢
  unfold creators_walk
  rw [hs, creators_loop_eq_scope_walk, scope_walk_loop_append, hv]
  simp only [Bool.false_eq_true, if_false, Nat.zero_add]
  rw [scope_walk_loop_promise, hsc]
  cases hk : scope_class h (fun c m => decide (c > m)) var env (s.heap p) with
  | none => rfl
  | some k =>
    cases k with
    | self => simp [WalkResult.prepend]
    | lexical => simp [WalkResult.prepend, WalkResult.after]
    | non_lexical => simp [WalkResult.prepend, WalkResult.after]

/-- At most one of a list of recorder calls is tagged direct when only the
first one may be. -/
theorem direct_filter_length_le_one (evs : List ScopeEvent)
    (hd : ∀ k e, evs[k]? = some e → e.direct = decide (k = 0)) :
    (evs.filter (fun e => e.direct)).length ≤ 1 := by
  cases evs with
  | nil => simp
  | cons e tl =>
    have htl : tl.filter (fun e => e.direct) = [] := by
      rw [List.filter_eq_nil_iff]
      intro x hx
      obtain ⟨n, hn⟩ := List.mem_iff_getElem?.mp hx
      have := hd (n + 1) x (by simpa using hn)
      simpa using this
    rw [List.filter_cons]
    split <;> simp [htl]

/-! ## Attribution engine: claims -/

/-- C4: in one invocation of `identify_side_effect_creators`, and likewise of
`identify_side_effect_observers`, the counter increments are made at promise
frames of the stack, at strictly descending frames; at most one increment is
tagged direct, namely the first one, which is the one at the topmost promise
frame receiving an increment, and every other increment is tagged indirect; the
thunk counters change by exactly these increments. -/
theorem direct_tag_only_on_topmost_increment (h : Host) (s : TracerState) (var : Variable)
    (env : SEXP) :
    ((∀ e ∈ (creators_walk h s var env).events,
          s.stack_[e.frame]? = some (.promise e.promise)) ∧
        (creators_walk h s var env).events.Pairwise (fun a b => a.frame < b.frame) ∧
        (∀ k e, (creators_walk h s var env).events[k]? = some e → e.direct = decide (k = 0)) ∧
        ((creators_walk h s var env).events.filter (fun e => e.direct)).length ≤ 1 ∧
        (identify_side_effect_creators h s var env).heap =
          (creators_walk h s var env).events.foldl
            (apply_event DenotedValue.set_scope_mutation) s.heap) ∧
      ((∀ e ∈ (observers_walk h s var env).events,
          s.stack_[e.frame]? = some (.promise e.promise)) ∧
        (observers_walk h s var env).events.Pairwise (fun a b => a.frame < b.frame) ∧
        (∀ k e, (observers_walk h s var env).events[k]? = some e → e.direct = decide (k = 0)) ∧
        ((observers_walk h s var env).events.filter (fun e => e.direct)).length ≤ 1 ∧
        (identify_side_effect_observers h s var env).heap =
          (observers_walk h s var env).events.foldl
            (apply_event DenotedValue.set_scope_observation) s.heap) := by
  constructor
  · have hspec := scope_walk_events_spec h (fun c m => decide (c > m))
      DenotedValue.set_scope_mutation var env s.stack_ s.heap
    have hheap := scope_walk_loop_heap h (fun c m => decide (c > m))
      DenotedValue.set_scope_mutation var env s.stack_ 0 true s.heap
    simp only [← creators_loop_eq_scope_walk] at hspec hheap
    exact ⟨hspec.1, hspec.2.1, hspec.2.2, direct_filter_length_le_one _ hspec.2.2, hheap⟩
  · by_cases hu : timestamp_is_undefined h var.modification_timestamp = true
    · simp [identify_side_effect_observers, observers_walk, hu]
    · have hspec := scope_walk_events_spec h (fun c m => decide (c < m))
        DenotedValue.set_scope_observation var env s.stack_ s.heap
      have hheap := scope_walk_loop_heap h (fun c m => decide (c < m))
        DenotedValue.set_scope_observation var env s.stack_ 0 true s.heap
      simp only [← observers_loop_eq_scope_walk] at hspec hheap
      have hw : observers_walk h s var env = observers_loop h var env 0 s.stack_ true s.heap := by
        simp [observers_walk, hu]
      simp only [identify_side_effect_observers, hw]
      exact ⟨hspec.1, hspec.2.1, hspec.2.2, direct_filter_length_le_one _ hspec.2.2, hheap⟩

/-- C5 (counterexample): a promise frame whose environment is the written
environment and whose thunk was created at time `1`, not after the variable's
modification time `3`, is visited by the creators walk and gets no
classification at all; in particular no non-lexical one. -/
theorem same_environment_older_thunk_unclassified :
    (sample_heap 1).environment = 2 ∧
      (sample_heap 1).creation_timestamp ≤ (sample_variable 3).modification_timestamp ∧
      (creators_walk sample_host (sample_state [.promise 1]) (sample_variable 3) 2).events = [] ∧
      (identify_side_effect_creators sample_host (sample_state [.promise 1])
        (sample_variable 3) 2).heap 1 = sample_heap 1 := by
  decide

/-- C5 (amended): for a promise frame `p` that the walk of
`identify_side_effect_creators(v, E)` visits, the classification recorded at
that frame is: self-scope when `Ep == E` and `p.creation_ts > v.modification_ts`
(and the walk returns); none when `Ep == E` and `p.creation_ts <=
v.modification_ts` (the walk continues with the latch unchanged); lexical-scope
when `Ep != E` and `E` is a lexical ancestor of `Ep`; non-lexical-scope when
`Ep != E` and `E` is not a lexical ancestor of `Ep`; in the lexical and
non-lexical cases the walk continues below with the latch cleared.  Exactly the
classified frames get one increment, the unclassified one gets none. -/
theorem creators_classification (h : Host) (s : TracerState) (var : Variable) (env : SEXP)
    (above below : List ExecutionContext) (p : denoted_value_id_t)
    (hs : s.stack_ = above ++ .promise p :: below)
    (hv : (creators_loop h var env 0 above true s.heap).returned = false) :
    (scope_class h (fun c m => decide (c > m)) var env (s.heap p) =
        if (s.heap p).environment = env then
          if (s.heap p).creation_timestamp > var.modification_timestamp then some .self
          else none
        else if is_parent_environment h env (s.heap p).environment then some .lexical
        else some .non_lexical) ∧
      (creators_walk h s var env =
        match scope_class h (fun c m => decide (c > m)) var env (s.heap p) with
        | none =>
          (creators_loop h var env (above.length + 1) below
            (creators_loop h var env 0 above true s.heap).direct
            (creators_loop h var env 0 above true s.heap).heap).prepend
            (creators_loop h var env 0 above true s.heap).events
        | some .self =>
          ⟨Function.update (creators_loop h var env 0 above true s.heap).heap p
              (((creators_loop h var env 0 above true s.heap).heap p).set_scope_mutation .self
                (creators_loop h var env 0 above true s.heap).direct),
            (creators_loop h var env 0 above true s.heap).events ++
              [⟨above.length, p, .self, (creators_loop h var env 0 above true s.heap).direct⟩],
            false, true⟩
        | some k =>
          (creators_loop h var env (above.length + 1) below false
            (Function.update (creators_loop h var env 0 above true s.heap).heap p
              (((creators_loop h var env 0 above true s.heap).heap p).set_scope_mutation k
                (creators_loop h var env 0 above true s.heap).direct))).prepend
            ((creators_loop h var env 0 above true s.heap).events ++
              [⟨above.length, p, k,
                (creators_loop h var env 0 above true s.heap).direct⟩])) ∧
      ((creators_walk h s var env).events.filter (fun e => e.frame = above.length) =
        match scope_class h (fun c m => decide (c > m)) var env (s.heap p) with
        | none => []
        | some k =>
          [⟨above.length, p, k, (creators_loop h var env 0 above true s.heap).direct⟩]) := by
  refine ⟨?_, creators_walk_at_promise h s var env above below p hs hv, ?_⟩
  · simp [scope_class]
  · have habove : ∀ e ∈ (creators_loop h var env 0 above true s.heap).events,
        e.frame < above.length := by
      intro e he
      rw [creators_loop_eq_scope_walk] at he
      have := (scope_walk_loop_frames h _ _ var env above 0 true s.heap e he).2
      have := (List.getElem?_eq_some.mp this).1
      omega
    have hbelow : ∀ (d : Bool) (hp : Heap),
        ∀ e ∈ (creators_loop h var env (above.length + 1) below d hp).events,
          above.length + 1 ≤ e.frame := by
      intro d hp e he
      rw [creators_loop_eq_scope_walk] at he
      exact (scope_walk_loop_frames h _ _ var env below _ d hp e he).1
    have fa : (creators_loop h var env 0 above true s.heap).events.filter
        (fun e => e.frame = above.length) = [] := by
      rw [List.filter_eq_nil_iff]
      intro e he
      have := habove e he
      simp; omega
    have fb : ∀ (d : Bool) (hp : Heap),
        (creators_loop h var env (above.length + 1) below d hp).events.filter
          (fun e => e.frame = above.length) = [] := by
      intro d hp
      rw [List.filter_eq_nil_iff]
      intro e he
      have := hbelow d hp e he
      simp; omega
    rw [creators_walk_at_promise h s var env above below p hs hv]
    cases hk : scope_class h (fun c m => decide (c > m)) var env (s.heap p) with
    | none => simp [List.filter_append, fa, fb]
    | some k =>
      cases k with
      | self => simp [List.filter_append, fa, List.filter_cons]
      | lexical => simp [List.filter_append, fa, fb, List.filter_cons]
      | non_lexical => simp [List.filter_append, fa, fb, List.filter_cons]

/-- C5 (amended), at a concrete input: below a lexical promise frame, the
promise frame of thunk `1`, whose environment is the written one and which is
not younger than the variable, gets no increment, and the walk goes on to
classify the frame below it. -/
theorem creators_classification_witness :
    (sample_state [.promise 0, .promise 1, .promise 2]).stack_ =
        [.promise 0] ++ .promise 1 :: [.promise 2] ∧
      (creators_loop sample_host (sample_variable 3) 2 0 [.promise 0] true
        (sample_state [.promise 0, .promise 1, .promise 2]).heap).returned = false ∧
      (creators_walk sample_host (sample_state [.promise 0, .promise 1, .promise 2])
        (sample_variable 3) 2).events.filter (fun e => e.frame = 1) = [] ∧
      (creators_walk sample_host (sample_state [.promise 0, .promise 1, .promise 2])
        (sample_variable 3) 2).events =
        [⟨0, 0, .lexical, true⟩, ⟨2, 2, .non_lexical, false⟩] :=
  ⟨rfl, by decide,
    (creators_classification sample_host (sample_state [.promise 0, .promise 1, .promise 2])
      (sample_variable 3) 2 [.promise 0] [.promise 2] 1 rfl (by decide)).2.2,
    by decide⟩

/-- C6: when the walk of `identify_side_effect_creators(v, E)` reaches a promise
frame `p` whose environment is `E` and whose creation timestamp is greater than
the modification timestamp of `v`, it records a self-scope mutation on `p`,
tagged direct exactly when no frame above `p` received an increment, and
returns: the outcome is the same whatever frames lie below `p`. -/
theorem self_scope_mutation_stops_walk (h : Host) (s : TracerState) (var : Variable)
    (env : SEXP) (above below : List ExecutionContext) (p : denoted_value_id_t)
    (hs : s.stack_ = above ++ .promise p :: below)
    (hv : (creators_loop h var env 0 above true s.heap).returned = false)
    (he : (s.heap p).environment = env)
    (ht : (s.heap p).creation_timestamp > var.modification_timestamp) :
    creators_walk h s var env =
        ⟨Function.update (creators_loop h var env 0 above true s.heap).heap p
            (((creators_loop h var env 0 above true s.heap).heap p).set_scope_mutation .self
              (creators_loop h var env 0 above true s.heap).direct),
          (creators_loop h var env 0 above true s.heap).events ++
            [⟨above.length, p, .self, (creators_loop h var env 0 above true s.heap).direct⟩],
          false, true⟩ ∧
      ((creators_loop h var env 0 above true s.heap).direct = true ↔
        (creators_loop h var env 0 above true s.heap).events = []) ∧
      (∀ other : List ExecutionContext,
        creators_walk h { s with stack_ := above ++ .promise p :: other } var env =
          creators_walk h s var env) := by
  have hsc : scope_class h (fun c m => decide (c > m)) var env (s.heap p) = some .self := by
    simp [scope_class, he, ht]
  have key : ∀ s2 : TracerState, s2.heap = s.heap → s2.stack_ = above ++ .promise p :: below ∨
      (∃ other, s2.stack_ = above ++ .promise p :: other) →
      creators_walk h s2 var env =
        ⟨Function.update (creators_loop h var env 0 above true s.heap).heap p
            (((creators_loop h var env 0 above true s.heap).heap p).set_scope_mutation .self
              (creators_loop h var env 0 above true s.heap).direct),
          (creators_loop h var env 0 above true s.heap).events ++
            [⟨above.length, p, .self, (creators_loop h var env 0 above true s.heap).direct⟩],
          false, true⟩ := by
    intro s2 hh hst
    obtain ⟨other, ho⟩ : ∃ other, s2.stack_ = above ++ .promise p :: other := by
      rcases hst with h1 | h1
      · exact ⟨below, h1⟩
      · exact h1
    have := creators_walk_at_promise h s2 var env above other p ho (by rw [hh]; exact hv)
    rw [hh, hsc] at this
    exact this
  refine ⟨key s rfl (Or.inl hs), ?_, ?_⟩
  · have := scope_walk_loop_latch h (fun c m => decide (c > m))
      DenotedValue.set_scope_mutation var env above 0 true s.heap
    rw [← creators_loop_eq_scope_walk] at this
    rw [this]
    simp
  · intro other
    rw [key s rfl (Or.inl hs)]
    exact key _ rfl (Or.inr ⟨other, rfl⟩)

/-- C6, at a concrete input: thunk `1` lives in the written environment `2` and
is younger than the variable; the frame above it was classified lexical, so the
self-scope mutation is tagged indirect, and the frame below gets nothing. -/
theorem self_scope_mutation_stops_walk_witness :
    (creators_walk sample_host (sample_state [.promise 0, .promise 1, .promise 2])
        (sample_variable 0) 2).events =
      (creators_loop sample_host (sample_variable 0) 2 0 [.promise 0] true
        (sample_state [.promise 0, .promise 1, .promise 2]).heap).events ++
        [⟨1, 1, .self, (creators_loop sample_host (sample_variable 0) 2 0 [.promise 0] true
          (sample_state [.promise 0, .promise 1, .promise 2]).heap).direct⟩] :=
  congrArg WalkResult.events
    (self_scope_mutation_stops_walk sample_host
      (sample_state [.promise 0, .promise 1, .promise 2]) (sample_variable 0) 2 [.promise 0]
      [.promise 2] 1 rfl (by decide) (by decide) (by decide)).1

/-- C7: with a closure frame whose call environment is `E` on the stack,
`identify_side_effect_creators(v, E)` makes exactly the increments of the walk
over the frames above that closure frame, so no frame below it has a counter
changed; when no promise frame lies above it, the walk makes no increment and
leaves every thunk as it was. -/
theorem closure_own_environment_stops_walk (h : Host) (s : TracerState) (var : Variable)
    (c : Call) (above below : List ExecutionContext)
    (hs : s.stack_ = above ++ .closure c :: below) :
    (creators_walk h s var c.environment).events =
        (creators_loop h var c.environment 0 above true s.heap).events ∧
      (identify_side_effect_creators h s var c.environment).heap =
        (creators_loop h var c.environment 0 above true s.heap).heap ∧
      (count_promises above = 0 →
        (creators_walk h s var c.environment).events = [] ∧
          identify_side_effect_creators h s var c.environment = s) := by
  have hw : creators_walk h s var c.environment =
      if (creators_loop h var c.environment 0 above true s.heap).returned then
        creators_loop h var c.environment 0 above true s.heap
      else
        (⟨(creators_loop h var c.environment 0 above true s.heap).heap, [],
          (creators_loop h var c.environment 0 above true s.heap).direct, true⟩ :
          WalkResult).prepend (creators_loop h var c.environment 0 above true s.heap).events := by
    unfold creators_walk
    rw [hs]
    simp only [creators_loop_eq_scope_walk]
    rw [scope_walk_loop_append]
    simp [scope_walk_loop]
  have hev : (creators_walk h s var c.environment).events =
      (creators_loop h var c.environment 0 above true s.heap).events := by
    rw [hw]; split <;> simp
  have hheap : (creators_walk h s var c.environment).heap =
      (creators_loop h var c.environment 0 above true s.heap).heap := by
    rw [hw]; split <;> simp
  refine ⟨hev, hheap, ?_⟩
  intro hnp
  have hnil : (creators_loop h var c.environment 0 above true s.heap).events = [] := by
    rw [creators_loop_eq_scope_walk]
    exact scope_walk_loop_no_promise h _ _ var c.environment above hnp 0 true s.heap
  have hh := scope_walk_loop_heap h (fun c m => decide (c > m))
    DenotedValue.set_scope_mutation var c.environment above 0 true s.heap
  rw [← creators_loop_eq_scope_walk, hnil] at hh
  refine ⟨hev.trans hnil, ?_⟩
  show { s with heap := (creators_walk h s var c.environment).heap } = s
  rw [hheap, hh]
  rfl

/-- C7, at a concrete input (scenario S3): a function assigning in its own
environment `1` through a builtin frame changes no thunk, though a promise
frame lies below the closure frame. -/
theorem closure_own_environment_stops_walk_witness :
    (creators_walk sample_host
        (sample_state [.builtin (sample_call 2 7), .closure (sample_call 1 1), .promise 0])
        (sample_variable 3) (sample_call 1 1).environment).events = [] ∧
      identify_side_effect_creators sample_host
        (sample_state [.builtin (sample_call 2 7), .closure (sample_call 1 1), .promise 0])
        (sample_variable 3) (sample_call 1 1).environment =
      sample_state [.builtin (sample_call 2 7), .closure (sample_call 1 1), .promise 0] :=
  (closure_own_environment_stops_walk sample_host
    (sample_state [.builtin (sample_call 2 7), .closure (sample_call 1 1), .promise 0])
    (sample_variable 3) (sample_call 1 1) [.builtin (sample_call 2 7)] [.promise 0] rfl).2.2
    (by decide)

/-- C8: `identify_side_effect_observers(v, E)` changes nothing when the
modification timestamp of `v` is undefined; otherwise its walk is the
specification walk with the self-scope test `creation_ts < modification_ts` and
the observation recorders, while the walk of `identify_side_effect_creators` is
the same specification walk with the test `creation_ts > modification_ts` and
the mutation recorders; with the test `<`, the walk with observation recorders
and the walk with mutation recorders visit the same frames, stop at the same
places and pass the same direct tags, each writing its own counters. -/
theorem observers_refine_creators (h : Host) (s : TracerState) (var : Variable) (env : SEXP) :
    (timestamp_is_undefined h var.modification_timestamp = true →
        identify_side_effect_observers h s var env = s ∧
          (observers_walk h s var env).events = []) ∧
      (timestamp_is_undefined h var.modification_timestamp = false →
        observers_walk h s var env =
            scope_walk_loop h (fun c m => decide (c < m)) DenotedValue.set_scope_observation
              var env 0 s.stack_ true s.heap ∧
          (observers_walk h s var env).events =
            (scope_walk_loop h (fun c m => decide (c < m)) DenotedValue.set_scope_mutation
              var env 0 s.stack_ true s.heap).events ∧
          (observers_walk h s var env).returned =
            (scope_walk_loop h (fun c m => decide (c < m)) DenotedValue.set_scope_mutation
              var env 0 s.stack_ true s.heap).returned ∧
          (observers_walk h s var env).direct =
            (scope_walk_loop h (fun c m => decide (c < m)) DenotedValue.set_scope_mutation
              var env 0 s.stack_ true s.heap).direct ∧
          (identify_side_effect_observers h s var env).heap =
            (observers_walk h s var env).events.foldl
              (apply_event DenotedValue.set_scope_observation) s.heap ∧
          (scope_walk_loop h (fun c m => decide (c < m)) DenotedValue.set_scope_mutation
              var env 0 s.stack_ true s.heap).heap =
            (observers_walk h s var env).events.foldl
              (apply_event DenotedValue.set_scope_mutation) s.heap) ∧
      creators_walk h s var env =
        scope_walk_loop h (fun c m => decide (c > m)) DenotedValue.set_scope_mutation
          var env 0 s.stack_ true s.heap := by
  refine ⟨?_, ?_, creators_loop_eq_scope_walk h var env s.stack_ 0 true s.heap⟩
  · intro hu
    simp [identify_side_effect_observers, observers_walk, hu]
  · intro hu
    have hw : observers_walk h s var env =
        scope_walk_loop h (fun c m => decide (c < m)) DenotedValue.set_scope_observation
          var env 0 s.stack_ true s.heap := by
      simp [observers_walk, hu, observers_loop_eq_scope_walk]
    have hc := scope_walk_loop_congr h (fun c m => decide (c < m))
      DenotedValue.set_scope_observation var env DenotedValue.set_scope_mutation
      set_scope_observation_preserves set_scope_mutation_preserves s.stack_ 0 true s.heap s.heap
      (fun _ => ⟨rfl, rfl⟩)
    refine ⟨hw, ?_, ?_, ?_, ?_, ?_⟩
    · rw [hw]; exact hc.1
    · rw [hw]; exact hc.2.2
    · rw [hw]; exact hc.2.1
    · simp only [identify_side_effect_observers, hw]
      exact scope_walk_loop_heap h _ _ var env s.stack_ 0 true s.heap
    · rw [hw, hc.1]
      exact scope_walk_loop_heap h _ _ var env s.stack_ 0 true s.heap

/-! ## Helper lemmas on scope assignment and thunk creation -/

theorem set_scope_loop_scope (l : List ExecutionContext) (f : function_id_t)
    (hf : topmost_closure_function_id l = some f) (v : DenotedValue) :
    (set_scope_loop l v).scope = f := by
  induction l generalizing v with
  | nil => simp [topmost_closure_function_id] at hf
  | cons c tl ih =>
    cases c with
    | closure call =>
      simp only [topmost_closure_function_id, Option.some.injEq] at hf
      simp [set_scope_loop, ExecutionContext.get_call, ExecutionContext.is_call,
        ExecutionContext.is_closure, DenotedValue.set_scope, hf]
    | builtin call =>
      simp only [topmost_closure_function_id] at hf
      simpa [set_scope_loop, ExecutionContext.is_closure] using ih hf _
    | special call =>
      simp only [topmost_closure_function_id] at hf
      simpa [set_scope_loop, ExecutionContext.is_closure] using ih hf _
    | promise p =>
      simp only [topmost_closure_function_id] at hf
      simpa [set_scope_loop, ExecutionContext.is_closure] using ih hf _

theorem lookup_environment_frame (s : TracerState) (rho : SEXP) (b : Bool) :
    (lookup_environment s rho b).2.heap = s.heap ∧
      (lookup_environment s rho b).2.stack_ = s.stack_ ∧
      (lookup_environment s rho b).2.denoted_value_id_counter_ = s.denoted_value_id_counter_ ∧
      (lookup_environment s rho b).2.promises_ = s.promises_ ∧
      (lookup_environment s rho b).2.deleted = s.deleted := by
  unfold lookup_environment create_environment create_next_environment_id_
  cases s.environment_mapping_.lookup rho <;> simp

/-- What `create_raw_promise_` returns and stores. -/
theorem create_raw_promise_spec (h : Host) (s : TracerState) (promise : SEXP) (loc : Bool) :
    (create_raw_promise_ h s promise loc).1 = s.denoted_value_id_counter_ ∧
      (create_raw_promise_ h s promise loc).2.stack_ = s.stack_ ∧
      (create_raw_promise_ h s promise loc).2.denoted_value_id_counter_ =
        s.denoted_value_id_counter_ + 1 ∧
      (create_raw_promise_ h s promise loc).2.promises_ = s.promises_ ∧
      (create_raw_promise_ h s promise loc).2.deleted = s.deleted ∧
      (create_raw_promise_ h s promise loc).2.heap =
        Function.update s.heap s.denoted_value_id_counter_
          (set_scope_loop s.stack_
            (DenotedValue.create h s.denoted_value_id_counter_ promise loc)).set_active := by
  have e := lookup_environment_frame s (h.dyntrace_get_promise_environment promise) true
  simp only [create_raw_promise_, get_next_denoted_value_id_, set_scope_, store, e.1, e.2.1,
    e.2.2.1, e.2.2.2.1, e.2.2.2.2, Function.update_same, Function.update_idem, and_self,
    true_and]

theorem add_argument_scope (v : DenotedValue) (a : Argument) :
    (v.add_argument a).scope = v.scope := rfl

/-- What `lookup_promise` with `create = true` returns: a thunk, the stack
unchanged, the id counter not decreased, and every thunk created since a
lower bound `n0` of the counter scoped to the topmost closure. -/
theorem lookup_promise_create_inv (h : Host) (s : TracerState) (promise : SEXP) (loc : Bool)
    (f : function_id_t) (n0 : Nat) (hf : topmost_closure_function_id s.stack_ = some f)
    (hi : ∀ id, n0 ≤ id → id < s.denoted_value_id_counter_ → (s.heap id).scope = f) :
    ∃ p s1, lookup_promise h s promise true loc = (some p, s1) ∧
      s1.stack_ = s.stack_ ∧
      s.denoted_value_id_counter_ ≤ s1.denoted_value_id_counter_ ∧
      (∀ id, n0 ≤ id → id < s1.denoted_value_id_counter_ → (s1.heap id).scope = f) := by
  unfold lookup_promise
  cases hl : s.promises_.lookup promise with
  | some p => exact ⟨p, s, rfl, rfl, le_refl _, hi⟩
  | none =>
    obtain ⟨e1, e2, e3, _, _, e6⟩ := create_raw_promise_spec h s promise loc
    rcases hcr : create_raw_promise_ h s promise loc with ⟨p, s1⟩
    rw [hcr] at e1 e2 e3 e6
    simp only at e1 e2 e3 e6
    refine ⟨p, { s1 with promises_ := map_insert s1.promises_ promise p }, rfl, e2,
      by simp [e3], ?_⟩
    intro id h1 h2
    simp only [e3, e6] at h2 ⊢
    by_cases hid : id = s.denoted_value_id_counter_
    · subst hid
      simp [DenotedValue.set_active, set_scope_loop_scope s.stack_ f hf]
    · rw [Function.update_noteq hid]
      exact hi id h1 (by omega)

/-- One argument of a closure call: the stack is unchanged, the id counter does
not decrease, and every thunk created since a lower bound `n0` of the counter
is scoped to the topmost closure; an eager value is wrapped in the thunk whose
id is the counter before the step. -/
theorem process_closure_argument_inv (h : Host) (s : TracerState) (call : Call)
    (fp ap : Int) (name argument : SEXP) (ddd : Bool) (f : function_id_t) (n0 : Nat)
    (hf : topmost_closure_function_id s.stack_ = some f)
    (hi : ∀ id, n0 ≤ id → id < s.denoted_value_id_counter_ → (s.heap id).scope = f) :
    (process_closure_argument_ h s call fp ap name argument ddd).2.stack_ = s.stack_ ∧
      s.denoted_value_id_counter_ ≤
        (process_closure_argument_ h s call fp ap name argument ddd).2.denoted_value_id_counter_ ∧
      (∀ id, n0 ≤ id →
        id < (process_closure_argument_ h s call fp ap name argument ddd).2.denoted_value_id_counter_ →
        ((process_closure_argument_ h s call fp ap name argument ddd).2.heap id).scope = f) ∧
      (h.type_of_sexp argument ≠ PROMSXP →
        (process_closure_argument_ h s call fp ap name argument ddd).2.denoted_value_id_counter_ =
            s.denoted_value_id_counter_ + 1 ∧
          ∃ a, (process_closure_argument_ h s call fp ap name argument ddd).1.arguments =
              call.arguments ++ [a] ∧
            a.denoted_value = s.denoted_value_id_counter_ ∧
            a.formal_parameter_position = fp ∧ a.actual_argument_position = ap) := by
  by_cases ht : h.type_of_sexp argument = PROMSXP
  · obtain ⟨p, s1, hl, e1, e2, e3⟩ := lookup_promise_create_inv h s argument false f n0 hf hi
    simp only [process_closure_argument_, ht, if_true, hl, store, ne_eq, not_true_eq_false,
      false_implies, and_true]
    refine ⟨e1, e2, ?_⟩
    intro id h1 h2
    by_cases hid : id = p
    · subst hid
      simpa [add_argument_scope] using e3 id h1 h2
    · simpa [Function.update_noteq hid] using e3 id h1 h2
  · simp only [process_closure_argument_, ht, if_false, get_next_denoted_value_id_, set_scope_,
      store, Function.update_same, Function.update_idem, ne_eq, not_false_eq_true,
      true_implies, call_add_argument]
    refine ⟨trivial, Nat.le_succ _, ?_, trivial, ⟨_, rfl, rfl, rfl, rfl⟩⟩
    intro id h1 h2
    by_cases hid : id = s.denoted_value_id_counter_
    · subst hid
      simp [add_argument_scope, set_scope_loop_scope s.stack_ f hf]
    · rw [Function.update_noteq hid]
      exact hi id h1 (by omega)

theorem process_dot_dot_dot_loop_inv (h : Host) (fp : Int) (f : function_id_t) (n0 : Nat)
    (l : List (SEXP × SEXP)) :
    ∀ (ap : Int) (call : Call) (s : TracerState),
      topmost_closure_function_id s.stack_ = some f →
      (∀ id, n0 ≤ id → id < s.denoted_value_id_counter_ → (s.heap id).scope = f) →
      (process_dot_dot_dot_loop h fp l ap call s).2.2.stack_ = s.stack_ ∧
        s.denoted_value_id_counter_ ≤
          (process_dot_dot_dot_loop h fp l ap call s).2.2.denoted_value_id_counter_ ∧
        (∀ id, n0 ≤ id →
          id < (process_dot_dot_dot_loop h fp l ap call s).2.2.denoted_value_id_counter_ →
          ((process_dot_dot_dot_loop h fp l ap call s).2.2.heap id).scope = f) := by
  induction l with
  | nil => intro ap call s _ hi; exact ⟨rfl, le_refl _, hi⟩
  | cons x tl ih =>
    intro ap call s hf hi
    obtain ⟨name, arg⟩ := x
    obtain ⟨e1, e2, e3, _⟩ :=
      process_closure_argument_inv h s call fp (ap + 1) name arg true f n0 hf hi
    obtain ⟨r1, r2, r3⟩ := ih (ap + 1)
      (process_closure_argument_ h s call fp (ap + 1) name arg true).1
      (process_closure_argument_ h s call fp (ap + 1) name arg true).2 (by rw [e1]; exact hf) e3
    simp only [process_dot_dot_dot_loop]
    exact ⟨r1.trans e1, le_trans e2 r2, r3⟩

theorem process_formals_loop_inv (h : Host) (rho : SEXP) (f : function_id_t) (n0 : Nat)
    (l : List SEXP) :
    ∀ (fp ap : Int) (call : Call) (s : TracerState),
      topmost_closure_function_id s.stack_ = some f →
      (∀ id, n0 ≤ id → id < s.denoted_value_id_counter_ → (s.heap id).scope = f) →
      (process_formals_loop h rho l fp ap call s).2.stack_ = s.stack_ ∧
        s.denoted_value_id_counter_ ≤
          (process_formals_loop h rho l fp ap call s).2.denoted_value_id_counter_ ∧
        (∀ id, n0 ≤ id →
          id < (process_formals_loop h rho l fp ap call s).2.denoted_value_id_counter_ →
          ((process_formals_loop h rho l fp ap call s).2.heap id).scope = f) := by
  induction l with
  | nil => intro fp ap call s _ hi; exact ⟨rfl, le_refl _, hi⟩
  | cons name tl ih =>
    intro fp ap call s hf hi
    by_cases hd : h.type_of_sexp (h.dyntrace_lookup_environment rho name) = DOTSXP
    · obtain ⟨e1, e2, e3⟩ := process_dot_dot_dot_loop_inv h (fp + 1) f n0
        (h.DOTS (h.dyntrace_lookup_environment rho name)) ap call s hf hi
      obtain ⟨r1, r2, r3⟩ := ih (fp + 1)
        (process_dot_dot_dot_loop h (fp + 1) (h.DOTS (h.dyntrace_lookup_environment rho name))
          ap call s).1
        (process_dot_dot_dot_loop h (fp + 1) (h.DOTS (h.dyntrace_lookup_environment rho name))
          ap call s).2.1
        (process_dot_dot_dot_loop h (fp + 1) (h.DOTS (h.dyntrace_lookup_environment rho name))
          ap call s).2.2 (by rw [e1]; exact hf) e3
      simp only [process_formals_loop, hd, if_true]
      exact ⟨r1.trans e1, le_trans e2 r2, r3⟩
    · obtain ⟨e1, e2, e3, _⟩ := process_closure_argument_inv h s call (fp + 1) (ap + 1) name
        (h.dyntrace_lookup_environment rho name) (h.is_dots_symbol name) f n0 hf hi
      obtain ⟨r1, r2, r3⟩ := ih (fp + 1) (ap + 1)
        (process_closure_argument_ h s call (fp + 1) (ap + 1) name
          (h.dyntrace_lookup_environment rho name) (h.is_dots_symbol name)).1
        (process_closure_argument_ h s call (fp + 1) (ap + 1) name
          (h.dyntrace_lookup_environment rho name) (h.is_dots_symbol name)).2
        (by rw [e1]; exact hf) e3
      simp only [process_formals_loop, hd, if_false]
      exact ⟨r1.trans e1, le_trans e2 r2, r3⟩

/-! ## Scope assignment: claim -/

/-- C9: when the stack contains a closure frame and `f` is the function id of
the topmost one, whatever builtin, special or promise frames lie above it, the
thunk made by `create_promise` has scope `f`; so has the thunk made by
`lookup_promise` with `create = true` for an unregistered handle; so has the
thunk that wraps an eager argument value in `process_closure_argument_`; and
when `create_call` returns, every thunk created during the call has scope
`f`. -/
theorem created_thunk_scope_is_topmost_closure (h : Host) (s : TracerState) (f : function_id_t)
    (hf : topmost_closure_function_id s.stack_ = some f) :
    (∀ promise, ((create_promise h s promise).2.heap (create_promise h s promise).1).scope = f) ∧
      (∀ promise loc, s.promises_.lookup promise = none →
        (lookup_promise h s promise true loc).1 = some s.denoted_value_id_counter_ ∧
          ((lookup_promise h s promise true loc).2.heap s.denoted_value_id_counter_).scope = f) ∧
      (∀ call fp ap name argument ddd, h.type_of_sexp argument ≠ PROMSXP →
        ∃ a, (process_closure_argument_ h s call fp ap name argument ddd).1.arguments =
            call.arguments ++ [a] ∧
          a.denoted_value = s.denoted_value_id_counter_ ∧
          ((process_closure_argument_ h s call fp ap name argument ddd).2.heap
            a.denoted_value).scope = f) ∧
      (∀ call op args rho id, s.denoted_value_id_counter_ ≤ id →
        id < (create_call h s call op args rho).2.denoted_value_id_counter_ →
        ((create_call h s call op args rho).2.heap id).scope = f) := by
  have hvac : ∀ id, s.denoted_value_id_counter_ ≤ id → id < s.denoted_value_id_counter_ →
      (s.heap id).scope = f := by
    intro id h1 h2; exact absurd h2 (Nat.not_lt.mpr h1)
  refine ⟨?_, ?_, ?_, ?_⟩
  · intro promise
    obtain ⟨e1, _, _, _, _, e6⟩ := create_raw_promise_spec h s promise true
    rcases hcr : create_raw_promise_ h s promise true with ⟨p, s1⟩
    rw [hcr] at e1 e6
    simp only at e1 e6
    simp [create_promise, hcr, store, e6, e1, DenotedValue.set_creation_timestamp,
      DenotedValue.set_active, set_scope_loop_scope s.stack_ f hf]
  · intro promise loc hl
    obtain ⟨e1, _, _, _, _, e6⟩ := create_raw_promise_spec h s promise loc
    rcases hcr : create_raw_promise_ h s promise loc with ⟨p, s1⟩
    rw [hcr] at e1 e6
    simp only at e1 e6
    simp [lookup_promise, hl, hcr, e6, e1, DenotedValue.set_active,
      set_scope_loop_scope s.stack_ f hf]
  · intro call fp ap name argument ddd ht
    obtain ⟨_, _, e3, e4⟩ := process_closure_argument_inv h s call fp ap name argument ddd f
      s.denoted_value_id_counter_ hf hvac
    obtain ⟨e5, a, ha, hav, _⟩ := e4 ht
    refine ⟨a, ha, hav, ?_⟩
    rw [hav]
    exact e3 _ (le_refl _) (by rw [e5]; exact Nat.lt_succ_self _)
  · intro call op args rho id h1 h2
    have hlf : (lookup_function h s op).2.stack_ = s.stack_ ∧
        (lookup_function h s op).2.heap = s.heap ∧
        (lookup_function h s op).2.denoted_value_id_counter_ = s.denoted_value_id_counter_ := by
      unfold lookup_function
      cases s.functions_.lookup op <;> simp
    by_cases hc : h.type_of_sexp op = CLOSXP
    · simp only [create_call, get_next_call_id_, hc, if_true, process_closure_arguments_] at h2 ⊢
      refine (process_formals_loop_inv h _ f s.denoted_value_id_counter_ (h.FORMALS op) (-1)
        (-1) _ _ (by simpa [hlf.1] using hf) ?_).2.2 id h1 h2
      intro id h3 h4
      simp only [hlf.2.2] at h4
      exact absurd h4 (Nat.not_lt.mpr h3)
    · simp only [create_call, get_next_call_id_, hc, if_false, hlf.2.2] at h2
      exact absurd h2 (Nat.not_lt.mpr h1)

/-- C9, at a concrete input: under a builtin frame on top of two closure
frames the created thunk is scoped to the upper closure, function id `101`. -/
theorem created_thunk_scope_is_topmost_closure_witness :
    ((create_promise sample_host
        (sample_state [.builtin (sample_call 2 7), .closure (sample_call 1 1),
          .closure (sample_call 3 3)]) 10).2.heap
      (create_promise sample_host
        (sample_state [.builtin (sample_call 2 7), .closure (sample_call 1 1),
          .closure (sample_call 3 3)]) 10).1).scope = 101 :=
  (created_thunk_scope_is_topmost_closure sample_host
    (sample_state [.builtin (sample_call 2 7), .closure (sample_call 1 1),
      .closure (sample_call 3 3)]) 101 (by decide)).1 10

/-! ## Evaluation depth -/

theorem above_topmost_closure_append (above below : List ExecutionContext) (c : Call) :
    above_topmost_closure (above ++ .closure c :: below) = above_topmost_closure above := by
  induction above with
  | nil => simp [above_topmost_closure, ExecutionContext.is_closure]
  | cons x tl ih =>
    unfold above_topmost_closure at ih ⊢
    rw [List.cons_append, List.takeWhile_cons, List.takeWhile_cons, ih]

/-- The walk of `get_evaluation_depth` down to the topmost closure frame of the
call: it stops there with the closure and promise frames above counted. -/
theorem get_evaluation_depth_loop_found (heap : Heap) (call F : Call)
    (below : List ExecutionContext) (hF : F.id = call.id) (above : List ExecutionContext) :
    ∀ (d : eval_depth_t) (nesting : Bool),
      (∀ c, ExecutionContext.closure c ∈ above → c.id ≠ call.id) →
      ∃ r, get_evaluation_depth_loop heap call (above ++ .closure F :: below) d nesting =
          some r ∧
        r.call_depth = d.call_depth + (count_closures above : Int) ∧
        r.promise_depth = d.promise_depth + (count_promises above : Int) ∧
        r.nested_promise_depth = d.nested_promise_depth +
          (if nesting then (count_promises (above_topmost_closure above) : Int) else 0) := by
  induction above with
  | nil =>
    intro d nesting _
    refine ⟨d, by simp [get_evaluation_depth_loop, hF], ?_, ?_, ?_⟩ <;>
      simp [count_closures, count_promises, above_topmost_closure]
  | cons x tl ih =>
    intro d nesting hab
    have htl : ∀ c, ExecutionContext.closure c ∈ tl → c.id ≠ call.id :=
      fun c hc => hab c (List.mem_cons_of_mem _ hc)
    cases x with
    | closure c =>
      have hne : c.id ≠ call.id := hab c (List.mem_cons_self _ _)
      obtain ⟨r, hr, h1, h2, h3⟩ := ih { d with call_depth := d.call_depth + 1 } false htl
      refine ⟨r, by simp [get_evaluation_depth_loop, hne, hr], ?_, ?_, ?_⟩
      · simp only [h1, count_closures, List.countP_cons, ExecutionContext.is_closure]
        push_cast; ring
      · simpa [count_promises, List.countP_cons, ExecutionContext.is_promise] using h2
      · simpa [above_topmost_closure, List.takeWhile_cons, ExecutionContext.is_closure,
          count_promises] using h3
    | builtin c =>
      obtain ⟨r, hr, h1, h2, h3⟩ := ih d nesting htl
      refine ⟨r, by simp [get_evaluation_depth_loop, hr], ?_, ?_, ?_⟩
      · simpa [count_closures, List.countP_cons, ExecutionContext.is_closure] using h1
      · simpa [count_promises, List.countP_cons, ExecutionContext.is_promise] using h2
      · simpa [above_topmost_closure, List.takeWhile_cons, ExecutionContext.is_closure,
          count_promises, List.countP_cons, ExecutionContext.is_promise] using h3
    | special c =>
      obtain ⟨r, hr, h1, h2, h3⟩ := ih d nesting htl
      refine ⟨r, by simp [get_evaluation_depth_loop, hr], ?_, ?_, ?_⟩
      · simpa [count_closures, List.countP_cons, ExecutionContext.is_closure] using h1
      · simpa [count_promises, List.countP_cons, ExecutionContext.is_promise] using h2
      · simpa [above_topmost_closure, List.takeWhile_cons, ExecutionContext.is_closure,
          count_promises, List.countP_cons, ExecutionContext.is_promise] using h3
    | promise p =>
      have hstep : ∃ d3 : eval_depth_t,
          get_evaluation_depth_loop heap call
              ((ExecutionContext.promise p :: tl) ++ .closure F :: below) d nesting =
            get_evaluation_depth_loop heap call (tl ++ .closure F :: below) d3 nesting ∧
          d3.call_depth = d.call_depth ∧ d3.promise_depth = d.promise_depth + 1 ∧
          d3.nested_promise_depth =
            d.nested_promise_depth + (if nesting then 1 else 0) := by
        simp only [List.cons_append, get_evaluation_depth_loop]
        refine ⟨_, rfl, ?_, ?_, ?_⟩ <;>
          (cases (heap p).get_last_argument <;> cases nesting <;> simp <;> split <;> simp)
      obtain ⟨d3, hd3, g1, g2, g3⟩ := hstep
      obtain ⟨r, hr, h1, h2, h3⟩ := ih d3 nesting htl
      refine ⟨r, by rw [hd3, hr], ?_, ?_, ?_⟩
      · simpa [count_closures, List.countP_cons, ExecutionContext.is_closure, g1] using h1
      · simp only [h2, g2, count_promises, List.countP_cons, ExecutionContext.is_promise]
        push_cast; ring
      · simp only [h3, g3, above_topmost_closure, List.takeWhile_cons,
          ExecutionContext.is_closure, count_promises, List.countP_cons,
          ExecutionContext.is_promise]
        cases nesting <;> simp
        ring

/-- C10: when the stack contains a closure frame whose call is `C`, with `F` the
topmost such frame, `get_evaluation_depth(C)` returns the depth computed by the
walk, for every value of the sentinel constant and whatever lies below `F`:
`call_depth` is the number of closure frames above `F`, `promise_depth` the
number of promise frames above `F`, `nested_promise_depth` the number of
promise frames above the topmost closure frame of the whole stack, which is at
most `promise_depth`; builtin and special frames are not counted. -/
theorem evaluation_depth_of_call_on_stack (h : Host) (s : TracerState) (call F : Call)
    (above below : List ExecutionContext)
    (hs : s.stack_ = above ++ .closure F :: below) (hF : F.id = call.id)
    (habove : ∀ c, ExecutionContext.closure c ∈ above → c.id ≠ call.id) :
    (get_evaluation_depth h s call).call_depth = (count_closures above : Int) ∧
      (get_evaluation_depth h s call).promise_depth = (count_promises above : Int) ∧
      (get_evaluation_depth h s call).nested_promise_depth =
        (count_promises (above_topmost_closure s.stack_) : Int) ∧
      (get_evaluation_depth h s call).nested_promise_depth ≤
        (get_evaluation_depth h s call).promise_depth ∧
      (∀ sentinel : eval_depth_t,
        get_evaluation_depth { h with ESCAPED_PROMISE_EVAL_DEPTH := sentinel } s call =
          get_evaluation_depth h s call) := by
  obtain ⟨r, hr, h1, h2, h3⟩ :=
    get_evaluation_depth_loop_found s.heap call F below hF above ⟨0, 0, 0, -1⟩ true habove
  have hg : ∀ h2 : Host, get_evaluation_depth h2 s call = r := by
    intro h2
    simp [get_evaluation_depth, hs, hr]
  have hle : count_promises (above_topmost_closure above) ≤ count_promises above :=
    List.Sublist.countP_le _ (List.takeWhile_sublist _)
  rw [hg h, hs, above_topmost_closure_append]
  refine ⟨by simpa using h1, by simpa using h2, by simpa using h3, ?_, fun e => hg _⟩
  rw [h2, h3]
  simp only [if_true, zero_add]
  exact_mod_cast hle

/-- C10, at a concrete input: the call's closure frame is the bottom frame,
below a promise frame, a builtin frame, another closure frame and a promise
frame; the depth is one call, two promises, one nested promise. -/
theorem evaluation_depth_of_call_on_stack_witness :
    (get_evaluation_depth sample_host
        (sample_state [.promise 0, .builtin (sample_call 2 7), .closure (sample_call 3 3),
          .promise 1, .closure (sample_call 1 1)]) (sample_call 1 1)).call_depth = 1 ∧
      (get_evaluation_depth sample_host
        (sample_state [.promise 0, .builtin (sample_call 2 7), .closure (sample_call 3 3),
          .promise 1, .closure (sample_call 1 1)]) (sample_call 1 1)).promise_depth = 2 ∧
      (get_evaluation_depth sample_host
        (sample_state [.promise 0, .builtin (sample_call 2 7), .closure (sample_call 3 3),
          .promise 1, .closure (sample_call 1 1)]) (sample_call 1 1)).nested_promise_depth = 1 :=
  ⟨(evaluation_depth_of_call_on_stack sample_host
      (sample_state [.promise 0, .builtin (sample_call 2 7), .closure (sample_call 3 3),
        .promise 1, .closure (sample_call 1 1)]) (sample_call 1 1) (sample_call 1 1)
      [.promise 0, .builtin (sample_call 2 7), .closure (sample_call 3 3), .promise 1] [] rfl
      rfl (by intro c hc; simp at hc; subst hc; decide)).1.trans (by decide),
    by decide, by decide⟩

/-! ## Evaluation depth: sentinel and forcing position -/

/-- The walk of `get_evaluation_depth` reaches the end of a stack that has no
closure frame of the call. -/
theorem get_evaluation_depth_loop_not_found (heap : Heap) (call : Call)
    (l : List ExecutionContext) :
    ∀ (d : eval_depth_t) (nesting : Bool),
      (∀ c, ExecutionContext.closure c ∈ l → c.id ≠ call.id) →
      get_evaluation_depth_loop heap call l d nesting = none := by
  induction l with
  | nil => intro d nesting _; rfl
  | cons x tl ih =>
    intro d nesting hno
    have htl : ∀ c, ExecutionContext.closure c ∈ tl → c.id ≠ call.id :=
      fun c hc => hno c (List.mem_cons_of_mem _ hc)
    cases x with
    | closure c =>
      have hne : c.id ≠ call.id := hno c (List.mem_cons_self _ _)
      simp [get_evaluation_depth_loop, hne, ih _ _ htl]
    | builtin c => simp [get_evaluation_depth_loop, ih _ _ htl]
    | special c => simp [get_evaluation_depth_loop, ih _ _ htl]
    | promise p => simp [get_evaluation_depth_loop, ih _ _ htl]

/-- C11: when the stack contains no closure frame whose call is `C` (the stack
may be empty, and `C` may occur in builtin or special frames),
`get_evaluation_depth(C)` returns the constant `ESCAPED_PROMISE_EVAL_DEPTH`,
whatever the walk counted; with the value the specification gives for that
constant the result is `{0, 0, 0, -1}`. -/
theorem evaluation_depth_sentinel_when_call_not_on_stack (h : Host) (s : TracerState)
    (call : Call) (hno : ∀ c, ExecutionContext.closure c ∈ s.stack_ → c.id ≠ call.id) :
    get_evaluation_depth h s call = h.ESCAPED_PROMISE_EVAL_DEPTH ∧
      (h.ESCAPED_PROMISE_EVAL_DEPTH = escaped_promise_eval_depth_value →
        get_evaluation_depth h s call =
          { call_depth := 0, promise_depth := 0, nested_promise_depth := 0,
            forcing_actual_argument_position := -1 }) := by
  have hr : get_evaluation_depth h s call = h.ESCAPED_PROMISE_EVAL_DEPTH := by
    simp [get_evaluation_depth,
      get_evaluation_depth_loop_not_found s.heap call s.stack_ ⟨0, 0, 0, -1⟩ true hno]
  refine ⟨hr, ?_⟩
  intro hv
  rw [hr, hv]
  rfl

/-- C11, at a concrete input: the call `1` occurs on the stack as a builtin and
as a special frame only, among promise frames and the closure frame of another
call; the result is the sentinel, not the counts of the walk. -/
theorem evaluation_depth_sentinel_when_call_not_on_stack_witness :
    get_evaluation_depth sample_host
        (sample_state [.promise 0, .builtin (sample_call 1 1), .closure (sample_call 3 3),
          .special (sample_call 1 1), .promise 1]) (sample_call 1 1) =
      { call_depth := 0, promise_depth := 0, nested_promise_depth := 0,
        forcing_actual_argument_position := -1 } :=
  (evaluation_depth_sentinel_when_call_not_on_stack sample_host
    (sample_state [.promise 0, .builtin (sample_call 1 1), .closure (sample_call 3 3),
      .special (sample_call 1 1), .promise 1]) (sample_call 1 1)
    (by intro c hc; simp [sample_state] at hc; subst hc; decide)).2 rfl

/-- The walk of `get_evaluation_depth` down to the topmost closure frame of the
call: the forcing position it stops with. -/
theorem get_evaluation_depth_loop_forcing (heap : Heap) (call F : Call)
    (below : List ExecutionContext) (hF : F.id = call.id) (above : List ExecutionContext) :
    ∀ (d : eval_depth_t) (nesting : Bool),
      (∀ c, ExecutionContext.closure c ∈ above → c.id ≠ call.id) →
      (∀ p, ExecutionContext.promise p ∈ above → forcing_candidate heap call p ≠ some (-1)) →
      ∃ r, get_evaluation_depth_loop heap call (above ++ .closure F :: below) d nesting =
          some r ∧
        r.forcing_actual_argument_position =
          (if d.forcing_actual_argument_position = -1 then
            topmost_forcing_position heap call above
          else d.forcing_actual_argument_position) := by
  induction above with
  | nil =>
    intro d nesting _ _
    refine ⟨d, by simp [get_evaluation_depth_loop, hF], ?_⟩
    by_cases hd : d.forcing_actual_argument_position = -1
    · simp [topmost_forcing_position, hd]
    · simp [hd]
  | cons x tl ih =>
    intro d nesting hab hpos
    have htl : ∀ c, ExecutionContext.closure c ∈ tl → c.id ≠ call.id :=
      fun c hc => hab c (List.mem_cons_of_mem _ hc)
    have hptl : ∀ p, ExecutionContext.promise p ∈ tl →
        forcing_candidate heap call p ≠ some (-1) :=
      fun p hp => hpos p (List.mem_cons_of_mem _ hp)
    cases x with
    | closure c =>
      have hne : c.id ≠ call.id := hab c (List.mem_cons_self _ _)
      obtain ⟨r, hr, h1⟩ := ih { d with call_depth := d.call_depth + 1 } false htl hptl
      exact ⟨r, by simp [get_evaluation_depth_loop, hne, hr],
        by simpa [topmost_forcing_position] using h1⟩
    | builtin c =>
      obtain ⟨r, hr, h1⟩ := ih d nesting htl hptl
      exact ⟨r, by simp [get_evaluation_depth_loop, hr],
        by simpa [topmost_forcing_position] using h1⟩
    | special c =>
      obtain ⟨r, hr, h1⟩ := ih d nesting htl hptl
      exact ⟨r, by simp [get_evaluation_depth_loop, hr],
        by simpa [topmost_forcing_position] using h1⟩
    | promise p =>
      have hp1 : forcing_candidate heap call p ≠ some (-1) := hpos p (List.mem_cons_self _ _)
      have hstep : ∃ d3 : eval_depth_t,
          get_evaluation_depth_loop heap call
              ((ExecutionContext.promise p :: tl) ++ .closure F :: below) d nesting =
            get_evaluation_depth_loop heap call (tl ++ .closure F :: below) d3 nesting ∧
          d3.forcing_actual_argument_position =
            (if d.forcing_actual_argument_position = -1 then
              (forcing_candidate heap call p).getD (-1)
            else d.forcing_actual_argument_position) := by
        simp only [List.cons_append, get_evaluation_depth_loop]
        refine ⟨_, rfl, ?_⟩
        unfold forcing_candidate
        cases (heap p).get_last_argument with
        | none =>
          by_cases hd : d.forcing_actual_argument_position = -1
          · cases nesting <;> simp [hd]
          · cases nesting <;> simp [hd]
        | some last =>
          by_cases hd : d.forcing_actual_argument_position = -1
          · by_cases hq : (heap p).is_argument = true ∧ last.call_id = call.id
            · cases nesting <;> simp [hd, hq]
            · cases nesting <;> simp [hd, hq]
          · cases nesting <;> simp [hd]
      obtain ⟨d3, hd3, g1⟩ := hstep
      obtain ⟨r, hr, h1⟩ := ih d3 nesting htl hptl
      refine ⟨r, by rw [hd3, hr], ?_⟩
      rw [h1, g1]
      by_cases hd : d.forcing_actual_argument_position = -1
      · cases hc : forcing_candidate heap call p with
        | none => simp [hd, topmost_forcing_position, hc]
        | some position =>
          have hne : position ≠ -1 := by
            intro hpe; rw [hc, hpe] at hp1; exact hp1 rfl
          simp [hd, topmost_forcing_position, hc, hne]
      · simp [hd]

/-- C12: when the stack has a closure frame `F` of the call `C` with no closure
frame of `C` above it, so that `get_evaluation_depth(C)` returns the computed
depth, and the actual argument positions offered by the promise frames above
`F` are not `-1` (positions count from `0`), the forcing actual argument
position returned is that of the topmost promise frame above `F` whose thunk is
currently an argument with last argument in `C`, and `-1` when there is no such
frame; a lower frame does not overwrite it. -/
theorem forcing_position_of_topmost_argument_frame (h : Host) (s : TracerState)
    (call F : Call) (above below : List ExecutionContext)
    (hs : s.stack_ = above ++ .closure F :: below) (hF : F.id = call.id)
    (habove : ∀ c, ExecutionContext.closure c ∈ above → c.id ≠ call.id)
    (hpos : ∀ p, ExecutionContext.promise p ∈ above →
      forcing_candidate s.heap call p ≠ some (-1)) :
    (get_evaluation_depth h s call).forcing_actual_argument_position =
      topmost_forcing_position s.heap call above := by
  obtain ⟨r, hr, h1⟩ :=
    get_evaluation_depth_loop_forcing s.heap call F below hF above ⟨0, 0, 0, -1⟩ true habove hpos
  simp [get_evaluation_depth, hs, hr, h1]

/-- C12, at a concrete input: above the closure frame of call `1` lie the promise
frame of thunk `2`, not an argument, then that of thunk `0`, argument `2` of
call `1`, then that of thunk `1`, argument `0` of call `1`; the position
returned is `2`, that of the higher frame. -/
theorem forcing_position_of_topmost_argument_frame_witness :
    (get_evaluation_depth sample_host
        (forcing_state [.promise 2, .promise 0, .promise 1, .closure (sample_call 1 1)])
        (sample_call 1 1)).forcing_actual_argument_position = 2 :=
  (forcing_position_of_topmost_argument_frame sample_host
    (forcing_state [.promise 2, .promise 0, .promise 1, .closure (sample_call 1 1)])
    (sample_call 1 1) (sample_call 1 1) [.promise 2, .promise 0, .promise 1] [] rfl rfl
    (by intro c hc; simp at hc)
    (by
      intro p hp
      simp at hp
      rcases hp with hp | hp | hp <;> subst hp <;> decide)).trans (by decide)

/-! ## Lexical parentage -/

/-- The loop of `is_parent_environment`, started at `env_cur` with fuel beyond
the end of the chain of `env_cur`, finds `env_a` exactly when `env_a` lies on
that chain before its end. -/
theorem is_parent_loop_iff (h : Host) (env_a : SEXP) :
    ∀ (fuel : Nat) (env_cur : SEXP),
      (∃ m, m < fuel ∧ h.ENCLOS^[m] env_cur = R_NilValue) →
      (is_parent_loop h env_a fuel env_cur = true ↔
        ∃ k, h.ENCLOS^[k] env_cur = env_a ∧
          ∀ j, j ≤ k → h.ENCLOS^[j] env_cur ≠ R_NilValue) := by
  intro fuel
  induction fuel with
  | zero => intro env_cur ⟨m, hm, _⟩; exact absurd hm (Nat.not_lt_zero _)
  | succ fuel ih =>
    intro env_cur ⟨m, hm, hnil⟩
    by_cases hc : env_cur = R_NilValue
    · simp only [is_parent_loop, hc, if_true, Bool.false_eq_true, false_iff, not_exists, not_and]
      intro k _ hall
      exact hall 0 (Nat.zero_le _) (by simp)
    · by_cases ha : env_cur = env_a
      · subst ha
        have hl : is_parent_loop h env_cur (fuel + 1) env_cur = true := by
          simp [is_parent_loop, hc]
        rw [hl]
        simp only [true_iff]
        refine ⟨0, rfl, ?_⟩
        intro j hj
        have : j = 0 := Nat.le_zero.mp hj
        subst this
        simpa using hc
      · simp only [is_parent_loop, hc, if_false, ha]
        have hm0 : m ≠ 0 := by
          intro h0; subst h0; exact hc (by simpa using hnil)
        obtain ⟨m1, rfl⟩ := Nat.exists_eq_succ_of_ne_zero hm0
        have := ih (h.ENCLOS env_cur)
          ⟨m1, Nat.lt_of_succ_lt_succ hm, by simpa [Function.iterate_succ_apply] using hnil⟩
        rw [this]
        constructor
        · rintro ⟨k, hk, hall⟩
          refine ⟨k + 1, by simpa [Function.iterate_succ_apply] using hk, ?_⟩
          intro j hj
          cases j with
          | zero => simpa using hc
          | succ j1 =>
            simpa [Function.iterate_succ_apply] using hall j1 (Nat.le_of_succ_le_succ hj)
        · rintro ⟨k, hk, hall⟩
          cases k with
          | zero => exact absurd (by simpa using hk) ha
          | succ k1 =>
            refine ⟨k1, by simpa [Function.iterate_succ_apply] using hk, ?_⟩
            intro j hj
            simpa [Function.iterate_succ_apply] using hall (j + 1) (Nat.succ_le_succ hj)

/-- C13: for environments `Ea`, `Eb` such that `n >= 1` enclosing-environment
steps from `Eb` end in the nil environment, and with the host's chain length of
`Eb` at least `n`: `is_parent_environment(Ea, Eb)` is false when `Ea == Eb`, and
otherwise is true exactly when `Ea` is reached from `Eb` by one or more
enclosing-environment steps none of which yields the nil environment; the loop
gives this result for every amount of fuel from `n` on, so it ends on every
such chain. -/
theorem is_parent_environment_iff_reached (h : Host) (env_a env_b : SEXP) (n : Nat)
    (hn : 1 ≤ n) (hnil : h.ENCLOS^[n] env_b = R_NilValue) (hfuel : n ≤ h.ENCLOS_depth env_b) :
    (env_a = env_b → is_parent_environment h env_a env_b = false) ∧
      (env_a ≠ env_b →
        (is_parent_environment h env_a env_b = true ↔
          ∃ k, 1 ≤ k ∧ h.ENCLOS^[k] env_b = env_a ∧
            ∀ j, 1 ≤ j → j ≤ k → h.ENCLOS^[j] env_b ≠ R_NilValue)) ∧
      (∀ fuel, n ≤ fuel →
        is_parent_loop h env_a fuel (h.ENCLOS env_b) =
          is_parent_loop h env_a n (h.ENCLOS env_b)) := by
  obtain ⟨n1, rfl⟩ := Nat.exists_eq_succ_of_ne_zero (Nat.one_le_iff_ne_zero.mp hn)
  have hchain : ∀ fuel, n1 + 1 ≤ fuel →
      ∃ m, m < fuel ∧ h.ENCLOS^[m] (h.ENCLOS env_b) = R_NilValue :=
    fun fuel hf => ⟨n1, hf, by simpa [Function.iterate_succ_apply] using hnil⟩
  have hshift : (∃ k, h.ENCLOS^[k] (h.ENCLOS env_b) = env_a ∧
        ∀ j, j ≤ k → h.ENCLOS^[j] (h.ENCLOS env_b) ≠ R_NilValue) ↔
      ∃ k, 1 ≤ k ∧ h.ENCLOS^[k] env_b = env_a ∧
        ∀ j, 1 ≤ j → j ≤ k → h.ENCLOS^[j] env_b ≠ R_NilValue := by
    constructor
    · rintro ⟨k, hk, hall⟩
      refine ⟨k + 1, Nat.succ_le_succ (Nat.zero_le _),
        by simpa [Function.iterate_succ_apply] using hk, ?_⟩
      intro j hj1 hj
      obtain ⟨j1, rfl⟩ := Nat.exists_eq_succ_of_ne_zero (Nat.one_le_iff_ne_zero.mp hj1)
      simpa [Function.iterate_succ_apply] using hall j1 (Nat.le_of_succ_le_succ hj)
    · rintro ⟨k, hk1, hk, hall⟩
      obtain ⟨k1, rfl⟩ := Nat.exists_eq_succ_of_ne_zero (Nat.one_le_iff_ne_zero.mp hk1)
      refine ⟨k1, by simpa [Function.iterate_succ_apply] using hk, ?_⟩
      intro j hj
      simpa [Function.iterate_succ_apply] using
        hall (j + 1) (Nat.succ_le_succ (Nat.zero_le _)) (Nat.succ_le_succ hj)
  refine ⟨?_, ?_, ?_⟩
  · intro he
    simp [is_parent_environment, he]
  · intro hne
    simp only [is_parent_environment, hne, if_false]
    rw [is_parent_loop_iff h env_a _ _ (hchain _ hfuel)]
    exact hshift
  · intro fuel hf
    have e1 := is_parent_loop_iff h env_a fuel _ (hchain fuel hf)
    have e2 := is_parent_loop_iff h env_a (n1 + 1) _ (hchain (n1 + 1) (le_refl _))
    exact Bool.eq_iff_iff.mpr (e1.trans e2.symm)

/-- C13, at a concrete input: environment `1` is reached from environment `3` in
two steps of the chain `3`, `2`, `1`, nil. -/
theorem is_parent_environment_iff_reached_witness :
    is_parent_environment sample_host 1 3 = true :=
  ((is_parent_environment_iff_reached sample_host 1 3 3 (by decide) (by decide)
    (by decide)).2.1 (by decide)).mpr
    ⟨2, by decide, by decide, by
      intro j hj1 hj2
      have hj : j = 1 ∨ j = 2 := by omega
      rcases hj with hj | hj <;> subst hj <;> decide⟩

/-! ## Call arguments -/

theorem lookup_promise_create_some (h : Host) (s : TracerState) (promise : SEXP) (loc : Bool) :
    ∃ p s1, lookup_promise h s promise true loc = (some p, s1) := by
  unfold lookup_promise
  cases s.promises_.lookup promise with
  | some p => exact ⟨p, s, rfl⟩
  | none =>
    rcases hcr : create_raw_promise_ h s promise loc with ⟨p, s1⟩
    exact ⟨p, { s1 with promises_ := map_insert s1.promises_ promise p }, rfl⟩

/-- One step of argument processing appends one argument with the positions and
the flag it was given. -/
theorem process_closure_argument_call (h : Host) (s : TracerState) (call : Call)
    (fp ap : Int) (name argument : SEXP) (ddd : Bool) :
    ∃ a : Argument,
      (process_closure_argument_ h s call fp ap name argument ddd).1.arguments =
          call.arguments ++ [a] ∧
        a.formal_parameter_position = fp ∧ a.actual_argument_position = ap ∧
        a.dot_dot_dot = ddd ∧ a.call_id = call.id := by
  by_cases ht : h.type_of_sexp argument = PROMSXP
  · obtain ⟨p, s1, hl⟩ := lookup_promise_create_some h s argument false
    simp only [process_closure_argument_, ht, if_true, hl, call_add_argument]
    exact ⟨_, rfl, rfl, rfl, rfl, rfl⟩
  · simp only [process_closure_argument_, ht, if_false, get_next_denoted_value_id_,
      call_add_argument]
    exact ⟨_, rfl, rfl, rfl, rfl, rfl⟩

theorem range_map_offset_succ (ap : Int) (n : Nat) :
    (List.range (n + 1)).map (fun j : Nat => ap + 1 + (j : Int)) =
      (ap + 1) :: (List.range n).map (fun j : Nat => ap + 1 + 1 + (j : Int)) := by
  rw [List.range_succ_eq_map, List.map_cons, List.map_map]
  simp only [Nat.cast_zero, add_zero, List.cons.injEq, true_and]
  apply List.map_congr_left
  intro j _
  simp only [Function.comp, Nat.succ_eq_add_one, Nat.cast_add, Nat.cast_one]
  ring

theorem range_map_offset_append (ap : Int) (m n : Nat) :
    (List.range (m + n)).map (fun j : Nat => ap + 1 + (j : Int)) =
      (List.range m).map (fun j : Nat => ap + 1 + (j : Int)) ++
        (List.range n).map (fun j : Nat => ap + (m : Int) + 1 + (j : Int)) := by
  rw [List.range_add, List.map_append, List.map_map]
  congr 1
  apply List.map_congr_left
  intro j _
  simp only [Function.comp, Nat.cast_add]
  ring

/-- The loop over a `...` aggregate appends one argument per element, all with
the formal position of the loop and the flag set, at consecutive actual
positions. -/
theorem process_dot_dot_dot_loop_arguments (h : Host) (fp : Int) (l : List (SEXP × SEXP)) :
    ∀ (ap : Int) (call : Call) (s : TracerState),
      (process_dot_dot_dot_loop h fp l ap call s).1 = ap + (l.length : Int) ∧
        ∃ added : List Argument,
          (process_dot_dot_dot_loop h fp l ap call s).2.1.arguments =
              call.arguments ++ added ∧
            added.length = l.length ∧
            added.map (fun a => (a.formal_parameter_position, a.dot_dot_dot)) =
              List.replicate l.length (fp, true) ∧
            added.map (fun a => a.actual_argument_position) =
              (List.range l.length).map (fun j : Nat => ap + 1 + (j : Int)) := by
  induction l with
  | nil => intro ap call s; exact ⟨by simp [process_dot_dot_dot_loop], [], by simp [process_dot_dot_dot_loop]⟩
  | cons x tl ih =>
    intro ap call s
    obtain ⟨name, arg⟩ := x
    obtain ⟨a, ha, h1, h2, h3, _⟩ :=
      process_closure_argument_call h s call fp (ap + 1) name arg true
    obtain ⟨e1, added, e2, e3, e4, e5⟩ := ih (ap + 1)
      (process_closure_argument_ h s call fp (ap + 1) name arg true).1
      (process_closure_argument_ h s call fp (ap + 1) name arg true).2
    simp only [process_dot_dot_dot_loop]
    refine ⟨?_, a :: added, ?_, by simp [e3], ?_, ?_⟩
    · rw [e1]; simp only [List.length_cons, Nat.cast_add, Nat.cast_one]; ring
    · rw [e2, ha]; simp
    · simp [List.replicate_succ, e4, h1, h3]
    · rw [List.length_cons, range_map_offset_succ]
      simp [e5, h2]

/-- The loop over the formals appends, formal by formal, the arguments the
specification describes, at consecutive actual positions. -/
theorem process_formals_loop_arguments (h : Host) (rho : SEXP) (l : List SEXP) :
    ∀ (fp ap : Int) (call : Call) (s : TracerState),
      ∃ added : List Argument,
        (process_formals_loop h rho l fp ap call s).1.arguments = call.arguments ++ added ∧
          added.map (fun a => (a.formal_parameter_position, a.dot_dot_dot)) =
            expected_formal_positions h rho l (fp + 1) ∧
          added.map (fun a => a.actual_argument_position) =
            (List.range added.length).map (fun j : Nat => ap + 1 + (j : Int)) := by
  induction l with
  | nil => intro fp ap call s; exact ⟨[], by simp [process_formals_loop, expected_formal_positions]⟩
  | cons name tl ih =>
    intro fp ap call s
    by_cases hd : h.type_of_sexp (h.dyntrace_lookup_environment rho name) = DOTSXP
    · obtain ⟨e1, block, e2, e3, e4, e5⟩ := process_dot_dot_dot_loop_arguments h (fp + 1)
        (h.DOTS (h.dyntrace_lookup_environment rho name)) ap call s
      obtain ⟨added, r1, r2, r3⟩ := ih (fp + 1)
        (process_dot_dot_dot_loop h (fp + 1) (h.DOTS (h.dyntrace_lookup_environment rho name))
          ap call s).1
        (process_dot_dot_dot_loop h (fp + 1) (h.DOTS (h.dyntrace_lookup_environment rho name))
          ap call s).2.1
        (process_dot_dot_dot_loop h (fp + 1) (h.DOTS (h.dyntrace_lookup_environment rho name))
          ap call s).2.2
      simp only [process_formals_loop, hd, if_true]
      refine ⟨block ++ added, ?_, ?_, ?_⟩
      · rw [r1, e2, List.append_assoc]
      · simp [expected_formal_positions, formal_argument_count, hd, e4, r2]
      · rw [List.map_append, List.length_append, range_map_offset_append, e5, r3, e1, e3]
    · obtain ⟨a, ha, h1, h2, h3, _⟩ := process_closure_argument_call h s call (fp + 1) (ap + 1)
        name (h.dyntrace_lookup_environment rho name) (h.is_dots_symbol name)
      obtain ⟨added, r1, r2, r3⟩ := ih (fp + 1) (ap + 1)
        (process_closure_argument_ h s call (fp + 1) (ap + 1) name
          (h.dyntrace_lookup_environment rho name) (h.is_dots_symbol name)).1
        (process_closure_argument_ h s call (fp + 1) (ap + 1) name
          (h.dyntrace_lookup_environment rho name) (h.is_dots_symbol name)).2
      simp only [process_formals_loop, hd, if_false]
      refine ⟨a :: added, ?_, ?_, ?_⟩
      · rw [r1, ha]; simp
      · simp [expected_formal_positions, formal_argument_count, hd, r2, h1, h3,
          List.replicate_succ]
      · rw [List.length_cons, range_map_offset_succ]
        simp [r3, h2]

/-- C14: for a closure call, the arguments that `create_call` produces are,
formal by formal from formal position `0`: for a formal bound to a `...`
aggregate of `k` elements, `k` arguments with that formal position and
`dot_dot_dot = true`; for any other binding, one argument with that formal
position; and the actual argument positions of all arguments are `0, 1, 2, ...`
in order, so each block continues the numbering of the arguments before it. -/
theorem dot_dot_dot_expansion (h : Host) (s : TracerState) (call op args rho : SEXP)
    (hc : h.type_of_sexp op = CLOSXP) :
    (create_call h s call op args rho).1.arguments.map
        (fun a => (a.formal_parameter_position, a.dot_dot_dot)) =
      expected_formal_positions h rho (h.FORMALS op) 0 ∧
    (create_call h s call op args rho).1.arguments.map (fun a => a.actual_argument_position) =
      (List.range (create_call h s call op args rho).1.arguments.length).map
        (fun j : Nat => (j : Int)) ∧
    (create_call h s call op args rho).1.arguments.length =
      ((h.FORMALS op).map (formal_argument_count h rho)).sum := by
  have hargs : ∃ added : List Argument,
      (create_call h s call op args rho).1.arguments = added ∧
      added.map (fun a => (a.formal_parameter_position, a.dot_dot_dot)) =
        expected_formal_positions h rho (h.FORMALS op) 0 ∧
      added.map (fun a => a.actual_argument_position) =
        (List.range added.length).map (fun j : Nat => (j : Int)) := by
    have key : ∀ (c0 : Call) (s0 : TracerState), c0.arguments = [] →
        ∃ added : List Argument,
          (process_formals_loop h rho (h.FORMALS op) (-1) (-1) c0 s0).1.arguments = added ∧
          added.map (fun a => (a.formal_parameter_position, a.dot_dot_dot)) =
            expected_formal_positions h rho (h.FORMALS op) 0 ∧
          added.map (fun a => a.actual_argument_position) =
            (List.range added.length).map (fun j : Nat => (j : Int)) := by
      intro c0 s0 h0
      obtain ⟨added, r1, r2, r3⟩ :=
        process_formals_loop_arguments h rho (h.FORMALS op) (-1) (-1) c0 s0
      refine ⟨added, by simpa [h0] using r1, by simpa using r2, ?_⟩
      rw [r3]
      apply List.map_congr_left
      intro j _
      ring
    rcases hlf : lookup_function h s op with ⟨function, s1⟩
    simp only [create_call, hlf, get_next_call_id_, hc, if_true, process_closure_arguments_]
    exact key _ _ rfl
  obtain ⟨added, e1, e2, e3⟩ := hargs
  have hlen : ∀ (l : List SEXP) (i : Int),
      (expected_formal_positions h rho l i).length = (l.map (formal_argument_count h rho)).sum := by
    intro l
    induction l with
    | nil => intro i; rfl
    | cons name tl ih => intro i; simp [expected_formal_positions, ih]
  refine ⟨by rw [e1]; exact e2, by rw [e1]; exact e3, ?_⟩
  rw [e1, ← hlen (h.FORMALS op) 0, ← e2, List.length_map]

/-- C14, at a concrete input (scenario S6): `f = function(...) list(...)` called
as `f(1, 2, 3)` gets three arguments with formal position `0`, the flag set and
actual positions `0`, `1`, `2`. -/
theorem dot_dot_dot_expansion_witness :
    (create_call dots_host (fresh dots_host 0) 1 20 0 40).1.arguments.map
        (fun a => (a.formal_parameter_position, a.dot_dot_dot)) =
      [(0, true), (0, true), (0, true)] ∧
    (create_call dots_host (fresh dots_host 0) 1 20 0 40).1.arguments.map
        (fun a => a.actual_argument_position) = [0, 1, 2] :=
  ⟨(dot_dot_dot_expansion dots_host (fresh dots_host 0) 1 20 0 40 (by decide)).1.trans
      (by decide),
    (dot_dot_dot_expansion dots_host (fresh dots_host 0) 1 20 0 40 (by decide)).2.1.trans
      (by decide)⟩

/-! ## Timestamp: frame lemmas -/

theorem foldl_timestamp {α : Type} (f : TracerState → α → TracerState)
    (hf : ∀ s a, (f s a).timestamp_ = s.timestamp_) (l : List α) :
    ∀ s : TracerState, (l.foldl f s).timestamp_ = s.timestamp_ := by
  induction l with
  | nil => intro s; rfl
  | cons a tl ih => intro s; rw [List.foldl_cons, ih, hf]

theorem create_environment_timestamp (s : TracerState) (rho : SEXP) :
    (create_environment s rho).2.timestamp_ = s.timestamp_ := by
  unfold create_environment create_next_environment_id_
  cases s.environment_mapping_.lookup rho <;> rfl

theorem lookup_environment_timestamp (s : TracerState) (rho : SEXP) (b : Bool) :
    (lookup_environment s rho b).2.timestamp_ = s.timestamp_ := by
  unfold lookup_environment
  cases h : s.environment_mapping_.lookup rho
  · exact create_environment_timestamp s rho
  · rfl

theorem create_raw_promise_timestamp (h : Host) (s : TracerState) (promise : SEXP)
    (loc : Bool) : (create_raw_promise_ h s promise loc).2.timestamp_ = s.timestamp_ := by
  simp only [create_raw_promise_, get_next_denoted_value_id_, set_scope_, store]
  exact lookup_environment_timestamp s _ true

theorem lookup_promise_timestamp (h : Host) (s : TracerState) (promise : SEXP)
    (create loc : Bool) : (lookup_promise h s promise create loc).2.timestamp_ = s.timestamp_ := by
  unfold lookup_promise
  cases s.promises_.lookup promise with
  | some p => rfl
  | none =>
    cases create with
    | false => rfl
    | true =>
      have := create_raw_promise_timestamp h s promise loc
      rcases hcr : create_raw_promise_ h s promise loc with ⟨p, s1⟩
      rw [hcr] at this
      exact this

theorem create_promise_timestamp (h : Host) (s : TracerState) (promise : SEXP) :
    (create_promise h s promise).2.timestamp_ = s.timestamp_ := by
  have := create_raw_promise_timestamp h s promise true
  rcases hcr : create_raw_promise_ h s promise true with ⟨p, s1⟩
  rw [hcr] at this
  simpa [create_promise, hcr, store] using this

theorem destroy_promise_timestamp (s : TracerState) (p : denoted_value_id_t) :
    (destroy_promise s p).timestamp_ = s.timestamp_ := by
  simp only [destroy_promise, store, serialize_promise_, summarize_promise_lifecycle_,
    serialize_escaped_promise_, delete_]
  split <;> split <;> rfl

theorem process_closure_argument_timestamp (h : Host) (s : TracerState) (call : Call)
    (fp ap : Int) (name argument : SEXP) (ddd : Bool) :
    (process_closure_argument_ h s call fp ap name argument ddd).2.timestamp_ =
      s.timestamp_ := by
  by_cases ht : h.type_of_sexp argument = PROMSXP
  · have e := lookup_promise_timestamp h s argument true false
    obtain ⟨p, s1, hl⟩ := lookup_promise_create_some h s argument false
    rw [hl] at e
    simpa [process_closure_argument_, ht, hl, store] using e
  · simp [process_closure_argument_, ht, get_next_denoted_value_id_, set_scope_, store]

theorem process_dot_dot_dot_loop_timestamp (h : Host) (fp : Int) (l : List (SEXP × SEXP)) :
    ∀ (ap : Int) (call : Call) (s : TracerState),
      (process_dot_dot_dot_loop h fp l ap call s).2.2.timestamp_ = s.timestamp_ := by
  induction l with
  | nil => intro ap call s; rfl
  | cons x tl ih =>
    intro ap call s
    obtain ⟨name, arg⟩ := x
    simp only [process_dot_dot_dot_loop]
    rw [ih, process_closure_argument_timestamp]

theorem process_formals_loop_timestamp (h : Host) (rho : SEXP) (l : List SEXP) :
    ∀ (fp ap : Int) (call : Call) (s : TracerState),
      (process_formals_loop h rho l fp ap call s).2.timestamp_ = s.timestamp_ := by
  induction l with
  | nil => intro fp ap call s; rfl
  | cons name tl ih =>
    intro fp ap call s
    by_cases hd : h.type_of_sexp (h.dyntrace_lookup_environment rho name) = DOTSXP
    · simp only [process_formals_loop, hd, if_true]
      rw [ih, process_dot_dot_dot_loop_timestamp]
    · simp only [process_formals_loop, hd, if_false]
      rw [ih, process_closure_argument_timestamp]

theorem lookup_function_timestamp (h : Host) (s : TracerState) (op : SEXP) :
    (lookup_function h s op).2.timestamp_ = s.timestamp_ := by
  unfold lookup_function
  cases s.functions_.lookup op <;> rfl

theorem create_call_timestamp (h : Host) (s : TracerState) (call op args rho : SEXP) :
    (create_call h s call op args rho).2.timestamp_ = s.timestamp_ := by
  have e := lookup_function_timestamp h s op
  rcases hlf : lookup_function h s op with ⟨function, s1⟩
  rw [hlf] at e
  by_cases hc : h.type_of_sexp op = CLOSXP
  · simp only [create_call, hlf, get_next_call_id_, hc, if_true, process_closure_arguments_]
    rw [process_formals_loop_timestamp]
    exact e
  · simpa [create_call, hlf, get_next_call_id_, hc] using e

theorem destroy_argument_timestamp (call : Call) (s : TracerState) (a : Argument) :
    (destroy_argument call s a).timestamp_ = s.timestamp_ := by
  simp only [destroy_argument, serialize_argument_, delete_, store]
  split <;> rfl

theorem destroy_call_timestamp (s : TracerState) (call : Call) :
    (destroy_call s call).timestamp_ = s.timestamp_ := by
  unfold destroy_call
  rw [foldl_timestamp _ (destroy_argument_timestamp call)]
  rfl

theorem lookup_variable_timestamp (h : Host) (s : TracerState) (rho : SEXP) (symbol : String)
    (ce cv : Bool) : (lookup_variable h s rho symbol ce cv).2.timestamp_ = s.timestamp_ := by
  have e := lookup_environment_timestamp s rho ce
  unfold lookup_variable
  simp only [create_next_variable_id_, set_environment]
  split
  · exact e
  · exact e

theorem update_variable_timestamp (h : Host) (s : TracerState) (rho symbol : SEXP)
    (ce cv : Bool) : (update_variable h s rho symbol ce cv).2.timestamp_ = s.timestamp_ := by
  have e := lookup_variable_timestamp h s rho (h.symbol_to_string symbol) true true
  unfold update_variable lookup_variable_symbol
  rcases hl : lookup_variable h s rho (h.symbol_to_string symbol) true true with ⟨v, s1⟩
  rw [hl] at e
  cases v with
  | none => exact e
  | some var =>
    simp only
    cases s1.environment_mapping_.lookup rho with
    | none => exact e
    | some env => exact e

theorem destroy_function_timestamp (s : TracerState) (f : Function) :
    (destroy_function_ s f).timestamp_ = s.timestamp_ := by
  simp only [destroy_function_, serialize_function_, serialize_function_definition_,
    serialize_function_call_summary_]
  split <;> rfl

theorem remove_function_timestamp (s : TracerState) (op : SEXP) :
    (remove_function s op).timestamp_ = s.timestamp_ := by
  unfold remove_function
  cases s.functions_.lookup op with
  | none => rfl
  | some f => exact destroy_function_timestamp s f

theorem cleanup_tables_timestamp (s : TracerState) :
    (cleanup_tables s).timestamp_ = s.timestamp_ := by
  have h1 := foldl_timestamp (fun st (e : SEXP × denoted_value_id_t) => destroy_promise st e.2)
    (fun st e => destroy_promise_timestamp st e.2) s.promises_ s
  have h2 := fun (l : List (SEXP × Function)) (st : TracerState) =>
    foldl_timestamp (fun st (e : SEXP × Function) => destroy_function_ st e.2)
      (fun st e => destroy_function_timestamp st e.2) l st
  simp only [cleanup_tables, serialize_promise_lifecycle_summary_, serialize_object_count_, h2,
    h1]

theorem cleanup_timestamp (s : TracerState) (error : Int) :
    (cleanup s error).timestamp_ = s.timestamp_ := by
  have e := cleanup_tables_timestamp s
  simp only [cleanup, cleanup_sentinel, cleanup_stack_check, write_file, dyntrace_log_error]
  split <;> split <;> exact e

theorem update_wrapper_state_timestamp (s : TracerState) (call : Call) :
    (update_wrapper_state s call).timestamp_ = s.timestamp_ := by
  unfold update_wrapper_state
  split
  · split <;> rfl
  · rfl

/-- Every public operation but `enter_probe` leaves the timestamp as it is, and
`enter_probe` adds one. -/
theorem apply_op_timestamp (h : Host) (s : TracerState) (op : PublicOp) :
    (apply_op h s op).timestamp_ = s.timestamp_ + (if op.is_enter_probe then 1 else 0) := by
  cases op with
  | initialize_ => rfl
  | cleanup error => simpa [apply_op, PublicOp.is_enter_probe] using cleanup_timestamp s error
  | increment_object_count type => rfl
  | stack_push ctxt => rfl
  | stack_pop => rfl
  | create_environment rho =>
    simpa [apply_op, PublicOp.is_enter_probe] using create_environment_timestamp s rho
  | remove_environment rho => rfl
  | lookup_environment rho create =>
    simpa [apply_op, PublicOp.is_enter_probe] using lookup_environment_timestamp s rho create
  | lookup_variable rho symbol ce cv =>
    simpa [apply_op, PublicOp.is_enter_probe] using lookup_variable_timestamp h s rho symbol ce cv
  | lookup_variable_symbol rho symbol ce cv =>
    simpa [apply_op, PublicOp.is_enter_probe, lookup_variable_symbol] using
      lookup_variable_timestamp h s rho (h.symbol_to_string symbol) ce cv
  | define_variable rho symbol ce =>
    simpa [apply_op, PublicOp.is_enter_probe, define_variable, create_next_variable_id_,
      set_environment] using lookup_environment_timestamp s rho true
  | update_variable rho symbol ce cv =>
    simpa [apply_op, PublicOp.is_enter_probe] using update_variable_timestamp h s rho symbol ce cv
  | remove_variable rho symbol ce =>
    simpa [apply_op, PublicOp.is_enter_probe, remove_variable, set_environment] using
      lookup_environment_timestamp s rho ce
  | resume_execution_timer now => rfl
  | pause_execution_timer now => rfl
  | create_promise promise =>
    simpa [apply_op, PublicOp.is_enter_probe] using create_promise_timestamp h s promise
  | lookup_promise promise create is_loc =>
    simpa [apply_op, PublicOp.is_enter_probe] using
      lookup_promise_timestamp h s promise create is_loc
  | remove_promise promise promise_state =>
    simpa [apply_op, PublicOp.is_enter_probe, remove_promise] using
      destroy_promise_timestamp { s with promises_ := map_erase s.promises_ promise }
        promise_state
  | destroy_promise promise_state =>
    simpa [apply_op, PublicOp.is_enter_probe] using destroy_promise_timestamp s promise_state
  | exit_probe now => rfl
  | enter_probe now => rfl
  | create_call call op args rho =>
    simpa [apply_op, PublicOp.is_enter_probe] using create_call_timestamp h s call op args rho
  | destroy_call call =>
    simpa [apply_op, PublicOp.is_enter_probe] using destroy_call_timestamp s call
  | lookup_function op =>
    simpa [apply_op, PublicOp.is_enter_probe] using lookup_function_timestamp h s op
  | remove_function op =>
    simpa [apply_op, PublicOp.is_enter_probe] using remove_function_timestamp s op
  | identify_side_effect_creators var env => rfl
  | identify_side_effect_observers var env => rfl
  | update_wrapper_state call =>
    simpa [apply_op, PublicOp.is_enter_probe] using update_wrapper_state_timestamp s call
  | summarize_promise_lifecycle_ lifecycle => rfl
  | serialize_promise_lifecycle_summary_ => rfl

/-- The timestamp after a sequence of public operations is the timestamp before
it plus the number of `enter_probe` calls in the sequence. -/
theorem run_ops_timestamp (h : Host) (ops : List PublicOp) :
    ∀ s : TracerState,
      (run_ops h s ops).timestamp_ = s.timestamp_ + count_enter_probes ops := by
  induction ops with
  | nil => intro s; simp [run_ops, count_enter_probes]
  | cons op tl ih =>
    intro s
    have e := ih (apply_op h s op)
    simp only [run_ops, List.foldl_cons] at e ⊢
    rw [e, apply_op_timestamp]
    simp only [count_enter_probes, List.countP_cons]
    cases hb : op.is_enter_probe <;> simp [Nat.add_comm, Nat.add_left_comm]

/-! ## Timestamp: claim -/

/-- C15: `enter_probe` increases the current timestamp by exactly one and
`exit_probe` leaves it unchanged; every other public operation leaves it
unchanged too, so after any sequence of public operations the timestamp has
grown by the number of `enter_probe` calls in it, and from a fresh state it is
that number. -/
theorem timestamp_counts_enter_probes (h : Host) (s : TracerState) :
    (∀ now, (enter_probe s now).timestamp_ = s.timestamp_ + 1) ∧
      (∀ now, (exit_probe s now).timestamp_ = s.timestamp_) ∧
      (∀ op : PublicOp, op.is_enter_probe = false →
        (apply_op h s op).timestamp_ = s.timestamp_) ∧
      (∀ ops : List PublicOp,
        (run_ops h s ops).timestamp_ = s.timestamp_ + count_enter_probes ops) ∧
      (∀ (ops : List PublicOp) (k : Nat),
        (run_ops h (fresh h k) ops).timestamp_ = count_enter_probes ops) := by
  refine ⟨fun _ => rfl, fun _ => rfl, ?_, fun ops => run_ops_timestamp h ops s, ?_⟩
  · intro op hop
    rw [apply_op_timestamp, hop]
    rfl
  · intro ops k
    rw [run_ops_timestamp]
    simp [fresh]

/-! ## Association lists: helper lemmas -/

theorem lookup_append_of_none {α β : Type} [BEq α] (k : α) (m m2 : List (α × β))
    (hm : m.lookup k = none) : (m ++ m2).lookup k = m2.lookup k := by
  induction m with
  | nil => rfl
  | cons e tl ih =>
    obtain ⟨a, b⟩ := e
    simp only [List.lookup_cons] at hm
    simp only [List.cons_append, List.lookup_cons]
    cases hab : k == a with
    | true => simp [hab] at hm
    | false => simp only [hab] at hm; exact ih hm

theorem lookup_singleton_self {α β : Type} [BEq α] [LawfulBEq α] (k : α) (v : β) :
    [(k, v)].lookup k = some v := by
  simp [List.lookup_cons]

theorem map_replace_of_none {β : Type} (k : SEXP) (w : β) (m : List (SEXP × β))
    (hm : m.lookup k = none) : m.map (fun e => if e.1 = k then (k, w) else e) = m := by
  induction m with
  | nil => rfl
  | cons e tl ih =>
    obtain ⟨a, b⟩ := e
    simp only [List.lookup_cons] at hm
    cases hab : k == a with
    | true => simp [hab] at hm
    | false =>
      simp only [hab] at hm
      have hne : ¬ a = k := fun h => by simp [h] at hab
      simp [hne, ih hm]

theorem lookup_map_replace {α β : Type} [BEq α] [LawfulBEq α] [DecidableEq α] (k : α)
    (f : α → β) (m : List (α × β)) :
    (m.map (fun e => if e.1 = k then (e.1, f e.1) else e)).lookup k =
      (m.lookup k).map (fun _ => f k) := by
  induction m with
  | nil => rfl
  | cons e tl ih =>
    obtain ⟨a, b⟩ := e
    by_cases hak : a = k
    · subst hak; simp [List.lookup_cons]
    · have hka : (k == a) = false := by simp [Ne.symm hak]
      simp [List.lookup_cons, hak, hka, ih]

theorem lookup_filter_ne_self {α β : Type} [BEq α] [LawfulBEq α] (k : α) (m : List (α × β)) :
    (m.filter (fun x => x.1 != k)).lookup k = none := by
  induction m with
  | nil => rfl
  | cons e tl ih =>
    obtain ⟨a, b⟩ := e
    by_cases hak : a = k
    · subst hak; simp [List.filter_cons, ih]
    · have hka : (k == a) = false := by simp [Ne.symm hak]
      simp [List.filter_cons, hak, List.lookup_cons, hka, ih]

theorem map_insert_or_assign_append_self {β : Type} (k : SEXP) (v w : β)
    (m : List (SEXP × β)) (hm : m.lookup k = none) :
    map_insert_or_assign (m ++ [(k, v)]) k w = m ++ [(k, w)] := by
  have hl : (m ++ [(k, v)]).lookup k = some v := by
    rw [lookup_append_of_none k m _ hm, lookup_singleton_self]
  simp [map_insert_or_assign, hl, map_replace_of_none k w m hm]

theorem lookup_insert_or_assign_self {β : Type} (k : SEXP) (v : β) (m : List (SEXP × β)) :
    (map_insert_or_assign m k v).lookup k = some v := by
  unfold map_insert_or_assign
  cases hm : m.lookup k with
  | none => simp only; rw [lookup_append_of_none k m _ hm, lookup_singleton_self]
  | some b =>
    simp only
    have := lookup_map_replace k (fun _ => v) m
    have e : (fun e : SEXP × β => if e.1 = k then (k, v) else e) =
        (fun e : SEXP × β => if e.1 = k then (e.1, v) else e) := by
      funext e
      by_cases h : e.1 = k <;> simp [h]
    rw [e, this, hm]
    rfl

/-! ## Environment and variable registry: helper lemmas -/

/-- What `lookup_environment` does on a handle that is not registered. -/
theorem lookup_environment_unregistered (s : TracerState) (rho : SEXP) (create : Bool)
    (hno : s.environment_mapping_.lookup rho = none) :
    lookup_environment s rho create =
      (⟨rho, s.environment_id_, []⟩,
        { s with
          environment_id_ := s.environment_id_ + 1
          environment_mapping_ :=
            s.environment_mapping_ ++ [(rho, ⟨rho, s.environment_id_, []⟩)] }) := by
  simp [lookup_environment, create_environment, create_next_environment_id_, hno, map_insert]

/-- The record `lookup_environment` returns is the one registered afterwards. -/
theorem lookup_environment_registered (s : TracerState) (rho : SEXP) (create : Bool) :
    (lookup_environment s rho create).2.environment_mapping_.lookup rho =
      some (lookup_environment s rho create).1 := by
  cases hl : s.environment_mapping_.lookup rho with
  | none =>
    rw [lookup_environment_unregistered s rho create hl]
    simp only
    rw [lookup_append_of_none rho _ _ hl, lookup_singleton_self]
  | some e => simp [lookup_environment, hl]

/-- With both flags set, `lookup_variable` returns a variable, registered under
its name in the environment record of `rho`, and leaves the timestamp alone. -/
theorem lookup_variable_create_spec (h : Host) (s : TracerState) (rho : SEXP)
    (symbol : String) :
    ∃ var e s1, lookup_variable h s rho symbol true true = (some var, s1) ∧
      s1.timestamp_ = s.timestamp_ ∧
      s1.environment_mapping_.lookup rho = some e ∧ e.vars.lookup symbol = some var := by
  have hreg := lookup_environment_registered s rho true
  have hts := lookup_environment_timestamp s rho true
  rcases hr : lookup_environment s rho true with ⟨e0, s0⟩
  rw [hr] at hreg hts
  simp only at hreg hts
  cases hx : environment_exists e0 symbol with
  | false =>
    refine ⟨(environment_define h e0 symbol s0.variable_id_ s0.timestamp_).1,
      (environment_define h e0 symbol s0.variable_id_ s0.timestamp_).2,
      set_environment { s0 with variable_id_ := s0.variable_id_ + 1 } rho
        (environment_define h e0 symbol s0.variable_id_ s0.timestamp_).2, ?_, ?_, ?_, ?_⟩
    · simp [lookup_variable, hr, hx, create_next_variable_id_, get_current_timestamp_]
    · simpa [set_environment] using hts
    · simp only [set_environment]
      exact lookup_insert_or_assign_self _ _ _
    · simp only [environment_define]
      rw [lookup_append_of_none _ _ _ (lookup_filter_ne_self symbol _), lookup_singleton_self]
  | true =>
    have hsome : ∃ var, e0.vars.lookup symbol = some var := by
      simpa [environment_exists, Option.isSome_iff_exists] using hx
    obtain ⟨var, hvar⟩ := hsome
    exact ⟨var, e0, s0, by simp [lookup_variable, hr, hx, environment_lookup, hvar], hts, hreg,
      hvar⟩

/-- What `update_variable` returns and stores. -/
theorem update_variable_spec (h : Host) (s : TracerState) (rho symbol : SEXP) (ce cv : Bool) :
    ∃ var e, (update_variable h s rho symbol ce cv).1 = some var ∧
      var.modification_timestamp = s.timestamp_ ∧
      (update_variable h s rho symbol ce cv).2.environment_mapping_.lookup rho = some e ∧
      e.vars.lookup (h.symbol_to_string symbol) = some var := by
  obtain ⟨var, e, s1, hl, hts, hreg, hvar⟩ :=
    lookup_variable_create_spec h s rho (h.symbol_to_string symbol)
  refine ⟨variable_set_modification_timestamp var s1.timestamp_,
    { e with
      vars :=
        e.vars.map (fun x =>
          if x.1 = h.symbol_to_string symbol then
            (x.1, variable_set_modification_timestamp var s1.timestamp_)
          else x) }, ?_, ?_, ?_, ?_⟩
  · simp only [update_variable, lookup_variable_symbol, hl, hreg, get_current_timestamp_]
  · simp [variable_set_modification_timestamp, hts]
  · simp only [update_variable, lookup_variable_symbol, hl, hreg, get_current_timestamp_,
      set_environment]
    exact lookup_insert_or_assign_self _ _ _
  · simp only
    have := lookup_map_replace (h.symbol_to_string symbol)
      (fun _ => variable_set_modification_timestamp var s1.timestamp_) e.vars
    rw [this, hvar]
    rfl

/-! ## Environment and variable registry: claims -/

/-- C16 (counterexample): two successive `update_variable` calls on the same
variable with no `enter_probe` between them leave the same modification
timestamp, `0`, on the same variable record: the timestamp does not strictly
increase. -/
theorem update_variable_twice_same_timestamp :
    (update_variable sample_host (fresh sample_host 0) 7 30 true true).1 =
        some ⟨0, "x", 0, 0⟩ ∧
      (update_variable sample_host
          (update_variable sample_host (fresh sample_host 0) 7 30 true true).2 7 30 true
          true).1 = some ⟨0, "x", 0, 0⟩ := by
  decide

/-- C16 (amended): after `update_variable` the variable, as returned and as
registered in its environment, has its modification timestamp equal to the
current timestamp, which is a defined timestamp unless the current timestamp is
the undefined constant; and after any further public operations a second
`update_variable` on the same variable finds the modification timestamp grown
by the number of `enter_probe` calls in between, so it never decreases and it
strictly increases exactly when at least one `enter_probe` came between. -/
theorem update_variable_sets_current_timestamp (h : Host) (s : TracerState) (rho symbol : SEXP)
    (ce cv : Bool) :
    ∃ var e, (update_variable h s rho symbol ce cv).1 = some var ∧
      var.modification_timestamp = s.timestamp_ ∧
      (update_variable h s rho symbol ce cv).2.environment_mapping_.lookup rho = some e ∧
      e.vars.lookup (h.symbol_to_string symbol) = some var ∧
      (s.timestamp_ ≠ h.UNDEFINED_TIMESTAMP →
        timestamp_is_undefined h var.modification_timestamp = false) ∧
      (∀ (ops : List PublicOp) (ce2 cv2 : Bool),
        ∃ var2,
          (update_variable h (run_ops h (update_variable h s rho symbol ce cv).2 ops) rho symbol
            ce2 cv2).1 = some var2 ∧
          var2.modification_timestamp =
            var.modification_timestamp + count_enter_probes ops ∧
          (var.modification_timestamp < var2.modification_timestamp ↔
            0 < count_enter_probes ops)) := by
  obtain ⟨var, e, h1, h2, h3, h4⟩ := update_variable_spec h s rho symbol ce cv
  refine ⟨var, e, h1, h2, h3, h4, ?_, ?_⟩
  · intro hdef
    simp [timestamp_is_undefined, h2, hdef]
  · intro ops ce2 cv2
    obtain ⟨var2, e2, g1, g2, _, _⟩ :=
      update_variable_spec h (run_ops h (update_variable h s rho symbol ce cv).2 ops) rho symbol
        ce2 cv2
    have hts : var2.modification_timestamp =
        var.modification_timestamp + count_enter_probes ops := by
      rw [g2, run_ops_timestamp, update_variable_timestamp, h2]
    exact ⟨var2, g1, hts, by rw [hts]; exact Nat.lt_add_right_iff_pos⟩

/-- C17 (counterexample): on a fresh tracer, where no environment is registered,
`lookup_environment` and `lookup_variable` called with `create_environment =
false` both insert an environment record and consume the env id `0`. -/
theorem lookup_environment_without_create_flag_inserts :
    (fresh sample_host 0).environment_mapping_ = [] ∧
      (lookup_environment (fresh sample_host 0) 5 false).2.environment_mapping_ =
        [(5, ⟨5, 0, []⟩)] ∧
      (lookup_environment (fresh sample_host 0) 5 false).2.environment_id_ = 1 ∧
      (lookup_variable sample_host (fresh sample_host 0) 5 "x" false false).2.environment_mapping_ =
        [(5, ⟨5, 0, []⟩)] ∧
      (lookup_variable sample_host (fresh sample_host 0) 5 "x" false false).2.environment_id_ =
        1 := by
  decide

/-- C17 (amended): for an environment handle that is not in the registry,
`lookup_environment` and `lookup_variable` insert one record for it, with the
env id that the counter held and that the counter then passes, for either
value of `create_environment`; the inserted record holds the new variable when
`lookup_variable` creates one and no variable otherwise. -/
theorem lookup_environment_always_registers (h : Host) (s : TracerState) (rho : SEXP)
    (hno : s.environment_mapping_.lookup rho = none) :
    (∀ create,
        (lookup_environment s rho create).1 = ⟨rho, s.environment_id_, []⟩ ∧
          (lookup_environment s rho create).2.environment_mapping_ =
            s.environment_mapping_ ++ [(rho, ⟨rho, s.environment_id_, []⟩)] ∧
          (lookup_environment s rho create).2.environment_id_ = s.environment_id_ + 1) ∧
      (∀ symbol ce cv,
        (lookup_variable h s rho symbol ce cv).2.environment_mapping_ =
            s.environment_mapping_ ++
              [(rho, ⟨rho, s.environment_id_,
                if cv = true then [(symbol, new_variable h symbol s.variable_id_ s.timestamp_)]
                else []⟩)] ∧
          (lookup_variable h s rho symbol ce cv).2.environment_id_ = s.environment_id_ + 1) := by
  constructor
  · intro create
    rw [lookup_environment_unregistered s rho create hno]
    exact ⟨rfl, rfl, rfl⟩
  · intro symbol ce cv
    cases cv with
    | true =>
      simp only [lookup_variable, lookup_environment_unregistered s rho ce hno,
        environment_exists, List.lookup_nil, Option.isSome_none, Bool.not_false, Bool.and_self,
        if_true, create_next_variable_id_, get_current_timestamp_, set_environment,
        environment_define, List.filter_nil, List.nil_append]
      exact ⟨map_insert_or_assign_append_self rho _ _ _ hno, trivial⟩
    | false =>
      simp [lookup_variable, lookup_environment_unregistered s rho ce hno]

/-- C17 (amended), at a concrete input: handle `5` on a fresh tracer. -/
theorem lookup_environment_always_registers_witness :
    (lookup_environment (fresh sample_host 0) 5 false).2.environment_id_ = 1 ∧
      (lookup_environment (fresh sample_host 0) 5 true).2.environment_id_ = 1 :=
  ⟨((lookup_environment_always_registers sample_host (fresh sample_host 0) 5 rfl).1 false).2.2,
    ((lookup_environment_always_registers sample_host (fresh sample_host 0) 5 rfl).1 true).2.2⟩

/-- C18 (counterexample): on a fresh tracer `remove_variable` on the
unregistered environment handle `5` leaves a record for `5` in the registry
and moves the env id counter from `0` to `1`, with either value of
`create_environment`. -/
theorem remove_variable_unregistered_changes_registry :
    (fresh sample_host 0).environment_mapping_ = [] ∧
      (fresh sample_host 0).environment_id_ = 0 ∧
      (remove_variable sample_host (fresh sample_host 0) 5 30 true).2.environment_mapping_ =
        [(5, ⟨5, 0, []⟩)] ∧
      (remove_variable sample_host (fresh sample_host 0) 5 30 true).2.environment_id_ = 1 ∧
      (remove_variable sample_host (fresh sample_host 0) 5 30 false).2.environment_mapping_ =
        [(5, ⟨5, 0, []⟩)] ∧
      (remove_variable sample_host (fresh sample_host 0) 5 30 false).2.environment_id_ = 1 := by
  decide

/-- C18 (amended): `remove_variable` on an environment handle that is not in the
registry removes no variable and returns no prior record, and it registers the
handle: the registry gains one record for it, without variables, whose env id
is the value of the counter, and the counter advances by one. -/
theorem remove_variable_unregistered_registers (h : Host) (s : TracerState) (rho symbol : SEXP)
    (ce : Bool) (hno : s.environment_mapping_.lookup rho = none) :
    (remove_variable h s rho symbol ce).1 = none ∧
      (remove_variable h s rho symbol ce).2.environment_mapping_ =
        s.environment_mapping_ ++ [(rho, ⟨rho, s.environment_id_, []⟩)] ∧
      (remove_variable h s rho symbol ce).2.environment_id_ = s.environment_id_ + 1 ∧
      (remove_variable h s rho symbol ce).2.variable_id_ = s.variable_id_ := by
  simp only [remove_variable, lookup_environment_unregistered s rho ce hno, environment_remove,
    List.lookup_nil, List.filter_nil, set_environment, true_and, and_true]
  exact map_insert_or_assign_append_self rho _ _ _ hno

/-- C18 (amended), at a concrete input: handle `5` on a fresh tracer. -/
theorem remove_variable_unregistered_registers_witness :
    (remove_variable sample_host (fresh sample_host 0) 5 30 false).1 = none ∧
      (remove_variable sample_host (fresh sample_host 0) 5 30 false).2.environment_id_ = 1 :=
  ⟨(remove_variable_unregistered_registers sample_host (fresh sample_host 0) 5 30 false rfl).1,
    (remove_variable_unregistered_registers sample_host (fresh sample_host 0) 5 30 false
      rfl).2.2.1⟩

/-! ## Teardown: helper lemmas -/

theorem foldl_field {α β : Type} (proj : TracerState → β) (f : TracerState → α → TracerState)
    (hf : ∀ s a, proj (f s a) = proj s) (l : List α) :
    ∀ s : TracerState, proj (l.foldl f s) = proj s := by
  induction l with
  | nil => intro s; rfl
  | cons a tl ih => intro s; rw [List.foldl_cons, ih, hf]

/-- Only the heap, the deallocation counts, the promises and escaped-argument
tables and the lifecycle summary are written by `destroy_promise`. -/
theorem destroy_promise_frame {β : Type} (proj : TracerState → β)
    (hp : ∀ (st : TracerState) (hp0 : Heap) (d : denoted_value_id_t → Nat)
      (t1 t2 : List DenotedValue) (ls : List (lifecycle_t × Int)),
      proj { st with heap := hp0, deleted := d, promise_data_table_ := t1,
                     escaped_argument_data_table_ := t2, lifecycle_summary_ := ls } = proj st)
    (s : TracerState) (p : denoted_value_id_t) :
    proj (destroy_promise s p) = proj s := by
  simp only [destroy_promise, store, serialize_promise_, summarize_promise_lifecycle_,
    serialize_escaped_promise_, delete_]
  split <;> split <;> exact hp s _ _ _ _ _

theorem destroy_promise_rows (s : TracerState) (p : denoted_value_id_t) :
    (destroy_promise s p).promise_data_table_.length = s.promise_data_table_.length + 1 := by
  simp only [destroy_promise, store, serialize_promise_, summarize_promise_lifecycle_,
    serialize_escaped_promise_, delete_]
  split <;> split <;> exact List.length_append _ _

/-- Only the call-summary and function-definition tables and the set of
serialized functions are written by `destroy_function_`. -/
theorem destroy_function_frame {β : Type} (proj : TracerState → β)
    (hp : ∀ (st : TracerState) (t1 : List CallSummaryRow) (t2 : List FunctionDefinitionRow)
      (sf : List function_id_t),
      proj { st with call_summary_data_table_ := t1, function_definition_data_table_ := t2,
                     serialized_functions_ := sf } = proj st)
    (s : TracerState) (f : Function) :
    proj (destroy_function_ s f) = proj s := by
  simp only [destroy_function_, serialize_function_, serialize_function_definition_,
    serialize_function_call_summary_]
  split <;> exact hp s _ _ _

theorem destroy_promise_foldl_rows (l : List (SEXP × denoted_value_id_t)) :
    ∀ s : TracerState,
      (l.foldl (fun st e => destroy_promise st e.2) s).promise_data_table_.length =
        s.promise_data_table_.length + l.length := by
  induction l with
  | nil => intro s; rfl
  | cons a tl ih =>
    intro s
    rw [List.foldl_cons, ih, destroy_promise_rows s a.2, List.length_cons]
    omega

/-- What the row-emitting part of `cleanup` leaves alone, clears and writes. -/
theorem cleanup_tables_side (s : TracerState) :
    (cleanup_tables s).files_ = s.files_ ∧
      (cleanup_tables s).error_log_ = s.error_log_ ∧
      (cleanup_tables s).output_dirpath_ = s.output_dirpath_ ∧
      (cleanup_tables s).stack_ = s.stack_ ∧
      (cleanup_tables s).promises_ = [] ∧
      (cleanup_tables s).functions_ = [] ∧
      (cleanup_tables s).promise_data_table_.length =
        s.promise_data_table_.length + s.promises_.length := by
  have hfiles := foldl_field (fun st => st.files_)
    (fun st (e : SEXP × denoted_value_id_t) => destroy_promise st e.2)
    (fun st e => destroy_promise_frame (fun st => st.files_) (fun _ _ _ _ _ _ => rfl) st e.2)
    s.promises_ s
  have hlog := foldl_field (fun st => st.error_log_)
    (fun st (e : SEXP × denoted_value_id_t) => destroy_promise st e.2)
    (fun st e => destroy_promise_frame (fun st => st.error_log_) (fun _ _ _ _ _ _ => rfl) st e.2)
    s.promises_ s
  have hdir := foldl_field (fun st => st.output_dirpath_)
    (fun st (e : SEXP × denoted_value_id_t) => destroy_promise st e.2)
    (fun st e =>
      destroy_promise_frame (fun st => st.output_dirpath_) (fun _ _ _ _ _ _ => rfl) st e.2)
    s.promises_ s
  have hstack := foldl_field (fun st => st.stack_)
    (fun st (e : SEXP × denoted_value_id_t) => destroy_promise st e.2)
    (fun st e => destroy_promise_frame (fun st => st.stack_) (fun _ _ _ _ _ _ => rfl) st e.2)
    s.promises_ s
  have gfiles := fun (l : List (SEXP × Function)) (st : TracerState) =>
    foldl_field (fun st => st.files_) (fun st (e : SEXP × Function) => destroy_function_ st e.2)
      (fun st e => destroy_function_frame (fun st => st.files_) (fun _ _ _ _ => rfl) st e.2) l st
  have glog := fun (l : List (SEXP × Function)) (st : TracerState) =>
    foldl_field (fun st => st.error_log_)
      (fun st (e : SEXP × Function) => destroy_function_ st e.2)
      (fun st e => destroy_function_frame (fun st => st.error_log_) (fun _ _ _ _ => rfl) st e.2)
      l st
  have gdir := fun (l : List (SEXP × Function)) (st : TracerState) =>
    foldl_field (fun st => st.output_dirpath_)
      (fun st (e : SEXP × Function) => destroy_function_ st e.2)
      (fun st e =>
        destroy_function_frame (fun st => st.output_dirpath_) (fun _ _ _ _ => rfl) st e.2)
      l st
  have gstack := fun (l : List (SEXP × Function)) (st : TracerState) =>
    foldl_field (fun st => st.stack_) (fun st (e : SEXP × Function) => destroy_function_ st e.2)
      (fun st e => destroy_function_frame (fun st => st.stack_) (fun _ _ _ _ => rfl) st e.2) l st
  have gprom := fun (l : List (SEXP × Function)) (st : TracerState) =>
    foldl_field (fun st => st.promises_)
      (fun st (e : SEXP × Function) => destroy_function_ st e.2)
      (fun st e => destroy_function_frame (fun st => st.promises_) (fun _ _ _ _ => rfl) st e.2) l st
  have gtable := fun (l : List (SEXP × Function)) (st : TracerState) =>
    foldl_field (fun st => st.promise_data_table_)
      (fun st (e : SEXP × Function) => destroy_function_ st e.2)
      (fun st e =>
        destroy_function_frame (fun st => st.promise_data_table_) (fun _ _ _ _ => rfl) st e.2)
      l st
  simp only at hfiles hlog hdir hstack gfiles glog gdir gstack gprom gtable
  simp only [cleanup_tables, serialize_promise_lifecycle_summary_, serialize_object_count_,
    gfiles, glog, gdir, gstack, gprom, gtable, hfiles, hlog, hdir, hstack, true_and]
  exact destroy_promise_foldl_rows s.promises_ s

theorem cleanup_stack_check_side (s : TracerState) :
    (cleanup_stack_check s).files_ = s.files_ ∧
      (cleanup_stack_check s).output_dirpath_ = s.output_dirpath_ := by
  unfold cleanup_stack_check dyntrace_log_error
  split <;> exact ⟨rfl, rfl⟩

theorem cleanup_sentinel_files (s : TracerState) (error : Int) :
    (cleanup_sentinel s error).files_ =
      s.files_ ++
        [if error ≠ 0 then (s.output_dirpath_ ++ "/ERROR", "ERROR")
          else (s.output_dirpath_ ++ "/NOERROR", "NOERROR")] := by
  by_cases he : error = 0
  · simp [cleanup_sentinel, write_file, he]
  · simp [cleanup_sentinel, write_file, he]

/-! ## Teardown: claims -/

/-- C19 (counterexample): `cleanup(0)` on a state whose stack holds a promise
frame logs the diagnostic and writes the `NOERROR` file, not the `ERROR`
file. -/
theorem cleanup_nonempty_stack_writes_noerror :
    (sample_state [.promise 0]).stack_ ≠ [] ∧
      (cleanup (sample_state [.promise 0]) 0).files_ = [("/NOERROR", "NOERROR")] ∧
      (cleanup (sample_state [.promise 0]) 0).error_log_ =
        ["stack not empty on tracer exit."] := by
  decide

/-! ## Fields written by each operation -/

theorem create_environment_writes {β : Type} (proj : TracerState → β)
    (hp : ∀ (st : TracerState) (ei : env_id_t) (em : List (SEXP × Environment)),
      proj { st with environment_id_ := ei, environment_mapping_ := em } = proj st)
    (s : TracerState) (rho : SEXP) : proj (create_environment s rho).2 = proj s := by
  unfold create_environment create_next_environment_id_
  cases s.environment_mapping_.lookup rho
  · exact hp s _ _
  · rfl

theorem lookup_environment_writes {β : Type} (proj : TracerState → β)
    (hp : ∀ (st : TracerState) (ei : env_id_t) (em : List (SEXP × Environment)),
      proj { st with environment_id_ := ei, environment_mapping_ := em } = proj st)
    (s : TracerState) (rho : SEXP) (b : Bool) : proj (lookup_environment s rho b).2 = proj s := by
  unfold lookup_environment
  cases s.environment_mapping_.lookup rho
  · exact create_environment_writes proj hp s rho
  · rfl

theorem create_raw_promise_writes {β : Type} (proj : TracerState → β)
    (hp : ∀ (st : TracerState) (ei : env_id_t) (em : List (SEXP × Environment))
      (di : denoted_value_id_t) (hp0 : Heap),
      proj { st with environment_id_ := ei, environment_mapping_ := em,
                     denoted_value_id_counter_ := di, heap := hp0 } = proj st)
    (h : Host) (s : TracerState) (promise : SEXP) (loc : Bool) :
    proj (create_raw_promise_ h s promise loc).2 = proj s := by
  have e := lookup_environment_writes proj
    (fun st ei em => hp st ei em st.denoted_value_id_counter_ st.heap) s
    (h.dyntrace_get_promise_environment promise) true
  simp only [create_raw_promise_, get_next_denoted_value_id_, set_scope_, store]
  exact (hp (lookup_environment s (h.dyntrace_get_promise_environment promise) true).2
    (lookup_environment s (h.dyntrace_get_promise_environment promise) true).2.environment_id_
    (lookup_environment s (h.dyntrace_get_promise_environment promise) true).2.environment_mapping_
    _ _).trans e

theorem lookup_promise_writes {β : Type} (proj : TracerState → β)
    (hp : ∀ (st : TracerState) (ei : env_id_t) (em : List (SEXP × Environment))
      (di : denoted_value_id_t) (hp0 : Heap) (pr : List (SEXP × denoted_value_id_t)),
      proj { st with environment_id_ := ei, environment_mapping_ := em,
                     denoted_value_id_counter_ := di, heap := hp0, promises_ := pr } = proj st)
    (h : Host) (s : TracerState) (promise : SEXP) (create loc : Bool) :
    proj (lookup_promise h s promise create loc).2 = proj s := by
  unfold lookup_promise
  cases s.promises_.lookup promise with
  | some p => rfl
  | none =>
    cases create with
    | false => rfl
    | true =>
      have e := create_raw_promise_writes proj
        (fun st ei em di hp0 => hp st ei em di hp0 st.promises_) h s promise loc
      rcases hcr : create_raw_promise_ h s promise loc with ⟨p, s1⟩
      rw [hcr] at e
      exact (hp s1 s1.environment_id_ s1.environment_mapping_ s1.denoted_value_id_counter_
        s1.heap _).trans e

theorem create_promise_writes {β : Type} (proj : TracerState → β)
    (hp : ∀ (st : TracerState) (ei : env_id_t) (em : List (SEXP × Environment))
      (di : denoted_value_id_t) (hp0 : Heap) (pr : List (SEXP × denoted_value_id_t)),
      proj { st with environment_id_ := ei, environment_mapping_ := em,
                     denoted_value_id_counter_ := di, heap := hp0, promises_ := pr } = proj st)
    (h : Host) (s : TracerState) (promise : SEXP) :
    proj (create_promise h s promise).2 = proj s := by
  have e := create_raw_promise_writes proj
    (fun st ei em di hp0 => hp st ei em di hp0 st.promises_) h s promise true
  rcases hcr : create_raw_promise_ h s promise true with ⟨p, s1⟩
  rw [hcr] at e
  simp only [create_promise, hcr, store, get_current_timestamp_]
  exact (hp s1 s1.environment_id_ s1.environment_mapping_ s1.denoted_value_id_counter_
    _ _).trans e

theorem process_closure_argument_writes {β : Type} (proj : TracerState → β)
    (hp : ∀ (st : TracerState) (ei : env_id_t) (em : List (SEXP × Environment))
      (di : denoted_value_id_t) (hp0 : Heap) (pr : List (SEXP × denoted_value_id_t)),
      proj { st with environment_id_ := ei, environment_mapping_ := em,
                     denoted_value_id_counter_ := di, heap := hp0, promises_ := pr } = proj st)
    (h : Host) (s : TracerState) (call : Call) (fp ap : Int) (name argument : SEXP)
    (ddd : Bool) :
    proj (process_closure_argument_ h s call fp ap name argument ddd).2 = proj s := by
  by_cases ht : h.type_of_sexp argument = PROMSXP
  · have e := lookup_promise_writes proj hp h s argument true false
    obtain ⟨p, s1, hl⟩ := lookup_promise_create_some h s argument false
    rw [hl] at e
    simp only [process_closure_argument_, ht, if_true, hl, store]
    exact (hp s1 s1.environment_id_ s1.environment_mapping_ s1.denoted_value_id_counter_
      _ s1.promises_).trans e
  · simp only [process_closure_argument_, ht, if_false, get_next_denoted_value_id_, set_scope_,
      store]
    exact hp s s.environment_id_ s.environment_mapping_ _ _ s.promises_

theorem process_dot_dot_dot_loop_writes {β : Type} (proj : TracerState → β)
    (hp : ∀ (st : TracerState) (ei : env_id_t) (em : List (SEXP × Environment))
      (di : denoted_value_id_t) (hp0 : Heap) (pr : List (SEXP × denoted_value_id_t)),
      proj { st with environment_id_ := ei, environment_mapping_ := em,
                     denoted_value_id_counter_ := di, heap := hp0, promises_ := pr } = proj st)
    (h : Host) (fp : Int) (l : List (SEXP × SEXP)) :
    ∀ (ap : Int) (call : Call) (s : TracerState),
      proj (process_dot_dot_dot_loop h fp l ap call s).2.2 = proj s := by
  induction l with
  | nil => intro ap call s; rfl
  | cons x tl ih =>
    intro ap call s
    obtain ⟨name, arg⟩ := x
    simp only [process_dot_dot_dot_loop]
    rw [ih, process_closure_argument_writes proj hp]

theorem process_formals_loop_writes {β : Type} (proj : TracerState → β)
    (hp : ∀ (st : TracerState) (ei : env_id_t) (em : List (SEXP × Environment))
      (di : denoted_value_id_t) (hp0 : Heap) (pr : List (SEXP × denoted_value_id_t)),
      proj { st with environment_id_ := ei, environment_mapping_ := em,
                     denoted_value_id_counter_ := di, heap := hp0, promises_ := pr } = proj st)
    (h : Host) (rho : SEXP) (l : List SEXP) :
    ∀ (fp ap : Int) (call : Call) (s : TracerState),
      proj (process_formals_loop h rho l fp ap call s).2 = proj s := by
  induction l with
  | nil => intro fp ap call s; rfl
  | cons name tl ih =>
    intro fp ap call s
    by_cases hd : h.type_of_sexp (h.dyntrace_lookup_environment rho name) = DOTSXP
    · simp only [process_formals_loop, hd, if_true]
      rw [ih, process_dot_dot_dot_loop_writes proj hp]
    · simp only [process_formals_loop, hd, if_false]
      rw [ih, process_closure_argument_writes proj hp]

theorem lookup_function_writes {β : Type} (proj : TracerState → β)
    (hp : ∀ (st : TracerState) (fn : List (SEXP × Function)),
      proj { st with functions_ := fn } = proj st)
    (h : Host) (s : TracerState) (op : SEXP) : proj (lookup_function h s op).2 = proj s := by
  unfold lookup_function
  cases s.functions_.lookup op
  · exact hp s _
  · rfl

/-- Apart from interning the function, `create_call` writes the call id
counter and what argument processing writes. -/
theorem create_call_writes {β : Type} (proj : TracerState → β)
    (hp : ∀ (st : TracerState) (ei : env_id_t) (em : List (SEXP × Environment))
      (di : denoted_value_id_t) (hp0 : Heap) (pr : List (SEXP × denoted_value_id_t))
      (ci : call_id_t),
      proj { st with environment_id_ := ei, environment_mapping_ := em,
                     denoted_value_id_counter_ := di, heap := hp0, promises_ := pr,
                     call_id_counter_ := ci } = proj st)
    (h : Host) (s : TracerState) (call op args rho : SEXP) :
    proj (create_call h s call op args rho).2 = proj (lookup_function h s op).2 := by
  rcases hlf : lookup_function h s op with ⟨function, s1⟩
  have hc1 : proj { s1 with call_id_counter_ := s1.call_id_counter_ + 1 } = proj s1 :=
    hp s1 s1.environment_id_ s1.environment_mapping_ s1.denoted_value_id_counter_ s1.heap
      s1.promises_ _
  by_cases hc : h.type_of_sexp op = CLOSXP
  · simp only [create_call, hlf, get_next_call_id_, hc, if_true, process_closure_arguments_]
    rw [process_formals_loop_writes proj
      (fun st ei em di hp0 pr => hp st ei em di hp0 pr st.call_id_counter_)]
    exact hc1
  · simp only [create_call, hlf, get_next_call_id_, hc, if_false]
    exact hc1

theorem destroy_argument_writes {β : Type} (proj : TracerState → β)
    (hp : ∀ (st : TracerState) (hp0 : Heap) (d : denoted_value_id_t → Nat)
      (t : List ArgumentRow),
      proj { st with heap := hp0, deleted := d, argument_data_table_ := t } = proj st)
    (call : Call) (s : TracerState) (a : Argument) :
    proj (destroy_argument call s a) = proj s := by
  simp only [destroy_argument, serialize_argument_, delete_, store]
  split
  · exact hp s s.heap _ _
  · exact hp s _ s.deleted _

/-- Apart from adding the summary to the function record, `destroy_call` writes
the thunk memory and the arguments table. -/
theorem destroy_call_writes {β : Type} (proj : TracerState → β)
    (hp : ∀ (st : TracerState) (hp0 : Heap) (d : denoted_value_id_t → Nat)
      (t : List ArgumentRow),
      proj { st with heap := hp0, deleted := d, argument_data_table_ := t } = proj st)
    (s : TracerState) (call : Call) :
    proj (destroy_call s call) = proj (function_add_summary s call) := by
  unfold destroy_call
  exact foldl_field proj _ (destroy_argument_writes proj hp call) _ _

theorem lookup_variable_writes {β : Type} (proj : TracerState → β)
    (hp : ∀ (st : TracerState) (ei : env_id_t) (em : List (SEXP × Environment))
      (vi : var_id_t),
      proj { st with environment_id_ := ei, environment_mapping_ := em, variable_id_ := vi } =
        proj st)
    (h : Host) (s : TracerState) (rho : SEXP) (symbol : String) (ce cv : Bool) :
    proj (lookup_variable h s rho symbol ce cv).2 = proj s := by
  have e := lookup_environment_writes proj (fun st ei em => hp st ei em st.variable_id_) s rho ce
  unfold lookup_variable
  simp only [create_next_variable_id_, set_environment]
  split
  · exact (hp (lookup_environment s rho ce).2 (lookup_environment s rho ce).2.environment_id_
      _ _).trans e
  · exact e

theorem define_variable_writes {β : Type} (proj : TracerState → β)
    (hp : ∀ (st : TracerState) (ei : env_id_t) (em : List (SEXP × Environment))
      (vi : var_id_t),
      proj { st with environment_id_ := ei, environment_mapping_ := em, variable_id_ := vi } =
        proj st)
    (h : Host) (s : TracerState) (rho symbol : SEXP) (ce : Bool) :
    proj (define_variable h s rho symbol ce).2 = proj s := by
  have e := lookup_environment_writes proj (fun st ei em => hp st ei em st.variable_id_) s rho
    true
  simp only [define_variable, create_next_variable_id_, set_environment]
  exact (hp (lookup_environment s rho true).2 (lookup_environment s rho true).2.environment_id_
    _ _).trans e

theorem update_variable_writes {β : Type} (proj : TracerState → β)
    (hp : ∀ (st : TracerState) (ei : env_id_t) (em : List (SEXP × Environment))
      (vi : var_id_t),
      proj { st with environment_id_ := ei, environment_mapping_ := em, variable_id_ := vi } =
        proj st)
    (h : Host) (s : TracerState) (rho symbol : SEXP) (ce cv : Bool) :
    proj (update_variable h s rho symbol ce cv).2 = proj s := by
  have e := lookup_variable_writes proj hp h s rho (h.symbol_to_string symbol) true true
  unfold update_variable lookup_variable_symbol
  rcases hl : lookup_variable h s rho (h.symbol_to_string symbol) true true with ⟨v, s1⟩
  rw [hl] at e
  cases v with
  | none => exact e
  | some var =>
    simp only
    cases s1.environment_mapping_.lookup rho with
    | none => exact e
    | some env =>
      simp only [set_environment]
      exact (hp s1 s1.environment_id_ _ s1.variable_id_).trans e

theorem remove_variable_writes {β : Type} (proj : TracerState → β)
    (hp : ∀ (st : TracerState) (ei : env_id_t) (em : List (SEXP × Environment)),
      proj { st with environment_id_ := ei, environment_mapping_ := em } = proj st)
    (h : Host) (s : TracerState) (rho symbol : SEXP) (ce : Bool) :
    proj (remove_variable h s rho symbol ce).2 = proj s := by
  have e := lookup_environment_writes proj hp s rho ce
  simp only [remove_variable, set_environment]
  exact (hp (lookup_environment s rho ce).2 (lookup_environment s rho ce).2.environment_id_
    _).trans e

theorem update_wrapper_state_writes {β : Type} (proj : TracerState → β)
    (hp : ∀ (st : TracerState) (fn : List (SEXP × Function)),
      proj { st with functions_ := fn } = proj st)
    (s : TracerState) (call : Call) : proj (update_wrapper_state s call) = proj s := by
  unfold update_wrapper_state
  split
  · split
    · exact hp s _
    · rfl
  · rfl

theorem remove_function_writes {β : Type} (proj : TracerState → β)
    (hp : ∀ (st : TracerState) (t1 : List CallSummaryRow) (t2 : List FunctionDefinitionRow)
      (sf : List function_id_t) (fn : List (SEXP × Function)),
      proj { st with call_summary_data_table_ := t1, function_definition_data_table_ := t2,
                     serialized_functions_ := sf, functions_ := fn } = proj st)
    (s : TracerState) (op : SEXP) : proj (remove_function s op) = proj s := by
  unfold remove_function
  cases s.functions_.lookup op with
  | none => rfl
  | some f =>
    have e := destroy_function_frame proj (fun st t1 t2 sf => hp st t1 t2 sf st.functions_) s f
    simp only
    exact (hp (destroy_function_ s f) (destroy_function_ s f).call_summary_data_table_
      (destroy_function_ s f).function_definition_data_table_
      (destroy_function_ s f).serialized_functions_ _).trans e

/-- Past its first loop, `cleanup` writes what the teardown of functions
writes, the two registries, the two tables filled at the end, the side files
and the error channel. -/
theorem cleanup_after_promises {β : Type} (proj : TracerState → β)
    (hp : ∀ (st : TracerState) (pr : List (SEXP × denoted_value_id_t))
      (t3 : List CallSummaryRow) (t4 : List FunctionDefinitionRow) (sf : List function_id_t)
      (fn : List (SEXP × Function)) (t5 : List ObjectCountRow) (t6 : List PromiseLifecycleRow)
      (fl : List (String × String)) (el : List String),
      proj { st with promises_ := pr, call_summary_data_table_ := t3,
                     function_definition_data_table_ := t4, serialized_functions_ := sf,
                     functions_ := fn, object_count_data_table_ := t5,
                     promise_lifecycle_data_table_ := t6, files_ := fl, error_log_ := el } =
        proj st)
    (s : TracerState) (error : Int) :
    proj (cleanup s error) =
      proj (s.promises_.foldl (fun st e => destroy_promise st e.2) s) := by
  have hone : ∀ (st : TracerState) (pr : List (SEXP × denoted_value_id_t))
      (fn : List (SEXP × Function)) (t5 : List ObjectCountRow) (t6 : List PromiseLifecycleRow)
      (fl : List (String × String)) (el : List String),
      proj { st with promises_ := pr, functions_ := fn, object_count_data_table_ := t5,
                     promise_lifecycle_data_table_ := t6, files_ := fl, error_log_ := el } =
        proj st :=
    fun st pr fn t5 t6 fl el =>
      hp st pr st.call_summary_data_table_ st.function_definition_data_table_
        st.serialized_functions_ fn t5 t6 fl el
  have hdf : ∀ (st : TracerState) (f : Function), proj (destroy_function_ st f) = proj st :=
    destroy_function_frame proj (fun st t3 t4 sf =>
      hp st st.promises_ t3 t4 sf st.functions_ st.object_count_data_table_
        st.promise_lifecycle_data_table_ st.files_ st.error_log_)
  have h2 := fun (l : List (SEXP × Function)) (st : TracerState) =>
    foldl_field proj (fun st (e : SEXP × Function) => destroy_function_ st e.2)
      (fun st e => hdf st e.2) l st
  have ht : proj (cleanup_tables s) =
      proj (s.promises_.foldl (fun st e => destroy_promise st e.2) s) := by
    simp only [cleanup_tables, serialize_promise_lifecycle_summary_, serialize_object_count_]
    refine (hone _ _ _ _ _ _ _).trans ?_
    refine (h2 _ _).trans ?_
    exact hone _ _ _ _ _ _ _
  simp only [cleanup, cleanup_sentinel, cleanup_stack_check, write_file, dyntrace_log_error]
  split <;> split <;> exact (hone (cleanup_tables s) _ _ _ _ _ _).trans ht

/-- Fields written by `cleanup`: those the teardown of thunks and of functions
writes, the two registries, the two tables filled at the end, the side files
and the error channel. -/
theorem cleanup_writes {β : Type} (proj : TracerState → β)
    (hp : ∀ (st : TracerState) (hp0 : Heap) (d : denoted_value_id_t → Nat)
      (t1 t2 : List DenotedValue) (ls : List (lifecycle_t × Int))
      (pr : List (SEXP × denoted_value_id_t)) (t3 : List CallSummaryRow)
      (t4 : List FunctionDefinitionRow) (sf : List function_id_t)
      (fn : List (SEXP × Function)) (t5 : List ObjectCountRow) (t6 : List PromiseLifecycleRow)
      (fl : List (String × String)) (el : List String),
      proj { st with heap := hp0, deleted := d, promise_data_table_ := t1,
                     escaped_argument_data_table_ := t2, lifecycle_summary_ := ls,
                     promises_ := pr, call_summary_data_table_ := t3,
                     function_definition_data_table_ := t4, serialized_functions_ := sf,
                     functions_ := fn, object_count_data_table_ := t5,
                     promise_lifecycle_data_table_ := t6, files_ := fl, error_log_ := el } =
        proj st)
    (s : TracerState) (error : Int) : proj (cleanup s error) = proj s := by
  have hdp : ∀ (st : TracerState) (p : denoted_value_id_t),
      proj (destroy_promise st p) = proj st :=
    destroy_promise_frame proj (fun st hp0 d t1 t2 ls =>
      hp st hp0 d t1 t2 ls st.promises_ st.call_summary_data_table_
        st.function_definition_data_table_ st.serialized_functions_ st.functions_
        st.object_count_data_table_ st.promise_lifecycle_data_table_ st.files_ st.error_log_)
  have h1 := foldl_field proj (fun st (e : SEXP × denoted_value_id_t) => destroy_promise st e.2)
    (fun st e => hdp st e.2) s.promises_ s
  have h2 := cleanup_after_promises proj (fun st pr t3 t4 sf fn t5 t6 fl el =>
    hp st st.heap st.deleted st.promise_data_table_ st.escaped_argument_data_table_
      st.lifecycle_summary_ pr t3 t4 sf fn t5 t6 fl el) s error
  exact h2.trans h1

/-- A projection of the state that reads none of the id counters, environment
and thunk registries, timestamp, stack, thunk memory, timer, side files,
arguments table and lifecycle table is changed by a public operation other
than those that write summary data only through what the operation writes to
the function registry. -/
theorem apply_op_frame_functions {β : Type} (proj : TracerState → β)
    (hp : ∀ (st : TracerState) (ei : env_id_t) (vi : var_id_t) (ts : timestamp_t)
      (ci : call_id_t) (di : denoted_value_id_t) (em : List (SEXP × Environment))
      (pr : List (SEXP × denoted_value_id_t))
      (sk : List ExecutionContext) (t1 : List ArgumentRow) (t2 : List PromiseLifecycleRow)
      (rt : Nat) (fl : List (String × String)) (hp0 : Heap) (d : denoted_value_id_t → Nat),
      proj { st with environment_id_ := ei, variable_id_ := vi, timestamp_ := ts,
                     call_id_counter_ := ci, denoted_value_id_counter_ := di,
                     environment_mapping_ := em, promises_ := pr,
                     stack_ := sk, argument_data_table_ := t1,
                     promise_lifecycle_data_table_ := t2, execution_resume_time_ := rt,
                     files_ := fl, heap := hp0, deleted := d } = proj st)
    (h : Host) (s : TracerState) (op : PublicOp) (hop : op.writes_summary_data = false) :
    proj (apply_op h s op) = proj (apply_op_functions h s op) := by
  have hE : ∀ (st : TracerState) (ei : env_id_t) (em : List (SEXP × Environment)),
      proj { st with environment_id_ := ei, environment_mapping_ := em } = proj st :=
    fun st ei em => hp st ei st.variable_id_ st.timestamp_ st.call_id_counter_
      st.denoted_value_id_counter_ em st.promises_ st.stack_
      st.argument_data_table_ st.promise_lifecycle_data_table_ st.execution_resume_time_
      st.files_ st.heap st.deleted
  have hV : ∀ (st : TracerState) (ei : env_id_t) (em : List (SEXP × Environment))
      (vi : var_id_t),
      proj { st with environment_id_ := ei, environment_mapping_ := em, variable_id_ := vi } =
        proj st :=
    fun st ei em vi => hp st ei vi st.timestamp_ st.call_id_counter_
      st.denoted_value_id_counter_ em st.promises_ st.stack_
      st.argument_data_table_ st.promise_lifecycle_data_table_ st.execution_resume_time_
      st.files_ st.heap st.deleted
  have hC : ∀ (st : TracerState) (ei : env_id_t) (em : List (SEXP × Environment))
      (di : denoted_value_id_t) (hp0 : Heap) (pr : List (SEXP × denoted_value_id_t))
      (ci : call_id_t),
      proj { st with environment_id_ := ei, environment_mapping_ := em,
                     denoted_value_id_counter_ := di, heap := hp0, promises_ := pr,
                     call_id_counter_ := ci } = proj st :=
    fun st ei em di hp0 pr ci => hp st ei st.variable_id_ st.timestamp_ ci di em pr
      st.stack_ st.argument_data_table_ st.promise_lifecycle_data_table_
      st.execution_resume_time_ st.files_ hp0 st.deleted
  have hP : ∀ (st : TracerState) (ei : env_id_t) (em : List (SEXP × Environment))
      (di : denoted_value_id_t) (hp0 : Heap) (pr : List (SEXP × denoted_value_id_t)),
      proj { st with environment_id_ := ei, environment_mapping_ := em,
                     denoted_value_id_counter_ := di, heap := hp0, promises_ := pr } = proj st :=
    fun st ei em di hp0 pr => hC st ei em di hp0 pr st.call_id_counter_
  have hD : ∀ (st : TracerState) (hp0 : Heap) (d : denoted_value_id_t → Nat)
      (t : List ArgumentRow),
      proj { st with heap := hp0, deleted := d, argument_data_table_ := t } = proj st :=
    fun st hp0 d t => hp st st.environment_id_ st.variable_id_ st.timestamp_
      st.call_id_counter_ st.denoted_value_id_counter_ st.environment_mapping_ st.promises_
      st.stack_ t st.promise_lifecycle_data_table_ st.execution_resume_time_
      st.files_ hp0 d
  have hH : ∀ (st : TracerState) (ts : timestamp_t) (sk : List ExecutionContext)
      (t2 : List PromiseLifecycleRow) (rt : Nat) (fl : List (String × String)) (hp0 : Heap),
      proj { st with timestamp_ := ts, stack_ := sk, promise_lifecycle_data_table_ := t2,
                     execution_resume_time_ := rt, files_ := fl, heap := hp0 } = proj st :=
    fun st ts sk t2 rt fl hp0 => hp st st.environment_id_ st.variable_id_ ts
      st.call_id_counter_ st.denoted_value_id_counter_ st.environment_mapping_ st.promises_
      sk st.argument_data_table_ t2 rt fl hp0 st.deleted
  cases op with
  | initialize_ =>
    exact hH s s.timestamp_ s.stack_ s.promise_lifecycle_data_table_ s.execution_resume_time_ _
      s.heap
  | cleanup error => simp [PublicOp.writes_summary_data] at hop
  | increment_object_count type => simp [PublicOp.writes_summary_data] at hop
  | stack_push ctxt =>
    exact hH s s.timestamp_ _ s.promise_lifecycle_data_table_ s.execution_resume_time_ s.files_
      s.heap
  | stack_pop =>
    exact hH s s.timestamp_ _ s.promise_lifecycle_data_table_ s.execution_resume_time_ s.files_
      s.heap
  | create_environment rho => exact create_environment_writes proj hE s rho
  | remove_environment rho => exact hE s s.environment_id_ _
  | lookup_environment rho create => exact lookup_environment_writes proj hE s rho create
  | lookup_variable rho symbol ce cv => exact lookup_variable_writes proj hV h s rho symbol ce cv
  | lookup_variable_symbol rho symbol ce cv =>
    exact lookup_variable_writes proj hV h s rho (h.symbol_to_string symbol) ce cv
  | define_variable rho symbol ce => exact define_variable_writes proj hV h s rho symbol ce
  | update_variable rho symbol ce cv => exact update_variable_writes proj hV h s rho symbol ce cv
  | remove_variable rho symbol ce => exact remove_variable_writes proj hE h s rho symbol ce
  | resume_execution_timer now =>
    exact hH s s.timestamp_ s.stack_ s.promise_lifecycle_data_table_ _ s.files_ s.heap
  | pause_execution_timer now =>
    exact hH s s.timestamp_ s.stack_ s.promise_lifecycle_data_table_ s.execution_resume_time_
      s.files_ _
  | create_promise promise => exact create_promise_writes proj hP h s promise
  | lookup_promise promise create is_loc =>
    exact lookup_promise_writes proj hP h s promise create is_loc
  | remove_promise promise promise_state => simp [PublicOp.writes_summary_data] at hop
  | destroy_promise promise_state => simp [PublicOp.writes_summary_data] at hop
  | exit_probe now =>
    exact hH s s.timestamp_ s.stack_ s.promise_lifecycle_data_table_ _ s.files_ s.heap
  | enter_probe now =>
    exact hH s _ s.stack_ s.promise_lifecycle_data_table_ s.execution_resume_time_ s.files_ _
  | create_call call op args rho => exact create_call_writes proj hC h s call op args rho
  | destroy_call call => exact destroy_call_writes proj hD s call
  | lookup_function op => rfl
  | remove_function op => simp [PublicOp.writes_summary_data] at hop
  | identify_side_effect_creators var env =>
    exact hH s s.timestamp_ s.stack_ s.promise_lifecycle_data_table_ s.execution_resume_time_
      s.files_ _
  | identify_side_effect_observers var env =>
    exact hH s s.timestamp_ s.stack_ s.promise_lifecycle_data_table_ s.execution_resume_time_
      s.files_ _
  | update_wrapper_state call => rfl
  | summarize_promise_lifecycle_ lifecycle => simp [PublicOp.writes_summary_data] at hop
  | serialize_promise_lifecycle_summary_ =>
    exact hH s s.timestamp_ s.stack_ _ s.execution_resume_time_ s.files_ s.heap

/-- A projection of the state that reads none of the registries, id counters,
timestamp, stack, thunk memory, timer, side files, arguments table and
lifecycle table is left as it is by every public operation other than those
that write summary data. -/
theorem apply_op_frame {β : Type} (proj : TracerState → β)
    (hp : ∀ (st : TracerState) (ei : env_id_t) (vi : var_id_t) (ts : timestamp_t)
      (ci : call_id_t) (di : denoted_value_id_t) (em : List (SEXP × Environment))
      (pr : List (SEXP × denoted_value_id_t)) (fn : List (SEXP × Function))
      (sk : List ExecutionContext) (t1 : List ArgumentRow) (t2 : List PromiseLifecycleRow)
      (rt : Nat) (fl : List (String × String)) (hp0 : Heap) (d : denoted_value_id_t → Nat),
      proj { st with environment_id_ := ei, variable_id_ := vi, timestamp_ := ts,
                     call_id_counter_ := ci, denoted_value_id_counter_ := di,
                     environment_mapping_ := em, promises_ := pr, functions_ := fn,
                     stack_ := sk, argument_data_table_ := t1,
                     promise_lifecycle_data_table_ := t2, execution_resume_time_ := rt,
                     files_ := fl, heap := hp0, deleted := d } = proj st)
    (h : Host) (s : TracerState) (op : PublicOp) (hop : op.writes_summary_data = false) :
    proj (apply_op h s op) = proj s := by
  have hF : ∀ (st : TracerState) (fn : List (SEXP × Function)),
      proj { st with functions_ := fn } = proj st :=
    fun st fn => hp st st.environment_id_ st.variable_id_ st.timestamp_ st.call_id_counter_
      st.denoted_value_id_counter_ st.environment_mapping_ st.promises_ fn st.stack_
      st.argument_data_table_ st.promise_lifecycle_data_table_ st.execution_resume_time_
      st.files_ st.heap st.deleted
  rw [apply_op_frame_functions proj
    (fun st ei vi ts ci di em pr sk t1 t2 rt fl hp0 d =>
      hp st ei vi ts ci di em pr st.functions_ sk t1 t2 rt fl hp0 d) h s op hop]
  cases op with
  | create_call call op args rho => exact lookup_function_writes proj hF h s op
  | destroy_call call => exact hF s _
  | lookup_function op => exact lookup_function_writes proj hF h s op
  | update_wrapper_state call => exact update_wrapper_state_writes proj hF s call
  | _ => rfl

/-- A property of what `destroy_promise` summarizes and emits that every
`destroy_promise` preserves is preserved by every public operation other than a
direct call of `summarize_promise_lifecycle_`. -/
theorem apply_op_promise_output
    (P : List (lifecycle_t × Int) × List DenotedValue × List DenotedValue → Prop)
    (hdp : ∀ (st : TracerState) (p : denoted_value_id_t),
      P (promise_output st) → P (promise_output (destroy_promise st p)))
    (h : Host) (s : TracerState) (op : PublicOp) (hop : op.is_direct_summarize = false)
    (hs : P (promise_output s)) : P (promise_output (apply_op h s op)) := by
  by_cases hw : op.writes_summary_data = false
  · rw [apply_op_frame promise_output
      (fun _ _ _ _ _ _ _ _ _ _ _ _ _ _ _ _ => rfl) h s op hw]
    exact hs
  · cases op with
    | cleanup error =>
      have e := cleanup_after_promises promise_output
        (fun _ _ _ _ _ _ _ _ _ _ => rfl) s error
      simp only [apply_op]
      rw [e]
      have hfold : ∀ (l : List (SEXP × denoted_value_id_t)) (st : TracerState),
          P (promise_output st) →
            P (promise_output (l.foldl (fun st e => destroy_promise st e.2) st)) := by
        intro l
        induction l with
        | nil => intro st hst; exact hst
        | cons a tl ih => intro st hst; exact ih _ (hdp st a.2 hst)
      exact hfold _ _ hs
    | increment_object_count type => exact hs
    | remove_promise promise promise_state =>
      exact hdp { s with promises_ := map_erase s.promises_ promise } promise_state hs
    | destroy_promise promise_state => exact hdp s promise_state hs
    | remove_function op =>
      simp only [apply_op]
      rw [remove_function_writes promise_output (fun _ _ _ _ _ => rfl) s op]
      exact hs
    | summarize_promise_lifecycle_ lifecycle => simp [PublicOp.is_direct_summarize] at hop
    | _ => simp [PublicOp.writes_summary_data] at hw

/-! ## Tallies -/

theorem tally_step_keys {κ ν : Type} [DecidableEq κ] [Add ν] [One ν] (k : κ)
    (m : List (κ × ν)) :
    (tally_step k m).map Prod.fst =
      if k ∈ m.map Prod.fst then m.map Prod.fst else m.map Prod.fst ++ [k] := by
  induction m with
  | nil => simp [tally_step]
  | cons e tl ih =>
    obtain ⟨a, n⟩ := e
    by_cases hak : a = k
    · subst hak; simp [tally_step]
    · have hka : ¬ k = a := fun h => hak h.symm
      by_cases hm : k ∈ tl.map Prod.fst
      · simp only [tally_step, hak, if_false, List.map_cons, ih, hm, if_true, List.mem_cons,
          or_true]
      · simp only [tally_step, hak, if_false, List.map_cons, ih, hm, List.mem_cons, hka,
          or_self, List.cons_append]

theorem tally_step_sum {κ ν : Type} [DecidableEq κ] [AddCommMonoidWithOne ν] (k : κ)
    (m : List (κ × ν)) :
    ((tally_step k m).map Prod.snd).sum = (m.map Prod.snd).sum + 1 := by
  induction m with
  | nil => simp [tally_step]
  | cons e tl ih =>
    obtain ⟨a, n⟩ := e
    by_cases hak : a = k
    · simp [tally_step, hak, add_assoc, add_comm, add_left_comm]
    · simp [tally_step, hak, ih, add_assoc]

/-- Entries of a tally with distinct keys after one step. -/
theorem tally_step_mem {κ ν : Type} [DecidableEq κ] [Add ν] [One ν] (k : κ)
    (m : List (κ × ν)) (hnd : (m.map Prod.fst).Nodup) (e : κ × ν)
    (he : e ∈ tally_step k m) :
    (e.1 ≠ k ∧ e ∈ m) ∨
      (e.1 = k ∧ ((∃ n, (k, n) ∈ m ∧ e.2 = n + 1) ∨ (k ∉ m.map Prod.fst ∧ e.2 = 1))) := by
  induction m with
  | nil =>
    simp only [tally_step, List.mem_singleton] at he
    subst he
    exact Or.inr ⟨rfl, Or.inr ⟨by simp, rfl⟩⟩
  | cons x tl ih =>
    obtain ⟨a, n⟩ := x
    simp only [List.map_cons, List.nodup_cons] at hnd
    by_cases hak : a = k
    · subst hak
      simp only [tally_step, if_true, List.mem_cons] at he
      rcases he with he | he
      · subst he
        exact Or.inr ⟨rfl, Or.inl ⟨n, List.mem_cons_self _ _, rfl⟩⟩
      · have hne : e.1 ≠ a := by
          intro h
          exact hnd.1 (h ▸ List.mem_map_of_mem Prod.fst he)
        exact Or.inl ⟨hne, List.mem_cons_of_mem _ he⟩
    · simp only [tally_step, hak, if_false, List.mem_cons] at he
      rcases he with he | he
      · subst he
        exact Or.inl ⟨hak, List.mem_cons_self _ _⟩
      · rcases ih hnd.2 he with ⟨h1, h2⟩ | ⟨h1, h2⟩
        · exact Or.inl ⟨h1, List.mem_cons_of_mem _ h2⟩
        · refine Or.inr ⟨h1, ?_⟩
          rcases h2 with ⟨n2, h3, h4⟩ | ⟨h3, h4⟩
          · exact Or.inl ⟨n2, List.mem_cons_of_mem _ h3, h4⟩
          · refine Or.inr ⟨?_, h4⟩
            simp only [List.map_cons, List.mem_cons, not_or]
            exact ⟨fun h => hak h.symm, h3⟩

theorem tally_append_singleton {κ ν : Type} [DecidableEq κ] [Add ν] [One ν] (ks : List κ)
    (k : κ) : (tally (ks ++ [k]) : List (κ × ν)) = tally_step k (tally ks) := by
  simp [tally, List.foldl_append]

/-- A tally holds one entry per distinct key, in the order in which the keys
first occur, each with the number of occurrences of its key, and its counts sum
to the number of keys tallied. -/
theorem tally_spec {κ ν : Type} [DecidableEq κ] [AddCommMonoidWithOne ν] (ks : List κ) :
    ((tally ks : List (κ × ν)).map Prod.fst).Nodup ∧
      (∀ k, k ∈ (tally ks : List (κ × ν)).map Prod.fst ↔ k ∈ ks) ∧
      ((tally ks : List (κ × ν)).map Prod.fst).Pairwise
        (fun a b => ks.indexOf a < ks.indexOf b) ∧
      (∀ e ∈ (tally ks : List (κ × ν)), e.2 = ((ks.count e.1 : Nat) : ν)) ∧
      ((tally ks : List (κ × ν)).map Prod.snd).sum = ((ks.length : Nat) : ν) := by
  induction ks using List.reverseRecOn with
  | nil => simp [tally]
  | append_singleton ks k ih =>
    obtain ⟨h1, h2, h3, h4, h5⟩ := ih
    rw [tally_append_singleton]
    have hkeys := tally_step_keys k (tally ks : List (κ × ν))
    refine ⟨?_, ?_, ?_, ?_, ?_⟩
    · rw [hkeys]
      split
      · exact h1
      · rename_i hk
        exact List.Nodup.append h1 (List.nodup_singleton k) (by simpa using hk)
    · intro k2
      rw [hkeys]
      split
      · rename_i hk
        simp only [h2, List.mem_append, List.mem_singleton]
        constructor
        · exact fun h => Or.inl h
        · rintro (h | h)
          · exact h
          · subst h; exact (h2 k2).1 hk
      · simp [h2]
    · rw [hkeys]
      have hold : ((tally ks : List (κ × ν)).map Prod.fst).Pairwise
          (fun a b => (ks ++ [k]).indexOf a < (ks ++ [k]).indexOf b) := by
        refine List.Pairwise.imp_of_mem ?_ h3
        intro a b ha hb hab
        rw [List.indexOf_append_of_mem ((h2 a).1 ha), List.indexOf_append_of_mem ((h2 b).1 hb)]
        exact hab
      split
      · exact hold
      · rename_i hk
        have hk2 : k ∉ ks := fun h => hk ((h2 k).2 h)
        rw [List.pairwise_append]
        refine ⟨hold, List.pairwise_singleton _ _, ?_⟩
        intro a ha b hb
        simp only [List.mem_singleton] at hb
        subst hb
        rw [List.indexOf_append_of_mem ((h2 a).1 ha), List.indexOf_append_of_not_mem hk2]
        have := List.indexOf_lt_length.2 ((h2 a).1 ha)
        omega
    · intro e he
      rcases tally_step_mem k _ h1 e he with ⟨hne, hm⟩ | ⟨heq, hm⟩
      · rw [h4 e hm, List.count_append]
        simp [hne]
      · rcases hm with ⟨n, hn, hv⟩ | ⟨hk, hv⟩
        · have hn2 : n = ((ks.count k : Nat) : ν) := h4 _ hn
          rw [hv, hn2, heq, List.count_append]
          simp
        · have hk2 : k ∉ ks := fun h => hk ((h2 k).2 h)
          rw [hv, heq, List.count_append, List.count_eq_zero_of_not_mem hk2]
          simp
    · rw [tally_step_sum, h5]
      simp

/-! ## Function summaries: helper lemmas -/

theorem lookup_append_of_some {α β : Type} [BEq α] (k : α) (v : β) (m m2 : List (α × β))
    (hm : m.lookup k = some v) : (m ++ m2).lookup k = some v := by
  induction m with
  | nil => simp at hm
  | cons e tl ih =>
    obtain ⟨a, b⟩ := e
    simp only [List.lookup_cons] at hm
    simp only [List.cons_append, List.lookup_cons]
    cases hab : k == a with
    | true => simpa [hab] using hm
    | false => simp only [hab] at hm; exact ih hm

theorem lookup_map_value {β : Type} (k k2 : SEXP) (g : β → β) (m : List (SEXP × β)) :
    (m.map (fun e => if e.1 = k2 then (e.1, g e.2) else e)).lookup k =
      (m.lookup k).map (fun v => if k = k2 then g v else v) := by
  induction m with
  | nil => rfl
  | cons e tl ih =>
    obtain ⟨a, b⟩ := e
    by_cases hka : k = a
    · subst hka
      by_cases hk2 : k = k2
      · simp [List.lookup_cons, hk2]
      · simp [List.lookup_cons, hk2]
    · have hbeq : (k == a) = false := by simpa using hka
      simp only [List.map_cons]
      split
      · simp only [List.lookup_cons, hbeq]
        exact ih
      · simp only [List.lookup_cons, hbeq]
        exact ih

theorem lookup_map_erase_ne {β : Type} (k k2 : SEXP) (hne : k ≠ k2) (m : List (SEXP × β)) :
    (map_erase m k2).lookup k = m.lookup k := by
  induction m with
  | nil => rfl
  | cons e tl ih =>
    obtain ⟨a, b⟩ := e
    simp only [map_erase] at ih ⊢
    by_cases ha2 : a = k2
    · subst ha2
      have hbeq : (k == a) = false := by simpa using hne
      simp [List.filter_cons, List.lookup_cons, hbeq, ih]
    · by_cases hka : k = a
      · subst hka; simp [List.filter_cons, ha2, List.lookup_cons]
      · have hbeq : (k == a) = false := by simpa using hka
        simp [List.filter_cons, ha2, List.lookup_cons, hbeq, ih]

theorem add_summary_loop_eq_tally_step (sig : CallSummary) (m : List (CallSummary × Nat)) :
    add_summary_loop sig m = tally_step sig m := by
  induction m with
  | nil => rfl
  | cons e tl ih =>
    obtain ⟨a, n⟩ := e
    by_cases h : a = sig
    · simp [add_summary_loop, tally_step, h]
    · simp [add_summary_loop, tally_step, h, ih]

/-- Interning a function leaves a registered function record as it is. -/
theorem lookup_function_keeps (h : Host) (s : TracerState) (op fop : SEXP) (f : Function)
    (hreg : s.functions_.lookup fop = some f) :
    (lookup_function h s op).2.functions_.lookup fop = some f := by
  unfold lookup_function
  cases hl : s.functions_.lookup op with
  | some g => exact hreg
  | none =>
    simp only [map_insert, hl]
    exact lookup_append_of_some fop f _ _ hreg

/-- What a public operation that does not tear down the function record
interned under `fop` does to that record: it stays interned with its id, and
its summaries take one tally step when the operation is `destroy_call` on a
call of that function. -/
theorem apply_op_function_record (h : Host) (s : TracerState) (o : PublicOp) (fop : SEXP)
    (f : Function) (hreg : s.functions_.lookup fop = some f)
    (hlive : o.tears_down_function fop = false) :
    ∃ f2 : Function, (apply_op h s o).functions_.lookup fop = some f2 ∧ f2.id = f.id ∧
      f2.summaries =
        match o.destroyed_call_of fop with
        | some c => tally_step (call_signature c) f.summaries
        | none => f.summaries := by
  by_cases hw : o.writes_summary_data = false
  · have e := apply_op_frame_functions (fun st => st.functions_)
      (fun _ _ _ _ _ _ _ _ _ _ _ _ _ _ _ => rfl) h s o hw
    simp only at e
    rw [e]
    cases o with
    | create_call call op args rho =>
      exact ⟨f, lookup_function_keeps h s op fop f hreg, rfl, rfl⟩
    | lookup_function op => exact ⟨f, lookup_function_keeps h s op fop f hreg, rfl, rfl⟩
    | destroy_call call =>
      simp only [apply_op_functions, function_add_summary, PublicOp.destroyed_call_of]
      rw [lookup_map_value fop call.function (fun g : Function => g.add_summary call), hreg]
      by_cases hc : call.function = fop
      · refine ⟨f.add_summary call, by simp [hc], rfl, ?_⟩
        simp [hc, Function.add_summary, add_summary_loop_eq_tally_step, call_signature]
      · have hc2 : ¬ fop = call.function := fun h => hc h.symm
        exact ⟨f, by simp [hc2], rfl, by simp [hc]⟩
    | update_wrapper_state call =>
      simp only [apply_op_functions, update_wrapper_state, PublicOp.destroyed_call_of]
      split
      · rename_i caller rest _
        split
        · rename_i called _
          simp only
          rw [lookup_map_value fop caller.function
            (fun g : Function => g.update_wrapper (called.internal || called.primitive)), hreg]
          by_cases hc : fop = caller.function
          · exact ⟨f.update_wrapper (called.internal || called.primitive), by simp [hc], rfl,
              rfl⟩
          · exact ⟨f, by simp [hc], rfl, rfl⟩
        · exact ⟨f, hreg, rfl, rfl⟩
      · exact ⟨f, hreg, rfl, rfl⟩
    | _ => exact ⟨f, hreg, rfl, rfl⟩
  · cases o with
    | cleanup error => simp [PublicOp.tears_down_function] at hlive
    | increment_object_count type => exact ⟨f, hreg, rfl, rfl⟩
    | remove_promise promise promise_state =>
      refine ⟨f, ?_, rfl, rfl⟩
      have e := destroy_promise_frame (fun st => st.functions_) (fun _ _ _ _ _ _ => rfl)
        { s with promises_ := map_erase s.promises_ promise } promise_state
      simp only [apply_op, remove_promise]
      simp only at e
      rw [e]
      exact hreg
    | destroy_promise promise_state =>
      refine ⟨f, ?_, rfl, rfl⟩
      have e := destroy_promise_frame (fun st => st.functions_) (fun _ _ _ _ _ _ => rfl) s
        promise_state
      simp only [apply_op]
      simp only at e
      rw [e]
      exact hreg
    | remove_function op =>
      have hne : fop ≠ op := by
        intro hh
        simp [PublicOp.tears_down_function, hh] at hlive
      refine ⟨f, ?_, rfl, rfl⟩
      simp only [apply_op, remove_function]
      cases hl : s.functions_.lookup op with
      | none => exact hreg
      | some g =>
        have e := destroy_function_frame (fun st => st.functions_) (fun _ _ _ _ => rfl) s g
        simp only at e ⊢
        rw [lookup_map_erase_ne fop op hne, e]
        exact hreg
    | summarize_promise_lifecycle_ lifecycle => exact ⟨f, hreg, rfl, rfl⟩
    | _ => simp [PublicOp.writes_summary_data] at hw

/-- Summaries of a function record after a run that does not tear it down. -/
theorem run_ops_function_record (h : Host) (fop : SEXP) (ops : List PublicOp) :
    ∀ (s : TracerState) (f : Function), s.functions_.lookup fop = some f →
      ops.all (fun o => !o.tears_down_function fop) = true →
      ∃ f2 : Function, (run_ops h s ops).functions_.lookup fop = some f2 ∧ f2.id = f.id ∧
        f2.summaries =
          ((destroyed_calls fop ops).map call_signature).foldl
            (fun acc k => tally_step k acc) f.summaries := by
  induction ops with
  | nil => intro s f hreg _; exact ⟨f, hreg, rfl, rfl⟩
  | cons o tl ih =>
    intro s f hreg hlive
    simp only [List.all_cons, Bool.and_eq_true, Bool.not_eq_true'] at hlive
    obtain ⟨f1, h1, h2, h3⟩ := apply_op_function_record h s o fop f hreg hlive.1
    obtain ⟨f2, g1, g2, g3⟩ := ih (apply_op h s o) f1 h1 (by simpa using hlive.2)
    refine ⟨f2, by simpa [run_ops] using g1, g2.trans h2, ?_⟩
    rw [g3, h3]
    cases hd : o.destroyed_call_of fop with
    | none => simp [destroyed_calls, List.filterMap_cons, hd]
    | some c => simp [destroyed_calls, List.filterMap_cons, hd]

/-- Rows that the teardown of a function record writes to the call_summary
table: one per summary, with its signature and count. -/
theorem serialize_function_rows (st : TracerState) (f : Function) :
    ∃ rows : List CallSummaryRow,
      (serialize_function_call_summary_ st f).call_summary_data_table_ =
          st.call_summary_data_table_ ++ rows ∧
        (destroy_function_ st f).call_summary_data_table_ =
          st.call_summary_data_table_ ++ rows ∧
        rows.map row_signature = f.summaries.map Prod.fst ∧
        rows.map (fun r => r.call_count) = f.summaries.map Prod.snd ∧
        (∀ r ∈ rows, r.function_id = f.id) ∧
        ∀ st2 : TracerState,
          (serialize_function_call_summary_ st2 f).call_summary_data_table_ =
            st2.call_summary_data_table_ ++ rows := by
  refine ⟨_, rfl, ?_, ?_, ?_, ?_, fun _ => rfl⟩
  · simp only [destroy_function_, serialize_function_, serialize_function_definition_,
      serialize_function_call_summary_]
    split <;> rfl
  · simp [row_signature, Function.comp_def]
  · simp [Function.comp_def]
  · intro r hr
    simp only [List.mem_map] at hr
    obtain ⟨e, _, rfl⟩ := hr
    rfl

/-! ## Function summaries: claim -/

/-- C21: take a function record interned under the handle `fop` that has no
summary yet, and a run that does not tear it down.  The record is interned
after the run, and the rows that its teardown (`remove_function(fop)`, through
`serialize_function_call_summary_`) then appends to the call_summary table carry
its function id and pairwise distinct signatures, exactly the signatures of the
calls of that function for which `destroy_call` was invoked in the run; the
`call_count` of each row is the number of these invocations with the row's
signature, and the counts sum to the number of these invocations. -/
theorem call_summary_counts_destroyed_calls (h : Host) (s : TracerState) (fop : SEXP)
    (f : Function) (ops : List PublicOp) (hreg : s.functions_.lookup fop = some f)
    (hnew : f.summaries = [])
    (hlive : ops.all (fun o => !o.tears_down_function fop) = true) :
    ∃ (f2 : Function) (rows : List CallSummaryRow),
      (run_ops h s ops).functions_.lookup fop = some f2 ∧
        (∀ st : TracerState,
          (serialize_function_call_summary_ st f2).call_summary_data_table_ =
            st.call_summary_data_table_ ++ rows) ∧
        (remove_function (run_ops h s ops) fop).call_summary_data_table_ =
          (run_ops h s ops).call_summary_data_table_ ++ rows ∧
        (∀ r ∈ rows, r.function_id = f.id) ∧
        (rows.map row_signature).Nodup ∧
        (∀ sig, sig ∈ rows.map row_signature ↔
          sig ∈ (destroyed_calls fop ops).map call_signature) ∧
        (∀ r ∈ rows,
          r.call_count =
            ((destroyed_calls fop ops).map call_signature).count (row_signature r)) ∧
        (rows.map (fun r => r.call_count)).sum = (destroyed_calls fop ops).length := by
  obtain ⟨f2, h1, h2, h3⟩ := run_ops_function_record h fop ops s f hreg hlive
  rw [hnew] at h3
  have htally : f2.summaries = tally ((destroyed_calls fop ops).map call_signature) := h3
  obtain ⟨rows, _, r2, r3, r4, r5, r6⟩ := serialize_function_rows (run_ops h s ops) f2
  obtain ⟨t1, t2, _, t4, t5⟩ :=
    tally_spec (ν := Nat) ((destroyed_calls fop ops).map call_signature)
  refine ⟨f2, rows, h1, r6, ?_, ?_, ?_, ?_, ?_, ?_⟩
  · simp only [remove_function, h1]
    exact r2
  · intro r hr
    rw [r5 r hr, h2]
  · rw [r3, htally]
    exact t1
  · intro sig
    rw [r3, htally]
    exact t2 sig
  · intro r hr
    have hmem : (row_signature r, r.call_count) ∈ f2.summaries := by
      have hz : rows.map (fun r => (row_signature r, r.call_count)) = f2.summaries := by
        have e1 : rows.map (fun r => (row_signature r, r.call_count)) =
            List.zip (rows.map row_signature) (rows.map (fun r => r.call_count)) := by
          rw [List.zip_map']
        rw [e1, r3, r4, List.zip_map', List.map_id'']
        intro x
        rfl
      rw [← hz]
      exact List.mem_map_of_mem _ hr
    rw [htally] at hmem
    have := t4 _ hmem
    simpa using this
  · rw [r4, htally, t5]
    simp

/-- C21, at a concrete input: the closure `20` is interned in a fresh tracer and
two of its calls are destroyed. -/
theorem call_summary_counts_destroyed_calls_witness :
    ∃ (f2 : Function) (rows : List CallSummaryRow),
      (run_ops sample_host (lookup_function sample_host (fresh sample_host 0) 20).2
          sample_call_run).functions_.lookup 20 = some f2 ∧
        (remove_function
            (run_ops sample_host (lookup_function sample_host (fresh sample_host 0) 20).2
              sample_call_run) 20).call_summary_data_table_ =
          (run_ops sample_host (lookup_function sample_host (fresh sample_host 0) 20).2
            sample_call_run).call_summary_data_table_ ++ rows ∧
        (rows.map (fun r => r.call_count)).sum = 2 := by
  obtain ⟨f2, rows, h1, _, h3, _, _, _, _, h8⟩ :=
    call_summary_counts_destroyed_calls sample_host
      (lookup_function sample_host (fresh sample_host 0) 20).2 20
      (Function.create sample_host 20) sample_call_run (by decide) rfl (by decide)
  exact ⟨f2, rows, h1, h3, h8.trans (by decide)⟩

/-! ## Object counts: helper lemmas -/

/-- Only `increment_object_count` writes the object counts. -/
theorem apply_op_object_count (h : Host) (s : TracerState) (op : PublicOp) :
    (apply_op h s op).object_count_ =
      match op.incremented_type with
      | some type => s.object_count_.modify (fun c => (c + 1) % 2 ^ 32) type
      | none => s.object_count_ := by
  by_cases hw : op.writes_summary_data = false
  · rw [apply_op_frame (fun st => st.object_count_)
      (fun _ _ _ _ _ _ _ _ _ _ _ _ _ _ _ _ => rfl) h s op hw]
    cases op <;> first | rfl | simp [PublicOp.writes_summary_data] at hw
  · cases op with
    | cleanup error =>
      exact cleanup_writes (fun st => st.object_count_)
        (fun _ _ _ _ _ _ _ _ _ _ _ _ _ _ _ => rfl) s error
    | increment_object_count type => rfl
    | remove_promise promise promise_state =>
      exact destroy_promise_frame (fun st => st.object_count_) (fun _ _ _ _ _ _ => rfl)
        { s with promises_ := map_erase s.promises_ promise } promise_state
    | destroy_promise promise_state =>
      exact destroy_promise_frame (fun st => st.object_count_) (fun _ _ _ _ _ _ => rfl) s
        promise_state
    | remove_function op =>
      exact remove_function_writes (fun st => st.object_count_) (fun _ _ _ _ _ => rfl) s op
    | summarize_promise_lifecycle_ lifecycle => rfl
    | _ => simp [PublicOp.writes_summary_data] at hw

/-- The count of a type after a run: the wrapping increment applied once per
`increment_object_count` of that type. -/
theorem run_ops_object_count (h : Host) (ops : List PublicOp) :
    ∀ (s : TracerState) (i : Nat),
      (run_ops h s ops).object_count_[i]? =
        (s.object_count_[i]?).map ((fun c => (c + 1) % 2 ^ 32)^[count_increments ops i]) := by
  induction ops with
  | nil => intro s i; simp [run_ops, count_increments]
  | cons op tl ih =>
    intro s i
    have e := ih (apply_op h s op) i
    simp only [run_ops, List.foldl_cons] at e ⊢
    rw [e, apply_op_object_count]
    cases ht : op.incremented_type with
    | none => simp [count_increments, List.countP_cons, ht]
    | some type =>
      simp only [List.getElem?_modify, count_increments, List.countP_cons, ht]
      by_cases hti : type = i
      · subst hti
        cases s.object_count_[type]? with
        | none => rfl
        | some c => simp [Function.iterate_succ_apply]
      · have hne : ¬ (some type == some i) = true := by simpa using hti
        cases s.object_count_[i]? with
        | none => rfl
        | some c => simp [hti]

theorem iterate_wrapping_succ_zero (k : Nat) :
    (fun c => (c + 1) % 2 ^ 32)^[k] 0 = k % 2 ^ 32 := by
  induction k with
  | zero => rfl
  | succ k ih =>
    rw [Function.iterate_succ_apply', ih]
    simp [Nat.add_mod]

theorem count_increments_out_of_range (n : Nat) (ops : List PublicOp)
    (hrange : increments_in_range n ops = true) (t : Nat) (ht : n ≤ t) :
    count_increments ops t = 0 := by
  induction ops with
  | nil => rfl
  | cons op tl ih =>
    simp only [increments_in_range, List.all_cons, Bool.and_eq_true] at hrange
    have e := ih (by simpa [increments_in_range] using hrange.2)
    simp only [count_increments, List.countP_cons] at e ⊢
    rw [e]
    cases hty : op.incremented_type with
    | none => simp
    | some type =>
      have hlt : type < n := by simpa [hty] using hrange.1
      have hne : type ≠ t := by
        intro hh
        subst hh
        exact absurd hlt (Nat.not_lt.2 ht)
      simp [hne]

theorem sum_range_indicator (n t : Nat) :
    ((List.range n).map (fun i => if t = i then 1 else 0)).sum = if t < n then 1 else 0 := by
  induction n with
  | zero => simp
  | succ n ih =>
    rw [List.range_succ, List.map_append, List.sum_append, ih]
    by_cases h1 : t < n
    · have h2 : t ≠ n := by omega
      have h3 : t < n + 1 := by omega
      simp [h1, h2, h3]
    · by_cases h2 : t = n
      · subst h2; simp
      · have h3 : ¬ t < n + 1 := by omega
        simp [h1, h2, h3]

/-- The per-type numbers of increments add up to the number of increments. -/
theorem sum_count_increments (n : Nat) (ops : List PublicOp)
    (hrange : increments_in_range n ops = true) :
    ((List.range n).map (count_increments ops)).sum = total_increments ops := by
  induction ops with
  | nil =>
    have e0 : count_increments [] = fun _ => 0 := rfl
    simp [e0, total_increments]
  | cons op tl ih =>
    simp only [increments_in_range, List.all_cons, Bool.and_eq_true] at hrange
    have e := ih (by simpa [increments_in_range] using hrange.2)
    have hsplit : (List.range n).map (count_increments (op :: tl)) =
        (List.range n).map (fun i => count_increments tl i +
          (if op.incremented_type = some i then 1 else 0)) := by
      apply List.map_congr_left
      intro i _
      simp [count_increments, List.countP_cons]
    rw [hsplit, List.sum_map_add, e]
    simp only [total_increments, List.countP_cons]
    cases hty : op.incremented_type with
    | none => simp
    | some type =>
      have hlt : type < n := by simpa [hty] using hrange.1
      have := sum_range_indicator n type
      simp only [Option.some.injEq, Option.isSome_some, if_true]
      rw [this]
      simp [hlt]

/-- Rows written by the loop of `serialize_object_count_` from index `i`. -/
theorem serialize_object_count_loop_spec (cs : List Nat) :
    ∀ i : Nat,
      (∀ t c, (⟨t, c⟩ : ObjectCountRow) ∈ serialize_object_count_loop i cs ↔
        (i ≤ t ∧ cs[t - i]? = some c ∧ c ≠ 0)) ∧
      ((serialize_object_count_loop i cs).map (fun r => r.type)).Pairwise (fun a b => a < b) ∧
      ((serialize_object_count_loop i cs).map (fun r => r.count)).sum = cs.sum := by
  induction cs with
  | nil => intro i; simp [serialize_object_count_loop]
  | cons c0 tl ih =>
    intro i
    obtain ⟨h1, h2, h3⟩ := ih (i + 1)
    have hmem : ∀ t c, (i + 1 ≤ t ∧ tl[t - (i + 1)]? = some c ∧ c ≠ 0) ↔
        (i ≤ t ∧ t ≠ i ∧ (c0 :: tl)[t - i]? = some c ∧ c ≠ 0) := by
      intro t c
      constructor
      · rintro ⟨ha, hb, hc⟩
        have e : t - i = (t - (i + 1)) + 1 := by omega
        refine ⟨by omega, by omega, ?_, hc⟩
        rw [e, List.getElem?_cons_succ]
        exact hb
      · rintro ⟨ha, hb, hc, hd⟩
        have e : t - i = (t - (i + 1)) + 1 := by omega
        rw [e, List.getElem?_cons_succ] at hc
        exact ⟨by omega, hc, hd⟩
    by_cases hc0 : c0 = 0
    · subst hc0
      simp only [serialize_object_count_loop, ne_eq, not_true_eq_false, if_false,
        List.sum_cons, Nat.zero_add]
      refine ⟨?_, h2, h3⟩
      intro t c
      rw [h1, hmem]
      constructor
      · rintro ⟨ha, _, hc, hd⟩
        exact ⟨ha, hc, hd⟩
      · rintro ⟨ha, hc, hd⟩
        refine ⟨ha, ?_, hc, hd⟩
        intro hti
        subst hti
        simp only [Nat.sub_self, List.getElem?_cons_zero, Option.some.injEq] at hc
        exact hd hc.symm
    · simp only [serialize_object_count_loop, ne_eq, hc0, not_false_eq_true, if_true,
        List.map_cons, List.sum_cons, List.pairwise_cons, List.mem_cons]
      refine ⟨?_, ⟨?_, h2⟩, by rw [h3]⟩
      · intro t c
        rw [h1, hmem]
        constructor
        · rintro (hrow | ⟨ha, _, hc, hd⟩)
          · simp only [ObjectCountRow.mk.injEq] at hrow
            obtain ⟨rfl, rfl⟩ := hrow
            exact ⟨le_refl _, by simp, hc0⟩
          · exact ⟨ha, hc, hd⟩
        · rintro ⟨ha, hc, hd⟩
          by_cases hti : t = i
          · subst hti
            simp only [Nat.sub_self, List.getElem?_cons_zero, Option.some.injEq] at hc
            exact Or.inl (by rw [hc])
          · exact Or.inr ⟨ha, hti, hc, hd⟩
      · intro a ha
        simp only [List.mem_map] at ha
        obtain ⟨r, hr, rfl⟩ := ha
        have := (h1 r.type r.count).1 hr
        exact Nat.lt_of_succ_le this.1

/-- The state in which `cleanup` runs `serialize_object_count_`, reached through
the states `s1`, `s2`, `s3` after the first loop, the first `clear()` and the
second loop, has the object counts and the object_count table of the state in
which `cleanup` is called. -/
theorem cleanup_tables_counts (s s1 s2 s3 : TracerState)
    (h1 : s1 = s.promises_.foldl (fun st e => destroy_promise st e.2) s)
    (h2 : s2 = { s1 with promises_ := [] })
    (h3 : s3 = s2.functions_.foldl (fun st e => destroy_function_ st e.2) s2) :
    cleanup_tables s =
        serialize_promise_lifecycle_summary_
          (serialize_object_count_ { s3 with functions_ := [] }) ∧
      s3.object_count_data_table_ = s.object_count_data_table_ ∧
      s3.object_count_ = s.object_count_ := by
  have e1 : (s1.object_count_data_table_, s1.object_count_) =
      (s.object_count_data_table_, s.object_count_) := by
    rw [h1]
    exact foldl_field (fun st => (st.object_count_data_table_, st.object_count_))
      (fun st (e : SEXP × denoted_value_id_t) => destroy_promise st e.2)
      (fun st e =>
        destroy_promise_frame (fun st => (st.object_count_data_table_, st.object_count_))
          (fun _ _ _ _ _ _ => rfl) st e.2) s.promises_ s
  have e2 : (s2.object_count_data_table_, s2.object_count_) =
      (s1.object_count_data_table_, s1.object_count_) := by
    rw [h2]
  have e3 : (s3.object_count_data_table_, s3.object_count_) =
      (s2.object_count_data_table_, s2.object_count_) := by
    rw [h3]
    exact foldl_field (fun st => (st.object_count_data_table_, st.object_count_))
      (fun st (e : SEXP × Function) => destroy_function_ st e.2)
      (fun st e =>
        destroy_function_frame (fun st => (st.object_count_data_table_, st.object_count_))
          (fun _ _ _ _ => rfl) st e.2) s2.functions_ s2
  have e := e3.trans (e2.trans e1)
  refine ⟨?_, congrArg Prod.fst e, congrArg Prod.snd e⟩
  subst h3 h2 h1
  rfl

/-- The object_count rows are written by `cleanup` from the counts as they are
when it is called. -/
theorem cleanup_object_count_rows (s : TracerState) (error : Int) :
    (cleanup s error).object_count_data_table_ =
      s.object_count_data_table_ ++ serialize_object_count_loop 0 s.object_count_ := by
  obtain ⟨h1, h2, h3⟩ := cleanup_tables_counts s _ _ _ rfl rfl rfl
  have ht : (cleanup_tables s).object_count_data_table_ =
      s.object_count_data_table_ ++ serialize_object_count_loop 0 s.object_count_ := by
    rw [h1, ← h2, ← h3]
    rfl
  simp only [cleanup, cleanup_sentinel, cleanup_stack_check, write_file, dyntrace_log_error]
  split <;> split <;> exact ht

/-! ## Object counts: claim -/

/-- C22: in a run from a fresh tracer whose `increment_object_count` calls are
all given a type within the table of counts, and with fewer than `2^32` calls
per type, the rows that `cleanup` appends to the object_count table are those
of the loop over the counts; a row `(type, count)` is among them exactly when
`count` is the number of increments of `type` and is non-zero; the rows have
strictly increasing types, hence at most one row per type; and their counts sum
to the number of `increment_object_count` calls. -/
theorem object_count_rows_match_increments (h : Host) (n : Nat) (ops : List PublicOp)
    (error : Int) (hrange : increments_in_range n ops = true)
    (hover : ∀ type, count_increments ops type < 2 ^ 32) :
    (cleanup (run_ops h (fresh h n) ops) error).object_count_data_table_ =
        (run_ops h (fresh h n) ops).object_count_data_table_ ++
          serialize_object_count_loop 0 (run_ops h (fresh h n) ops).object_count_ ∧
      (∀ type count,
        (⟨type, count⟩ : ObjectCountRow) ∈
            serialize_object_count_loop 0 (run_ops h (fresh h n) ops).object_count_ ↔
          (count = count_increments ops type ∧ count ≠ 0)) ∧
      ((serialize_object_count_loop 0 (run_ops h (fresh h n) ops).object_count_).map
        (fun r => r.type)).Pairwise (fun a b => a < b) ∧
      ((serialize_object_count_loop 0 (run_ops h (fresh h n) ops).object_count_).map
        (fun r => r.count)).sum = total_increments ops := by
  have hget : ∀ i, (run_ops h (fresh h n) ops).object_count_[i]? =
      if i < n then some (count_increments ops i) else none := by
    intro i
    rw [run_ops_object_count]
    have hit : (fun c => (c + 1) % 2 ^ 32)^[count_increments ops i] 0 =
        count_increments ops i := by
      rw [iterate_wrapping_succ_zero, Nat.mod_eq_of_lt (hover i)]
    by_cases hi : i < n
    · simp only [fresh, List.getElem?_replicate, hi, if_true, Option.map_some', hit]
    · simp [fresh, hi, List.getElem?_replicate]
  have hcs : (run_ops h (fresh h n) ops).object_count_ =
      (List.range n).map (count_increments ops) := by
    apply List.ext_getElem?
    intro i
    rw [hget]
    by_cases hi : i < n
    · simp [hi, List.getElem?_range]
    · have hnone : (List.range n)[i]? = none :=
        List.getElem?_eq_none (by simpa using Nat.not_lt.1 hi)
      simp [hi, hnone]
  obtain ⟨h1, h2, h3⟩ :=
    serialize_object_count_loop_spec (run_ops h (fresh h n) ops).object_count_ 0
  refine ⟨cleanup_object_count_rows _ _, ?_, h2, ?_⟩
  · intro type count
    rw [h1, Nat.sub_zero, hget]
    by_cases hi : type < n
    · simp only [hi, if_true, Option.some.injEq, Nat.zero_le, true_and]
      constructor
      · rintro ⟨ha, hb⟩; exact ⟨ha.symm, hb⟩
      · rintro ⟨ha, hb⟩; exact ⟨ha.symm, hb⟩
    · simp only [hi, if_false, Nat.zero_le, true_and]
      constructor
      · rintro ⟨ha, _⟩
        cases ha
      · rintro ⟨hc, hne⟩
        exfalso
        apply hne
        rw [hc]
        exact count_increments_out_of_range n ops hrange type (Nat.not_lt.1 hi)
  · rw [h3, hcs]
    exact sum_count_increments n ops hrange

/-- C22, at a concrete input: two objects of type `1` and one of type `3` are
counted in a table of five types. -/
theorem object_count_rows_match_increments_witness :
    ((serialize_object_count_loop 0
        (run_ops sample_host (fresh sample_host 5) sample_count_run).object_count_).map
        (fun r => r.count)).sum = total_increments sample_count_run ∧
      serialize_object_count_loop 0
        (run_ops sample_host (fresh sample_host 5) sample_count_run).object_count_ =
        [⟨1, 2⟩, ⟨3, 1⟩] :=
  ⟨(object_count_rows_match_increments sample_host 5 sample_count_run 0 (by decide)
    (fun type => lt_of_le_of_lt (List.countP_le_length _) (by decide))).2.2.2, by decide⟩

/-! ## Thunk teardown output: helper lemmas -/

theorem summarize_loop_eq_tally_step (k : lifecycle_t) (m : List (lifecycle_t × Int)) :
    summarize_loop k m = tally_step k m := by
  induction m with
  | nil => rfl
  | cons e tl ih =>
    obtain ⟨l, n⟩ := e
    by_cases hlk : l = k
    · subst hlk; simp [summarize_loop, tally_step]
    · have hne : ¬ (l.action = k.action ∧ l.count = k.count) := by
        rintro ⟨h1, h2⟩
        apply hlk
        cases l
        cases k
        simp_all
      simp [summarize_loop, tally_step, hlk, hne, ih]

/-- What one `destroy_promise` summarizes and emits. -/
theorem destroy_promise_output (s : TracerState) (t : denoted_value_id_t) :
    promise_output (destroy_promise s t) =
      (tally_step (s.heap t).lifecycle s.lifecycle_summary_,
        s.promise_data_table_ ++ [(s.heap t).set_inactive],
        s.escaped_argument_data_table_ ++
          (if (s.heap t).escaped then [(s.heap t).set_inactive] else [])) := by
  simp only [promise_output, destroy_promise, store, serialize_promise_,
    summarize_promise_lifecycle_, serialize_escaped_promise_, delete_, Function.update_same,
    summarize_loop_eq_tally_step, DenotedValue.set_inactive]
  cases (s.heap t).escaped <;> simp <;> split <;> simp

/-- Rows of the promises table written by one public operation. -/
theorem apply_op_promise_rows (h : Host) (s : TracerState) (op : PublicOp) :
    (apply_op h s op).promise_data_table_.length =
      s.promise_data_table_.length + destroy_promise_invocations_of s op := by
  by_cases hw : op.writes_summary_data = false
  · rw [apply_op_frame (fun st => st.promise_data_table_.length)
      (fun _ _ _ _ _ _ _ _ _ _ _ _ _ _ _ _ => rfl) h s op hw]
    cases op <;> first | rfl | simp [PublicOp.writes_summary_data] at hw
  · cases op with
    | cleanup error =>
      have e := cleanup_after_promises (fun st => st.promise_data_table_.length)
        (fun _ _ _ _ _ _ _ _ _ _ => rfl) s error
      simp only [apply_op, destroy_promise_invocations_of]
      rw [e]
      exact destroy_promise_foldl_rows s.promises_ s
    | increment_object_count type => rfl
    | remove_promise promise promise_state =>
      exact destroy_promise_rows { s with promises_ := map_erase s.promises_ promise }
        promise_state
    | destroy_promise promise_state => exact destroy_promise_rows s promise_state
    | remove_function op =>
      simp only [apply_op, destroy_promise_invocations_of]
      exact remove_function_writes (fun st => st.promise_data_table_.length)
        (fun _ _ _ _ _ => rfl) s op
    | summarize_promise_lifecycle_ lifecycle => rfl
    | _ => simp [PublicOp.writes_summary_data] at hw

theorem run_ops_promise_rows (h : Host) (ops : List PublicOp) :
    ∀ s : TracerState,
      (run_ops h s ops).promise_data_table_.length =
        s.promise_data_table_.length + destroy_promise_invocations h s ops := by
  induction ops with
  | nil => intro s; rfl
  | cons op tl ih =>
    intro s
    have e := ih (apply_op h s op)
    simp only [run_ops, List.foldl_cons] at e ⊢
    rw [e, apply_op_promise_rows, destroy_promise_invocations, Nat.add_assoc]

/-- Without direct summarizations, the lifecycle summary is the tally of the
lifecycles of the rows of the promises table. -/
theorem run_ops_lifecycle_summary (h : Host) (ops : List PublicOp) :
    ∀ s : TracerState, ops.all (fun o => !o.is_direct_summarize) = true →
      s.lifecycle_summary_ = tally (s.promise_data_table_.map (fun v => v.lifecycle)) →
      (run_ops h s ops).lifecycle_summary_ =
        tally ((run_ops h s ops).promise_data_table_.map (fun v => v.lifecycle)) := by
  induction ops with
  | nil => intro s _ hs; exact hs
  | cons op tl ih =>
    intro s hops hs
    simp only [List.all_cons, Bool.and_eq_true, Bool.not_eq_true', ] at hops
    simp only [run_ops, List.foldl_cons]
    refine ih (apply_op h s op) hops.2 ?_
    refine apply_op_promise_output
      (fun v => v.1 = tally (v.2.1.map (fun v => v.lifecycle))) ?_ h s op hops.1 hs
    intro st p hst
    rw [destroy_promise_output]
    simp only [promise_output] at hst
    simp only [List.map_append, List.map_cons, List.map_nil, tally_append_singleton, ← hst]
    rfl

/-- Every row of the escaped_arguments table has its escape column set. -/
theorem run_ops_escaped_rows (h : Host) (ops : List PublicOp) :
    ∀ s : TracerState, (∀ row ∈ s.escaped_argument_data_table_, row.escaped = true) →
      ∀ row ∈ (run_ops h s ops).escaped_argument_data_table_, row.escaped = true := by
  induction ops with
  | nil => intro s hs; exact hs
  | cons op tl ih =>
    intro s hs
    simp only [run_ops, List.foldl_cons]
    refine ih (apply_op h s op) ?_
    cases hd : op.is_direct_summarize with
    | true =>
      cases op <;> first | exact hs | simp [PublicOp.is_direct_summarize] at hd
    | false =>
      refine apply_op_promise_output (fun v => ∀ row ∈ v.2.2, row.escaped = true) ?_ h s op hd hs
      intro st p hst
      rw [destroy_promise_output]
      simp only [promise_output] at hst
      intro row hrow
      simp only [List.mem_append] at hrow
      rcases hrow with hrow | hrow
      · exact hst row hrow
      · cases he : (st.heap p).escaped with
        | true =>
          simp only [he, if_true, List.mem_singleton] at hrow
          subst hrow
          exact he
        | false => simp [he] at hrow

theorem summarize_foldl_summary (ks : List lifecycle_t) :
    ∀ s : TracerState,
      (ks.foldl summarize_promise_lifecycle_ s).lifecycle_summary_ =
        ks.foldl (fun acc k => tally_step k acc) s.lifecycle_summary_ := by
  induction ks with
  | nil => intro s; rfl
  | cons k tl ih =>
    intro s
    rw [List.foldl_cons, ih, List.foldl_cons]
    simp [summarize_promise_lifecycle_, summarize_loop_eq_tally_step]

/-! ## Thunk teardown output: claims -/

/-- C23: after any sequence `ks` of lifecycle summarizations from an empty
summary, the summary holds pairwise distinct keys, exactly the lifecycles
summarized, in the order of their first occurrence, each with the number of
summarized lifecycles equal to it, and the counts sum to the number of
summarizations.  In a run from a fresh tracer in which
`summarize_promise_lifecycle_` is called by `destroy_promise` only, the summary
is the one of the lifecycles of the rows of the promises table in order, so its
counts sum to the number of these rows, which is the number of
`destroy_promise` invocations. -/
theorem lifecycle_summary_counts_destroyed_promises (h : Host) (n : Nat) (ops : List PublicOp)
    (hops : ops.all (fun o => !o.is_direct_summarize) = true) :
    (∀ (s0 : TracerState) (ks : List lifecycle_t) (l : List (lifecycle_t × Int)),
        s0.lifecycle_summary_ = [] →
        l = (ks.foldl summarize_promise_lifecycle_ s0).lifecycle_summary_ →
        (l.map Prod.fst).Nodup ∧ (∀ k, k ∈ l.map Prod.fst ↔ k ∈ ks) ∧
          (l.map Prod.fst).Pairwise (fun a b => ks.indexOf a < ks.indexOf b) ∧
          (∀ e ∈ l, e.2 = ((ks.count e.1 : Nat) : Int)) ∧
          (l.map Prod.snd).sum = ((ks.length : Nat) : Int)) ∧
      (run_ops h (fresh h n) ops).lifecycle_summary_ =
        (((run_ops h (fresh h n) ops).promise_data_table_.map (fun v => v.lifecycle)).foldl
          summarize_promise_lifecycle_ (fresh h n)).lifecycle_summary_ ∧
      ((run_ops h (fresh h n) ops).lifecycle_summary_.map Prod.snd).sum =
        (((run_ops h (fresh h n) ops).promise_data_table_.length : Nat) : Int) ∧
      (run_ops h (fresh h n) ops).promise_data_table_.length =
        destroy_promise_invocations h (fresh h n) ops := by
  have hfold : ∀ (s0 : TracerState) (ks : List lifecycle_t), s0.lifecycle_summary_ = [] →
      (ks.foldl summarize_promise_lifecycle_ s0).lifecycle_summary_ = tally ks := by
    intro s0 ks h0
    rw [summarize_foldl_summary, h0]
    rfl
  have hrun := run_ops_lifecycle_summary h ops (fresh h n) hops rfl
  refine ⟨?_, ?_, ?_, ?_⟩
  · intro s0 ks l h0 hl
    rw [hl, hfold s0 ks h0]
    exact tally_spec ks
  · rw [hfold _ _ rfl]
    exact hrun
  · rw [hrun]
    have := (tally_spec (ν := Int)
      ((run_ops h (fresh h n) ops).promise_data_table_.map (fun v => v.lifecycle))).2.2.2.2
    rw [this, List.length_map]
  · have := run_ops_promise_rows h ops (fresh h n)
    simpa [fresh] using this

/-- C23, at a concrete input: a run in which the promise `10` is torn down
twice. -/
theorem lifecycle_summary_counts_destroyed_promises_witness :
    ((run_ops sample_host (fresh sample_host 0) sample_promise_run).lifecycle_summary_.map
        Prod.snd).sum =
      (((run_ops sample_host (fresh sample_host 0) sample_promise_run).promise_data_table_.length :
        Nat) : Int) ∧
      (run_ops sample_host (fresh sample_host 0) sample_promise_run).promise_data_table_.length =
        2 :=
  ⟨(lifecycle_summary_counts_destroyed_promises sample_host 0 sample_promise_run
    (by decide)).2.2.1, by decide⟩

/-- C24: one `destroy_promise(t)` appends exactly one row, that of `t`, to the
promises table, summarizes the lifecycle of `t` once (the counts of the summary
grow by one in all), appends one row of `t` to the escaped_arguments table if
`t` has escaped and none otherwise, and writes nothing to the arguments table;
hence in every run from a fresh tracer each row of the escaped_arguments table
has its escape column set. -/
theorem destroy_promise_emits_rows (h : Host) (s : TracerState) (t : denoted_value_id_t) :
    (destroy_promise s t).promise_data_table_ =
        s.promise_data_table_ ++ [(s.heap t).set_inactive] ∧
      (destroy_promise s t).lifecycle_summary_ =
        summarize_loop (s.heap t).lifecycle s.lifecycle_summary_ ∧
      ((destroy_promise s t).lifecycle_summary_.map Prod.snd).sum =
        (s.lifecycle_summary_.map Prod.snd).sum + 1 ∧
      (destroy_promise s t).escaped_argument_data_table_ =
        s.escaped_argument_data_table_ ++
          (if (s.heap t).escaped then [(s.heap t).set_inactive] else []) ∧
      (destroy_promise s t).argument_data_table_ = s.argument_data_table_ ∧
      (∀ (n : Nat) (ops : List PublicOp),
        ∀ row ∈ (run_ops h (fresh h n) ops).escaped_argument_data_table_,
          row.escaped = true) := by
  have e := destroy_promise_output s t
  simp only [promise_output, Prod.mk.injEq] at e
  obtain ⟨e1, e2, e3⟩ := e
  refine ⟨e2, ?_, ?_, e3, ?_, ?_⟩
  · rw [e1, summarize_loop_eq_tally_step]
  · rw [e1, tally_step_sum]
  · exact destroy_promise_frame (fun st => st.argument_data_table_)
      (fun _ _ _ _ _ _ => rfl) s t
  · intro n ops
    exact run_ops_escaped_rows h ops (fresh h n) (by simp [fresh])

/-! ## Thunk registry: helper lemmas -/

theorem lookup_append_singleton_ne {β : Type} (k k2 : SEXP) (v : β) (hne : k ≠ k2)
    (m : List (SEXP × β)) : (m ++ [(k2, v)]).lookup k = m.lookup k := by
  induction m with
  | nil =>
    have hbeq : (k == k2) = false := by simpa using hne
    simp [List.lookup_cons, hbeq]
  | cons e tl ih =>
    obtain ⟨a, b⟩ := e
    simp only [List.cons_append, List.lookup_cons]
    cases k == a with
    | true => rfl
    | false => exact ih

theorem lookup_insert_or_assign_ne {β : Type} (k k2 : SEXP) (v : β) (hne : k ≠ k2)
    (m : List (SEXP × β)) : (map_insert_or_assign m k2 v).lookup k = m.lookup k := by
  unfold map_insert_or_assign
  cases m.lookup k2 with
  | none => exact lookup_append_singleton_ne k k2 v hne m
  | some b =>
    simp only
    have e : (fun e : SEXP × β => if e.1 = k2 then (k2, v) else e) =
        (fun e : SEXP × β => if e.1 = k2 then (e.1, (fun _ => v) e.2) else e) := by
      funext e
      by_cases h : e.1 = k2 <;> simp [h]
    rw [e, lookup_map_value k k2 (fun _ => v) m]
    cases m.lookup k with
    | none => rfl
    | some w => simp [hne]

theorem lookup_filter_of_none {β : Type} (k : SEXP) (m : List (SEXP × β))
    (hm : m.lookup k = none) : map_erase m k = m := by
  induction m with
  | nil => rfl
  | cons e tl ih =>
    obtain ⟨a, b⟩ := e
    simp only [List.lookup_cons] at hm
    cases hab : k == a with
    | true => simp [hab] at hm
    | false =>
      simp only [hab] at hm
      have hne : a ≠ k := fun h => by simp [h] at hab
      simp only [map_erase] at ih ⊢
      simp [List.filter_cons, hne, ih hm]

/-- The loop of `set_scope_` writes the scope only. -/
theorem set_scope_loop_writes (l : List ExecutionContext) :
    ∀ v : DenotedValue, ∃ f : function_id_t, set_scope_loop l v = { v with scope := f } := by
  induction l with
  | nil => intro v; exact ⟨v.scope, rfl⟩
  | cons c tl ih =>
    intro v
    cases c with
    | closure call => exact ⟨call.function_id, rfl⟩
    | builtin call =>
      obtain ⟨f, hf⟩ := ih (v.set_scope call.function_id)
      exact ⟨f, hf⟩
    | special call =>
      obtain ⟨f, hf⟩ := ih (v.set_scope call.function_id)
      exact ⟨f, hf⟩
    | promise p =>
      obtain ⟨f, hf⟩ := ih v
      exact ⟨f, hf⟩

/-- What `create_promise` returns and stores. -/
theorem create_promise_spec (h : Host) (s : TracerState) (promise : SEXP) :
    (create_promise h s promise).1 = s.denoted_value_id_counter_ ∧
      (create_promise h s promise).2.denoted_value_id_counter_ =
        s.denoted_value_id_counter_ + 1 ∧
      (create_promise h s promise).2.promises_ =
        map_insert_or_assign s.promises_ promise s.denoted_value_id_counter_ ∧
      (create_promise h s promise).2.heap =
        Function.update s.heap s.denoted_value_id_counter_
          ((set_scope_loop s.stack_
            (DenotedValue.create h s.denoted_value_id_counter_ promise true)).set_active
            |>.set_creation_timestamp s.timestamp_) := by
  obtain ⟨e1, _, e3, e4, _, e6⟩ := create_raw_promise_spec h s promise true
  have e7 := create_raw_promise_timestamp h s promise true
  rcases hcr : create_raw_promise_ h s promise true with ⟨p, s1⟩
  rw [hcr] at e1 e3 e4 e6 e7
  simp only at e1 e3 e4 e6 e7
  subst e1
  simp only [create_promise, hcr, store, get_current_timestamp_, e3, e4, e6, e7,
    Function.update_same, Function.update_idem, and_self]

/-! ## Id counters: helper lemmas -/

theorem id_counters_create_raw_promise (h : Host) (s : TracerState) (promise : SEXP)
    (loc : Bool) :
    id_counters (create_raw_promise_ h s promise loc).2 =
      ((id_counters s).1 + 1, (id_counters s).2) := by
  have e1 := (create_raw_promise_spec h s promise loc).2.2.1
  have e2 := create_raw_promise_writes (fun st => st.variable_id_) (fun _ _ _ _ _ => rfl) h s
    promise loc
  simp only at e2
  simp only [id_counters, e1, e2]

theorem id_counters_lookup_promise (P : denoted_value_id_t × var_id_t → Prop)
    (h1 : ∀ v : denoted_value_id_t × var_id_t, P v → P (v.1 + 1, v.2))
    (h : Host) (s : TracerState) (promise : SEXP) (create loc : Bool)
    (hs : P (id_counters s)) : P (id_counters (lookup_promise h s promise create loc).2) := by
  unfold lookup_promise
  cases s.promises_.lookup promise with
  | some p => exact hs
  | none =>
    cases create with
    | false => exact hs
    | true =>
      have e := id_counters_create_raw_promise h s promise loc
      rcases hcr : create_raw_promise_ h s promise loc with ⟨p, s1⟩
      rw [hcr] at e
      simp only at e
      have g : P (id_counters s1) := by
        rw [e]
        exact h1 _ hs
      exact g

theorem id_counters_create_promise (h : Host) (s : TracerState) (promise : SEXP) :
    id_counters (create_promise h s promise).2 = ((id_counters s).1 + 1, (id_counters s).2) := by
  have e := id_counters_create_raw_promise h s promise true
  rcases hcr : create_raw_promise_ h s promise true with ⟨p, s1⟩
  rw [hcr] at e
  simp only [create_promise, hcr]
  rw [← e]
  rfl

theorem id_counters_process_closure_argument (P : denoted_value_id_t × var_id_t → Prop)
    (h1 : ∀ v : denoted_value_id_t × var_id_t, P v → P (v.1 + 1, v.2))
    (h : Host) (s : TracerState) (call : Call) (fp ap : Int) (name argument : SEXP)
    (ddd : Bool) (hs : P (id_counters s)) :
    P (id_counters (process_closure_argument_ h s call fp ap name argument ddd).2) := by
  by_cases ht : h.type_of_sexp argument = PROMSXP
  · have e := id_counters_lookup_promise P h1 h s argument true false hs
    obtain ⟨p, s1, hl⟩ := lookup_promise_create_some h s argument false
    rw [hl] at e
    simp only [process_closure_argument_, ht, if_true, hl]
    exact e
  · simp only [process_closure_argument_, ht, if_false, get_next_denoted_value_id_]
    exact h1 _ hs

theorem id_counters_process_dot_dot_dot_loop (P : denoted_value_id_t × var_id_t → Prop)
    (h1 : ∀ v : denoted_value_id_t × var_id_t, P v → P (v.1 + 1, v.2))
    (h : Host) (fp : Int) (l : List (SEXP × SEXP)) :
    ∀ (ap : Int) (call : Call) (s : TracerState), P (id_counters s) →
      P (id_counters (process_dot_dot_dot_loop h fp l ap call s).2.2) := by
  induction l with
  | nil => intro ap call s hs; exact hs
  | cons x tl ih =>
    intro ap call s hs
    obtain ⟨name, arg⟩ := x
    simp only [process_dot_dot_dot_loop]
    exact ih _ _ _
      (id_counters_process_closure_argument P h1 h s call fp (ap + 1) name arg true hs)

theorem id_counters_process_formals_loop (P : denoted_value_id_t × var_id_t → Prop)
    (h1 : ∀ v : denoted_value_id_t × var_id_t, P v → P (v.1 + 1, v.2))
    (h : Host) (rho : SEXP) (l : List SEXP) :
    ∀ (fp ap : Int) (call : Call) (s : TracerState), P (id_counters s) →
      P (id_counters (process_formals_loop h rho l fp ap call s).2) := by
  induction l with
  | nil => intro fp ap call s hs; exact hs
  | cons name tl ih =>
    intro fp ap call s hs
    by_cases hd : h.type_of_sexp (h.dyntrace_lookup_environment rho name) = DOTSXP
    · simp only [process_formals_loop, hd, if_true]
      exact ih _ _ _ _ (id_counters_process_dot_dot_dot_loop P h1 h _ _ _ _ _ hs)
    · simp only [process_formals_loop, hd, if_false]
      exact ih _ _ _ _ (id_counters_process_closure_argument P h1 h s call _ _ name _ _ hs)

theorem id_counters_create_call (P : denoted_value_id_t × var_id_t → Prop)
    (h1 : ∀ v : denoted_value_id_t × var_id_t, P v → P (v.1 + 1, v.2))
    (h : Host) (s : TracerState) (call op args rho : SEXP) (hs : P (id_counters s)) :
    P (id_counters (create_call h s call op args rho).2) := by
  have e := lookup_function_writes id_counters (fun _ _ => rfl) h s op
  rcases hlf : lookup_function h s op with ⟨function, s1⟩
  rw [hlf] at e
  simp only at e
  have hs1 : P (id_counters { s1 with call_id_counter_ := s1.call_id_counter_ + 1 }) := by
    have e2 : id_counters { s1 with call_id_counter_ := s1.call_id_counter_ + 1 } =
        id_counters s1 := rfl
    rw [e2, e]
    exact hs
  by_cases hc : h.type_of_sexp op = CLOSXP
  · simp only [create_call, hlf, get_next_call_id_, hc, if_true, process_closure_arguments_]
    exact id_counters_process_formals_loop P h1 h _ _ _ _ _ _ hs1
  · simp only [create_call, hlf, get_next_call_id_, hc, if_false]
    exact hs1

theorem id_counters_lookup_variable (P : denoted_value_id_t × var_id_t → Prop)
    (h2 : ∀ v : denoted_value_id_t × var_id_t, P v → P (v.1, v.2 + 1))
    (h : Host) (s : TracerState) (rho : SEXP) (symbol : String) (ce cv : Bool)
    (hs : P (id_counters s)) : P (id_counters (lookup_variable h s rho symbol ce cv).2) := by
  have e := lookup_environment_writes id_counters (fun _ _ _ => rfl) s rho ce
  unfold lookup_variable
  simp only [create_next_variable_id_, set_environment]
  split
  · have g := h2 _ hs
    rw [← e] at g
    exact g
  · rw [e]
    exact hs

theorem id_counters_update_variable (P : denoted_value_id_t × var_id_t → Prop)
    (h2 : ∀ v : denoted_value_id_t × var_id_t, P v → P (v.1, v.2 + 1))
    (h : Host) (s : TracerState) (rho symbol : SEXP) (ce cv : Bool)
    (hs : P (id_counters s)) : P (id_counters (update_variable h s rho symbol ce cv).2) := by
  have e := id_counters_lookup_variable P h2 h s rho (h.symbol_to_string symbol) true true hs
  unfold update_variable lookup_variable_symbol
  rcases hl : lookup_variable h s rho (h.symbol_to_string symbol) true true with ⟨v, s1⟩
  rw [hl] at e
  cases v with
  | none => exact e
  | some var =>
    simp only
    cases s1.environment_mapping_.lookup rho with
    | none => exact e
    | some env => exact e

/-- No public operation lowers the thunk id counter or the variable id
counter. -/
theorem apply_op_id_counters (h : Host) (s : TracerState) (o : PublicOp)
    (c : denoted_value_id_t × var_id_t)
    (hs : c.1 ≤ (id_counters s).1 ∧ c.2 ≤ (id_counters s).2) :
    c.1 ≤ (id_counters (apply_op h s o)).1 ∧ c.2 ≤ (id_counters (apply_op h s o)).2 := by
  have h1 : ∀ v : denoted_value_id_t × var_id_t, (c.1 ≤ v.1 ∧ c.2 ≤ v.2) →
      (c.1 ≤ (v.1 + 1, v.2).1 ∧ c.2 ≤ (v.1 + 1, v.2).2) :=
    fun v hv => ⟨Nat.le_succ_of_le hv.1, hv.2⟩
  have h2 : ∀ v : denoted_value_id_t × var_id_t, (c.1 ≤ v.1 ∧ c.2 ≤ v.2) →
      (c.1 ≤ (v.1, v.2 + 1).1 ∧ c.2 ≤ (v.1, v.2 + 1).2) :=
    fun v hv => ⟨hv.1, Nat.le_succ_of_le hv.2⟩
  cases o with
  | initialize_ => exact hs
  | cleanup error =>
    simp only [apply_op]
    rw [cleanup_writes id_counters (fun _ _ _ _ _ _ _ _ _ _ _ _ _ _ _ => rfl) s error]
    exact hs
  | increment_object_count type => exact hs
  | stack_push ctxt => exact hs
  | stack_pop => exact hs
  | create_environment rho =>
    simp only [apply_op]
    rw [create_environment_writes id_counters (fun _ _ _ => rfl)]
    exact hs
  | remove_environment rho => exact hs
  | lookup_environment rho create =>
    simp only [apply_op]
    rw [lookup_environment_writes id_counters (fun _ _ _ => rfl)]
    exact hs
  | lookup_variable rho symbol ce cv =>
    exact id_counters_lookup_variable _ h2 h s rho symbol ce cv hs
  | lookup_variable_symbol rho symbol ce cv =>
    exact id_counters_lookup_variable _ h2 h s rho (h.symbol_to_string symbol) ce cv hs
  | define_variable rho symbol ce =>
    have e := lookup_environment_writes id_counters (fun _ _ _ => rfl) s rho true
    have g := h2 _ hs
    rw [← e] at g
    exact g
  | update_variable rho symbol ce cv =>
    exact id_counters_update_variable _ h2 h s rho symbol ce cv hs
  | remove_variable rho symbol ce =>
    simp only [apply_op]
    rw [remove_variable_writes id_counters (fun _ _ _ => rfl)]
    exact hs
  | resume_execution_timer now => exact hs
  | pause_execution_timer now => exact hs
  | create_promise promise =>
    simp only [apply_op]
    rw [id_counters_create_promise]
    exact h1 _ hs
  | lookup_promise promise create is_loc =>
    exact id_counters_lookup_promise _ h1 h s promise create is_loc hs
  | remove_promise promise promise_state =>
    simp only [apply_op, remove_promise]
    rw [destroy_promise_frame id_counters (fun _ _ _ _ _ _ => rfl)]
    exact hs
  | destroy_promise promise_state =>
    simp only [apply_op]
    rw [destroy_promise_frame id_counters (fun _ _ _ _ _ _ => rfl)]
    exact hs
  | exit_probe now => exact hs
  | enter_probe now => exact hs
  | create_call call op args rho => exact id_counters_create_call _ h1 h s call op args rho hs
  | destroy_call call =>
    simp only [apply_op]
    rw [destroy_call_writes id_counters (fun _ _ _ _ => rfl)]
    exact hs
  | lookup_function op =>
    simp only [apply_op]
    rw [lookup_function_writes id_counters (fun _ _ => rfl)]
    exact hs
  | remove_function op =>
    simp only [apply_op]
    rw [remove_function_writes id_counters (fun _ _ _ _ _ => rfl)]
    exact hs
  | identify_side_effect_creators var env => exact hs
  | identify_side_effect_observers var env => exact hs
  | update_wrapper_state call =>
    simp only [apply_op]
    rw [update_wrapper_state_writes id_counters (fun _ _ => rfl)]
    exact hs
  | summarize_promise_lifecycle_ lifecycle => exact hs
  | serialize_promise_lifecycle_summary_ => exact hs

/-- Over a run the thunk id counter and the variable id counter do not
decrease. -/
theorem run_ops_id_counters (h : Host) (ops : List PublicOp) :
    ∀ s : TracerState,
      s.denoted_value_id_counter_ ≤ (run_ops h s ops).denoted_value_id_counter_ ∧
        s.variable_id_ ≤ (run_ops h s ops).variable_id_ := by
  have key : ∀ (c : denoted_value_id_t × var_id_t) (s : TracerState),
      (c.1 ≤ (id_counters s).1 ∧ c.2 ≤ (id_counters s).2) →
        c.1 ≤ (id_counters (run_ops h s ops)).1 ∧ c.2 ≤ (id_counters (run_ops h s ops)).2 := by
    intro c
    induction ops with
    | nil => intro s hs; exact hs
    | cons o tl ih =>
      intro s hs
      simp only [run_ops, List.foldl_cons]
      exact ih _ (apply_op_id_counters h s o c hs)
  intro s
  exact key (id_counters s) s ⟨le_refl _, le_refl _⟩

/-! ## Thunk registry: claims -/

/-- C25: whether or not the handle is registered, `create_promise(promise)`
constructs a thunk under the id that the counter holds, which the counter then
passes, registers the handle to it, and leaves it with its id, the handle as
object, `active` set and the current timestamp as creation timestamp; a later
`lookup_promise` on the handle returns it and changes nothing; the entries of
all other handles, every other thunk object (that of a replaced entry
included), the promises, escaped_arguments and arguments tables and the
lifecycle summary are as before.  No run of public operations lowers the
counter, so the id is one that no thunk was given before and none is given
after. -/
theorem create_promise_registers_new_thunk (h : Host) (s : TracerState) (promise : SEXP) :
    (create_promise h s promise).1 = s.denoted_value_id_counter_ ∧
      (create_promise h s promise).2.denoted_value_id_counter_ =
        s.denoted_value_id_counter_ + 1 ∧
      (create_promise h s promise).2.promises_.lookup promise =
        some s.denoted_value_id_counter_ ∧
      ((create_promise h s promise).2.heap s.denoted_value_id_counter_).id =
        s.denoted_value_id_counter_ ∧
      ((create_promise h s promise).2.heap s.denoted_value_id_counter_).object = promise ∧
      ((create_promise h s promise).2.heap s.denoted_value_id_counter_).active = true ∧
      ((create_promise h s promise).2.heap s.denoted_value_id_counter_).creation_timestamp =
        s.timestamp_ ∧
      (∀ create loc,
        lookup_promise h (create_promise h s promise).2 promise create loc =
          (some s.denoted_value_id_counter_, (create_promise h s promise).2)) ∧
      (∀ k, k ≠ promise →
        (create_promise h s promise).2.promises_.lookup k = s.promises_.lookup k) ∧
      (∀ q, q ≠ s.denoted_value_id_counter_ →
        (create_promise h s promise).2.heap q = s.heap q) ∧
      promise_output (create_promise h s promise).2 = promise_output s ∧
      (create_promise h s promise).2.argument_data_table_ = s.argument_data_table_ ∧
      (∀ (s0 : TracerState) (ops : List PublicOp),
        s0.denoted_value_id_counter_ ≤ (run_ops h s0 ops).denoted_value_id_counter_) := by
  obtain ⟨e1, e2, e3, e4⟩ := create_promise_spec h s promise
  obtain ⟨f, hf⟩ := set_scope_loop_writes s.stack_
    (DenotedValue.create h s.denoted_value_id_counter_ promise true)
  have hreg : (create_promise h s promise).2.promises_.lookup promise =
      some s.denoted_value_id_counter_ := by
    rw [e3]
    exact lookup_insert_or_assign_self _ _ _
  refine ⟨e1, e2, hreg, ?_, ?_, ?_, ?_, ?_, ?_, ?_, ?_, ?_,
    fun s0 ops => (run_ops_id_counters h ops s0).1⟩
  · rw [e4, Function.update_same, hf]; rfl
  · rw [e4, Function.update_same, hf]; rfl
  · rw [e4, Function.update_same]; rfl
  · rw [e4, Function.update_same]; rfl
  · intro create loc
    simp only [lookup_promise, hreg]
  · intro k hk
    rw [e3]
    exact lookup_insert_or_assign_ne k promise _ hk _
  · intro q hq
    rw [e4, Function.update_noteq hq]
  · exact create_promise_writes promise_output (fun _ _ _ _ _ _ => rfl) h s promise
  · exact create_promise_writes (fun st => st.argument_data_table_) (fun _ _ _ _ _ _ => rfl) h
      s promise

/-- C26: on a registered handle `lookup_promise` returns the registered thunk
and leaves the state, the id counter included, as it is, for either value of
`create`; on an unregistered handle with `create = false` it returns the null
pointer and leaves the state as it is; on an unregistered handle with
`create = true` it returns a thunk under the id that the counter holds, which
the counter then passes, registers the handle to it, and the thunk has `active`
set, the given `local` flag, and the scope that the loop of `set_scope_`
computes from the stack.  No run of public operations lowers the counter, so
the id is one that no thunk was given before. -/
theorem lookup_promise_by_registration (h : Host) (s : TracerState) (promise : SEXP)
    (loc : Bool) :
    (∀ p, s.promises_.lookup promise = some p →
        ∀ create, lookup_promise h s promise create loc = (some p, s)) ∧
      (s.promises_.lookup promise = none →
        lookup_promise h s promise false loc = (none, s)) ∧
      (s.promises_.lookup promise = none →
        (lookup_promise h s promise true loc).1 = some s.denoted_value_id_counter_ ∧
          (lookup_promise h s promise true loc).2.denoted_value_id_counter_ =
            s.denoted_value_id_counter_ + 1 ∧
          (lookup_promise h s promise true loc).2.promises_ =
            s.promises_ ++ [(promise, s.denoted_value_id_counter_)] ∧
          (lookup_promise h s promise true loc).2.promises_.lookup promise =
            some s.denoted_value_id_counter_ ∧
          (lookup_promise h s promise true loc).2.heap s.denoted_value_id_counter_ =
            (set_scope_loop s.stack_
              (DenotedValue.create h s.denoted_value_id_counter_ promise loc)).set_active ∧
          ((lookup_promise h s promise true loc).2.heap s.denoted_value_id_counter_).id =
            s.denoted_value_id_counter_ ∧
          ((lookup_promise h s promise true loc).2.heap s.denoted_value_id_counter_).active =
            true ∧
          ((lookup_promise h s promise true loc).2.heap s.denoted_value_id_counter_).is_local =
            loc ∧
          ((lookup_promise h s promise true loc).2.heap s.denoted_value_id_counter_).scope =
            (set_scope_loop s.stack_
              (DenotedValue.create h s.denoted_value_id_counter_ promise loc)).scope) ∧
      (∀ (s0 : TracerState) (ops : List PublicOp),
        s0.denoted_value_id_counter_ ≤ (run_ops h s0 ops).denoted_value_id_counter_) := by
  refine ⟨?_, ?_, ?_, fun s0 ops => (run_ops_id_counters h ops s0).1⟩
  · intro p hp create
    simp only [lookup_promise, hp]
  · intro hno
    simp [lookup_promise, hno]
  · intro hno
    obtain ⟨e1, _, e3, e4, _, e6⟩ := create_raw_promise_spec h s promise loc
    obtain ⟨f, hf⟩ := set_scope_loop_writes s.stack_
      (DenotedValue.create h s.denoted_value_id_counter_ promise loc)
    rcases hcr : create_raw_promise_ h s promise loc with ⟨p, s1⟩
    rw [hcr] at e1 e3 e4 e6
    simp only at e1 e3 e4 e6
    subst e1
    have hpr : map_insert s1.promises_ promise s.denoted_value_id_counter_ =
        s.promises_ ++ [(promise, s.denoted_value_id_counter_)] := by
      simp [map_insert, e4, hno]
    simp only [lookup_promise, hno, if_true, hcr, e3, e6, hpr, Function.update_same, true_and]
    refine ⟨?_, ?_, ?_, ?_, ?_⟩
    · rw [lookup_append_of_none _ _ _ hno, lookup_singleton_self]
    · rw [hf]; rfl
    · rfl
    · rw [hf]; rfl
    · rfl

/-! ## Variables: claims -/

/-- C27: when the environment record that `lookup_variable` works on holds no
variable under the name and `create_variable` is set, the variable returned has
the id that the variable id counter holds, which the counter then passes, the
current timestamp as creation timestamp and the undefined modification
timestamp, and it is registered under the name in the record of the
environment; when the registered record of the environment holds a variable
under the name, `lookup_variable` returns that variable and leaves the state,
the variable id counter included, as it is.  No run of public operations lowers
the variable id counter, so the id of a new variable is one that no variable
was given before. -/
theorem lookup_variable_creates_or_returns (h : Host) (s : TracerState) (rho : SEXP)
    (symbol : String) (ce : Bool) :
    ((lookup_environment s rho ce).1.vars.lookup symbol = none →
        ∃ e, (lookup_variable h s rho symbol ce true).1 =
            some ⟨s.variable_id_, symbol, s.timestamp_, h.UNDEFINED_TIMESTAMP⟩ ∧
          (lookup_variable h s rho symbol ce true).2.variable_id_ = s.variable_id_ + 1 ∧
          (lookup_variable h s rho symbol ce true).2.environment_mapping_.lookup rho =
            some e ∧
          e.vars.lookup symbol =
            some ⟨s.variable_id_, symbol, s.timestamp_, h.UNDEFINED_TIMESTAMP⟩) ∧
      (∀ e v, s.environment_mapping_.lookup rho = some e → e.vars.lookup symbol = some v →
        ∀ cv, lookup_variable h s rho symbol ce cv = (some v, s)) ∧
      (∀ (s0 : TracerState) (ops : List PublicOp),
        s0.variable_id_ ≤ (run_ops h s0 ops).variable_id_) := by
  refine ⟨?_, ?_, fun s0 ops => (run_ops_id_counters h ops s0).2⟩
  · intro hno
    have hts := lookup_environment_timestamp s rho ce
    have hvi := lookup_environment_writes (fun st => st.variable_id_) (fun _ _ _ => rfl) s rho ce
    simp only at hvi
    rcases hr : lookup_environment s rho ce with ⟨e0, s0⟩
    rw [hr] at hno hts hvi
    simp only at hno hts hvi
    refine ⟨(environment_define h e0 symbol s0.variable_id_ s0.timestamp_).2, ?_, ?_, ?_, ?_⟩
    · simp [lookup_variable, hr, environment_exists, hno, create_next_variable_id_,
        get_current_timestamp_, environment_define, new_variable, hts, hvi]
    · simp [lookup_variable, hr, environment_exists, hno, create_next_variable_id_,
        set_environment, hvi]
    · simp only [lookup_variable, hr, environment_exists, hno, create_next_variable_id_,
        get_current_timestamp_, set_environment, Option.isSome_none, Bool.not_false,
        Bool.and_self, if_true]
      exact lookup_insert_or_assign_self _ _ _
    · simp only [environment_define, new_variable, hts, hvi]
      rw [lookup_append_of_none _ _ _ (lookup_filter_ne_self symbol _), lookup_singleton_self]
  · intro e v he hv cv
    simp [lookup_variable, lookup_environment, he, environment_exists, hv, environment_lookup]

/-- C28: `define_variable` returns a variable with the id that the variable id
counter holds, and the counter then passes it, whether or not a variable of the
name exists; after the call a variable of the name exists in the environment,
and a second `define_variable` for the same name returns a variable with the
next id, greater than the first, which takes the place of the first under the
name; no run of public operations between two calls lowers the counter, so the
later call always returns the greater id. -/
theorem define_variable_allocates_new_id (h : Host) (s : TracerState) (rho symbol : SEXP)
    (ce ce2 : Bool) :
    (define_variable h s rho symbol ce).1.id = s.variable_id_ ∧
      (define_variable h s rho symbol ce).2.variable_id_ = s.variable_id_ + 1 ∧
      (∃ e, (define_variable h s rho symbol ce).2.environment_mapping_.lookup rho = some e ∧
        e.vars.lookup (h.symbol_to_string symbol) =
          some (define_variable h s rho symbol ce).1) ∧
      (define_variable h (define_variable h s rho symbol ce).2 rho symbol ce2).1.id =
        s.variable_id_ + 1 ∧
      (define_variable h s rho symbol ce).1.id <
        (define_variable h (define_variable h s rho symbol ce).2 rho symbol ce2).1.id ∧
      (define_variable h (define_variable h s rho symbol ce).2 rho symbol ce2).2.variable_id_ =
        s.variable_id_ + 2 ∧
      (∃ e,
        (define_variable h (define_variable h s rho symbol ce).2 rho symbol
            ce2).2.environment_mapping_.lookup rho = some e ∧
          e.vars.lookup (h.symbol_to_string symbol) =
            some (define_variable h (define_variable h s rho symbol ce).2 rho symbol ce2).1) ∧
      (∀ ops : List PublicOp,
        (define_variable h s rho symbol ce).1.id <
          (define_variable h (run_ops h (define_variable h s rho symbol ce).2 ops) rho symbol
            ce2).1.id) := by
  have key : ∀ st : TracerState, ∀ c : Bool,
      (define_variable h st rho symbol c).1.id = st.variable_id_ ∧
        (define_variable h st rho symbol c).2.variable_id_ = st.variable_id_ + 1 ∧
        ∃ e, (define_variable h st rho symbol c).2.environment_mapping_.lookup rho = some e ∧
          e.vars.lookup (h.symbol_to_string symbol) =
            some (define_variable h st rho symbol c).1 := by
    intro st c
    have hvi := lookup_environment_writes (fun st => st.variable_id_) (fun _ _ _ => rfl) st rho
      true
    simp only at hvi
    refine ⟨?_, ?_, ?_⟩
    · simp [define_variable, create_next_variable_id_, environment_define, new_variable, hvi]
    · simp [define_variable, create_next_variable_id_, set_environment, hvi]
    · refine ⟨(environment_define h (lookup_environment st rho true).1
        (h.symbol_to_string symbol) (lookup_environment st rho true).2.variable_id_
        (lookup_environment st rho true).2.timestamp_).2, ?_, ?_⟩
      · simp only [define_variable, set_environment, create_next_variable_id_,
          get_current_timestamp_]
        exact lookup_insert_or_assign_self _ _ _
      · simp only [environment_define, define_variable, create_next_variable_id_,
          get_current_timestamp_]
        rw [lookup_append_of_none _ _ _ (lookup_filter_ne_self _ _), lookup_singleton_self]
  obtain ⟨a1, a2, a3⟩ := key s ce
  obtain ⟨b1, b2, b3⟩ := key (define_variable h s rho symbol ce).2 ce2
  refine ⟨a1, a2, a3, by rw [b1, a2], by rw [b1, a1, a2]; exact Nat.lt_succ_self _,
    by rw [b2, a2], b3, ?_⟩
  intro ops
  obtain ⟨c1, _, _⟩ := key (run_ops h (define_variable h s rho symbol ce).2 ops) ce2
  have hmono := (run_ops_id_counters h ops (define_variable h s rho symbol ce).2).2
  rw [c1, a1]
  rw [a2] at hmono
  exact Nat.lt_of_succ_le hmono

/-! ## Removal of unregistered handles: claim -/

/-- C30: `remove_environment` on an environment handle that is not registered
and `remove_function` on a function handle that is not registered return the
state they were given: no registry, counter, set or table changes. -/
theorem remove_unregistered_handle_is_noop (s : TracerState) (rho op : SEXP)
    (henv : s.environment_mapping_.lookup rho = none)
    (hfun : s.functions_.lookup op = none) :
    remove_environment s rho = s ∧ remove_function s op = s := by
  constructor
  · simp only [remove_environment, lookup_filter_of_none rho _ henv]
  · simp only [remove_function, hfun]

/-- C30, at a concrete input: environment `2` and function `21` are not
registered in a tracer in which environment `3` and function `20` are. -/
theorem remove_unregistered_handle_is_noop_witness :
    remove_environment (create_call sample_host (fresh sample_host 0) 1 20 0 3).2 2 =
        (create_call sample_host (fresh sample_host 0) 1 20 0 3).2 ∧
      remove_function (create_call sample_host (fresh sample_host 0) 1 20 0 3).2 21 =
        (create_call sample_host (fresh sample_host 0) 1 20 0 3).2 :=
  remove_unregistered_handle_is_noop (create_call sample_host (fresh sample_host 0) 1 20 0 3).2
    2 21 (by decide) (by decide)

/-! ## Environment ids: helper lemmas -/

theorem lookup_map_id (rho : SEXP) (m : List (SEXP × Environment)) :
    (m.map (fun e => (e.1, e.2.id))).lookup rho = (m.lookup rho).map (fun e => e.id) := by
  induction m with
  | nil => rfl
  | cons e tl ih =>
    obtain ⟨a, b⟩ := e
    simp only [List.map_cons, List.lookup_cons]
    cases rho == a with
    | true => rfl
    | false => exact ih

theorem env_register_ordered (v : List (SEXP × env_id_t) × env_id_t) (rho : SEXP)
    (c : env_id_t) (hv : env_ids_ordered v ∧ c ≤ v.2) :
    env_ids_ordered (env_register v rho) ∧ c ≤ (env_register v rho).2 := by
  obtain ⟨⟨h1, h2⟩, h3⟩ := hv
  unfold env_register
  cases hl : v.1.lookup rho with
  | some x => exact ⟨⟨h1, h2⟩, h3⟩
  | none =>
    refine ⟨⟨?_, ?_⟩, Nat.le_succ_of_le h3⟩
    · simp only
      rw [List.pairwise_append]
      refine ⟨h1, List.pairwise_singleton _ _, ?_⟩
      intro a ha b hb
      simp only [List.mem_singleton] at hb
      subst hb
      refine ⟨?_, h2 a ha⟩
      intro hk
      have hmem : a.1 ∈ v.1.map Prod.fst := List.mem_map_of_mem Prod.fst ha
      have hnone := List.lookup_eq_none_iff.1 hl
      exact absurd hk (by
        intro hk2
        have := hnone a ha
        simp [hk2] at this)
    · intro x hx
      simp only [List.mem_append, List.mem_singleton] at hx
      rcases hx with hx | hx
      · exact Nat.lt_succ_of_lt (h2 x hx)
      · subst hx
        exact Nat.lt_succ_self _

theorem env_ids_create_environment (s : TracerState) (rho : SEXP) :
    env_ids (create_environment s rho).2 = env_register (env_ids s) rho := by
  unfold create_environment create_next_environment_id_ env_register
  simp only [env_ids, lookup_map_id]
  cases hl : s.environment_mapping_.lookup rho with
  | some e => rfl
  | none => simp [map_insert, hl]

theorem env_ids_lookup_environment (s : TracerState) (rho : SEXP) (b : Bool) :
    env_ids (lookup_environment s rho b).2 = env_register (env_ids s) rho := by
  unfold lookup_environment
  cases hl : s.environment_mapping_.lookup rho with
  | none => exact env_ids_create_environment s rho
  | some e => simp [env_register, env_ids, lookup_map_id, hl]

/-- With pairwise distinct keys, the entry found under a key is the only entry
under it. -/
theorem lookup_of_mem_pairwise (rho : SEXP) (m : List (SEXP × Environment))
    (hm : (m.map (fun e => (e.1, e.2.id))).Pairwise (fun a b => a.1 ≠ b.1 ∧ a.2 < b.2))
    (x : SEXP × Environment) (hx : x ∈ m) (hk : x.1 = rho) : m.lookup rho = some x.2 := by
  induction m with
  | nil => simp at hx
  | cons e tl ih =>
    obtain ⟨a, b⟩ := e
    simp only [List.map_cons, List.pairwise_cons] at hm
    simp only [List.mem_cons] at hx
    rcases hx with hx | hx
    · subst hx
      simp only at hk
      subst hk
      simp [List.lookup_cons]
    · have hne : a ≠ rho := by
        intro ha
        have := (hm.1 (x.1, x.2.id) (List.mem_map_of_mem (fun e => (e.1, e.2.id)) hx)).1
        exact this (by simp [ha, hk])
      have hbeq : (rho == a) = false := by simpa using fun h : rho = a => hne h.symm
      simp only [List.lookup_cons, hbeq]
      exact ih hm.2 hx

/-- Writing back a record with the env id of the registered one leaves handles
and env ids as they are. -/
theorem env_ids_set_environment (s : TracerState) (rho : SEXP) (e e0 : Environment)
    (hord : env_ids_ordered (env_ids s)) (hreg : s.environment_mapping_.lookup rho = some e0)
    (hid : e.id = e0.id) : env_ids (set_environment s rho e) = env_ids s := by
  simp only [env_ids, set_environment, map_insert_or_assign, hreg, List.map_map, Prod.mk.injEq,
    and_true]
  apply List.map_congr_left
  intro x hx
  by_cases hk : x.1 = rho
  · have := lookup_of_mem_pairwise rho _ hord.1 x hx hk
    rw [hreg] at this
    simp only [Option.some.injEq] at this
    simp [hk, hid, this]
  · simp [hk]

theorem env_ids_lookup_variable (h : Host) (s : TracerState) (rho : SEXP) (symbol : String)
    (ce cv : Bool) (hord : env_ids_ordered (env_ids s)) :
    env_ids (lookup_variable h s rho symbol ce cv).2 = env_register (env_ids s) rho := by
  have hreg := lookup_environment_registered s rho ce
  have he := env_ids_lookup_environment s rho ce
  have hord2 : env_ids_ordered (env_ids (lookup_environment s rho ce).2) := by
    rw [he]
    exact (env_register_ordered _ rho 0 ⟨hord, Nat.zero_le _⟩).1
  unfold lookup_variable
  simp only [create_next_variable_id_]
  split
  · rw [← he]
    exact env_ids_set_environment
      { (lookup_environment s rho ce).2 with
        variable_id_ := (lookup_environment s rho ce).2.variable_id_ + 1 } rho _
      (lookup_environment s rho ce).1 hord2 hreg rfl
  · exact he

theorem env_ids_define_variable (h : Host) (s : TracerState) (rho symbol : SEXP) (ce : Bool)
    (hord : env_ids_ordered (env_ids s)) :
    env_ids (define_variable h s rho symbol ce).2 = env_register (env_ids s) rho := by
  have hreg := lookup_environment_registered s rho true
  have he := env_ids_lookup_environment s rho true
  have hord2 : env_ids_ordered (env_ids (lookup_environment s rho true).2) := by
    rw [he]
    exact (env_register_ordered _ rho 0 ⟨hord, Nat.zero_le _⟩).1
  simp only [define_variable, create_next_variable_id_]
  rw [← he]
  exact env_ids_set_environment
    { (lookup_environment s rho true).2 with
      variable_id_ := (lookup_environment s rho true).2.variable_id_ + 1 } rho _
    (lookup_environment s rho true).1 hord2 hreg rfl

theorem env_ids_remove_variable (h : Host) (s : TracerState) (rho symbol : SEXP) (ce : Bool)
    (hord : env_ids_ordered (env_ids s)) :
    env_ids (remove_variable h s rho symbol ce).2 = env_register (env_ids s) rho := by
  have hreg := lookup_environment_registered s rho ce
  have he := env_ids_lookup_environment s rho ce
  have hord2 : env_ids_ordered (env_ids (lookup_environment s rho ce).2) := by
    rw [he]
    exact (env_register_ordered _ rho 0 ⟨hord, Nat.zero_le _⟩).1
  simp only [remove_variable]
  rw [← he]
  exact env_ids_set_environment (lookup_environment s rho ce).2 rho _
    (lookup_environment s rho ce).1 hord2 hreg rfl

theorem env_ids_update_variable (h : Host) (s : TracerState) (rho symbol : SEXP) (ce cv : Bool)
    (hord : env_ids_ordered (env_ids s)) :
    env_ids (update_variable h s rho symbol ce cv).2 = env_register (env_ids s) rho := by
  have he := env_ids_lookup_variable h s rho (h.symbol_to_string symbol) true true hord
  have hord2 : env_ids_ordered
      (env_ids (lookup_variable h s rho (h.symbol_to_string symbol) true true).2) := by
    rw [he]
    exact (env_register_ordered _ rho 0 ⟨hord, Nat.zero_le _⟩).1
  unfold update_variable lookup_variable_symbol
  rcases hl : lookup_variable h s rho (h.symbol_to_string symbol) true true with ⟨v, s1⟩
  rw [hl] at he hord2
  simp only at he hord2
  cases v with
  | none => exact he
  | some var =>
    simp only
    cases hreg : s1.environment_mapping_.lookup rho with
    | none => exact he
    | some env =>
      simp only
      rw [← he]
      exact env_ids_set_environment s1 rho _ env hord2 hreg rfl

theorem env_ids_create_raw_promise (h : Host) (s : TracerState) (promise : SEXP) (loc : Bool) :
    env_ids (create_raw_promise_ h s promise loc).2 =
      env_register (env_ids s) (h.dyntrace_get_promise_environment promise) := by
  rw [← env_ids_lookup_environment s (h.dyntrace_get_promise_environment promise) true]
  rfl

theorem env_ids_lookup_promise
    (P : List (SEXP × env_id_t) × env_id_t → Prop)
    (hP : ∀ v rho, P v → P (env_register v rho))
    (h : Host) (s : TracerState) (promise : SEXP) (create loc : Bool) (hs : P (env_ids s)) :
    P (env_ids (lookup_promise h s promise create loc).2) := by
  unfold lookup_promise
  cases s.promises_.lookup promise with
  | some p => exact hs
  | none =>
    cases create with
    | false => exact hs
    | true =>
      have e := env_ids_create_raw_promise h s promise loc
      rcases hcr : create_raw_promise_ h s promise loc with ⟨p, s1⟩
      rw [hcr] at e
      simp only at e
      have h1 : P (env_ids s1) := by
        rw [e]
        exact hP _ _ hs
      exact h1

theorem env_ids_create_promise (h : Host) (s : TracerState) (promise : SEXP) :
    env_ids (create_promise h s promise).2 =
      env_register (env_ids s) (h.dyntrace_get_promise_environment promise) := by
  have e := env_ids_create_raw_promise h s promise true
  rcases hcr : create_raw_promise_ h s promise true with ⟨p, s1⟩
  rw [hcr] at e
  simp only [create_promise, hcr]
  rw [← e]
  rfl

theorem env_ids_process_closure_argument
    (P : List (SEXP × env_id_t) × env_id_t → Prop)
    (hP : ∀ v rho, P v → P (env_register v rho))
    (h : Host) (s : TracerState) (call : Call) (fp ap : Int) (name argument : SEXP)
    (ddd : Bool) (hs : P (env_ids s)) :
    P (env_ids (process_closure_argument_ h s call fp ap name argument ddd).2) := by
  by_cases ht : h.type_of_sexp argument = PROMSXP
  · have e := env_ids_lookup_promise P hP h s argument true false hs
    obtain ⟨p, s1, hl⟩ := lookup_promise_create_some h s argument false
    rw [hl] at e
    simp only [process_closure_argument_, ht, if_true, hl]
    exact e
  · simp only [process_closure_argument_, ht, if_false, get_next_denoted_value_id_]
    exact hs

theorem env_ids_process_dot_dot_dot_loop
    (P : List (SEXP × env_id_t) × env_id_t → Prop)
    (hP : ∀ v rho, P v → P (env_register v rho))
    (h : Host) (fp : Int) (l : List (SEXP × SEXP)) :
    ∀ (ap : Int) (call : Call) (s : TracerState), P (env_ids s) →
      P (env_ids (process_dot_dot_dot_loop h fp l ap call s).2.2) := by
  induction l with
  | nil => intro ap call s hs; exact hs
  | cons x tl ih =>
    intro ap call s hs
    obtain ⟨name, arg⟩ := x
    simp only [process_dot_dot_dot_loop]
    exact ih _ _ _ (env_ids_process_closure_argument P hP h s call fp (ap + 1) name arg true hs)

theorem env_ids_process_formals_loop
    (P : List (SEXP × env_id_t) × env_id_t → Prop)
    (hP : ∀ v rho, P v → P (env_register v rho))
    (h : Host) (rho : SEXP) (l : List SEXP) :
    ∀ (fp ap : Int) (call : Call) (s : TracerState), P (env_ids s) →
      P (env_ids (process_formals_loop h rho l fp ap call s).2) := by
  induction l with
  | nil => intro fp ap call s hs; exact hs
  | cons name tl ih =>
    intro fp ap call s hs
    by_cases hd : h.type_of_sexp (h.dyntrace_lookup_environment rho name) = DOTSXP
    · simp only [process_formals_loop, hd, if_true]
      exact ih _ _ _ _ (env_ids_process_dot_dot_dot_loop P hP h _ _ _ _ _ hs)
    · simp only [process_formals_loop, hd, if_false]
      exact ih _ _ _ _ (env_ids_process_closure_argument P hP h s call _ _ name _ _ hs)

theorem env_ids_create_call
    (P : List (SEXP × env_id_t) × env_id_t → Prop)
    (hP : ∀ v rho, P v → P (env_register v rho))
    (h : Host) (s : TracerState) (call op args rho : SEXP) (hs : P (env_ids s)) :
    P (env_ids (create_call h s call op args rho).2) := by
  have e := lookup_function_writes env_ids (fun _ _ => rfl) h s op
  rcases hlf : lookup_function h s op with ⟨function, s1⟩
  rw [hlf] at e
  simp only at e
  have hs1 : P (env_ids { s1 with call_id_counter_ := s1.call_id_counter_ + 1 }) := by
    have e2 : env_ids { s1 with call_id_counter_ := s1.call_id_counter_ + 1 } = env_ids s1 :=
      rfl
    rw [e2, e]
    exact hs
  by_cases hc : h.type_of_sexp op = CLOSXP
  · simp only [create_call, hlf, get_next_call_id_, hc, if_true, process_closure_arguments_]
    exact env_ids_process_formals_loop P hP h _ _ _ _ _ _ hs1
  · simp only [create_call, hlf, get_next_call_id_, hc, if_false]
    exact hs1

/-- Every public operation keeps the registered handles pairwise distinct with
strictly increasing env ids below the counter, and does not lower the
counter. -/
theorem apply_op_env_ids (h : Host) (s : TracerState) (o : PublicOp) (c : env_id_t)
    (hs : env_ids_ordered (env_ids s) ∧ c ≤ (env_ids s).2) :
    env_ids_ordered (env_ids (apply_op h s o)) ∧ c ≤ (env_ids (apply_op h s o)).2 := by
  have hP : ∀ (v : List (SEXP × env_id_t) × env_id_t) (rho : SEXP),
      (env_ids_ordered v ∧ c ≤ v.2) → (env_ids_ordered (env_register v rho) ∧
        c ≤ (env_register v rho).2) := fun v rho hv => env_register_ordered v rho c hv
  cases o with
  | initialize_ => exact hs
  | cleanup error =>
    simp only [apply_op]
    rw [cleanup_writes env_ids (fun _ _ _ _ _ _ _ _ _ _ _ _ _ _ _ => rfl) s error]
    exact hs
  | increment_object_count type => exact hs
  | stack_push ctxt => exact hs
  | stack_pop => exact hs
  | create_environment rho =>
    simp only [apply_op]
    rw [env_ids_create_environment]
    exact hP _ _ hs
  | remove_environment rho =>
    obtain ⟨⟨h1, h2⟩, h3⟩ := hs
    simp only [apply_op, remove_environment, env_ids, map_erase] at *
    refine ⟨⟨?_, ?_⟩, h3⟩
    · exact List.Pairwise.sublist (List.Sublist.map _ (List.filter_sublist _)) h1
    · intro x hx
      exact h2 x ((List.Sublist.map _ (List.filter_sublist _)).subset hx)
  | lookup_environment rho create =>
    simp only [apply_op]
    rw [env_ids_lookup_environment]
    exact hP _ _ hs
  | lookup_variable rho symbol ce cv =>
    simp only [apply_op]
    rw [env_ids_lookup_variable h s rho symbol ce cv hs.1]
    exact hP _ _ hs
  | lookup_variable_symbol rho symbol ce cv =>
    simp only [apply_op, lookup_variable_symbol]
    rw [env_ids_lookup_variable h s rho _ ce cv hs.1]
    exact hP _ _ hs
  | define_variable rho symbol ce =>
    simp only [apply_op]
    rw [env_ids_define_variable h s rho symbol ce hs.1]
    exact hP _ _ hs
  | update_variable rho symbol ce cv =>
    simp only [apply_op]
    rw [env_ids_update_variable h s rho symbol ce cv hs.1]
    exact hP _ _ hs
  | remove_variable rho symbol ce =>
    simp only [apply_op]
    rw [env_ids_remove_variable h s rho symbol ce hs.1]
    exact hP _ _ hs
  | resume_execution_timer now => exact hs
  | pause_execution_timer now => exact hs
  | create_promise promise =>
    simp only [apply_op]
    rw [env_ids_create_promise]
    exact hP _ _ hs
  | lookup_promise promise create is_loc =>
    exact env_ids_lookup_promise _ hP h s promise create is_loc hs
  | remove_promise promise promise_state =>
    simp only [apply_op, remove_promise]
    rw [destroy_promise_frame env_ids (fun _ _ _ _ _ _ => rfl)]
    exact hs
  | destroy_promise promise_state =>
    simp only [apply_op]
    rw [destroy_promise_frame env_ids (fun _ _ _ _ _ _ => rfl)]
    exact hs
  | exit_probe now => exact hs
  | enter_probe now => exact hs
  | create_call call op args rho => exact env_ids_create_call _ hP h s call op args rho hs
  | destroy_call call =>
    simp only [apply_op]
    rw [destroy_call_writes env_ids (fun _ _ _ _ => rfl)]
    exact hs
  | lookup_function op =>
    simp only [apply_op]
    rw [lookup_function_writes env_ids (fun _ _ => rfl)]
    exact hs
  | remove_function op =>
    simp only [apply_op]
    rw [remove_function_writes env_ids (fun _ _ _ _ _ => rfl)]
    exact hs
  | identify_side_effect_creators var env => exact hs
  | identify_side_effect_observers var env => exact hs
  | update_wrapper_state call =>
    simp only [apply_op]
    rw [update_wrapper_state_writes env_ids (fun _ _ => rfl)]
    exact hs
  | summarize_promise_lifecycle_ lifecycle => exact hs
  | serialize_promise_lifecycle_summary_ => exact hs

theorem run_ops_env_ids (h : Host) (ops : List PublicOp) (c : env_id_t) :
    ∀ s : TracerState, (env_ids_ordered (env_ids s) ∧ c ≤ (env_ids s).2) →
      env_ids_ordered (env_ids (run_ops h s ops)) ∧ c ≤ (env_ids (run_ops h s ops)).2 := by
  induction ops with
  | nil => intro s hs; exact hs
  | cons o tl ih =>
    intro s hs
    simp only [run_ops, List.foldl_cons]
    exact ih _ (apply_op_env_ids h s o c hs)

/-! ## Environment ids: claim -/

/-- C29: `lookup_environment` on a registered handle returns the registered
record and leaves the state as it is; on an unregistered handle it appends one
record, without variables, whose env id is the value of the counter, and the
counter advances by one; a second call on the same handle returns the record
of the first call and changes nothing.  In every run from a fresh tracer the
records of the registry, in the order of their registration, have pairwise
distinct handles and strictly increasing env ids, all below the counter, and
the counter never decreases, so the env id of a new record is one that no
record was given before. -/
theorem lookup_environment_assigns_increasing_ids (h : Host) (s : TracerState) (rho : SEXP)
    (create : Bool) :
    (∀ e, s.environment_mapping_.lookup rho = some e →
        lookup_environment s rho create = (e, s)) ∧
      (s.environment_mapping_.lookup rho = none →
        lookup_environment s rho create =
          (⟨rho, s.environment_id_, []⟩,
            { s with
              environment_id_ := s.environment_id_ + 1
              environment_mapping_ :=
                s.environment_mapping_ ++ [(rho, ⟨rho, s.environment_id_, []⟩)] })) ∧
      (∀ create2,
        lookup_environment (lookup_environment s rho create).2 rho create2 =
          lookup_environment s rho create) ∧
      (∀ (n : Nat) (ops : List PublicOp),
        ((run_ops h (fresh h n) ops).environment_mapping_.map
            (fun e => (e.1, e.2.id))).Pairwise (fun a b => a.1 ≠ b.1 ∧ a.2 < b.2) ∧
          ∀ e ∈ (run_ops h (fresh h n) ops).environment_mapping_,
            e.2.id < (run_ops h (fresh h n) ops).environment_id_) ∧
      (∀ (n : Nat) (ops ops2 : List PublicOp),
        (run_ops h (fresh h n) ops).environment_id_ ≤
          (run_ops h (fresh h n) (ops ++ ops2)).environment_id_) := by
  have hfresh : ∀ n : Nat, env_ids_ordered (env_ids (fresh h n)) := by
    intro n
    simp [env_ids_ordered, env_ids, fresh]
  refine ⟨?_, ?_, ?_, ?_, ?_⟩
  · intro e he
    simp [lookup_environment, he]
  · intro hno
    exact lookup_environment_unregistered s rho create hno
  · intro create2
    have hreg := lookup_environment_registered s rho create
    rcases hr : lookup_environment s rho create with ⟨e1, s1⟩
    rw [hr] at hreg
    simp only at hreg
    simp [lookup_environment, hreg]
  · intro n ops
    obtain ⟨⟨h1, h2⟩, _⟩ := run_ops_env_ids h ops 0 (fresh h n) ⟨hfresh n, Nat.zero_le _⟩
    refine ⟨h1, ?_⟩
    intro e he
    exact h2 (e.1, e.2.id) (List.mem_map_of_mem (fun e => (e.1, e.2.id)) he)
  · intro n ops ops2
    have hord := (run_ops_env_ids h ops 0 (fresh h n) ⟨hfresh n, Nat.zero_le _⟩).1
    have := (run_ops_env_ids h ops2 (run_ops h (fresh h n) ops).environment_id_
      (run_ops h (fresh h n) ops) ⟨hord, le_refl _⟩).2
    simpa [run_ops, List.foldl_append, env_ids] using this

/-! ## Function definitions: helper lemmas -/

/-- What the teardown of a function record writes to the function_definition
table and to the set of serialized functions. -/
theorem destroy_function_definition (st : TracerState) (f : Function) :
    (f.id ∈ st.serialized_functions_ →
        (destroy_function_ st f).function_definition_data_table_ =
            st.function_definition_data_table_ ∧
          (destroy_function_ st f).serialized_functions_ = st.serialized_functions_) ∧
      (f.id ∉ st.serialized_functions_ →
        (destroy_function_ st f).function_definition_data_table_ =
            st.function_definition_data_table_ ++ [⟨f.id⟩] ∧
          (destroy_function_ st f).serialized_functions_ =
            st.serialized_functions_ ++ [f.id]) := by
  constructor
  · intro hin
    have hin2 : f.id ∈ (serialize_function_call_summary_ st f).serialized_functions_ := hin
    simp only [destroy_function_, serialize_function_, serialize_function_definition_, hin2,
      if_true]
    exact ⟨rfl, rfl⟩
  · intro hout
    have hout2 : f.id ∉ (serialize_function_call_summary_ st f).serialized_functions_ := hout
    simp only [destroy_function_, serialize_function_, serialize_function_definition_, hout2,
      if_false]
    exact ⟨rfl, rfl⟩

/-- The function ids of the rows of the function_definition table are the
serialized functions, without repetition. -/
theorem destroy_function_definition_ids (st : TracerState) (f : Function)
    (hs : st.function_definition_data_table_.map (fun r => r.function_id) =
        st.serialized_functions_ ∧ st.serialized_functions_.Nodup) :
    (destroy_function_ st f).function_definition_data_table_.map (fun r => r.function_id) =
        (destroy_function_ st f).serialized_functions_ ∧
      (destroy_function_ st f).serialized_functions_.Nodup := by
  obtain ⟨h1, h2⟩ := destroy_function_definition st f
  by_cases hin : f.id ∈ st.serialized_functions_
  · rw [(h1 hin).1, (h1 hin).2]
    exact hs
  · rw [(h2 hin).1, (h2 hin).2, List.map_append, hs.1]
    refine ⟨rfl, ?_⟩
    exact List.Nodup.append hs.2 (List.nodup_singleton _) (by simpa using hin)

theorem destroy_function_foldl_definition_ids (l : List (SEXP × Function)) :
    ∀ st : TracerState,
      (st.function_definition_data_table_.map (fun r => r.function_id) =
          st.serialized_functions_ ∧ st.serialized_functions_.Nodup) →
        ((l.foldl (fun st e => destroy_function_ st e.2)
            st).function_definition_data_table_.map (fun r => r.function_id) =
            (l.foldl (fun st e => destroy_function_ st e.2) st).serialized_functions_ ∧
          (l.foldl (fun st e => destroy_function_ st e.2) st).serialized_functions_.Nodup) := by
  induction l with
  | nil => intro st hst; exact hst
  | cons a tl ih => intro st hst; exact ih _ (destroy_function_definition_ids st a.2 hst)

/-- The function_definition table and the set of serialized functions after
`cleanup` are those after its second loop, which runs on a state that has them
as they are when `cleanup` is called. -/
theorem cleanup_function_definition_view (s s1 s2 s3 : TracerState) (error : Int)
    (h1 : s1 = s.promises_.foldl (fun st e => destroy_promise st e.2) s)
    (h2 : s2 = { s1 with promises_ := [] })
    (h3 : s3 = s2.functions_.foldl (fun st e => destroy_function_ st e.2) s2) :
    ((cleanup s error).function_definition_data_table_ = s3.function_definition_data_table_ ∧
        (cleanup s error).serialized_functions_ = s3.serialized_functions_) ∧
      (s2.function_definition_data_table_ = s.function_definition_data_table_ ∧
        s2.serialized_functions_ = s.serialized_functions_) := by
  have e := (cleanup_tables_counts s s1 s2 s3 h1 h2 h3).1
  have e1 : (s1.function_definition_data_table_, s1.serialized_functions_) =
      (s.function_definition_data_table_, s.serialized_functions_) := by
    rw [h1]
    exact foldl_field (fun st => (st.function_definition_data_table_, st.serialized_functions_))
      (fun st (e : SEXP × denoted_value_id_t) => destroy_promise st e.2)
      (fun st e =>
        destroy_promise_frame
          (fun st => (st.function_definition_data_table_, st.serialized_functions_))
          (fun _ _ _ _ _ _ => rfl) st e.2) s.promises_ s
  have e2 : (s2.function_definition_data_table_, s2.serialized_functions_) =
      (s1.function_definition_data_table_, s1.serialized_functions_) := by
    rw [h2]
  have e3 := e2.trans e1
  have ht : (cleanup_tables s).function_definition_data_table_ =
        s3.function_definition_data_table_ ∧
      (cleanup_tables s).serialized_functions_ = s3.serialized_functions_ := by
    rw [e]
    exact ⟨rfl, rfl⟩
  refine ⟨?_, congrArg Prod.fst e3, congrArg Prod.snd e3⟩
  simp only [cleanup, cleanup_sentinel, cleanup_stack_check, write_file, dyntrace_log_error]
  split <;> split <;> exact ht

theorem cleanup_function_definition_ids (s : TracerState) (error : Int)
    (hs : s.function_definition_data_table_.map (fun r => r.function_id) =
        s.serialized_functions_ ∧ s.serialized_functions_.Nodup) :
    (cleanup s error).function_definition_data_table_.map (fun r => r.function_id) =
        (cleanup s error).serialized_functions_ ∧
      (cleanup s error).serialized_functions_.Nodup := by
  obtain ⟨⟨a1, a2⟩, b1, b2⟩ := cleanup_function_definition_view s _ _ _ error rfl rfl rfl
  rw [a1, a2]
  apply destroy_function_foldl_definition_ids
  rw [b1, b2]
  exact hs

theorem apply_op_function_definition_ids (h : Host) (s : TracerState) (o : PublicOp)
    (hs : s.function_definition_data_table_.map (fun r => r.function_id) =
        s.serialized_functions_ ∧ s.serialized_functions_.Nodup) :
    (apply_op h s o).function_definition_data_table_.map (fun r => r.function_id) =
        (apply_op h s o).serialized_functions_ ∧
      (apply_op h s o).serialized_functions_.Nodup := by
  by_cases hw : o.writes_summary_data = false
  · have e := apply_op_frame
      (fun st => (st.function_definition_data_table_, st.serialized_functions_))
      (fun _ _ _ _ _ _ _ _ _ _ _ _ _ _ _ _ => rfl) h s o hw
    simp only [Prod.mk.injEq] at e
    rw [e.1, e.2]
    exact hs
  · cases o with
    | cleanup error => exact cleanup_function_definition_ids s error hs
    | increment_object_count type => exact hs
    | remove_promise promise promise_state =>
      have e := destroy_promise_frame
        (fun st => (st.function_definition_data_table_, st.serialized_functions_))
        (fun _ _ _ _ _ _ => rfl) { s with promises_ := map_erase s.promises_ promise }
        promise_state
      simp only [Prod.mk.injEq] at e
      simp only [apply_op, remove_promise]
      rw [e.1, e.2]
      exact hs
    | destroy_promise promise_state =>
      have e := destroy_promise_frame
        (fun st => (st.function_definition_data_table_, st.serialized_functions_))
        (fun _ _ _ _ _ _ => rfl) s promise_state
      simp only [Prod.mk.injEq] at e
      simp only [apply_op]
      rw [e.1, e.2]
      exact hs
    | remove_function op =>
      simp only [apply_op, remove_function]
      cases s.functions_.lookup op with
      | none => exact hs
      | some f => exact destroy_function_definition_ids s f hs
    | summarize_promise_lifecycle_ lifecycle => exact hs
    | _ => simp [PublicOp.writes_summary_data] at hw

theorem run_ops_function_definition_ids (h : Host) (ops : List PublicOp) :
    ∀ s : TracerState,
      (s.function_definition_data_table_.map (fun r => r.function_id) =
          s.serialized_functions_ ∧ s.serialized_functions_.Nodup) →
        (run_ops h s ops).function_definition_data_table_.map (fun r => r.function_id) =
            (run_ops h s ops).serialized_functions_ ∧
          (run_ops h s ops).serialized_functions_.Nodup := by
  induction ops with
  | nil => intro s hs; exact hs
  | cons o tl ih =>
    intro s hs
    simp only [run_ops, List.foldl_cons]
    exact ih _ (apply_op_function_definition_ids h s o hs)

/-! ## Function definitions: claim -/

/-- C31: the teardown of a function record whose id is in the set of serialized
functions writes the call_summary rows of the record, one per summary, and no
function_definition row; that of a record whose id is not in the set writes one
function_definition row and puts the id into the set.  In every run from a
fresh tracer, with any number of `remove_function` and `cleanup` calls, the
function ids of the rows of the function_definition table are the serialized
functions and are pairwise distinct: at most one row per function id.  So it is
in the run in which two handles of one function id are interned, one is
removed and interned again, and `cleanup` runs. -/
theorem function_definition_row_once_per_id (h : Host) (st : TracerState) (f : Function) :
    (f.id ∈ st.serialized_functions_ →
        (destroy_function_ st f).function_definition_data_table_ =
            st.function_definition_data_table_ ∧
          (destroy_function_ st f).serialized_functions_ = st.serialized_functions_) ∧
      (f.id ∉ st.serialized_functions_ →
        (destroy_function_ st f).function_definition_data_table_ =
            st.function_definition_data_table_ ++ [⟨f.id⟩] ∧
          (destroy_function_ st f).serialized_functions_ =
            st.serialized_functions_ ++ [f.id]) ∧
      ((destroy_function_ st f).call_summary_data_table_ =
          (serialize_function_call_summary_ st f).call_summary_data_table_ ∧
        (destroy_function_ st f).call_summary_data_table_.length =
          st.call_summary_data_table_.length + f.summaries.length) ∧
      (∀ (n : Nat) (ops : List PublicOp),
        ((run_ops h (fresh h n) ops).function_definition_data_table_.map
            (fun r => r.function_id)).Nodup ∧
          (run_ops h (fresh h n) ops).function_definition_data_table_.map
              (fun r => r.function_id) =
            (run_ops h (fresh h n) ops).serialized_functions_) ∧
      (run_ops shared_id_host (fresh shared_id_host 0)
          sample_function_run).function_definition_data_table_ = [⟨7⟩] := by
  obtain ⟨h1, h2⟩ := destroy_function_definition st f
  refine ⟨h1, h2, ?_, ?_, by decide⟩
  · obtain ⟨rows, r1, r2, r3, _, _, _⟩ := serialize_function_rows st f
    refine ⟨by rw [r1, r2], ?_⟩
    rw [r2, List.length_append]
    have := congrArg List.length r3
    simp only [List.length_map] at this
    rw [this]
  · intro n ops
    obtain ⟨e1, e2⟩ := run_ops_function_definition_ids h ops (fresh h n)
      (by simp [fresh])
    exact ⟨by rw [e1]; exact e2, e1⟩

/-! ## Argument count: helper lemmas -/

/-- Argument processing leaves every field of the call but its arguments as it
is. -/
theorem process_closure_argument_call_fields {β : Type} (cproj : Call → β)
    (hc : ∀ (c : Call) (l : List Argument), cproj { c with arguments := l } = cproj c)
    (h : Host) (s : TracerState) (call : Call) (fp ap : Int) (name argument : SEXP)
    (ddd : Bool) :
    cproj (process_closure_argument_ h s call fp ap name argument ddd).1 = cproj call := by
  by_cases ht : h.type_of_sexp argument = PROMSXP
  · obtain ⟨p, s1, hl⟩ := lookup_promise_create_some h s argument false
    simp only [process_closure_argument_, ht, if_true, hl, call_add_argument]
    exact hc call _
  · simp only [process_closure_argument_, ht, if_false, get_next_denoted_value_id_,
      call_add_argument]
    exact hc call _

theorem process_dot_dot_dot_loop_call_fields {β : Type} (cproj : Call → β)
    (hc : ∀ (c : Call) (l : List Argument), cproj { c with arguments := l } = cproj c)
    (h : Host) (fp : Int) (l : List (SEXP × SEXP)) :
    ∀ (ap : Int) (call : Call) (s : TracerState),
      cproj (process_dot_dot_dot_loop h fp l ap call s).2.1 = cproj call := by
  induction l with
  | nil => intro ap call s; rfl
  | cons x tl ih =>
    intro ap call s
    obtain ⟨name, arg⟩ := x
    simp only [process_dot_dot_dot_loop]
    rw [ih, process_closure_argument_call_fields cproj hc]

theorem process_formals_loop_call_fields {β : Type} (cproj : Call → β)
    (hc : ∀ (c : Call) (l : List Argument), cproj { c with arguments := l } = cproj c)
    (h : Host) (rho : SEXP) (l : List SEXP) :
    ∀ (fp ap : Int) (call : Call) (s : TracerState),
      cproj (process_formals_loop h rho l fp ap call s).1 = cproj call := by
  induction l with
  | nil => intro fp ap call s; rfl
  | cons name tl ih =>
    intro fp ap call s
    by_cases hd : h.type_of_sexp (h.dyntrace_lookup_environment rho name) = DOTSXP
    · simp only [process_formals_loop, hd, if_true]
      rw [ih, process_dot_dot_dot_loop_call_fields cproj hc]
    · simp only [process_formals_loop, hd, if_false]
      rw [ih, process_closure_argument_call_fields cproj hc]

/-- Number of arguments, formal parameter count and missing arguments of the
call that `create_call` returns for a closure. -/
theorem create_call_closure_spec (h : Host) (s : TracerState) (call op args rho : SEXP)
    (hc : h.type_of_sexp op = CLOSXP) :
    (create_call h s call op args rho).1.arguments.length =
        ((h.FORMALS op).map (formal_argument_count h rho)).sum ∧
      (create_call h s call op args rho).1.formal_parameter_count =
        (lookup_function h s op).1.formal_parameter_count ∧
      (create_call h s call op args rho).1.missing_arguments = [] ∧
      (create_call h s call op args rho).1.environment = rho := by
  have hlen : ∀ (l : List SEXP) (i : Int),
      (expected_formal_positions h rho l i).length = (l.map (formal_argument_count h rho)).sum := by
    intro l
    induction l with
    | nil => intro i; rfl
    | cons name tl ih => intro i; simp [expected_formal_positions, ih]
  rcases hlf : lookup_function h s op with ⟨function, s1⟩
  simp only [create_call, hlf, get_next_call_id_, hc, if_true, process_closure_arguments_]
  refine ⟨?_, ?_, ?_, ?_⟩
  · obtain ⟨added, r1, r2, _⟩ := process_formals_loop_arguments h rho (h.FORMALS op) (-1) (-1)
      (new_call h (s1.call_id_counter_ + 1) function.id CLOSXP (h.get_name call)
        function.formal_parameter_count rho op)
      { s1 with call_id_counter_ := s1.call_id_counter_ + 1 }
    rw [← hlen (h.FORMALS op) (-1 + 1), ← r2, List.length_map]
    exact congrArg List.length r1
  · exact process_formals_loop_call_fields (fun c => c.formal_parameter_count)
      (fun _ _ => rfl) h _ _ _ _ _ _
  · exact process_formals_loop_call_fields (fun c => c.missing_arguments)
      (fun _ _ => rfl) h _ _ _ _ _ _
  · exact process_formals_loop_call_fields (fun c => c.environment)
      (fun _ _ => rfl) h _ _ _ _ _ _

/-- Each formal gives at least one argument when every `...` aggregate has an
element. -/
theorem sum_formal_argument_count_ge (h : Host) (rho : SEXP)
    (hdots : ∀ a, h.type_of_sexp a = DOTSXP → h.DOTS a ≠ []) (l : List SEXP) :
    l.length ≤ (l.map (formal_argument_count h rho)).sum := by
  induction l with
  | nil => simp
  | cons name tl ih =>
    have h1 : 1 ≤ formal_argument_count h rho name := by
      unfold formal_argument_count
      split
      · rename_i hd
        exact List.length_pos.2 (hdots _ hd)
      · exact le_refl _
    simp only [List.length_cons, List.map_cons, List.sum_cons]
    omega

/-- Without a `...` aggregate among the bindings each formal gives exactly one
argument. -/
theorem sum_formal_argument_count_eq (h : Host) (rho : SEXP) (l : List SEXP)
    (hno : ∀ name ∈ l, h.type_of_sexp (h.dyntrace_lookup_environment rho name) ≠ DOTSXP) :
    (l.map (formal_argument_count h rho)).sum = l.length := by
  induction l with
  | nil => simp
  | cons name tl ih =>
    have h1 : formal_argument_count h rho name = 1 := by
      simp [formal_argument_count, hno name (List.mem_cons_self _ _)]
    simp only [List.length_cons, List.map_cons, List.sum_cons, h1,
      ih (fun n hn => hno n (List.mem_cons_of_mem _ hn))]
    omega

theorem lookup_append_singleton_cases {β : Type} (k k2 : SEXP) (v w : β)
    (m : List (SEXP × β)) (hl : (m ++ [(k2, v)]).lookup k = some w) :
    m.lookup k = some w ∨ (k = k2 ∧ w = v) := by
  by_cases hk : k = k2
  · subst hk
    cases hm : m.lookup k with
    | some x =>
      rw [lookup_append_of_some k x m _ hm] at hl
      exact Or.inl hl
    | none =>
      rw [lookup_append_of_none k m _ hm, lookup_singleton_self] at hl
      exact Or.inr ⟨rfl, (Option.some.inj hl).symm⟩
  · rw [lookup_append_singleton_ne k k2 v hk m] at hl
    exact Or.inl hl

/-- Every public operation keeps the formal parameter count of each interned
function record equal to the number of formals of its handle. -/
theorem apply_op_function_formals (h : Host) (s : TracerState) (o : PublicOp)
    (hs : ∀ op f, s.functions_.lookup op = some f →
      f.formal_parameter_count = ((h.FORMALS op).length : Int)) :
    ∀ op f, (apply_op h s o).functions_.lookup op = some f →
      f.formal_parameter_count = ((h.FORMALS op).length : Int) := by
  have hlf : ∀ op2 op f, (lookup_function h s op2).2.functions_.lookup op = some f →
      f.formal_parameter_count = ((h.FORMALS op).length : Int) := by
    intro op2 op f hl
    unfold lookup_function at hl
    cases hm : s.functions_.lookup op2 with
    | some g =>
      rw [hm] at hl
      exact hs op f hl
    | none =>
      rw [hm] at hl
      simp only [map_insert, hm] at hl
      rcases lookup_append_singleton_cases op op2 _ f _ hl with h1 | ⟨h1, h2⟩
      · exact hs op f h1
      · subst h1 h2
        rfl
  by_cases hw : o.writes_summary_data = false
  · have e := apply_op_frame_functions (fun st => st.functions_)
      (fun _ _ _ _ _ _ _ _ _ _ _ _ _ _ _ => rfl) h s o hw
    simp only at e
    rw [e]
    cases o with
    | create_call call op2 args rho => exact hlf op2
    | lookup_function op2 => exact hlf op2
    | destroy_call call =>
      intro op f hl
      simp only [apply_op_functions, function_add_summary] at hl
      rw [lookup_map_value op call.function (fun g : Function => g.add_summary call)] at hl
      cases hm : s.functions_.lookup op with
      | none => simp [hm] at hl
      | some g =>
        simp only [hm, Option.map_some', Option.some.injEq] at hl
        rw [← hl]
        split <;> exact hs op g hm
    | update_wrapper_state call =>
      intro op f hl
      simp only [apply_op_functions, update_wrapper_state] at hl
      split at hl
      · rename_i caller rest _
        split at hl
        · rename_i called _
          simp only at hl
          rw [lookup_map_value op caller.function
            (fun g : Function => g.update_wrapper (called.internal || called.primitive))] at hl
          cases hm : s.functions_.lookup op with
          | none => simp [hm] at hl
          | some g =>
            simp only [hm, Option.map_some', Option.some.injEq] at hl
            rw [← hl]
            split <;> exact hs op g hm
        · exact hs op f hl
      · exact hs op f hl
    | _ => exact hs
  · cases o with
    | cleanup error =>
      intro op f hl
      have e := cleanup_writes (fun st => st.stack_)
        (fun _ _ _ _ _ _ _ _ _ _ _ _ _ _ _ => rfl) s error
      have hfn : (cleanup s error).functions_ = [] := by
        have := (cleanup_tables_side s).2.2.2.2.2.1
        simp only [cleanup, cleanup_sentinel, cleanup_stack_check, write_file,
          dyntrace_log_error]
        split <;> split <;> exact this
      simp only [apply_op, hfn] at hl
      simp at hl
    | increment_object_count type => exact hs
    | remove_promise promise promise_state =>
      have e := destroy_promise_frame (fun st => st.functions_) (fun _ _ _ _ _ _ => rfl)
        { s with promises_ := map_erase s.promises_ promise } promise_state
      simp only at e
      simp only [apply_op, remove_promise]
      rw [e]
      exact hs
    | destroy_promise promise_state =>
      have e := destroy_promise_frame (fun st => st.functions_) (fun _ _ _ _ _ _ => rfl) s
        promise_state
      simp only at e
      simp only [apply_op]
      rw [e]
      exact hs
    | remove_function op2 =>
      intro op f hl
      simp only [apply_op, remove_function] at hl
      cases hm : s.functions_.lookup op2 with
      | none =>
        rw [hm] at hl
        exact hs op f hl
      | some g =>
        rw [hm] at hl
        have e := destroy_function_frame (fun st => st.functions_) (fun _ _ _ _ => rfl) s g
        simp only at e hl
        rw [e] at hl
        by_cases hk : op = op2
        · subst hk
          have := lookup_filter_ne_self op s.functions_
          simp only [map_erase] at hl
          rw [this] at hl
          cases hl
        · rw [lookup_map_erase_ne op op2 hk] at hl
          exact hs op f hl
    | summarize_promise_lifecycle_ lifecycle => exact hs
    | _ => simp [PublicOp.writes_summary_data] at hw

theorem run_ops_function_formals (h : Host) (ops : List PublicOp) :
    ∀ s : TracerState,
      (∀ op f, s.functions_.lookup op = some f →
        f.formal_parameter_count = ((h.FORMALS op).length : Int)) →
      ∀ op f, (run_ops h s ops).functions_.lookup op = some f →
        f.formal_parameter_count = ((h.FORMALS op).length : Int) := by
  induction ops with
  | nil => intro s hs; exact hs
  | cons o tl ih =>
    intro s hs
    simp only [run_ops, List.foldl_cons]
    exact ih _ (apply_op_function_formals h s o hs)

/-! ## Argument count: claim -/

/-- The record that `lookup_function` returns has the number of formals of its
handle as formal parameter count when the interned records have. -/
theorem lookup_function_formals (h : Host) (s : TracerState) (op : SEXP)
    (hs : ∀ g, s.functions_.lookup op = some g →
      g.formal_parameter_count = ((h.FORMALS op).length : Int)) :
    (lookup_function h s op).1.formal_parameter_count = ((h.FORMALS op).length : Int) := by
  unfold lookup_function
  cases hm : s.functions_.lookup op with
  | some g => exact hs g hm
  | none => rfl

/-- C32: for a closure call `c` created by `create_call`, in a state whose
interned function records carry the number of formals of their handle (every
state of a run does, last conjunct) and with a host whose `...` aggregates have
at least one element (the source walks such an aggregate from its first node),
the number of arguments of `c` is the sum over the formals of one, or of the
number of elements for a formal bound to a `...` aggregate; the formal parameter
count of `c` is that of its function record, the number of formals; `c` has no
missing arguments at creation, and the number of arguments is at least the
formal parameter count minus the number of missing arguments, for the list that
`c` has and for any list stored later; with no formal bound to a `...`
aggregate the number of arguments equals the formal parameter count. -/
theorem closure_call_argument_count (h : Host) (s : TracerState) (call op args rho : SEXP)
    (hc : h.type_of_sexp op = CLOSXP)
    (hdots : ∀ a, h.type_of_sexp a = DOTSXP → h.DOTS a ≠ [])
    (hs : ∀ op2 g, s.functions_.lookup op2 = some g →
      g.formal_parameter_count = ((h.FORMALS op2).length : Int)) :
    (create_call h s call op args rho).1.arguments.length =
        ((h.FORMALS op).map (fun name =>
          if h.type_of_sexp (h.dyntrace_lookup_environment rho name) = DOTSXP then
            (h.DOTS (h.dyntrace_lookup_environment rho name)).length
          else 1)).sum ∧
      (create_call h s call op args rho).1.formal_parameter_count =
        (lookup_function h s op).1.formal_parameter_count ∧
      (∀ g, (create_call h s call op args rho).2.functions_.lookup op = some g →
        g.formal_parameter_count = ((h.FORMALS op).length : Int)) ∧
      (create_call h s call op args rho).1.formal_parameter_count =
        ((h.FORMALS op).length : Int) ∧
      (create_call h s call op args rho).1.missing_arguments = [] ∧
      (create_call h s call op args rho).1.formal_parameter_count -
          ((create_call h s call op args rho).1.missing_arguments.length : Int) ≤
        ((create_call h s call op args rho).1.arguments.length : Int) ∧
      (∀ missing : List Int,
        (create_call h s call op args rho).1.formal_parameter_count - (missing.length : Int) ≤
          ((create_call h s call op args rho).1.arguments.length : Int)) ∧
      ((∀ name ∈ h.FORMALS op,
          h.type_of_sexp (h.dyntrace_lookup_environment rho name) ≠ DOTSXP) →
        ((create_call h s call op args rho).1.arguments.length : Int) =
          (create_call h s call op args rho).1.formal_parameter_count) ∧
      (∀ (n : Nat) (ops : List PublicOp) (op2 : SEXP) (g : Function),
        (run_ops h (fresh h n) ops).functions_.lookup op2 = some g →
          g.formal_parameter_count = ((h.FORMALS op2).length : Int)) := by
  obtain ⟨e1, e2, e3, _⟩ := create_call_closure_spec h s call op args rho hc
  have e4 := lookup_function_formals h s op (hs op)
  have e5 := sum_formal_argument_count_ge h rho hdots (h.FORMALS op)
  have e6 : (create_call h s call op args rho).1.formal_parameter_count =
      ((h.FORMALS op).length : Int) := e2.trans e4
  have e7 : ((h.FORMALS op).length : Int) ≤
      ((create_call h s call op args rho).1.arguments.length : Int) := by
    rw [e1]
    exact_mod_cast e5
  refine ⟨e1, e2, ?_, e6, e3, ?_, ?_, ?_, ?_⟩
  · intro g hg
    exact apply_op_function_formals h s (.create_call call op args rho) hs op g hg
  · rw [e6, e3]
    simpa using e7
  · intro missing
    rw [e6]
    have : (0 : Int) ≤ (missing.length : Int) := Int.natCast_nonneg _
    omega
  · intro hno
    rw [e6, e1]
    exact_mod_cast sum_formal_argument_count_eq h rho (h.FORMALS op) hno
  · intro n ops
    exact run_ops_function_formals h ops (fresh h n) (fun _ _ hl => by cases hl)

/-- C32, at a concrete input: the closure `20` has the formals `30`, bound to a
thunk, and `...`, bound to an aggregate of two elements; its call has three
arguments, one more than its two formals. -/
theorem closure_call_argument_count_witness :
    (create_call mixed_formals_host (fresh mixed_formals_host 0) 1 20 0 40).1.arguments.length =
        3 ∧
      (create_call mixed_formals_host (fresh mixed_formals_host 0) 1 20 0
        40).1.formal_parameter_count = 2 ∧
      (create_call mixed_formals_host (fresh mixed_formals_host 0) 1 20 0
        40).1.arguments.map (fun a => a.formal_parameter_position) = [0, 1, 1] :=
  ⟨(closure_call_argument_count mixed_formals_host (fresh mixed_formals_host 0) 1 20 0 40
      (by decide) (fun _ _ => List.cons_ne_nil _ _) (fun _ _ hl => by cases hl)).1.trans
        (by decide),
    (closure_call_argument_count mixed_formals_host (fresh mixed_formals_host 0) 1 20 0 40
      (by decide) (fun _ _ => List.cons_ne_nil _ _) (fun _ _ hl => by cases hl)).2.2.2.1.trans
        (by decide),
    by decide⟩

/-! ## Default flag of an argument: helper lemmas -/

/-- Argument processing of a thunk handle that the registry holds: the
registered record is bound, registry and id counter stay. -/
theorem process_closure_argument_registered (h : Host) (s : TracerState) (call : Call)
    (fp ap : Int) (name argument : SEXP) (ddd : Bool) (p : denoted_value_id_t)
    (ht : h.type_of_sexp argument = PROMSXP) (hm : s.promises_.lookup argument = some p) :
    ∃ a : Argument,
      (process_closure_argument_ h s call fp ap name argument ddd).1.arguments =
          call.arguments ++ [a] ∧
        a.denoted_value = p ∧
        a.default_argument =
          (if (s.heap p).is_promise then decide (call.environment = (s.heap p).environment)
            else true) ∧
        (process_closure_argument_ h s call fp ap name argument ddd).2.promises_ =
          s.promises_ ∧
        (process_closure_argument_ h s call fp ap name argument ddd).2.denoted_value_id_counter_ =
          s.denoted_value_id_counter_ ∧
        ((process_closure_argument_ h s call fp ap name argument ddd).2.heap p).is_promise =
          (s.heap p).is_promise ∧
        ((process_closure_argument_ h s call fp ap name argument ddd).2.heap p).environment =
          (s.heap p).environment := by
  have hl : lookup_promise h s argument true false = (some p, s) := by
    simp only [lookup_promise, hm]
  have hr : process_closure_argument_ h s call fp ap name argument ddd =
      (call_add_argument call
          ⟨call.id, fp, ap,
            if (s.heap p).is_promise then decide (call.environment = (s.heap p).environment)
              else true, ddd, p⟩,
        s.store p ((s.heap p).add_argument
          ⟨call.id, fp, ap,
            if (s.heap p).is_promise then decide (call.environment = (s.heap p).environment)
              else true, ddd, p⟩)) := by
    simp only [process_closure_argument_, ht, if_true, hl]
  rw [hr]
  refine ⟨_, rfl, rfl, rfl, rfl, rfl, ?_, ?_⟩ <;>
    simp only [store, Function.update_same] <;> rfl

/-- Argument processing of a thunk handle that the registry does not hold: a
record is created under the next thunk id and registered under the handle. -/
theorem process_closure_argument_unregistered (h : Host) (s : TracerState) (call : Call)
    (fp ap : Int) (name argument : SEXP) (ddd : Bool)
    (ht : h.type_of_sexp argument = PROMSXP) (hm : s.promises_.lookup argument = none) :
    ∃ a : Argument,
      (process_closure_argument_ h s call fp ap name argument ddd).1.arguments =
          call.arguments ++ [a] ∧
        a.denoted_value = s.denoted_value_id_counter_ ∧
        a.default_argument =
          decide (call.environment = h.dyntrace_get_promise_environment argument) ∧
        (process_closure_argument_ h s call fp ap name argument ddd).2.promises_ =
          s.promises_ ++ [(argument, s.denoted_value_id_counter_)] ∧
        (process_closure_argument_ h s call fp ap name argument ddd).2.denoted_value_id_counter_ =
          s.denoted_value_id_counter_ + 1 ∧
        ((process_closure_argument_ h s call fp ap name argument ddd).2.heap
          s.denoted_value_id_counter_).is_promise = true ∧
        ((process_closure_argument_ h s call fp ap name argument ddd).2.heap
          s.denoted_value_id_counter_).environment =
            h.dyntrace_get_promise_environment argument ∧
        ((process_closure_argument_ h s call fp ap name argument ddd).2.heap
          s.denoted_value_id_counter_).object = argument := by
  obtain ⟨e1, _, e3, e4, _, e6⟩ := create_raw_promise_spec h s argument false
  obtain ⟨f, hf⟩ := set_scope_loop_writes s.stack_
    (DenotedValue.create h s.denoted_value_id_counter_ argument false)
  rcases hcr : create_raw_promise_ h s argument false with ⟨p, s1⟩
  rw [hcr] at e1 e3 e4 e6
  simp only at e1 e3 e4 e6
  subst e1
  have hl : lookup_promise h s argument true false =
      (some s.denoted_value_id_counter_,
        { s1 with promises_ := s.promises_ ++ [(argument, s.denoted_value_id_counter_)] }) := by
    simp only [lookup_promise, hm, if_true, hcr, map_insert, e4]
  have hv : s1.heap s.denoted_value_id_counter_ =
      ({ DenotedValue.create h s.denoted_value_id_counter_ argument false with
        scope := f }).set_active := by
    rw [e6, Function.update_same, hf]
  have hp : (s1.heap s.denoted_value_id_counter_).is_promise = true := by
    rw [hv]
    simp [DenotedValue.is_promise, DenotedValue.set_active, DenotedValue.create, ht]
  have he : (s1.heap s.denoted_value_id_counter_).environment =
      h.dyntrace_get_promise_environment argument := by
    rw [hv]
    simp [DenotedValue.set_active, DenotedValue.create, ht]
  have ho : (s1.heap s.denoted_value_id_counter_).object = argument := by
    rw [hv]
    rfl
  have hr : process_closure_argument_ h s call fp ap name argument ddd =
      (call_add_argument call
          ⟨call.id, fp, ap,
            decide (call.environment = h.dyntrace_get_promise_environment argument), ddd,
            s.denoted_value_id_counter_⟩,
        ({ s1 with promises_ := s.promises_ ++ [(argument, s.denoted_value_id_counter_)] }
          : TracerState).store s.denoted_value_id_counter_
          ((s1.heap s.denoted_value_id_counter_).add_argument
            ⟨call.id, fp, ap,
              decide (call.environment = h.dyntrace_get_promise_environment argument), ddd,
              s.denoted_value_id_counter_⟩)) := by
    simp only [process_closure_argument_, ht, if_true, hl, hp, he]
  rw [hr]
  refine ⟨_, rfl, rfl, rfl, rfl, e3, ?_, ?_, ?_⟩
  · simp only [store, Function.update_same]
    exact hp
  · simp only [store, Function.update_same]
    exact he
  · simp only [store, Function.update_same]
    exact ho

/-- Argument processing of a value that is not a thunk: a record is created
under the next thunk id and the registry stays. -/
theorem process_closure_argument_value (h : Host) (s : TracerState) (call : Call)
    (fp ap : Int) (name argument : SEXP) (ddd : Bool)
    (ht : h.type_of_sexp argument ≠ PROMSXP) :
    ∃ a : Argument,
      (process_closure_argument_ h s call fp ap name argument ddd).1.arguments =
          call.arguments ++ [a] ∧
        a.denoted_value = s.denoted_value_id_counter_ ∧
        a.default_argument = true ∧
        (process_closure_argument_ h s call fp ap name argument ddd).2.promises_ =
          s.promises_ ∧
        (process_closure_argument_ h s call fp ap name argument ddd).2.denoted_value_id_counter_ =
          s.denoted_value_id_counter_ + 1 ∧
        ((process_closure_argument_ h s call fp ap name argument ddd).2.heap
          s.denoted_value_id_counter_).is_promise = false ∧
        ((process_closure_argument_ h s call fp ap name argument ddd).2.heap
          s.denoted_value_id_counter_).object = argument ∧
        ((process_closure_argument_ h s call fp ap name argument ddd).2.heap
          s.denoted_value_id_counter_).is_local = false := by
  obtain ⟨f, hf⟩ := set_scope_loop_writes s.stack_
    (DenotedValue.create h s.denoted_value_id_counter_ argument false)
  have hp : ({ DenotedValue.create h s.denoted_value_id_counter_ argument false with
      scope := f } : DenotedValue).is_promise = false := by
    simp [DenotedValue.is_promise, DenotedValue.create, ht]
  have hr : process_closure_argument_ h s call fp ap name argument ddd =
      (call_add_argument call ⟨call.id, fp, ap, true, ddd, s.denoted_value_id_counter_⟩,
        { s with
          denoted_value_id_counter_ := s.denoted_value_id_counter_ + 1
          heap := Function.update s.heap s.denoted_value_id_counter_
            (({ DenotedValue.create h s.denoted_value_id_counter_ argument false with
              scope := f } : DenotedValue).add_argument
              ⟨call.id, fp, ap, true, ddd, s.denoted_value_id_counter_⟩) }) := by
    simp only [process_closure_argument_, ht, if_false, get_next_denoted_value_id_, set_scope_,
      store, Function.update_same, Function.update_idem, hf, hp]
    rfl
  rw [hr]
  refine ⟨_, rfl, rfl, rfl, rfl, rfl, ?_, ?_, ?_⟩
  · simp only [Function.update_same]
    exact hp
  · simp only [Function.update_same]
    rfl
  · simp only [Function.update_same]
    rfl

/-! ## Default flag of an argument: claim -/

/-- C33: one step of argument processing of a closure call appends one argument
`a`. When the bound value is a thunk handle, `a` is bound to the record that
`lookup_promise` returns for the handle, which the registry holds under the
handle afterwards: the record already registered, with registry and id counter
unchanged, or else a record created under the next thunk id, a thunk with the
home environment of the handle, appended to the registry; and whenever the
record is a thunk the default flag of `a` is set if and only if the environment
of the call equals the home environment of the thunk. When the bound value is
not a thunk handle, `a` is bound to a record created under the next thunk id,
not a thunk, wrapping the value, with the default flag set, and the registry is
unchanged. -/
theorem argument_default_flag (h : Host) (s : TracerState) (call : Call) (fp ap : Int)
    (name argument : SEXP) (ddd : Bool) :
    (h.type_of_sexp argument = PROMSXP →
      ∃ (value : denoted_value_id_t) (a : Argument),
        (lookup_promise h s argument true false).1 = some value ∧
          (process_closure_argument_ h s call fp ap name argument ddd).1.arguments =
            call.arguments ++ [a] ∧
          a.denoted_value = value ∧
          (process_closure_argument_ h s call fp ap name argument ddd).2.promises_.lookup
            argument = some value ∧
          (((process_closure_argument_ h s call fp ap name argument ddd).2.heap
              value).is_promise = true →
            (a.default_argument = true ↔
              call.environment =
                ((process_closure_argument_ h s call fp ap name argument ddd).2.heap
                  value).environment)) ∧
          (∀ p, s.promises_.lookup argument = some p →
            value = p ∧
              (process_closure_argument_ h s call fp ap name argument ddd).2.promises_ =
                s.promises_ ∧
              (process_closure_argument_ h s call fp ap name argument
                ddd).2.denoted_value_id_counter_ = s.denoted_value_id_counter_) ∧
          (s.promises_.lookup argument = none →
            value = s.denoted_value_id_counter_ ∧
              (process_closure_argument_ h s call fp ap name argument ddd).2.promises_ =
                s.promises_ ++ [(argument, value)] ∧
              ((process_closure_argument_ h s call fp ap name argument ddd).2.heap
                value).is_promise = true ∧
              ((process_closure_argument_ h s call fp ap name argument ddd).2.heap
                value).object = argument ∧
              ((process_closure_argument_ h s call fp ap name argument ddd).2.heap
                value).environment = h.dyntrace_get_promise_environment argument)) ∧
      (h.type_of_sexp argument ≠ PROMSXP →
        ∃ a : Argument,
          (process_closure_argument_ h s call fp ap name argument ddd).1.arguments =
              call.arguments ++ [a] ∧
            a.denoted_value = s.denoted_value_id_counter_ ∧
            (process_closure_argument_ h s call fp ap name argument
              ddd).2.denoted_value_id_counter_ = s.denoted_value_id_counter_ + 1 ∧
            (process_closure_argument_ h s call fp ap name argument ddd).2.promises_ =
              s.promises_ ∧
            ((process_closure_argument_ h s call fp ap name argument ddd).2.heap
              a.denoted_value).object = argument ∧
            ((process_closure_argument_ h s call fp ap name argument ddd).2.heap
              a.denoted_value).is_promise = false ∧
            ((process_closure_argument_ h s call fp ap name argument ddd).2.heap
              a.denoted_value).is_local = false ∧
            a.default_argument = true) ∧
      (process_closure_argument_ sample_host (fresh sample_host 0) (sample_call 1 3) 0 0 30 10
          false).1.arguments.map (fun a => (a.denoted_value, a.default_argument)) =
        [(0, true)] ∧
      (process_closure_argument_ sample_host
          (process_closure_argument_ sample_host (fresh sample_host 0) (sample_call 1 3) 0 0 30
            10 false).2
          (sample_call 2 1) 0 0 30 10 false).1.arguments.map
            (fun a => (a.denoted_value, a.default_argument)) =
        [(0, false)] := by
  refine ⟨?_, ?_, by decide, by decide⟩
  · intro ht
    cases hm : s.promises_.lookup argument with
    | some p =>
      obtain ⟨a, r1, r2, r3, r4, r5, r6, r7⟩ :=
        process_closure_argument_registered h s call fp ap name argument ddd p ht hm
      have hl : (lookup_promise h s argument true false).1 = some p := by
        simp only [lookup_promise, hm]
      refine ⟨p, a, hl, r1, r2, by rw [r4]; exact hm, ?_, ?_, ?_⟩
      · intro hp
        rw [r6] at hp
        rw [r7, r3, hp]
        simp
      · intro q hq
        cases hq
        exact ⟨rfl, r4, r5⟩
      · intro hn
        cases hn
    | none =>
      obtain ⟨a, r1, r2, r3, r4, r5, r6, r7, r8⟩ :=
        process_closure_argument_unregistered h s call fp ap name argument ddd ht hm
      have hl : (lookup_promise h s argument true false).1 = some s.denoted_value_id_counter_ := by
        have e1 := (create_raw_promise_spec h s argument false).1
        rcases hcr : create_raw_promise_ h s argument false with ⟨p, s1⟩
        rw [hcr] at e1
        simp only at e1
        simp only [lookup_promise, hm, if_true, hcr, e1]
      refine ⟨s.denoted_value_id_counter_, a, hl, r1, r2, ?_, ?_, ?_, ?_⟩
      · rw [r4, lookup_append_of_none argument s.promises_ _ hm, lookup_singleton_self]
      · intro _
        rw [r7, r3]
        simp
      · intro q hq
        cases hq
      · intro _
        exact ⟨rfl, r4, r6, r8, r7⟩
  · intro ht
    obtain ⟨a, r1, r2, r3, r4, r5, r6, r7, r8⟩ :=
      process_closure_argument_value h s call fp ap name argument ddd ht
    refine ⟨a, r1, r2, r5, r4, ?_, ?_, ?_, r3⟩
    · rw [r2]; exact r7
    · rw [r2]; exact r6
    · rw [r2]; exact r8

/-! ## Scope without a closure frame: helper lemmas -/

theorem bottommost_call_cons (ctxt : ExecutionContext) (rest : List ExecutionContext) :
    bottommost_call (ctxt :: rest) =
      match bottommost_call rest with
      | some c => some c
      | none => ctxt.get_call := by
  unfold bottommost_call
  cases hc : ctxt.get_call with
  | none =>
    rw [List.filterMap_cons_none hc]
    cases (List.filterMap ExecutionContext.get_call rest).getLast? <;> rfl
  | some c =>
    rw [List.filterMap_cons_some hc, List.getLast?_cons]
    cases (List.filterMap ExecutionContext.get_call rest).getLast? <;> rfl

/-- Over a stack without a closure frame the loop of `set_scope_` ends with the
function id of the bottom-most call frame, or with the scope it started from
when there is no call frame. -/
theorem set_scope_loop_no_closure (l : List ExecutionContext)
    (hno : l.all (fun c => !c.is_closure) = true) :
    ∀ v : DenotedValue,
      set_scope_loop l v =
        match bottommost_call l with
        | some c => v.set_scope c.function_id
        | none => v := by
  induction l with
  | nil => intro v; rfl
  | cons ctxt rest ih =>
    intro v
    rw [List.all_cons, Bool.and_eq_true] at hno
    have ih2 := ih hno.2
    rw [bottommost_call_cons]
    cases ctxt with
    | closure c => simp [ExecutionContext.is_closure] at hno
    | builtin c =>
      simp only [set_scope_loop, ExecutionContext.get_call, ExecutionContext.is_call,
        ExecutionContext.is_closure, if_true, Bool.false_eq_true, if_false]
      rw [ih2]
      cases bottommost_call rest <;> rfl
    | special c =>
      simp only [set_scope_loop, ExecutionContext.get_call, ExecutionContext.is_call,
        ExecutionContext.is_closure, if_true, Bool.false_eq_true, if_false]
      rw [ih2]
      cases bottommost_call rest <;> rfl
    | promise q =>
      simp only [set_scope_loop, ExecutionContext.get_call,
        ExecutionContext.is_closure, Bool.false_eq_true, if_false]
      rw [ih2]
      cases bottommost_call rest <;> rfl

/-- No call frame is bottom-most exactly when no frame is a call frame. -/
theorem bottommost_call_none (l : List ExecutionContext) :
    bottommost_call l = none ↔ ∀ c ∈ l, c.is_call = false := by
  induction l with
  | nil => simp [bottommost_call]
  | cons ctxt rest ih =>
    rw [bottommost_call_cons]
    cases hb : bottommost_call rest with
    | some c =>
      simp only [false_iff, reduceCtorEq]
      intro hall
      have := ih.2 (fun c hc => hall c (List.mem_cons_of_mem _ hc))
      rw [hb] at this
      cases this
    | none =>
      have hrest := ih.1 hb
      simp only [List.mem_cons, forall_eq_or_imp]
      constructor
      · intro hg
        refine ⟨?_, hrest⟩
        cases ctxt <;> simp_all [ExecutionContext.get_call, ExecutionContext.is_call]
      · intro hg
        cases ctxt <;> simp_all [ExecutionContext.get_call, ExecutionContext.is_call]

/-- With a call frame on a stack without a closure frame, the bottom-most call
is the call of the last call frame: every frame below it is not a call frame. -/
theorem bottommost_call_split (above below : List ExecutionContext) (ctxt : ExecutionContext)
    (c : Call) (hc : ctxt.get_call = some c) (hb : ∀ x ∈ below, x.get_call = none) :
    bottommost_call (above ++ ctxt :: below) = some c := by
  unfold bottommost_call
  have e : List.filterMap ExecutionContext.get_call below = [] := by
    rw [List.filterMap_eq_nil_iff]
    exact hb
  rw [List.filterMap_append, List.filterMap_cons_some hc, e, List.getLast?_append]
  rfl

/-! ## Scope without a closure frame: claim -/

/-- C34: on a stack without a closure frame, `set_scope_` sets the scope of a
thunk to the function id of the bottom-most call frame, the builtin or special
frame below which no frame is a call frame, and leaves the scope as it is when
no frame is a call frame (empty stack or promise frames only); a thunk that
`create_promise` creates then has the function id of the bottom-most call frame
as scope, or the unassigned function id of its construction. -/
theorem scope_without_closure_frame (h : Host) (s : TracerState) (p : denoted_value_id_t)
    (hno : s.stack_.all (fun c => !c.is_closure) = true) :
    (∀ c, bottommost_call s.stack_ = some c →
        ((set_scope_ s p).heap p).scope = c.function_id) ∧
      (bottommost_call s.stack_ = none → ((set_scope_ s p).heap p).scope = (s.heap p).scope) ∧
      (bottommost_call s.stack_ = none ↔ ∀ c ∈ s.stack_, c.is_call = false) ∧
      (∀ (above below : List ExecutionContext) (ctxt : ExecutionContext) (c : Call),
        s.stack_ = above ++ ctxt :: below → ctxt.get_call = some c →
          (∀ x ∈ below, x.is_call = false) →
            ((set_scope_ s p).heap p).scope = c.function_id) ∧
      (∀ (promise : SEXP) (c : Call), bottommost_call s.stack_ = some c →
        ((create_promise h s promise).2.heap (create_promise h s promise).1).scope =
          c.function_id) ∧
      (∀ promise : SEXP, bottommost_call s.stack_ = none →
        ((create_promise h s promise).2.heap (create_promise h s promise).1).scope =
          h.UNASSIGNED_FUNCTION_ID) := by
  have key := set_scope_loop_no_closure s.stack_ hno
  have hset : ((set_scope_ s p).heap p) = set_scope_loop s.stack_ (s.heap p) := by
    simp only [set_scope_, store, Function.update_same]
  have hsome : ∀ c, bottommost_call s.stack_ = some c →
      ((set_scope_ s p).heap p).scope = c.function_id := by
    intro c hc
    rw [hset, key, hc]
    rfl
  have hcreate : ∀ promise : SEXP,
      ((create_promise h s promise).2.heap (create_promise h s promise).1).scope =
        (set_scope_loop s.stack_
          (DenotedValue.create h s.denoted_value_id_counter_ promise true)).scope := by
    intro promise
    obtain ⟨e1, _, _, e4⟩ := create_promise_spec h s promise
    rw [e4, e1, Function.update_same]
    rfl
  refine ⟨hsome, ?_, bottommost_call_none s.stack_, ?_, ?_, ?_⟩
  · intro hn
    rw [hset, key, hn]
  · intro above below ctxt c hst hc hb
    apply hsome
    rw [hst]
    apply bottommost_call_split above below ctxt c hc
    intro x hx
    have := hb x hx
    cases x <;> simp_all [ExecutionContext.get_call, ExecutionContext.is_call]
  · intro promise c hc
    rw [hcreate, key, hc]
    rfl
  · intro promise hn
    rw [hcreate, key, hn]
    rfl

/-- C34, at a concrete input: with the builtin call `1` on top of the special
call `2`, the scope is set to the function id `102` of the lower call, not to
the function id `101` of the call on top. -/
theorem scope_without_closure_frame_witness :
    ((set_scope_ (sample_state [.builtin (sample_call 1 1), .special (sample_call 2 1)])
        0).heap 0).scope = 102 ∧
      (sample_call 1 1).function_id = 101 ∧
      ((set_scope_ (sample_state [.promise 4, .promise 5]) 0).heap 0).scope =
        (sample_heap 0).scope :=
  ⟨(scope_without_closure_frame sample_host
      (sample_state [.builtin (sample_call 1 1), .special (sample_call 2 1)]) 0
      (by decide)).1 (sample_call 2 1) (by decide),
    by decide,
    (scope_without_closure_frame sample_host (sample_state [.promise 4, .promise 5]) 0
      (by decide)).2.1 (by decide)⟩

/-! ## Order of the outputs: helper lemmas -/

theorem run_statements_state (l : List (TracerState → TracerState)) :
    ∀ s : TracerState, (run_statements l s).1 = l.foldl (fun st f => f st) s := by
  induction l with
  | nil => intro s; rfl
  | cons f tl ih => intro s; exact ih (f s)

theorem run_statements_append (l1 l2 : List (TracerState → TracerState)) :
    ∀ s : TracerState,
      run_statements (l1 ++ l2) s =
        ((run_statements l2 (run_statements l1 s).1).1,
          (run_statements l1 s).2 ++ (run_statements l2 (run_statements l1 s).1).2) := by
  induction l1 with
  | nil => intro s; simp [run_statements]
  | cons f tl ih =>
    intro s
    rw [List.cons_append]
    simp only [run_statements]
    rw [ih (f s), List.append_assoc]

theorem filterMap_const_none {α β : Type} (l : List α) :
    l.filterMap (fun _ => (none : Option β)) = [] := by
  induction l with
  | nil => rfl
  | cons a tl ih => simp [List.filterMap_cons]

theorem outputs_between_select {ρ : Type} (sel : Output → Option ρ) (a b : TracerState) :
    (outputs_between a b).filterMap sel =
      (b.promise_data_table_.drop a.promise_data_table_.length).filterMap
          (fun r => sel (.promise_row r)) ++
        (b.escaped_argument_data_table_.drop a.escaped_argument_data_table_.length).filterMap
          (fun r => sel (.escaped_argument_row r)) ++
        (b.argument_data_table_.drop a.argument_data_table_.length).filterMap
          (fun r => sel (.argument_row r)) ++
        (b.call_summary_data_table_.drop a.call_summary_data_table_.length).filterMap
          (fun r => sel (.call_summary_row r)) ++
        (b.function_definition_data_table_.drop
          a.function_definition_data_table_.length).filterMap
          (fun r => sel (.function_definition_row r)) ++
        (b.object_count_data_table_.drop a.object_count_data_table_.length).filterMap
          (fun r => sel (.object_count_row r)) ++
        (b.promise_lifecycle_data_table_.drop a.promise_lifecycle_data_table_.length).filterMap
          (fun r => sel (.promise_lifecycle_row r)) ++
        (b.error_log_.drop a.error_log_.length).filterMap (fun r => sel (.diagnostic r)) ++
        (b.files_.drop a.files_.length).filterMap (fun f => sel (.file f.1 f.2)) := by
  simp only [outputs_between, List.filterMap_append, List.filterMap_map]
  rfl

theorem outputs_between_promise_rows (a b : TracerState) :
    (outputs_between a b).filterMap Output.to_promise_row =
      b.promise_data_table_.drop a.promise_data_table_.length := by
  rw [outputs_between_select]
  simp [Output.to_promise_row, filterMap_const_none]

theorem outputs_between_escaped_argument_rows (a b : TracerState) :
    (outputs_between a b).filterMap Output.to_escaped_argument_row =
      b.escaped_argument_data_table_.drop a.escaped_argument_data_table_.length := by
  rw [outputs_between_select]
  simp [Output.to_escaped_argument_row, filterMap_const_none]

theorem outputs_between_call_summary_rows (a b : TracerState) :
    (outputs_between a b).filterMap Output.to_call_summary_row =
      b.call_summary_data_table_.drop a.call_summary_data_table_.length := by
  rw [outputs_between_select]
  simp [Output.to_call_summary_row, filterMap_const_none]

theorem outputs_between_function_definition_rows (a b : TracerState) :
    (outputs_between a b).filterMap Output.to_function_definition_row =
      b.function_definition_data_table_.drop a.function_definition_data_table_.length := by
  rw [outputs_between_select]
  simp [Output.to_function_definition_row, filterMap_const_none]

theorem outputs_between_object_count_rows (a b : TracerState) :
    (outputs_between a b).filterMap Output.to_object_count_row =
      b.object_count_data_table_.drop a.object_count_data_table_.length := by
  rw [outputs_between_select]
  simp [Output.to_object_count_row, filterMap_const_none]

theorem outputs_between_promise_lifecycle_rows (a b : TracerState) :
    (outputs_between a b).filterMap Output.to_promise_lifecycle_row =
      b.promise_lifecycle_data_table_.drop a.promise_lifecycle_data_table_.length := by
  rw [outputs_between_select]
  simp [Output.to_promise_lifecycle_row, filterMap_const_none]

/-- A statement that writes neither to the error channel nor a file outputs
rows only. -/
theorem outputs_between_rows (a b : TracerState) (h1 : b.error_log_ = a.error_log_)
    (h2 : b.files_ = a.files_) : ∀ e ∈ outputs_between a b, e.is_row = true := by
  intro e he
  simp only [outputs_between, h1, h2, List.drop_length, List.map_nil, List.append_nil,
    List.mem_append, List.mem_map] at he
  rcases he with
    ((((((⟨r, _, rfl⟩ | ⟨r, _, rfl⟩) | ⟨r, _, rfl⟩) | ⟨r, _, rfl⟩) | ⟨r, _, rfl⟩) |
      ⟨r, _, rfl⟩) | ⟨r, _, rfl⟩) <;> rfl

theorem outputs_between_self (t : TracerState) : outputs_between t t = [] := by
  simp [outputs_between]

theorem outputs_between_log_error (t : TracerState) (message : String) :
    outputs_between t (dyntrace_log_error t message) = [.diagnostic message] := by
  simp [outputs_between, dyntrace_log_error]

theorem outputs_between_write_file (t : TracerState) (path content : String) :
    outputs_between t (write_file t path content) = [.file path content] := by
  simp [outputs_between, write_file]

/-- The stack check of `cleanup` outputs the diagnostic if the stack is not
empty, and nothing otherwise. -/
theorem cleanup_stack_check_outputs (t : TracerState) :
    outputs_between t (cleanup_stack_check t) =
      (if t.stack_ = [] then [] else [.diagnostic "stack not empty on tracer exit."]) := by
  cases hs : t.stack_ with
  | nil =>
    have e : cleanup_stack_check t = t := by simp [cleanup_stack_check, hs]
    rw [e, outputs_between_self]
    rfl
  | cons c tl =>
    have e : cleanup_stack_check t =
        dyntrace_log_error t "stack not empty on tracer exit." := by
      simp [cleanup_stack_check, hs]
    rw [e, outputs_between_log_error]
    rfl

/-- The last statement of `cleanup` outputs the sentinel file. -/
theorem cleanup_sentinel_outputs (t : TracerState) (error : Int) :
    outputs_between t (cleanup_sentinel t error) =
      [if error ≠ 0 then .file (t.output_dirpath_ ++ "/ERROR") "ERROR"
        else .file (t.output_dirpath_ ++ "/NOERROR") "NOERROR"] := by
  by_cases he : error = 0
  · have e : cleanup_sentinel t error =
        write_file t (t.output_dirpath_ ++ "/NOERROR") "NOERROR" := by
      simp [cleanup_sentinel, he]
    rw [e, outputs_between_write_file]
    simp [he]
  · have e : cleanup_sentinel t error =
        write_file t (t.output_dirpath_ ++ "/ERROR") "ERROR" := by
      simp [cleanup_sentinel, he]
    rw [e, outputs_between_write_file]
    simp [he]

/-- Statements that write neither to the error channel nor a file output rows
only. -/
theorem run_statements_rows (l : List (TracerState → TracerState))
    (hl : ∀ f ∈ l, ∀ st : TracerState,
      (f st).error_log_ = st.error_log_ ∧ (f st).files_ = st.files_) :
    ∀ s : TracerState, ∀ e ∈ (run_statements l s).2, e.is_row = true := by
  induction l with
  | nil => intro s e he; cases he
  | cons f tl ih =>
    intro s e he
    simp only [run_statements, List.mem_append] at he
    rcases he with he | he
    · exact outputs_between_rows s (f s) (hl f (List.mem_cons_self _ _) s).1
        (hl f (List.mem_cons_self _ _) s).2 e he
    · exact ih (fun g hg => hl g (List.mem_cons_of_mem _ hg)) (f s) e he

/-- The rows that statements which only append to a table write to it are the
outputs of the statements that are rows of the table, in order. -/
theorem run_statements_table {ρ : Type} (sel : Output → Option ρ)
    (tab : TracerState → List ρ)
    (hsel : ∀ a b : TracerState,
      (outputs_between a b).filterMap sel = (tab b).drop (tab a).length)
    (l : List (TracerState → TracerState))
    (hl : ∀ f ∈ l, ∀ st : TracerState, ∃ rows, tab (f st) = tab st ++ rows) :
    ∀ s : TracerState,
      tab (run_statements l s).1 = tab s ++ (run_statements l s).2.filterMap sel := by
  induction l with
  | nil => intro s; simp [run_statements]
  | cons f tl ih =>
    intro s
    obtain ⟨rows, hrows⟩ := hl f (List.mem_cons_self _ _) s
    simp only [run_statements, List.filterMap_append, hsel,
      ih (fun g hg => hl g (List.mem_cons_of_mem _ hg)) (f s), hrows, List.drop_left,
      List.append_assoc]

/-! ## Outputs of the teardown: the state reached -/

/-- The state that the row-writing statements of `cleanup` reach, through the
states `s1`, `s2`, `s3` after the first loop, the first `clear()` and the second
loop. -/
theorem cleanup_table_statements_view (ps : List (SEXP × denoted_value_id_t))
    (fs : List (SEXP × Function)) (s s1 s2 s3 : TracerState)
    (h1 : s1 = ps.foldl (fun st e => destroy_promise st e.2) s)
    (h2 : s2 = { s1 with promises_ := [] })
    (h3 : s3 = fs.foldl (fun st e => destroy_function_ st e.2) s2) :
    (run_statements (cleanup_table_statements ps fs) s).1 =
      serialize_promise_lifecycle_summary_
        (serialize_object_count_ { s3 with functions_ := [] }) := by
  subst h3 h2 h1
  rw [run_statements_state]
  simp only [cleanup_table_statements, List.foldl_append, List.foldl_map, List.foldl_cons,
    List.foldl_nil]

/-- In the order of registration the statements of `cleanup` reach the state
that `cleanup` returns. -/
theorem cleanup_statements_state (s : TracerState) (error : Int) :
    (run_statements (cleanup_statements s.promises_ s.functions_ error) s).1 =
      cleanup s error := by
  have hfun := foldl_field (fun st => st.functions_)
    (fun st (e : SEXP × denoted_value_id_t) => destroy_promise st e.2)
    (fun st e => destroy_promise_frame (fun st => st.functions_) (fun _ _ _ _ _ _ => rfl) st e.2)
    s.promises_ s
  simp only at hfun
  rw [run_statements_state]
  simp only [cleanup_statements, cleanup_table_statements, List.foldl_append, List.foldl_map,
    List.foldl_cons, List.foldl_nil, cleanup, cleanup_tables, hfun]

/-- What the two loops of `cleanup` and the first `clear()` leave alone. -/
theorem cleanup_loops_frame {β : Type} (proj : TracerState → β)
    (hp : ∀ (st : TracerState) (hp0 : Heap) (d : denoted_value_id_t → Nat)
      (t1 t2 : List DenotedValue) (ls : List (lifecycle_t × Int))
      (pr : List (SEXP × denoted_value_id_t)) (t3 : List CallSummaryRow)
      (t4 : List FunctionDefinitionRow) (sf : List function_id_t),
      proj { st with heap := hp0, deleted := d, promise_data_table_ := t1,
                     escaped_argument_data_table_ := t2, lifecycle_summary_ := ls,
                     promises_ := pr, call_summary_data_table_ := t3,
                     function_definition_data_table_ := t4, serialized_functions_ := sf } =
        proj st)
    (ps : List (SEXP × denoted_value_id_t)) (fs : List (SEXP × Function)) (s : TracerState) :
    proj (fs.foldl (fun st e => destroy_function_ st e.2)
      { ps.foldl (fun st e => destroy_promise st e.2) s with promises_ := [] }) = proj s := by
  have hdp : ∀ (st : TracerState) (p : denoted_value_id_t),
      proj (destroy_promise st p) = proj st :=
    destroy_promise_frame proj (fun st hp0 d t1 t2 ls =>
      hp st hp0 d t1 t2 ls st.promises_ st.call_summary_data_table_
        st.function_definition_data_table_ st.serialized_functions_)
  have hdf : ∀ (st : TracerState) (f : Function), proj (destroy_function_ st f) = proj st :=
    destroy_function_frame proj (fun st t3 t4 sf =>
      hp st st.heap st.deleted st.promise_data_table_ st.escaped_argument_data_table_
        st.lifecycle_summary_ st.promises_ t3 t4 sf)
  have e1 := foldl_field proj (fun st (e : SEXP × denoted_value_id_t) => destroy_promise st e.2)
    (fun st e => hdp st e.2) ps s
  have e2 := foldl_field proj (fun st (e : SEXP × Function) => destroy_function_ st e.2)
    (fun st e => hdf st e.2) fs
    { ps.foldl (fun st e => destroy_promise st e.2) s with promises_ := [] }
  have key : ∀ s1 : TracerState, proj { s1 with promises_ := [] } = proj s1 := fun s1 =>
    hp s1 s1.heap s1.deleted s1.promise_data_table_ s1.escaped_argument_data_table_
      s1.lifecycle_summary_ [] s1.call_summary_data_table_ s1.function_definition_data_table_
      s1.serialized_functions_
  exact e2.trans ((key _).trans e1)

/-- What the second loop of `cleanup` and the first `clear()` leave alone. -/
theorem cleanup_function_loop_frame {β : Type} (proj : TracerState → β)
    (hp : ∀ (st : TracerState) (pr : List (SEXP × denoted_value_id_t))
      (t3 : List CallSummaryRow) (t4 : List FunctionDefinitionRow) (sf : List function_id_t),
      proj { st with promises_ := pr, call_summary_data_table_ := t3,
                     function_definition_data_table_ := t4, serialized_functions_ := sf } =
        proj st)
    (fs : List (SEXP × Function)) (s1 : TracerState) :
    proj (fs.foldl (fun st e => destroy_function_ st e.2) { s1 with promises_ := [] }) =
      proj s1 := by
  have hdf : ∀ (st : TracerState) (f : Function), proj (destroy_function_ st f) = proj st :=
    destroy_function_frame proj (fun st t3 t4 sf => hp st st.promises_ t3 t4 sf)
  have e2 := foldl_field proj (fun st (e : SEXP × Function) => destroy_function_ st e.2)
    (fun st e => hdf st e.2) fs { s1 with promises_ := [] }
  exact e2.trans (hp s1 [] s1.call_summary_data_table_ s1.function_definition_data_table_
    s1.serialized_functions_)

/-- What the first loop of `cleanup` leaves alone. -/
theorem cleanup_promise_loop_frame {β : Type} (proj : TracerState → β)
    (hp : ∀ (st : TracerState) (hp0 : Heap) (d : denoted_value_id_t → Nat)
      (t1 t2 : List DenotedValue) (ls : List (lifecycle_t × Int)),
      proj { st with heap := hp0, deleted := d, promise_data_table_ := t1,
                     escaped_argument_data_table_ := t2, lifecycle_summary_ := ls } = proj st)
    (ps : List (SEXP × denoted_value_id_t)) (s : TracerState) :
    proj (ps.foldl (fun st e => destroy_promise st e.2) s) = proj s :=
  foldl_field proj (fun st (e : SEXP × denoted_value_id_t) => destroy_promise st e.2)
    (fun st e => destroy_promise_frame proj hp st e.2) ps s

/-- What the statements of `cleanup` after its second loop leave alone, up to
the stack check. -/
theorem cleanup_table_statements_last {β : Type} (proj : TracerState → β)
    (hp : ∀ (st : TracerState) (fn : List (SEXP × Function)) (t5 : List ObjectCountRow)
      (t6 : List PromiseLifecycleRow),
      proj { st with functions_ := fn, object_count_data_table_ := t5,
                     promise_lifecycle_data_table_ := t6 } = proj st)
    (ps : List (SEXP × denoted_value_id_t)) (fs : List (SEXP × Function)) (s : TracerState) :
    proj (run_statements (cleanup_table_statements ps fs) s).1 =
      proj (fs.foldl (fun st e => destroy_function_ st e.2)
        { ps.foldl (fun st e => destroy_promise st e.2) s with promises_ := [] }) := by
  rw [cleanup_table_statements_view ps fs s _ _ _ rfl rfl rfl]
  simp only [serialize_promise_lifecycle_summary_, serialize_object_count_]
  exact hp _ _ _ _

/-- The side files, the error channel, the output directory and the stack are
left alone by the row-writing statements of `cleanup`, which empty both
registries. -/
theorem cleanup_table_statements_side (ps : List (SEXP × denoted_value_id_t))
    (fs : List (SEXP × Function)) (s : TracerState) :
    (run_statements (cleanup_table_statements ps fs) s).1.files_ = s.files_ ∧
      (run_statements (cleanup_table_statements ps fs) s).1.error_log_ = s.error_log_ ∧
      (run_statements (cleanup_table_statements ps fs) s).1.output_dirpath_ =
        s.output_dirpath_ ∧
      (run_statements (cleanup_table_statements ps fs) s).1.stack_ = s.stack_ ∧
      (run_statements (cleanup_table_statements ps fs) s).1.promises_ = [] ∧
      (run_statements (cleanup_table_statements ps fs) s).1.functions_ = [] := by
  have e0 := cleanup_table_statements_last
    (fun st => (st.files_, st.error_log_, st.output_dirpath_, st.stack_, st.promises_))
    (fun _ _ _ _ => rfl) ps fs s
  have e := cleanup_loops_frame
    (fun st => (st.files_, st.error_log_, st.output_dirpath_, st.stack_))
    (fun _ _ _ _ _ _ _ _ _ _ => rfl) ps fs s
  have e3 := foldl_field (fun st => st.promises_)
    (fun st (e : SEXP × Function) => destroy_function_ st e.2)
    (fun st e => destroy_function_frame (fun st => st.promises_) (fun _ _ _ _ => rfl) st e.2) fs
    { ps.foldl (fun st e => destroy_promise st e.2) s with promises_ := [] }
  have e4 : (run_statements (cleanup_table_statements ps fs) s).1.functions_ = [] := by
    rw [cleanup_table_statements_view ps fs s _ _ _ rfl rfl rfl]
    rfl
  simp only [Prod.mk.injEq] at e0 e
  exact ⟨e0.1.trans e.1, e0.2.1.trans e.2.1, e0.2.2.1.trans e.2.2.1, e0.2.2.2.1.trans e.2.2.2,
    e0.2.2.2.2.trans e3, e4⟩

/-! ## Outputs of the teardown: the rows written -/

/-- The first loop of `cleanup` adds one to the counts of the lifecycle summary
per thunk. -/
theorem destroy_promise_foldl_summary (ps : List (SEXP × denoted_value_id_t)) :
    ∀ s : TracerState,
      ((ps.foldl (fun st e => destroy_promise st e.2) s).lifecycle_summary_.map Prod.snd).sum =
        (s.lifecycle_summary_.map Prod.snd).sum + (ps.length : Int) := by
  induction ps with
  | nil => intro s; simp
  | cons a tl ih =>
    intro s
    have e := congrArg Prod.fst (destroy_promise_output s a.2)
    simp only [promise_output] at e
    rw [List.foldl_cons, ih, e, tally_step_sum, List.length_cons]
    push_cast
    ring

/-- The second loop of `cleanup` writes one call_summary row per summary of
each function record. -/
theorem destroy_function_foldl_summary_rows (fs : List (SEXP × Function)) :
    ∀ s : TracerState,
      (fs.foldl (fun st e => destroy_function_ st e.2) s).call_summary_data_table_.length =
        s.call_summary_data_table_.length + (fs.map (fun e => e.2.summaries.length)).sum := by
  induction fs with
  | nil => intro s; simp
  | cons a tl ih =>
    intro s
    obtain ⟨rows, _, e2, e3, _⟩ := serialize_function_rows s a.2
    have hl : rows.length = a.2.summaries.length := by
      have := congrArg List.length e3
      simpa using this
    rw [List.foldl_cons, ih, e2, List.length_append, hl, List.map_cons, List.sum_cons]
    omega

/-- The second loop of `cleanup` appends the ids it adds to the set of
serialized functions, one function_definition row per id added, and after it
the id of each function record is in the set. -/
theorem destroy_function_foldl_definitions (fs : List (SEXP × Function)) :
    ∀ s : TracerState,
      ∃ added : List function_id_t,
        (fs.foldl (fun st e => destroy_function_ st e.2) s).serialized_functions_ =
            s.serialized_functions_ ++ added ∧
          (fs.foldl (fun st e => destroy_function_ st e.2) s).function_definition_data_table_ =
            s.function_definition_data_table_ ++ added.map (fun id => ⟨id⟩) ∧
          (∀ e ∈ fs, e.2.id ∈ s.serialized_functions_ ++ added) ∧
          (∀ id ∈ added, id ∉ s.serialized_functions_ ∧ ∃ e ∈ fs, e.2.id = id) ∧
          added.Nodup := by
  induction fs with
  | nil => intro s; exact ⟨[], by simp⟩
  | cons a tl ih =>
    intro s
    obtain ⟨h1, h2⟩ := destroy_function_definition s a.2
    obtain ⟨added, r1, r2, r3, r4, r5⟩ := ih (destroy_function_ s a.2)
    by_cases hin : a.2.id ∈ s.serialized_functions_
    · rw [(h1 hin).2] at r1 r3 r4
      rw [(h1 hin).1] at r2
      refine ⟨added, r1, r2, ?_, ?_, r5⟩
      · intro e he
        rcases List.mem_cons.1 he with rfl | he
        · exact List.mem_append_left _ hin
        · exact r3 e he
      · intro id hid
        obtain ⟨q1, e, he, q2⟩ := r4 id hid
        exact ⟨q1, e, List.mem_cons_of_mem _ he, q2⟩
    · rw [(h2 hin).2] at r1 r3 r4
      rw [(h2 hin).1] at r2
      refine ⟨a.2.id :: added, ?_, ?_, ?_, ?_, ?_⟩
      · rw [List.foldl_cons, r1]; simp
      · rw [List.foldl_cons, r2]; simp
      · intro e he
        rcases List.mem_cons.1 he with rfl | he
        · simp
        · have := r3 e he
          simpa using this
      · intro id hid
        rcases List.mem_cons.1 hid with rfl | hid
        · exact ⟨hin, a, List.mem_cons_self _ _, rfl⟩
        · obtain ⟨q1, e, he, q2⟩ := r4 id hid
          refine ⟨fun hc => q1 (List.mem_append_left _ hc), e, List.mem_cons_of_mem _ he, q2⟩
      · refine List.nodup_cons.2 ⟨?_, r5⟩
        intro hc
        exact (r4 _ hc).1 (List.mem_append_right _ (List.mem_singleton_self _))

/-- Rows in the tables when the row-writing statements of `cleanup` are done:
one promises row per thunk, the call_summary rows of the function records, one
function_definition row per id that enters the set of serialized functions, the
object_count rows of the counts, and the promise_lifecycle rows of the
lifecycle summary, whose counts the thunks have raised by one each. -/
theorem cleanup_table_statements_rows (ps : List (SEXP × denoted_value_id_t))
    (fs : List (SEXP × Function)) (s : TracerState) :
    (run_statements (cleanup_table_statements ps fs) s).1.promise_data_table_.length =
        s.promise_data_table_.length + ps.length ∧
      (run_statements (cleanup_table_statements ps fs) s).1.call_summary_data_table_.length =
        s.call_summary_data_table_.length + (fs.map (fun e => e.2.summaries.length)).sum ∧
      (∃ added : List function_id_t,
        (run_statements (cleanup_table_statements ps fs) s).1.serialized_functions_ =
            s.serialized_functions_ ++ added ∧
          (run_statements (cleanup_table_statements ps fs)
            s).1.function_definition_data_table_ =
            s.function_definition_data_table_ ++ added.map (fun id => ⟨id⟩) ∧
          (∀ e ∈ fs, e.2.id ∈ s.serialized_functions_ ++ added) ∧
          (∀ id ∈ added, id ∉ s.serialized_functions_ ∧ ∃ e ∈ fs, e.2.id = id) ∧
          added.Nodup) ∧
      (run_statements (cleanup_table_statements ps fs) s).1.object_count_data_table_ =
        s.object_count_data_table_ ++ serialize_object_count_loop 0 s.object_count_ ∧
      (run_statements (cleanup_table_statements ps fs) s).1.promise_lifecycle_data_table_ =
        s.promise_lifecycle_data_table_ ++
          (run_statements (cleanup_table_statements ps fs) s).1.lifecycle_summary_.map
            (fun e => { action := e.1.action, count := e.1.count, promise_count := e.2 }) ∧
      (((run_statements (cleanup_table_statements ps fs) s).1.lifecycle_summary_.map
          Prod.snd).sum = (s.lifecycle_summary_.map Prod.snd).sum + (ps.length : Int)) := by
  have hv := cleanup_table_statements_view ps fs s _ _ _ rfl rfl rfl
  refine ⟨?_, ?_, ?_, ?_, ?_, ?_⟩
  · rw [cleanup_table_statements_last (fun st => st.promise_data_table_.length)
      (fun _ _ _ _ => rfl) ps fs s,
      cleanup_function_loop_frame (fun st => st.promise_data_table_.length)
        (fun _ _ _ _ _ => rfl) fs]
    exact destroy_promise_foldl_rows ps s
  · rw [cleanup_table_statements_last (fun st => st.call_summary_data_table_.length)
      (fun _ _ _ _ => rfl) ps fs s, destroy_function_foldl_summary_rows]
    have e := cleanup_promise_loop_frame (fun st => st.call_summary_data_table_.length)
      (fun _ _ _ _ _ _ => rfl) ps s
    simp only at e
    rw [← e]
  · have e0 := cleanup_table_statements_last
      (fun st => (st.serialized_functions_, st.function_definition_data_table_))
      (fun _ _ _ _ => rfl) ps fs s
    have e := cleanup_promise_loop_frame
      (fun st => (st.serialized_functions_, st.function_definition_data_table_))
      (fun _ _ _ _ _ _ => rfl) ps s
    simp only [Prod.mk.injEq] at e0 e
    obtain ⟨added, r1, r2, r3, r4, r5⟩ := destroy_function_foldl_definitions fs
      { ps.foldl (fun st e => destroy_promise st e.2) s with promises_ := [] }
    refine ⟨added, ?_, ?_, ?_, ?_, r5⟩
    · rw [e0.1, r1]
      exact congrArg (fun l => l ++ added) e.1
    · rw [e0.2, r2]
      exact congrArg (fun l => l ++ added.map (fun id => (⟨id⟩ : FunctionDefinitionRow))) e.2
    · intro x hx
      have := r3 x hx
      rw [← e.1]
      exact this
    · intro id hid
      have := r4 id hid
      rw [← e.1]
      exact this
  · have e := cleanup_loops_frame (fun st => (st.object_count_data_table_, st.object_count_))
      (fun _ _ _ _ _ _ _ _ _ _ => rfl) ps fs s
    simp only [Prod.mk.injEq] at e
    rw [hv, ← e.1, ← e.2]
    rfl
  · have e := cleanup_loops_frame (fun st => st.promise_lifecycle_data_table_)
      (fun _ _ _ _ _ _ _ _ _ _ => rfl) ps fs s
    simp only at e
    rw [hv, ← e]
    rfl
  · rw [cleanup_table_statements_last (fun st => (st.lifecycle_summary_.map Prod.snd).sum)
      (fun _ _ _ _ => rfl) ps fs s,
      cleanup_function_loop_frame (fun st => (st.lifecycle_summary_.map Prod.snd).sum)
        (fun _ _ _ _ _ => rfl) fs]
    exact destroy_promise_foldl_summary ps s

/-! ## Outputs of the teardown: their order -/

/-- What holds of each row-writing statement of `cleanup` holds of all of
them. -/
theorem cleanup_table_statements_all (P : (TracerState → TracerState) → Prop)
    (h1 : ∀ p : denoted_value_id_t, P (fun st => destroy_promise st p))
    (h2 : P (fun st => { st with promises_ := [] }))
    (h3 : ∀ f : Function, P (fun st => destroy_function_ st f))
    (h4 : P (fun st => { st with functions_ := [] }))
    (h5 : P serialize_object_count_) (h6 : P serialize_promise_lifecycle_summary_)
    (ps : List (SEXP × denoted_value_id_t)) (fs : List (SEXP × Function)) :
    ∀ f ∈ cleanup_table_statements ps fs, P f := by
  intro f hf
  simp only [cleanup_table_statements, List.mem_append, List.mem_map, List.mem_cons,
    List.mem_singleton, List.not_mem_nil, or_false] at hf
  rcases hf with ((⟨e, _, rfl⟩ | rfl) | ⟨e, _, rfl⟩) | rfl | rfl | rfl
  · exact h1 e.2
  · exact h2
  · exact h3 e.2
  · exact h4
  · exact h5
  · exact h6

/-- The row-writing statements of `cleanup` output rows only. -/
theorem cleanup_table_statements_outputs_rows (ps : List (SEXP × denoted_value_id_t))
    (fs : List (SEXP × Function)) (s : TracerState) :
    ∀ e ∈ (run_statements (cleanup_table_statements ps fs) s).2, e.is_row = true := by
  apply run_statements_rows
  apply cleanup_table_statements_all
    (fun f => ∀ st : TracerState, (f st).error_log_ = st.error_log_ ∧ (f st).files_ = st.files_)
  · intro p st
    have e := destroy_promise_frame (fun st => (st.error_log_, st.files_))
      (fun _ _ _ _ _ _ => rfl) st p
    simp only [Prod.mk.injEq] at e
    exact e
  · intro st; exact ⟨rfl, rfl⟩
  · intro f st
    have e := destroy_function_frame (fun st => (st.error_log_, st.files_))
      (fun _ _ _ _ => rfl) st f
    simp only [Prod.mk.injEq] at e
    exact e
  · intro st; exact ⟨rfl, rfl⟩
  · intro st; exact ⟨rfl, rfl⟩
  · intro st; exact ⟨rfl, rfl⟩

/-- The rows that the row-writing statements of `cleanup` add to a table which
each of them only appends to are their outputs for that table, in order. -/
theorem cleanup_table_statements_table {ρ : Type} (sel : Output → Option ρ)
    (tab : TracerState → List ρ)
    (hsel : ∀ a b : TracerState,
      (outputs_between a b).filterMap sel = (tab b).drop (tab a).length)
    (h1 : ∀ (st : TracerState) (p : denoted_value_id_t),
      ∃ rows, tab (destroy_promise st p) = tab st ++ rows)
    (h2 : ∀ (st : TracerState) (f : Function),
      ∃ rows, tab (destroy_function_ st f) = tab st ++ rows)
    (h3 : ∀ st : TracerState, ∃ rows, tab (serialize_object_count_ st) = tab st ++ rows)
    (h4 : ∀ st : TracerState,
      ∃ rows, tab (serialize_promise_lifecycle_summary_ st) = tab st ++ rows)
    (h5 : ∀ (st : TracerState) (pr : List (SEXP × denoted_value_id_t)),
      tab { st with promises_ := pr } = tab st)
    (h6 : ∀ (st : TracerState) (fn : List (SEXP × Function)),
      tab { st with functions_ := fn } = tab st)
    (ps : List (SEXP × denoted_value_id_t)) (fs : List (SEXP × Function)) (s : TracerState) :
    tab (run_statements (cleanup_table_statements ps fs) s).1 =
      tab s ++ (run_statements (cleanup_table_statements ps fs) s).2.filterMap sel := by
  apply run_statements_table sel tab hsel
  apply cleanup_table_statements_all
    (fun f => ∀ st : TracerState, ∃ rows, tab (f st) = tab st ++ rows)
  · intro p st; exact h1 st p
  · intro st; exact ⟨[], (h5 st []).trans (List.append_nil _).symm⟩
  · intro f st; exact h2 st f
  · intro st; exact ⟨[], (h6 st []).trans (List.append_nil _).symm⟩
  · exact h3
  · exact h4

/-- Each table holds, when the row-writing statements of `cleanup` are done, the
rows it held followed by the outputs of these statements for it, in order. -/
theorem cleanup_table_statements_tables (ps : List (SEXP × denoted_value_id_t))
    (fs : List (SEXP × Function)) (s : TracerState) :
    (run_statements (cleanup_table_statements ps fs) s).1.promise_data_table_ =
        s.promise_data_table_ ++
          (run_statements (cleanup_table_statements ps fs) s).2.filterMap
            Output.to_promise_row ∧
      (run_statements (cleanup_table_statements ps fs) s).1.escaped_argument_data_table_ =
        s.escaped_argument_data_table_ ++
          (run_statements (cleanup_table_statements ps fs) s).2.filterMap
            Output.to_escaped_argument_row ∧
      (run_statements (cleanup_table_statements ps fs) s).1.call_summary_data_table_ =
        s.call_summary_data_table_ ++
          (run_statements (cleanup_table_statements ps fs) s).2.filterMap
            Output.to_call_summary_row ∧
      (run_statements (cleanup_table_statements ps fs) s).1.function_definition_data_table_ =
        s.function_definition_data_table_ ++
          (run_statements (cleanup_table_statements ps fs) s).2.filterMap
            Output.to_function_definition_row ∧
      (run_statements (cleanup_table_statements ps fs) s).1.object_count_data_table_ =
        s.object_count_data_table_ ++
          (run_statements (cleanup_table_statements ps fs) s).2.filterMap
            Output.to_object_count_row ∧
      (run_statements (cleanup_table_statements ps fs) s).1.promise_lifecycle_data_table_ =
        s.promise_lifecycle_data_table_ ++
          (run_statements (cleanup_table_statements ps fs) s).2.filterMap
            Output.to_promise_lifecycle_row := by
  have hpo : ∀ (st : TracerState) (p : denoted_value_id_t),
      (destroy_promise st p).promise_data_table_ =
          st.promise_data_table_ ++ [(st.heap p).set_inactive] ∧
        (destroy_promise st p).escaped_argument_data_table_ =
          st.escaped_argument_data_table_ ++
            (if (st.heap p).escaped then [(st.heap p).set_inactive] else []) := by
    intro st p
    have e := destroy_promise_output st p
    simp only [promise_output, Prod.mk.injEq] at e
    exact ⟨e.2.1, e.2.2⟩
  refine ⟨?_, ?_, ?_, ?_, ?_, ?_⟩
  · exact cleanup_table_statements_table Output.to_promise_row (fun st => st.promise_data_table_)
      outputs_between_promise_rows (fun st p => ⟨_, (hpo st p).1⟩)
      (fun st f => ⟨[],
        (destroy_function_frame (fun st => st.promise_data_table_) (fun _ _ _ _ => rfl) st f).trans
          (List.append_nil _).symm⟩)
      (fun st => ⟨[], (List.append_nil _).symm⟩) (fun st => ⟨[], (List.append_nil _).symm⟩)
      (fun _ _ => rfl) (fun _ _ => rfl) ps fs s
  · exact cleanup_table_statements_table Output.to_escaped_argument_row
      (fun st => st.escaped_argument_data_table_)
      outputs_between_escaped_argument_rows (fun st p => ⟨_, (hpo st p).2⟩)
      (fun st f => ⟨[],
        (destroy_function_frame (fun st => st.escaped_argument_data_table_)
          (fun _ _ _ _ => rfl) st f).trans
          (List.append_nil _).symm⟩)
      (fun st => ⟨[], (List.append_nil _).symm⟩) (fun st => ⟨[], (List.append_nil _).symm⟩)
      (fun _ _ => rfl) (fun _ _ => rfl) ps fs s
  · exact cleanup_table_statements_table Output.to_call_summary_row
      (fun st => st.call_summary_data_table_)
      outputs_between_call_summary_rows
      (fun st p => ⟨[],
        (destroy_promise_frame (fun st => st.call_summary_data_table_)
          (fun _ _ _ _ _ _ => rfl) st p).trans
          (List.append_nil _).symm⟩)
      (fun st f => by
        obtain ⟨rows, _, e2, _⟩ := serialize_function_rows st f
        exact ⟨rows, e2⟩)
      (fun st => ⟨[], (List.append_nil _).symm⟩) (fun st => ⟨[], (List.append_nil _).symm⟩)
      (fun _ _ => rfl) (fun _ _ => rfl) ps fs s
  · exact cleanup_table_statements_table Output.to_function_definition_row
      (fun st => st.function_definition_data_table_)
      outputs_between_function_definition_rows
      (fun st p => ⟨[],
        (destroy_promise_frame (fun st => st.function_definition_data_table_)
          (fun _ _ _ _ _ _ => rfl) st p).trans
          (List.append_nil _).symm⟩)
      (fun st f => by
        obtain ⟨q1, q2⟩ := destroy_function_definition st f
        by_cases hin : f.id ∈ st.serialized_functions_
        · exact ⟨[], (q1 hin).1.trans (List.append_nil _).symm⟩
        · exact ⟨_, (q2 hin).1⟩)
      (fun st => ⟨[], (List.append_nil _).symm⟩) (fun st => ⟨[], (List.append_nil _).symm⟩)
      (fun _ _ => rfl) (fun _ _ => rfl) ps fs s
  · exact cleanup_table_statements_table Output.to_object_count_row
      (fun st => st.object_count_data_table_)
      outputs_between_object_count_rows
      (fun st p => ⟨[],
        (destroy_promise_frame (fun st => st.object_count_data_table_)
          (fun _ _ _ _ _ _ => rfl) st p).trans
          (List.append_nil _).symm⟩)
      (fun st f => ⟨[],
        (destroy_function_frame (fun st => st.object_count_data_table_)
          (fun _ _ _ _ => rfl) st f).trans
          (List.append_nil _).symm⟩)
      (fun st => ⟨_, rfl⟩) (fun st => ⟨[], (List.append_nil _).symm⟩)
      (fun _ _ => rfl) (fun _ _ => rfl) ps fs s
  · exact cleanup_table_statements_table Output.to_promise_lifecycle_row
      (fun st => st.promise_lifecycle_data_table_)
      outputs_between_promise_lifecycle_rows
      (fun st p => ⟨[],
        (destroy_promise_frame (fun st => st.promise_lifecycle_data_table_)
          (fun _ _ _ _ _ _ => rfl) st p).trans
          (List.append_nil _).symm⟩)
      (fun st f => ⟨[],
        (destroy_function_frame (fun st => st.promise_lifecycle_data_table_)
          (fun _ _ _ _ => rfl) st f).trans
          (List.append_nil _).symm⟩)
      (fun st => ⟨[], (List.append_nil _).symm⟩) (fun st => ⟨_, rfl⟩)
      (fun _ _ => rfl) (fun _ _ => rfl) ps fs s

/-- The statements of `cleanup` output, in this order: the outputs of the
row-writing statements, the diagnostic if the stack is not empty, and the
sentinel file; the state they reach is the one the row-writing statements
reach, with the diagnostic in the error channel and the sentinel among the
files. -/
theorem cleanup_statements_outputs (ps : List (SEXP × denoted_value_id_t))
    (fs : List (SEXP × Function)) (s : TracerState) (error : Int) :
    (run_statements (cleanup_statements ps fs error) s).2 =
        (run_statements (cleanup_table_statements ps fs) s).2 ++
          (if s.stack_ = [] then [] else [.diagnostic "stack not empty on tracer exit."]) ++
          [if error ≠ 0 then .file (s.output_dirpath_ ++ "/ERROR") "ERROR"
            else .file (s.output_dirpath_ ++ "/NOERROR") "NOERROR"] ∧
      (run_statements (cleanup_statements ps fs error) s).1 =
        cleanup_sentinel
          (cleanup_stack_check (run_statements (cleanup_table_statements ps fs) s).1) error := by
  obtain ⟨_, _, h3, h4, _, _⟩ := cleanup_table_statements_side ps fs s
  have hdir : (cleanup_stack_check
      (run_statements (cleanup_table_statements ps fs) s).1).output_dirpath_ =
      s.output_dirpath_ := by
    rw [(cleanup_stack_check_side _).2, h3]
  constructor
  · rw [cleanup_statements, run_statements_append]
    simp only [run_statements, List.append_nil]
    rw [cleanup_stack_check_outputs, cleanup_sentinel_outputs, hdir, h4, List.append_assoc]
  · rw [cleanup_statements, run_statements_append]
    simp only [run_statements]

/-! ## Outputs of the teardown: the whole of `cleanup` -/

/-- The stack check and the sentinel write to the error channel and the files
only. -/
theorem cleanup_tail_frame {β : Type} (proj : TracerState → β)
    (hp : ∀ (st : TracerState) (l : List (String × String)) (g : List String),
      proj { st with files_ := l, error_log_ := g } = proj st)
    (t : TracerState) (error : Int) :
    proj (cleanup_sentinel (cleanup_stack_check t) error) = proj t := by
  simp only [cleanup_sentinel, cleanup_stack_check, write_file, dyntrace_log_error]
  split <;> split <;> exact hp t _ _

/-- The state that the statements of `cleanup` reach: the sentinel is the one
file written, the diagnostic is logged exactly when the stack is not empty, both
registries are empty, and the tables and the lifecycle summary are as the
row-writing statements leave them. -/
theorem cleanup_statements_final (ps : List (SEXP × denoted_value_id_t))
    (fs : List (SEXP × Function)) (s : TracerState) (error : Int) :
    (run_statements (cleanup_statements ps fs error) s).1.files_ =
        s.files_ ++
          [if error ≠ 0 then (s.output_dirpath_ ++ "/ERROR", "ERROR")
            else (s.output_dirpath_ ++ "/NOERROR", "NOERROR")] ∧
      (run_statements (cleanup_statements ps fs error) s).1.error_log_ =
        s.error_log_ ++ (if s.stack_ = [] then [] else ["stack not empty on tracer exit."]) ∧
      (run_statements (cleanup_statements ps fs error) s).1.promises_ = [] ∧
      (run_statements (cleanup_statements ps fs error) s).1.functions_ = [] ∧
      ((run_statements (cleanup_statements ps fs error) s).1.promise_data_table_,
          (run_statements (cleanup_statements ps fs error) s).1.escaped_argument_data_table_,
          (run_statements (cleanup_statements ps fs error) s).1.call_summary_data_table_,
          (run_statements (cleanup_statements ps fs error) s).1.function_definition_data_table_,
          (run_statements (cleanup_statements ps fs error) s).1.object_count_data_table_,
          (run_statements (cleanup_statements ps fs error) s).1.promise_lifecycle_data_table_,
          (run_statements (cleanup_statements ps fs error) s).1.lifecycle_summary_,
          (run_statements (cleanup_statements ps fs error) s).1.serialized_functions_) =
        ((run_statements (cleanup_table_statements ps fs) s).1.promise_data_table_,
          (run_statements (cleanup_table_statements ps fs) s).1.escaped_argument_data_table_,
          (run_statements (cleanup_table_statements ps fs) s).1.call_summary_data_table_,
          (run_statements (cleanup_table_statements ps fs) s).1.function_definition_data_table_,
          (run_statements (cleanup_table_statements ps fs) s).1.object_count_data_table_,
          (run_statements (cleanup_table_statements ps fs) s).1.promise_lifecycle_data_table_,
          (run_statements (cleanup_table_statements ps fs) s).1.lifecycle_summary_,
          (run_statements (cleanup_table_statements ps fs) s).1.serialized_functions_) := by
  obtain ⟨h1, h2, h3, h4, h5, h6⟩ := cleanup_table_statements_side ps fs s
  rw [(cleanup_statements_outputs ps fs s error).2]
  refine ⟨?_, ?_, ?_, ?_, ?_⟩
  · rw [cleanup_sentinel_files, (cleanup_stack_check_side _).1, (cleanup_stack_check_side _).2,
      h1, h3]
  · have e : ∀ t : TracerState, (cleanup_sentinel (cleanup_stack_check t) error).error_log_ =
        t.error_log_ ++ (if t.stack_ = [] then [] else ["stack not empty on tracer exit."]) := by
      intro t
      cases hs : t.stack_ with
      | nil =>
        simp only [cleanup_sentinel, cleanup_stack_check, write_file, hs, List.isEmpty_nil,
          Bool.not_true, Bool.false_eq_true, if_false, if_true, List.append_nil]
        split <;> rfl
      | cons c tl =>
        simp only [cleanup_sentinel, cleanup_stack_check, write_file, dyntrace_log_error, hs,
          List.isEmpty_cons, Bool.not_false, if_true, reduceCtorEq, if_false]
        split <;> rfl
    rw [e, h2, h4]
  · rw [cleanup_tail_frame (fun st => st.promises_) (fun _ _ _ => rfl), h5]
  · rw [cleanup_tail_frame (fun st => st.functions_) (fun _ _ _ => rfl), h6]
  · exact cleanup_tail_frame
      (fun st => (st.promise_data_table_, st.escaped_argument_data_table_,
        st.call_summary_data_table_, st.function_definition_data_table_,
        st.object_count_data_table_, st.promise_lifecycle_data_table_, st.lifecycle_summary_,
        st.serialized_functions_))
      (fun _ _ _ => rfl) _ error

/-- The outputs of the statements of `cleanup`, with the loops iterating in the
orders `ps` and `fs`: rows, then the diagnostic if the stack is not empty, then
the sentinel file; the rows are those that the tables gain, one promises row per
entry of `ps`, one call_summary row per summary of the records of `fs`, a
function_definition row for each record of `fs` whose id was not serialized
before, the object_count rows of the counts and the promise_lifecycle rows of
the lifecycle summary, which has gained one count per entry of `ps`. -/
theorem cleanup_statements_rows (ps : List (SEXP × denoted_value_id_t))
    (fs : List (SEXP × Function)) (s : TracerState) (error : Int) :
    ∃ rows : List Output,
      (run_statements (cleanup_statements ps fs error) s).2 =
          rows ++
            (if s.stack_ = [] then [] else [.diagnostic "stack not empty on tracer exit."]) ++
            [if error ≠ 0 then .file (s.output_dirpath_ ++ "/ERROR") "ERROR"
              else .file (s.output_dirpath_ ++ "/NOERROR") "NOERROR"] ∧
        (∀ e ∈ rows, e.is_row = true) ∧
        ((run_statements (cleanup_statements ps fs error) s).1.promise_data_table_ =
            s.promise_data_table_ ++ rows.filterMap Output.to_promise_row ∧
          (run_statements (cleanup_statements ps fs error) s).1.escaped_argument_data_table_ =
            s.escaped_argument_data_table_ ++ rows.filterMap Output.to_escaped_argument_row ∧
          (run_statements (cleanup_statements ps fs error) s).1.call_summary_data_table_ =
            s.call_summary_data_table_ ++ rows.filterMap Output.to_call_summary_row ∧
          (run_statements (cleanup_statements ps fs error) s).1.function_definition_data_table_ =
            s.function_definition_data_table_ ++
              rows.filterMap Output.to_function_definition_row ∧
          (run_statements (cleanup_statements ps fs error) s).1.object_count_data_table_ =
            s.object_count_data_table_ ++ rows.filterMap Output.to_object_count_row ∧
          (run_statements (cleanup_statements ps fs error) s).1.promise_lifecycle_data_table_ =
            s.promise_lifecycle_data_table_ ++
              rows.filterMap Output.to_promise_lifecycle_row) ∧
        (rows.filterMap Output.to_promise_row).length = ps.length ∧
        (rows.filterMap Output.to_call_summary_row).length =
          (fs.map (fun e => e.2.summaries.length)).sum ∧
        (∀ e ∈ fs, e.2.id ∈ s.serialized_functions_ ∨
          (⟨e.2.id⟩ : FunctionDefinitionRow) ∈
            rows.filterMap Output.to_function_definition_row) ∧
        rows.filterMap Output.to_object_count_row =
          serialize_object_count_loop 0 s.object_count_ ∧
        rows.filterMap Output.to_promise_lifecycle_row =
          (run_statements (cleanup_statements ps fs error) s).1.lifecycle_summary_.map
            (fun e => { action := e.1.action, count := e.1.count, promise_count := e.2 }) ∧
        ((rows.filterMap Output.to_promise_lifecycle_row).map (fun r => r.promise_count)).sum =
          (s.lifecycle_summary_.map Prod.snd).sum + (ps.length : Int) := by
  obtain ⟨t1, t2, t3, t4, t5, t6⟩ := cleanup_table_statements_tables ps fs s
  obtain ⟨c1, c2, ⟨added, _, c3, c4, _, _⟩, c5, c6, c7⟩ := cleanup_table_statements_rows ps fs s
  have hf := (cleanup_statements_final ps fs s error).2.2.2.2
  simp only [Prod.mk.injEq] at hf
  obtain ⟨f1, f2, f3, f4, f5, f6, f7, _⟩ := hf
  have hlc : (run_statements (cleanup_table_statements ps fs) s).2.filterMap
      Output.to_promise_lifecycle_row =
      (run_statements (cleanup_table_statements ps fs) s).1.lifecycle_summary_.map
        (fun e => { action := e.1.action, count := e.1.count, promise_count := e.2 }) :=
    List.append_cancel_left (t6.symm.trans c6)
  refine ⟨(run_statements (cleanup_table_statements ps fs) s).2,
    (cleanup_statements_outputs ps fs s error).1, cleanup_table_statements_outputs_rows ps fs s,
    ⟨f1.trans t1, f2.trans t2, f3.trans t3, f4.trans t4, f5.trans t5, f6.trans t6⟩,
    ?_, ?_, ?_, ?_, ?_, ?_⟩
  · have := congrArg List.length t1
    rw [c1, List.length_append] at this
    omega
  · have := congrArg List.length t3
    rw [c2, List.length_append] at this
    omega
  · intro e he
    have hrows : (run_statements (cleanup_table_statements ps fs) s).2.filterMap
        Output.to_function_definition_row = added.map (fun id => ⟨id⟩) :=
      List.append_cancel_left (t4.symm.trans c3)
    rcases List.mem_append.1 (c4 e he) with hin | hin
    · exact Or.inl hin
    · right
      rw [hrows]
      exact List.mem_map.2 ⟨_, hin, rfl⟩
  · exact List.append_cancel_left (t5.symm.trans c5)
  · rw [hlc, f7]
  · rw [hlc, List.map_map, ← c7]
    rfl

/-! ## Teardown: amended claim on a non-empty stack, and the sentinel -/

/-- C19 (amended): when the stack is non-empty as `cleanup` runs, the teardown
still runs to its end, whatever the orders `ps` and `fs` in which its loops
iterate the registries: both registries are cleared; the rows are emitted, one
promises row per registered thunk, one call_summary row per summary of the
registered functions, a function_definition row for each id that enters the set
of serialized functions, which then holds the id of every registered function,
the object_count rows of the counts and the promise_lifecycle rows of the
lifecycle summary; a diagnostic goes to the error channel, after the rows and
before the sentinel; and the sentinel written is the one the `error` argument
selects, `ERROR` when `error` is non-zero, `NOERROR` when it is zero. -/
theorem cleanup_nonempty_stack_logs (s : TracerState) (error : Int)
    (ps : List (SEXP × denoted_value_id_t)) (fs : List (SEXP × Function))
    (hps : ps.Perm s.promises_) (hfs : fs.Perm s.functions_) (hst : s.stack_ ≠ []) :
    ((cleanup s error).error_log_ = s.error_log_ ++ ["stack not empty on tracer exit."] ∧
        (cleanup s error).files_ =
          s.files_ ++
            [if error ≠ 0 then (s.output_dirpath_ ++ "/ERROR", "ERROR")
              else (s.output_dirpath_ ++ "/NOERROR", "NOERROR")] ∧
        (cleanup s error).promises_ = [] ∧ (cleanup s error).functions_ = []) ∧
      (run_statements (cleanup_statements s.promises_ s.functions_ error) s).1 =
        cleanup s error ∧
      (run_statements (cleanup_statements ps fs error) s).1.error_log_ =
        s.error_log_ ++ ["stack not empty on tracer exit."] ∧
      (run_statements (cleanup_statements ps fs error) s).1.files_ =
        s.files_ ++
          [if error ≠ 0 then (s.output_dirpath_ ++ "/ERROR", "ERROR")
            else (s.output_dirpath_ ++ "/NOERROR", "NOERROR")] ∧
      (run_statements (cleanup_statements ps fs error) s).1.promises_ = [] ∧
      (run_statements (cleanup_statements ps fs error) s).1.functions_ = [] ∧
      (run_statements (cleanup_statements ps fs error) s).1.promise_data_table_.length =
        s.promise_data_table_.length + s.promises_.length ∧
      (run_statements (cleanup_statements ps fs error) s).1.call_summary_data_table_.length =
        s.call_summary_data_table_.length +
          (s.functions_.map (fun e => e.2.summaries.length)).sum ∧
      (∃ added : List function_id_t,
        (run_statements (cleanup_statements ps fs error) s).1.serialized_functions_ =
            s.serialized_functions_ ++ added ∧
          (run_statements (cleanup_statements ps fs error) s).1.function_definition_data_table_ =
            s.function_definition_data_table_ ++ added.map (fun id => ⟨id⟩) ∧
          ∀ e ∈ s.functions_, e.2.id ∈ s.serialized_functions_ ++ added) ∧
      (run_statements (cleanup_statements ps fs error) s).1.object_count_data_table_ =
        s.object_count_data_table_ ++ serialize_object_count_loop 0 s.object_count_ ∧
      (run_statements (cleanup_statements ps fs error) s).1.promise_lifecycle_data_table_ =
        s.promise_lifecycle_data_table_ ++
          (run_statements (cleanup_statements ps fs error) s).1.lifecycle_summary_.map
            (fun e => { action := e.1.action, count := e.1.count, promise_count := e.2 }) ∧
      (((run_statements (cleanup_statements ps fs error) s).1.lifecycle_summary_.map
          Prod.snd).sum = (s.lifecycle_summary_.map Prod.snd).sum + (s.promises_.length : Int)) ∧
      ∃ rows : List Output,
        (run_statements (cleanup_statements ps fs error) s).2 =
            rows ++
              [.diagnostic "stack not empty on tracer exit.",
                if error ≠ 0 then .file (s.output_dirpath_ ++ "/ERROR") "ERROR"
                else .file (s.output_dirpath_ ++ "/NOERROR") "NOERROR"] ∧
          ∀ e ∈ rows, e.is_row = true := by
  have hfinal : ∀ (ps : List (SEXP × denoted_value_id_t)) (fs : List (SEXP × Function)),
      (run_statements (cleanup_statements ps fs error) s).1.error_log_ =
          s.error_log_ ++ ["stack not empty on tracer exit."] ∧
        (run_statements (cleanup_statements ps fs error) s).1.files_ =
          s.files_ ++
            [if error ≠ 0 then (s.output_dirpath_ ++ "/ERROR", "ERROR")
              else (s.output_dirpath_ ++ "/NOERROR", "NOERROR")] ∧
        (run_statements (cleanup_statements ps fs error) s).1.promises_ = [] ∧
        (run_statements (cleanup_statements ps fs error) s).1.functions_ = [] := by
    intro ps fs
    obtain ⟨f1, f2, f3, f4, _⟩ := cleanup_statements_final ps fs s error
    rw [if_neg hst] at f2
    exact ⟨f2, f1, f3, f4⟩
  have hmodel := cleanup_statements_state s error
  have hold := hfinal s.promises_ s.functions_
  rw [hmodel] at hold
  obtain ⟨g1, g2, g3, g4⟩ := hfinal ps fs
  have hf := (cleanup_statements_final ps fs s error).2.2.2.2
  simp only [Prod.mk.injEq] at hf
  obtain ⟨f1, _, f3, f4, f5, f6, f7, f8⟩ := hf
  obtain ⟨c1, c2, ⟨added, c3, c4, c5, _, _⟩, c6, c7, c8⟩ :=
    cleanup_table_statements_rows ps fs s
  obtain ⟨rows, r1, r2, _⟩ := cleanup_statements_rows ps fs s error
  refine ⟨hold, hmodel, g1, g2, g3, g4, ?_, ?_, ⟨added, ?_, ?_, ?_⟩, ?_, ?_, ?_, rows, ?_, r2⟩
  · rw [f1, c1, hps.length_eq]
  · rw [f3, c2, (hfs.map (fun e => e.2.summaries.length)).sum_eq]
  · rw [f8, c3]
  · rw [f4, c4]
  · intro e he
    exact c5 e (hfs.mem_iff.2 he)
  · rw [f5, c6]
  · rw [f6, f7, c7]
  · rw [f7, c8, hps.length_eq]
  · rw [r1, if_neg hst, List.append_assoc]
    rfl

/-- C19 (amended), at a concrete input: two thunks and a function are
registered, a promise frame is left on the stack and `error = 0`; the
diagnostic is logged, `NOERROR` is written, and the two promises rows are
emitted. -/
theorem cleanup_nonempty_stack_logs_witness :
    sample_teardown_state.stack_ ≠ [] ∧
      (cleanup sample_teardown_state 0).error_log_ = ["stack not empty on tracer exit."] ∧
      (cleanup sample_teardown_state 0).files_ = [("/NOERROR", "NOERROR")] ∧
      (cleanup sample_teardown_state 0).promise_data_table_.length = 2 :=
  ⟨by decide,
    (cleanup_nonempty_stack_logs sample_teardown_state 0 sample_teardown_state.promises_
      sample_teardown_state.functions_ (List.Perm.refl _) (List.Perm.refl _)
      (by decide)).1.1.trans (by decide),
    by decide, by decide⟩

/-- C20: the statements of `cleanup(error)`, whatever the orders `ps` and `fs`
in which its loops iterate the registries, output rows, then the diagnostic if
the stack is not empty, and last one file, the sentinel, `ERROR` when `error` is
non-zero and `NOERROR` when it is zero, which is the one file `cleanup` writes.
The rows output before the sentinel are all the rows that the tables gain: one
promises row per registered thunk and its escaped_arguments row, one
call_summary row per summary of the registered functions, a function_definition
row for each registered function whose id was not serialized before, the
object_count rows of the counts, and the promise_lifecycle rows of the lifecycle
summary, whose counts have grown by the number of registered thunks.  After it
the thunk registry and the function registry are empty. -/
theorem cleanup_writes_one_sentinel_last (s : TracerState) (error : Int)
    (ps : List (SEXP × denoted_value_id_t)) (fs : List (SEXP × Function))
    (hps : ps.Perm s.promises_) (hfs : fs.Perm s.functions_) :
    ((run_statements (cleanup_statements s.promises_ s.functions_ error) s).1 =
          cleanup s error ∧
        (cleanup s error).files_ =
          s.files_ ++
            [if error ≠ 0 then (s.output_dirpath_ ++ "/ERROR", "ERROR")
              else (s.output_dirpath_ ++ "/NOERROR", "NOERROR")] ∧
        (cleanup s error).promises_ = [] ∧ (cleanup s error).functions_ = []) ∧
      (run_statements (cleanup_statements ps fs error) s).1.files_ =
        s.files_ ++
          [if error ≠ 0 then (s.output_dirpath_ ++ "/ERROR", "ERROR")
            else (s.output_dirpath_ ++ "/NOERROR", "NOERROR")] ∧
      (run_statements (cleanup_statements ps fs error) s).1.promises_ = [] ∧
      (run_statements (cleanup_statements ps fs error) s).1.functions_ = [] ∧
      ∃ rows : List Output,
        (run_statements (cleanup_statements ps fs error) s).2 =
            rows ++
              (if s.stack_ = [] then []
                else [.diagnostic "stack not empty on tracer exit."]) ++
              [if error ≠ 0 then .file (s.output_dirpath_ ++ "/ERROR") "ERROR"
                else .file (s.output_dirpath_ ++ "/NOERROR") "NOERROR"] ∧
          (∀ e ∈ rows, e.is_row = true) ∧
          ((run_statements (cleanup_statements ps fs error) s).1.promise_data_table_ =
              s.promise_data_table_ ++ rows.filterMap Output.to_promise_row ∧
            (run_statements (cleanup_statements ps fs error)
              s).1.escaped_argument_data_table_ =
              s.escaped_argument_data_table_ ++
                rows.filterMap Output.to_escaped_argument_row ∧
            (run_statements (cleanup_statements ps fs error) s).1.call_summary_data_table_ =
              s.call_summary_data_table_ ++ rows.filterMap Output.to_call_summary_row ∧
            (run_statements (cleanup_statements ps fs error)
              s).1.function_definition_data_table_ =
              s.function_definition_data_table_ ++
                rows.filterMap Output.to_function_definition_row ∧
            (run_statements (cleanup_statements ps fs error) s).1.object_count_data_table_ =
              s.object_count_data_table_ ++ rows.filterMap Output.to_object_count_row ∧
            (run_statements (cleanup_statements ps fs error)
              s).1.promise_lifecycle_data_table_ =
              s.promise_lifecycle_data_table_ ++
                rows.filterMap Output.to_promise_lifecycle_row) ∧
          (rows.filterMap Output.to_promise_row).length = s.promises_.length ∧
          (rows.filterMap Output.to_call_summary_row).length =
            (s.functions_.map (fun e => e.2.summaries.length)).sum ∧
          (∀ e ∈ s.functions_, e.2.id ∈ s.serialized_functions_ ∨
            (⟨e.2.id⟩ : FunctionDefinitionRow) ∈
              rows.filterMap Output.to_function_definition_row) ∧
          rows.filterMap Output.to_object_count_row =
            serialize_object_count_loop 0 s.object_count_ ∧
          rows.filterMap Output.to_promise_lifecycle_row =
            (run_statements (cleanup_statements ps fs error) s).1.lifecycle_summary_.map
              (fun e => { action := e.1.action, count := e.1.count, promise_count := e.2 }) ∧
          ((rows.filterMap Output.to_promise_lifecycle_row).map
              (fun r => r.promise_count)).sum =
            (s.lifecycle_summary_.map Prod.snd).sum + (s.promises_.length : Int) := by
  have hmodel := cleanup_statements_state s error
  obtain ⟨m1, _, m3, m4, _⟩ := cleanup_statements_final s.promises_ s.functions_ s error
  rw [hmodel] at m1 m3 m4
  obtain ⟨g1, _, g3, g4, _⟩ := cleanup_statements_final ps fs s error
  obtain ⟨rows, r1, r2, r3, r4, r5, r6, r7, r8, r9⟩ := cleanup_statements_rows ps fs s error
  refine ⟨⟨hmodel, m1, m3, m4⟩, g1, g3, g4, rows, r1, r2, r3, ?_, ?_, ?_, r7, r8, ?_⟩
  · rw [r4, hps.length_eq]
  · rw [r5, (hfs.map (fun e => e.2.summaries.length)).sum_eq]
  · intro e he
    exact r6 e (hfs.mem_iff.2 he)
  · rw [r9, hps.length_eq]

/-- C20, at a concrete input: two thunks and a function are registered, the
first loop visits the thunks in the reverse of the order of registration, and
`error = 1`: the one file is `ERROR`, and it is output last, after the rows and
the diagnostic. -/
theorem cleanup_writes_one_sentinel_last_witness :
    (run_statements
        (cleanup_statements sample_teardown_state.promises_.reverse
          sample_teardown_state.functions_ 1) sample_teardown_state).1.files_ =
        [("/ERROR", "ERROR")] ∧
      (run_statements
        (cleanup_statements sample_teardown_state.promises_.reverse
          sample_teardown_state.functions_ 1) sample_teardown_state).2.map Output.kind =
        [.promise, .promise, .call_summary, .function_definition, .object_count,
          .promise_lifecycle, .diagnostic, .file] ∧
      ((run_statements
        (cleanup_statements sample_teardown_state.promises_.reverse
          sample_teardown_state.functions_ 1) sample_teardown_state).2.filterMap
            Output.to_promise_row).map (fun r => r.id) = [1, 0] :=
  ⟨(cleanup_writes_one_sentinel_last sample_teardown_state 1
      sample_teardown_state.promises_.reverse sample_teardown_state.functions_
      (List.reverse_perm _) (List.Perm.refl _)).2.1.trans (by decide),
    by decide, by decide⟩

end TracerState

end Tracer
